import Mathlib

/-!
Smart pointers: control blocks, `SharedPtr`, `WeakPtr`, `EnableSharedFromThis`.

A shallow embedding of `src/shared-from-this/{sw_fwd.h, shared.h, weak.h}`.

* The heap is a pair of tables: control blocks and managed objects, both addressed by their
  allocation index.  A raw pointer is `Option Nat` (`none` is `nullptr`).
* `size_t` counters are natural numbers reduced modulo `2 ^ 64` after every update.
* `delete` does not remove a table entry; it bumps a ghost counter (`deleted` for a block,
  `destroyed` for an object), so that "exactly once" can be stated.
* The destructor of a managed object is the compiler generated one: for a type deriving from
  `EnableSharedFromThis` it destroys the member `weak_this_`, otherwise it does nothing else.
* Destruction is recursive in the source (`~T` runs `~WeakPtr`, which may `delete` a block, whose
  destructor may `delete` an object).  The embedding bounds the nesting depth with a fuel argument
  and returns `none` when the bound is hit.
* Payload classes that have `SharedPtr` / `WeakPtr` data members are embedded a second time, over
  `MemberHeap` (names under `Members`): the same functions, the destructor of an object
  destroying its handle data members before its `weak_this_`.
-/

namespace SmartPointers

/-- Modulus of `size_t` arithmetic. -/
def SIZE_MOD : Nat := 2 ^ 64

/-- Which of the two classes derived from `ControlBlockBase` a block is. -/
inductive BlockKind where
  | pointer
  | holder
  deriving DecidableEq, Repr

/-- A control block: the counters of `ControlBlockBase`, the stored pointer
(`ControlBlockPointer::ptr_`, resp. `ControlBlockHolder::GetPointer()`), and the ghost count of
`delete block_` executions. -/
structure ControlBlock where
  kind : BlockKind
  strong_ref_count_ : Nat
  weak_ref_count_ : Nat
  ptr_ : Option Nat
  deleted : Nat
  deriving DecidableEq, Repr

/-- Fields of `WeakPtr<T>`. -/
structure WeakPtr where
  ptr_ : Option Nat
  block_ : Option Nat
  deriving DecidableEq, Repr

/-- Fields of `SharedPtr<T>`. -/
structure SharedPtr where
  ptr_ : Option Nat
  block_ : Option Nat
  deriving DecidableEq, Repr

/-- A managed object.  `weak_this_` is `some _` exactly for types deriving from
`EnableSharedFromThis`; `destroyed` is the ghost count of destructor runs. -/
structure Object where
  weak_this_ : Option WeakPtr
  destroyed : Nat
  deriving DecidableEq, Repr

/-- The heap: control blocks and objects by allocation index. -/
structure Heap where
  blocks : List ControlBlock
  objects : List Object
  deriving DecidableEq, Repr

/-! ## Heap access -/

/-- Overwrite block `b`. -/
def Heap.setBlock (h : Heap) (b : Nat) (blk : ControlBlock) : Heap :=
  { h with blocks := h.blocks.set b blk }

/-- Apply `f` to block `b` (no effect on an address that was never allocated). -/
def Heap.modifyBlock (h : Heap) (b : Nat) (f : ControlBlock → ControlBlock) : Heap :=
  match h.blocks[b]? with
  | some blk => { h with blocks := h.blocks.set b (f blk) }
  | none => h

/-- Apply `f` to object `o` (no effect on an address that was never allocated). -/
def Heap.modifyObject (h : Heap) (o : Nat) (f : Object → Object) : Heap :=
  match h.objects[o]? with
  | some ob => { h with objects := h.objects.set o (f ob) }
  | none => h

/-- `ControlBlockBase::GetStrongRefCount`. -/
def GetStrongRefCount (h : Heap) (b : Nat) : Nat :=
  match h.blocks[b]? with
  | some blk => blk.strong_ref_count_
  | none => 0

/-- `ControlBlockBase::GetWeakRefCount`. -/
def GetWeakRefCount (h : Heap) (b : Nat) : Nat :=
  match h.blocks[b]? with
  | some blk => blk.weak_ref_count_
  | none => 0

/-- Ghost: how many times block `b` was deleted. -/
def deletedCount (h : Heap) (b : Nat) : Nat :=
  match h.blocks[b]? with
  | some blk => blk.deleted
  | none => 0

/-- Ghost: how many times the destructor of object `o` ran. -/
def destroyedCount (h : Heap) (o : Nat) : Nat :=
  match h.objects[o]? with
  | some ob => ob.destroyed
  | none => 0

/-! ## Counter operations (`sw_fwd.h`) -/

/-- `ControlBlockPointer(Y* ptr)`: stores `ptr`; both counters take the default member
initialisers of `ControlBlockBase`. -/
@[simp] def ControlBlockPointer.ctor (ptr : Option Nat) : ControlBlock :=
  ⟨BlockKind.pointer, 0, 0, ptr, 0⟩

/-- `ControlBlockHolder(Args&&...)`: the payload is constructed in the block's storage (object
`o`); both counters take the default member initialisers of `ControlBlockBase`. -/
@[simp] def ControlBlockHolder.ctor (o : Nat) : ControlBlock :=
  ⟨BlockKind.holder, 0, 0, some o, 0⟩

/-- `IncStrongRef`: `++strong_ref_count_` (identical in both block classes). -/
def IncStrongRef (h : Heap) (b : Nat) : Heap :=
  h.modifyBlock b (fun blk =>
    { blk with strong_ref_count_ := (blk.strong_ref_count_ + 1) % SIZE_MOD })

/-- `IncWeakRef`: `++weak_ref_count_`. -/
def IncWeakRef (h : Heap) (b : Nat) : Heap :=
  h.modifyBlock b (fun blk =>
    { blk with weak_ref_count_ := (blk.weak_ref_count_ + 1) % SIZE_MOD })

/-- `DecWeakRef`: `--weak_ref_count_`. -/
def DecWeakRef (h : Heap) (b : Nat) : Heap :=
  h.modifyBlock b (fun blk =>
    { blk with weak_ref_count_ := (blk.weak_ref_count_ + SIZE_MOD - 1) % SIZE_MOD })

/-- The source statement `delete block_`, given the meaning `del` of `delete` on an object: run
the block destructor (`~ControlBlockPointer` deletes a non-null `ptr_`; `~ControlBlockHolder` is
defaulted), then release the block. -/
def deleteBlockWith (del : Heap → Nat → Option Heap) (h : Heap) (b : Nat) : Option Heap :=
  match h.blocks[b]? with
  | none => some h
  | some blk =>
    match blk.kind, blk.ptr_ with
    | BlockKind.pointer, some o =>
      (del h o).map (fun h1 => h1.modifyBlock b (fun k => { k with deleted := k.deleted + 1 }))
    | _, _ => some (h.modifyBlock b (fun k => { k with deleted := k.deleted + 1 }))

/-- `WeakPtr::Dispose`, given the meaning `del` of `delete` on an object. -/
def WeakPtr.DisposeWith (del : Heap → Nat → Option Heap) (h : Heap) (this : WeakPtr) :
    Option (Heap × WeakPtr) :=
  match this.block_ with
  | none => some (h, this)
  | some b =>
    let h1 := DecWeakRef h b
    if GetStrongRefCount h1 b = 0 ∧ GetWeakRefCount h1 b = 0 then
      (deleteBlockWith del h1 b).map (fun h2 => (h2, { this with block_ := none }))
    else
      some (h1, this)

/-- Running the destructor of object `o` (`delete ptr_` or `GetPointer()->~Y()`): counts the run
and, for an `EnableSharedFromThis` type, destroys `weak_this_`
(`~WeakPtr() { Dispose(); ptr_ = nullptr; block_ = nullptr; }`). -/
def deleteObject : Nat → Heap → Nat → Option Heap
  | 0, _, _ => none
  | fuel + 1, h, o =>
    match h.objects[o]? with
    | none => some h
    | some ob =>
      let h1 := h.modifyObject o (fun x => { x with destroyed := x.destroyed + 1 })
      match ob.weak_this_ with
      | none => some h1
      | some w =>
        (WeakPtr.DisposeWith (deleteObject fuel) h1 w).map (fun r =>
          r.1.modifyObject o (fun x => { x with weak_this_ := some ⟨none, none⟩ }))

/-- The source statement `delete block_`. -/
def deleteBlock (fuel : Nat) (h : Heap) (b : Nat) : Option Heap :=
  deleteBlockWith (deleteObject fuel) h b

/-- `WeakPtr::Dispose`. -/
def WeakPtr.Dispose (fuel : Nat) (h : Heap) (this : WeakPtr) : Option (Heap × WeakPtr) :=
  WeakPtr.DisposeWith (deleteObject fuel) h this

/-- `DecStrongRef`: `--strong_ref_count_`, and on reaching zero
`delete ptr_; ptr_ = nullptr;` (`ControlBlockPointer`) resp. `GetPointer()->~Y();`
(`ControlBlockHolder`). -/
def DecStrongRef (fuel : Nat) (h : Heap) (b : Nat) : Option Heap :=
  match h.blocks[b]? with
  | none => some h
  | some blk =>
    let s := (blk.strong_ref_count_ + SIZE_MOD - 1) % SIZE_MOD
    let h1 := h.modifyBlock b (fun k => { k with strong_ref_count_ := s })
    if s = 0 then
      match blk.kind, blk.ptr_ with
      | BlockKind.pointer, some o =>
        (deleteObject fuel h1 o).map (fun h2 => h2.modifyBlock b (fun k => { k with ptr_ := none }))
      | BlockKind.pointer, none => some (h1.modifyBlock b (fun k => { k with ptr_ := none }))
      | BlockKind.holder, some o => deleteObject fuel h1 o
      | BlockKind.holder, none => some h1
    else
      some h1

/-! ## `WeakPtr` (`weak.h`) -/

/-- `WeakPtr::UseCount`. -/
def WeakPtr.UseCount (h : Heap) (this : WeakPtr) : Nat :=
  match this.block_ with
  | some b => GetStrongRefCount h b
  | none => 0

/-- `WeakPtr::Expired`. -/
def WeakPtr.Expired (h : Heap) (this : WeakPtr) : Bool :=
  this.UseCount h == 0

/-- `WeakPtr(const WeakPtr& other)`. -/
def WeakPtr.copy (h : Heap) (other : WeakPtr) : Heap × WeakPtr :=
  match other.block_ with
  | some b => (IncWeakRef h b, ⟨other.ptr_, some b⟩)
  | none => (h, ⟨other.ptr_, none⟩)

/-- `WeakPtr(const SharedPtr<T>& other)`: `ptr_` is taken only when a block is held. -/
def WeakPtr.fromShared (h : Heap) (other : SharedPtr) : Heap × WeakPtr :=
  match other.block_ with
  | some b => (IncWeakRef h b, ⟨other.ptr_, some b⟩)
  | none => (h, ⟨none, none⟩)

/-- `WeakPtr::operator=(const SharedPtr<Y>& other)`. -/
def WeakPtr.assignShared (fuel : Nat) (h : Heap) (this : WeakPtr) (other : SharedPtr) :
    Option (Heap × WeakPtr) :=
  (WeakPtr.Dispose fuel h this).map (fun r =>
    match other.block_ with
    | some b => (IncWeakRef r.1 b, ⟨other.ptr_, some b⟩)
    | none => (r.1, ⟨other.ptr_, none⟩))

/-- `WeakPtr::~WeakPtr` of a handle that is not a member of a managed object: the fields are
nulled and the storage goes away, so only the heap is returned. -/
def WeakPtr.destroy (fuel : Nat) (h : Heap) (this : WeakPtr) : Option Heap :=
  (WeakPtr.Dispose fuel h this).map (fun r => r.1)

/-- `WeakPtr::Reset`. -/
def WeakPtr.Reset (fuel : Nat) (h : Heap) (this : WeakPtr) : Option (Heap × WeakPtr) :=
  (WeakPtr.Dispose fuel h this).map (fun r => (r.1, ⟨none, none⟩))

/-! ## `SharedPtr` (`shared.h`) -/

/-- The exception class of `sw_fwd.h`. -/
inductive BadWeakPtr where
  | mk
  deriving DecidableEq, Repr

/-- `SharedPtr::Get`. -/
def SharedPtr.Get (this : SharedPtr) : Option Nat := this.ptr_

/-- `SharedPtr::UseCount`. -/
def SharedPtr.UseCount (h : Heap) (this : SharedPtr) : Nat :=
  match this.block_ with
  | some b => GetStrongRefCount h b
  | none => 0

/-- `SharedPtr::operator bool`. -/
def SharedPtr.toBool (this : SharedPtr) : Bool :=
  match this.ptr_ with
  | none => false
  | some _ => true

/-- `SharedPtr::Dispose` of `src/shared-from-this/shared.h`. -/
def SharedPtr.Dispose (fuel : Nat) (h : Heap) (this : SharedPtr) : Option (Heap × SharedPtr) :=
  match this.block_ with
  | none => some (h, this)
  | some b =>
    (DecStrongRef fuel (IncWeakRef h b) b).bind (fun h2 =>
      let h3 := DecWeakRef h2 b
      if GetStrongRefCount h3 b = 0 ∧ GetWeakRefCount h3 b = 0 then
        (deleteBlock fuel h3 b).map (fun h4 => (h4, { this with block_ := none }))
      else
        some (h3, this))

/-- `SharedPtr::InitWeakThis(e)`: `e->weak_this_ = *this`.  Nothing is modelled for a null or
dangling `e`, or for an object without the member. -/
def SharedPtr.InitWeakThis (fuel : Nat) (h : Heap) (this : SharedPtr) (e : Nat) : Option Heap :=
  match h.objects[e]? with
  | none => some h
  | some ob =>
    match ob.weak_this_ with
    | none => some h
    | some w =>
      (WeakPtr.assignShared fuel h w this).map (fun r =>
        r.1.modifyObject e (fun x => { x with weak_this_ := some r.2 }))

/-- `explicit SharedPtr(T* ptr)` / `explicit SharedPtr(Up* ptr)`.  `esft` says whether the static
pointee type converts to `EnableSharedFromThisBase*`.  With `esft` and a null `ptr` the source
dereferences null inside `InitWeakThis`; nothing is modelled for that call. -/
def SharedPtr.fromPtr (fuel : Nat) (h : Heap) (ptr : Option Nat) (esft : Bool) :
    Option (Heap × SharedPtr) :=
  let b := h.blocks.length
  let h1 : Heap := { h with blocks := h.blocks ++ [ControlBlockPointer.ctor ptr] }
  let h2 := IncStrongRef h1 b
  let this : SharedPtr := ⟨ptr, some b⟩
  match esft, ptr with
  | true, some e => (SharedPtr.InitWeakThis fuel h2 this e).map (fun h3 => (h3, this))
  | _, _ => some (h2, this)

/-- `MakeShared<T>(args...)`: one allocation holding the block and the object.  `esft` says
whether `T` derives from `EnableSharedFromThis`. -/
def MakeShared (fuel : Nat) (h : Heap) (esft : Bool) : Option (Heap × SharedPtr) :=
  let o := h.objects.length
  let b := h.blocks.length
  let h1 : Heap :=
    { blocks := h.blocks ++ [ControlBlockHolder.ctor o]
      objects := h.objects ++ [⟨if esft then some ⟨none, none⟩ else none, 0⟩] }
  let h2 := IncStrongRef h1 b
  let s : SharedPtr := ⟨some o, some b⟩
  if esft then (SharedPtr.InitWeakThis fuel h2 s o).map (fun h3 => (h3, s))
  else some (h2, s)

/-- The expression `new T` for a default-constructible `T`: a fresh object, with an empty
`weak_this_` when `T` derives from `EnableSharedFromThis`. -/
def newObject (h : Heap) (esft : Bool) : Heap × Nat :=
  ({ h with objects := h.objects ++ [⟨if esft then some ⟨none, none⟩ else none, 0⟩] },
    h.objects.length)

/-- `SharedPtr(const SharedPtr& other)` / `SharedPtr(const SharedPtr<Up>& other)`. -/
def SharedPtr.copy (h : Heap) (other : SharedPtr) : Heap × SharedPtr :=
  match other.block_ with
  | some b => (IncStrongRef h b, ⟨other.ptr_, some b⟩)
  | none => (h, ⟨other.ptr_, none⟩)

/-- `SharedPtr(SharedPtr&& other)`: returns the heap, the new handle and the source afterwards.
The constructor body starts with `Dispose()` on the new handle, whose fields hold their default
member initialisers. -/
def SharedPtr.move (fuel : Nat) (h : Heap) (other : SharedPtr) :
    Option (Heap × SharedPtr × SharedPtr) :=
  (SharedPtr.Dispose fuel h ⟨none, none⟩).map (fun r =>
    (r.1, ⟨other.ptr_, other.block_⟩, ⟨none, none⟩))

/-- Aliasing constructor `SharedPtr(const SharedPtr<Y>& other, T* ptr)`.  The source calls
`block_->IncStrongRef()` unconditionally; for a null block nothing is modelled. -/
def SharedPtr.alias (h : Heap) (other : SharedPtr) (ptr : Option Nat) : Heap × SharedPtr :=
  match other.block_ with
  | some b => (IncStrongRef h b, ⟨ptr, some b⟩)
  | none => (h, ⟨ptr, none⟩)

/-- `explicit SharedPtr(const WeakPtr<T>& other)`.  The heap comes back in both cases; on a
throw the partly built handle is dropped without a destructor run. -/
def SharedPtr.fromWeak (h : Heap) (other : WeakPtr) : Heap × Except BadWeakPtr SharedPtr :=
  if other.UseCount h = 0 then
    (h, Except.error BadWeakPtr.mk)
  else
    match other.block_ with
    | some b => (IncStrongRef h b, Except.ok ⟨other.ptr_, some b⟩)
    | none => (h, Except.ok ⟨none, none⟩)

/-- `WeakPtr::Lock`. -/
def WeakPtr.Lock (h : Heap) (this : WeakPtr) : Heap × Except BadWeakPtr SharedPtr :=
  if this.Expired h then (h, Except.ok ⟨none, none⟩)
  else SharedPtr.fromWeak h this

/-- `SharedPtr::~SharedPtr`: `Dispose()`, then the fields are nulled and the storage goes away. -/
def SharedPtr.destroy (fuel : Nat) (h : Heap) (this : SharedPtr) : Option Heap :=
  (SharedPtr.Dispose fuel h this).map (fun r => r.1)

/-- `SharedPtr::Reset()`. -/
def SharedPtr.Reset (fuel : Nat) (h : Heap) (this : SharedPtr) : Option (Heap × SharedPtr) :=
  (SharedPtr.Dispose fuel h this).map (fun r => (r.1, ⟨none, none⟩))

/-- `SharedPtr::Reset(Up* ptr)`. -/
def SharedPtr.ResetPtr (fuel : Nat) (h : Heap) (this : SharedPtr) (ptr : Option Nat) :
    Option (Heap × SharedPtr) :=
  match ptr with
  | none => SharedPtr.Reset fuel h this
  | some p =>
    (SharedPtr.Dispose fuel h this).map (fun r =>
      let b := r.1.blocks.length
      let h1 : Heap := { r.1 with blocks := r.1.blocks ++ [ControlBlockPointer.ctor (some p)] }
      (IncStrongRef h1 b, ⟨some p, some b⟩))

/-! ## Programs over `SharedPtr` variables -/

/-- Program state: the heap and the handle variables of the program, by location.  A variable
whose lifetime has ended is `none`. -/
structure World where
  heap : Heap
  shared : List (Option SharedPtr)
  weak : List (Option WeakPtr)
  deriving DecidableEq, Repr

/-- The live `SharedPtr` at location `i`, if any. -/
def World.getShared (w : World) (i : Nat) : Option SharedPtr :=
  match w.shared[i]? with
  | some (some s) => some s
  | _ => none

/-- `a = b` for `SharedPtr` variables `a` (location `dst`) and `b` (location `src`, possibly the
same variable): `Dispose(); if (other.block_) other.block_->IncStrongRef(); ptr_ = other.ptr_;
block_ = other.block_;`.  `other` is read after `Dispose()` wrote `this`. -/
def World.copyAssign (fuel : Nat) (w : World) (dst src : Nat) : Option World :=
  match w.getShared dst, w.getShared src with
  | some this, some _ =>
    (SharedPtr.Dispose fuel w.heap this).map (fun r =>
      let w1 : World := { w with heap := r.1, shared := w.shared.set dst (some r.2) }
      match w1.getShared src with
      | none => w1
      | some other =>
        let h2 := match other.block_ with
          | some b => IncStrongRef w1.heap b
          | none => w1.heap
        { w1 with heap := h2, shared := w1.shared.set dst (some ⟨other.ptr_, other.block_⟩) })
  | _, _ => some w

/-- `a = std::move(b)`: `Dispose(); ptr_ = other.ptr_; block_ = other.block_;
other.ptr_ = nullptr; other.block_ = nullptr;`. -/
def World.moveAssign (fuel : Nat) (w : World) (dst src : Nat) : Option World :=
  match w.getShared dst, w.getShared src with
  | some this, some _ =>
    (SharedPtr.Dispose fuel w.heap this).map (fun r =>
      let w1 : World := { w with heap := r.1, shared := w.shared.set dst (some r.2) }
      match w1.getShared src with
      | none => w1
      | some other =>
        { w1 with shared :=
            (w1.shared.set dst (some ⟨other.ptr_, other.block_⟩)).set src (some ⟨none, none⟩) })
  | _, _ => some w

/-- `a.Swap(b)`: `std::swap` of both fields. -/
def World.swap (w : World) (i j : Nat) : World :=
  match w.getShared i, w.getShared j with
  | some a, some b => { w with shared := (w.shared.set i (some b)).set j (some a) }
  | _, _ => w

/-- The `SharedPtr` operations of a program.  Locations name existing variables; constructors
create the next variable.  `construct none es` is `SharedPtr<T>(static_cast<T*>(nullptr))`,
`construct (some eo) es` is `SharedPtr<T>(new U)` where `eo` says whether `U` derives from
`EnableSharedFromThis` and `es` whether the static pointee type converts to
`EnableSharedFromThisBase*`. -/
inductive SharedOp where
  | construct (obj : Option Bool) (es : Bool)
  | empty
  | makeShared (e : Bool)
  | copyConstruct (src : Nat)
  | moveConstruct (src : Nat)
  | copyAssign (dst src : Nat)
  | moveAssign (dst src : Nat)
  | reset (i : Nat)
  | resetPtr (i : Nat) (obj : Option Bool)
  | swap (i j : Nat)
  | destroy (i : Nat)
  deriving DecidableEq, Repr

/-- One operation.  An operation naming a variable that is not alive, and raw-pointer
construction of a self-referencing static type from `nullptr` (a null dereference in
`InitWeakThis`), are not executions of the program and leave the state as it is. -/
def World.step (fuel : Nat) (w : World) : SharedOp → Option World
  | SharedOp.construct none es =>
    if es then some w
    else (SharedPtr.fromPtr fuel w.heap none false).map (fun r =>
      { w with heap := r.1, shared := w.shared ++ [some r.2] })
  | SharedOp.construct (some eo) es =>
    (SharedPtr.fromPtr fuel (newObject w.heap eo).1 (some (newObject w.heap eo).2) es).map
      (fun r => { w with heap := r.1, shared := w.shared ++ [some r.2] })
  | SharedOp.empty => some { w with shared := w.shared ++ [some ⟨none, none⟩] }
  | SharedOp.makeShared e =>
    (MakeShared fuel w.heap e).map (fun r =>
      { w with heap := r.1, shared := w.shared ++ [some r.2] })
  | SharedOp.copyConstruct src =>
    match w.getShared src with
    | none => some w
    | some other =>
      some { w with heap := (SharedPtr.copy w.heap other).1,
                    shared := w.shared ++ [some (SharedPtr.copy w.heap other).2] }
  | SharedOp.moveConstruct src =>
    match w.getShared src with
    | none => some w
    | some other =>
      (SharedPtr.move fuel w.heap other).map (fun r =>
        { w with heap := r.1, shared := w.shared.set src (some r.2.2) ++ [some r.2.1] })
  | SharedOp.copyAssign dst src => w.copyAssign fuel dst src
  | SharedOp.moveAssign dst src => w.moveAssign fuel dst src
  | SharedOp.reset i =>
    match w.getShared i with
    | none => some w
    | some this =>
      (SharedPtr.Reset fuel w.heap this).map (fun r =>
        { w with heap := r.1, shared := w.shared.set i (some r.2) })
  | SharedOp.resetPtr i none =>
    match w.getShared i with
    | none => some w
    | some this =>
      (SharedPtr.ResetPtr fuel w.heap this none).map (fun r =>
        { w with heap := r.1, shared := w.shared.set i (some r.2) })
  | SharedOp.resetPtr i (some eo) =>
    match w.getShared i with
    | none => some w
    | some this =>
      (SharedPtr.ResetPtr fuel (newObject w.heap eo).1 this (some (newObject w.heap eo).2)).map
        (fun r => { w with heap := r.1, shared := w.shared.set i (some r.2) })
  | SharedOp.swap i j => some (w.swap i j)
  | SharedOp.destroy i =>
    match w.getShared i with
    | none => some w
    | some this =>
      (SharedPtr.destroy fuel w.heap this).map (fun h1 =>
        { w with heap := h1, shared := w.shared.set i none })

/-- A sequence of operations. -/
def World.run (fuel : Nat) : World → List SharedOp → Option World
  | w, [] => some w
  | w, op :: ops => (w.step fuel op).bind (fun w1 => World.run fuel w1 ops)

/-- The state with no handles, no blocks and no objects. -/
def World.init : World := ⟨⟨[], []⟩, [], []⟩

/-- Whether a `SharedPtr` variable is alive and holds block `b`. -/
def holdsBlock (b : Nat) : Option SharedPtr → Bool
  | some s => s.block_ == some b
  | none => false

/-- Whether a `WeakPtr` variable is alive and holds block `b`. -/
def weakHoldsBlock (b : Nat) : Option WeakPtr → Bool
  | some s => s.block_ == some b
  | none => false

/-- Whether the `weak_this_` of an object holds block `b`. -/
def objHoldsBlock (b : Nat) (ob : Object) : Bool :=
  match ob.weak_this_ with
  | some wt => wt.block_ == some b
  | none => false

/-- The number of live `SharedPtr` instances holding block `b`. -/
def World.holders (w : World) (b : Nat) : Nat := w.shared.countP (holdsBlock b)

/-- The number of live `WeakPtr` variables holding block `b`. -/
def World.weakHolders (w : World) (b : Nat) : Nat := w.weak.countP (weakHoldsBlock b)

/-- The number of objects whose `weak_this_` holds block `b`. -/
def Heap.objUnits (h : Heap) (b : Nat) : Nat := h.objects.countP (objHoldsBlock b)

/-! ## `WeakPtr` variables, the self-reference accessors, raw counter calls -/

/-- The live `WeakPtr` at location `i`, if any. -/
def World.getWeak (w : World) (i : Nat) : Option WeakPtr :=
  match w.weak[i]? with
  | some (some s) => some s
  | _ => none

/-- `a.Swap(b)` for `WeakPtr` variables: `std::swap` of both fields. -/
def World.swapWeak (w : World) (i j : Nat) : World :=
  match w.getWeak i, w.getWeak j with
  | some a, some b => { w with weak := (w.weak.set i (some b)).set j (some a) }
  | _, _ => w

/-- `EnableSharedFromThis<T>::SharedFromThis()` on the object at address `this`:
`SharedPtr<T>(this->weak_this_)`.  There is no such call (`none`) when `this` is not an allocated
object of a self-referencing type. -/
def SharedFromThis (h : Heap) (this : Nat) : Option (Heap × Except BadWeakPtr SharedPtr) :=
  match h.objects[this]? with
  | none => none
  | some ob =>
    match ob.weak_this_ with
    | none => none
    | some w => some (SharedPtr.fromWeak h w)

/-- The four virtual counter calls of `ControlBlockBase`. -/
inductive CounterOp where
  | IncStrongRef
  | DecStrongRef
  | IncWeakRef
  | DecWeakRef
  deriving DecidableEq, Repr

/-- One counter call on block `b`. -/
def CounterOp.apply (fuel : Nat) (h : Heap) (b : Nat) : CounterOp → Option Heap
  | CounterOp.IncStrongRef => some (SmartPointers.IncStrongRef h b)
  | CounterOp.DecStrongRef => SmartPointers.DecStrongRef fuel h b
  | CounterOp.IncWeakRef => some (SmartPointers.IncWeakRef h b)
  | CounterOp.DecWeakRef => some (SmartPointers.DecWeakRef h b)

/-- What can be observed of block `b` and its payload `o`: strong count, weak count, number of
destructor runs of the payload. -/
def observeBlock (h : Heap) (b o : Nat) : Nat × Nat × Nat :=
  (GetStrongRefCount h b, GetWeakRefCount h b, destroyedCount h o)

/-- Runs the calls in order on block `b` and records the observation after each call. -/
def CounterOp.trace (fuel : Nat) (b o : Nat) : Heap → List CounterOp → Option (List (Nat × Nat × Nat))
  | _, [] => some []
  | h, op :: ops =>
    (op.apply fuel h b).bind (fun h1 =>
      (CounterOp.trace fuel b o h1 ops).map (fun t => observeBlock h1 b o :: t))

/-- Ghost: how many `DecStrongRef` calls of the sequence bring a strong count that starts at `s`
to 0. -/
def zeroHits : Nat → List CounterOp → Nat
  | _, [] => 0
  | s, CounterOp.IncStrongRef :: ops => zeroHits ((s + 1) % SIZE_MOD) ops
  | s, CounterOp.DecStrongRef :: ops =>
    (if (s + SIZE_MOD - 1) % SIZE_MOD = 0 then 1 else 0) +
      zeroHits ((s + SIZE_MOD - 1) % SIZE_MOD) ops
  | s, CounterOp.IncWeakRef :: ops => zeroHits s ops
  | s, CounterOp.DecWeakRef :: ops => zeroHits s ops

/-- A heap with one block (counters `s`, `w`, stored pointer `pp`) and one plain payload object
whose destructor ran `d` times. -/
def oneBlock (kind : BlockKind) (s w : Nat) (pp : Option Nat) (d : Nat) : Heap :=
  ⟨[⟨kind, s, w, pp, 0⟩], [⟨none, d⟩]⟩

/-! ## The variant `src/shared/shared.h` -/

/-- The source statement `delete block_` in `src/shared/shared.h`: `~ControlBlockPointer` deletes
a non-null `ptr_`, and `~ControlBlockHolder` runs `GetPointer()->~Y()`; then the block is
released.  For a holder block `ptr_` stands for `GetPointer()`. -/
def SrcShared.deleteBlock (fuel : Nat) (h : Heap) (b : Nat) : Option Heap :=
  match h.blocks[b]? with
  | none => some h
  | some blk =>
    match blk.ptr_ with
    | some o =>
      (deleteObject fuel h o).map (fun h1 =>
        h1.modifyBlock b (fun k => { k with deleted := k.deleted + 1 }))
    | none => some (h.modifyBlock b (fun k => { k with deleted := k.deleted + 1 }))

/-- `SharedPtr::DecBlockRef` of `src/shared/shared.h`.  The counter calls of this file have the
text of those of `sw_fwd.h`. -/
def SrcShared.DecBlockRef (fuel : Nat) (h : Heap) (this : SharedPtr) :
    Option (Heap × SharedPtr) :=
  match this.block_ with
  | none => some (h, this)
  | some b =>
    (DecStrongRef fuel h b).bind (fun h1 =>
      if GetStrongRefCount h1 b = 0 ∧ GetWeakRefCount h1 b = 0 then
        (SrcShared.deleteBlock fuel h1 b).map (fun h2 => (h2, { this with block_ := none }))
      else
        some (h1, this))

/-- `MakeShared<T>(args...)` of `src/shared/shared.h`; the file has no self-referencing
capability, so the object is plain. -/
def SrcShared.MakeShared (h : Heap) : Heap × SharedPtr :=
  let o := h.objects.length
  let b := h.blocks.length
  let h1 : Heap :=
    { blocks := h.blocks ++ [ControlBlockHolder.ctor o]
      objects := h.objects ++ [⟨none, 0⟩] }
  (IncStrongRef h1 b, ⟨some o, some b⟩)

/-- `SharedPtr::~SharedPtr` of `src/shared/shared.h`: `DecBlockRef()`, then the fields are
nulled. -/
def SrcShared.destroy (fuel : Nat) (h : Heap) (this : SharedPtr) : Option Heap :=
  (SrcShared.DecBlockRef fuel h this).map (fun r => r.1)

/-! ## The variant `src/weak/shared.h` -/

/-- `SharedPtr::Dispose` of `src/weak/shared.h`.  The control-block classes it calls are declared
in a header that is not among the sources of that directory, so the two calls it makes on them,
`block_->DecStrongRef()` and `delete block_`, are parameters. -/
def SrcWeak.Dispose (decStrongRef deleteBlock : Heap → Nat → Option Heap) (h : Heap)
    (this : SharedPtr) : Option (Heap × SharedPtr) :=
  match this.block_ with
  | none => some (h, this)
  | some b =>
    (decStrongRef h b).bind (fun h1 =>
      if GetStrongRefCount h1 b = 0 ∧ GetWeakRefCount h1 b = 0 then
        (deleteBlock h1 b).map (fun h2 => (h2, { this with block_ := none }))
      else
        some (h1, this))

/-! ## Life of a block under raw counter calls -/

/-- Runs the calls in order on block `b` and returns the heap they leave. -/
def CounterOp.run (fuel : Nat) (b : Nat) : Heap → List CounterOp → Option Heap
  | h, [] => some h
  | h, op :: ops => (op.apply fuel h b).bind (fun h1 => CounterOp.run fuel b h1 ops)

/-! ## `UniquePtr` (`src/unique/unique.h`) -/

/-- `UniquePtr<T, Deleter>`: the member `data_`, a `CompressedPair<T*, Deleter>`.  `ptr` is
`data_.GetFirst()` (`none` is `nullptr`), `deleter` is `data_.GetSecond()`, a deleter object
known by its identity. -/
structure UniquePtr where
  ptr : Option Nat
  deleter : Nat
  deriving DecidableEq, Repr

/-- Ghost: one invocation `GetDeleter()(arg)`, with the pointer the calling `UniquePtr` stores
at the moment of the call. -/
structure DeleterCall where
  deleter : Nat
  arg : Nat
  stored : Option Nat
  deriving DecidableEq, Repr

/-- The `UniquePtr` variables of a program by location, and the deleter invocations so far. -/
structure UniqueWorld where
  vars : List UniquePtr
  calls : List DeleterCall
  deriving DecidableEq, Repr

/-- `UniquePtr::Get`. -/
def UniquePtr.Get (this : UniquePtr) : Option Nat := this.ptr

/-- `UniquePtr::operator bool`. -/
def UniquePtr.toBool (this : UniquePtr) : Bool :=
  match this.ptr with
  | some _ => true
  | none => false

/-- `UniquePtr::Release` on the variable at location `i`: returns the stored pointer and the
state in which the variable stores `nullptr`.  A location that names no variable is not a call;
it returns `nullptr` and the state as it is. -/
def UniqueWorld.Release (w : UniqueWorld) (i : Nat) : Option Nat × UniqueWorld :=
  match w.vars[i]? with
  | none => (none, w)
  | some u => (u.ptr, { w with vars := w.vars.set i { u with ptr := none } })

/-- The call `GetDeleter()(arg)` made by the variable at location `i`: the invocation is
recorded with the deleter and the pointer the variable holds at that moment. -/
def UniqueWorld.callDeleter (w : UniqueWorld) (i : Nat) (arg : Nat) : UniqueWorld :=
  match w.vars[i]? with
  | none => w
  | some u => { w with calls := w.calls ++ [⟨u.deleter, arg, u.ptr⟩] }

/-- `UniquePtr::Reset(ptr)` on the variable at location `i`:
`auto old_ptr = CpPtr(); CpPtr() = ptr; if (old_ptr) GetDeleter()(old_ptr);`. -/
def UniqueWorld.Reset (w : UniqueWorld) (i : Nat) (ptr : Option Nat) : UniqueWorld :=
  match w.vars[i]? with
  | none => w
  | some u =>
    let w1 : UniqueWorld := { w with vars := w.vars.set i { u with ptr := ptr } }
    match u.ptr with
    | some old_ptr => w1.callDeleter i old_ptr
    | none => w1

/-- `a = std::move(b)` for the variables at `dst` and `src` (possibly the same):
`Reset(other.Release()); GetDeleter() = std::move(other.GetDeleter());`. -/
def UniqueWorld.moveAssign (w : UniqueWorld) (dst src : Nat) : UniqueWorld :=
  let r := w.Release src
  let w1 := r.2.Reset dst r.1
  match w1.vars[dst]?, w1.vars[src]? with
  | some a, some b => { w1 with vars := w1.vars.set dst { a with deleter := b.deleter } }
  | _, _ => w1

/-- `UniquePtr::~UniquePtr` on the variable at location `i`:
`if (CpPtr()) GetDeleter()(CpPtr()); CpPtr() = nullptr;`. -/
def UniqueWorld.destroy (w : UniqueWorld) (i : Nat) : UniqueWorld :=
  match w.vars[i]? with
  | none => w
  | some u =>
    let w1 : UniqueWorld :=
      match u.ptr with
      | some p => w.callDeleter i p
      | none => w
    { w1 with vars := w1.vars.set i { u with ptr := none } }

/-! ## Programs over `SharedPtr` and `WeakPtr` variables -/

/-- `WeakPtr(WeakPtr&& other)`: returns the heap, the new handle and the source afterwards.  The
constructor body starts with `Dispose()` on the new handle, whose fields hold their default
member initialisers. -/
def WeakPtr.move (fuel : Nat) (h : Heap) (other : WeakPtr) :
    Option (Heap × WeakPtr × WeakPtr) :=
  (WeakPtr.Dispose fuel h ⟨none, none⟩).map (fun r =>
    (r.1, ⟨other.ptr_, other.block_⟩, ⟨none, none⟩))

/-- `a = b` for `WeakPtr` variables `a` (location `dst`) and `b` (location `src`):
`Dispose(); if (other.block_) other.block_->IncWeakRef(); ptr_ = other.ptr_;
block_ = other.block_;`.  `other` is read after `Dispose()` wrote `this`. -/
def World.weakCopyAssign (fuel : Nat) (w : World) (dst src : Nat) : Option World :=
  match w.getWeak dst, w.getWeak src with
  | some this, some _ =>
    (WeakPtr.Dispose fuel w.heap this).map (fun r =>
      let w1 : World := { w with heap := r.1, weak := w.weak.set dst (some r.2) }
      match w1.getWeak src with
      | none => w1
      | some other =>
        let h2 := match other.block_ with
          | some b => IncWeakRef w1.heap b
          | none => w1.heap
        { w1 with heap := h2, weak := w1.weak.set dst (some ⟨other.ptr_, other.block_⟩) })
  | _, _ => some w

/-- `a = std::move(b)` for `WeakPtr` variables: `Dispose(); ptr_ = other.ptr_;
block_ = other.block_; other.ptr_ = nullptr; other.block_ = nullptr;`. -/
def World.weakMoveAssign (fuel : Nat) (w : World) (dst src : Nat) : Option World :=
  match w.getWeak dst, w.getWeak src with
  | some this, some _ =>
    (WeakPtr.Dispose fuel w.heap this).map (fun r =>
      let w1 : World := { w with heap := r.1, weak := w.weak.set dst (some r.2) }
      match w1.getWeak src with
      | none => w1
      | some other =>
        { w1 with weak :=
            (w1.weak.set dst (some ⟨other.ptr_, other.block_⟩)).set src (some ⟨none, none⟩) })
  | _, _ => some w

/-- `a = s` for a `WeakPtr` variable `a` (location `dst`) and a `SharedPtr` variable `s`
(location `src`). -/
def World.weakAssignShared (fuel : Nat) (w : World) (dst src : Nat) : Option World :=
  match w.getWeak dst, w.getShared src with
  | some this, some other =>
    (WeakPtr.assignShared fuel w.heap this other).map (fun r =>
      { w with heap := r.1, weak := w.weak.set dst (some r.2) })
  | _, _ => some w

/-- The operations of a program over `SharedPtr` and `WeakPtr` variables: those of `SharedOp`,
the aliasing constructor, promotion `SharedPtr(const WeakPtr&)`, `Lock()`, and the `WeakPtr`
constructors, assignments, `Reset`, `Swap` and destructor.  Constructors create the next
variable of their kind. -/
inductive PtrOp where
  | shared (op : SharedOp)
  | aliasConstruct (src : Nat) (ptr : Option Nat)
  | promote (src : Nat)
  | lock (src : Nat)
  | weakEmpty
  | weakFromShared (src : Nat)
  | weakCopyConstruct (src : Nat)
  | weakMoveConstruct (src : Nat)
  | weakCopyAssign (dst src : Nat)
  | weakMoveAssign (dst src : Nat)
  | weakAssignShared (dst src : Nat)
  | weakReset (i : Nat)
  | weakSwap (i j : Nat)
  | weakDestroy (i : Nat)
  deriving DecidableEq, Repr

/-- One operation.  Not executions of the program, leaving the state as it is: an operation
naming a variable that is not alive, aliasing from an owner without a block (the source
dereferences the null `block_`), and the assignment of a `WeakPtr` variable to itself.  A
promotion that throws `BadWeakPtr` creates no variable. -/
def World.stepPtr (fuel : Nat) (w : World) : PtrOp → Option World
  | PtrOp.shared op => w.step fuel op
  | PtrOp.aliasConstruct src ptr =>
    match w.getShared src with
    | none => some w
    | some other =>
      match other.block_ with
      | none => some w
      | some _ =>
        some { w with heap := (SharedPtr.alias w.heap other ptr).1,
                      shared := w.shared ++ [some (SharedPtr.alias w.heap other ptr).2] }
  | PtrOp.promote src =>
    match w.getWeak src with
    | none => some w
    | some other =>
      match (SharedPtr.fromWeak w.heap other).2 with
      | Except.error _ => some { w with heap := (SharedPtr.fromWeak w.heap other).1 }
      | Except.ok s =>
        some { w with heap := (SharedPtr.fromWeak w.heap other).1, shared := w.shared ++ [some s] }
  | PtrOp.lock src =>
    match w.getWeak src with
    | none => some w
    | some other =>
      match (WeakPtr.Lock w.heap other).2 with
      | Except.error _ => some { w with heap := (WeakPtr.Lock w.heap other).1 }
      | Except.ok s =>
        some { w with heap := (WeakPtr.Lock w.heap other).1, shared := w.shared ++ [some s] }
  | PtrOp.weakEmpty => some { w with weak := w.weak ++ [some ⟨none, none⟩] }
  | PtrOp.weakFromShared src =>
    match w.getShared src with
    | none => some w
    | some other =>
      some { w with heap := (WeakPtr.fromShared w.heap other).1,
                    weak := w.weak ++ [some (WeakPtr.fromShared w.heap other).2] }
  | PtrOp.weakCopyConstruct src =>
    match w.getWeak src with
    | none => some w
    | some other =>
      some { w with heap := (WeakPtr.copy w.heap other).1,
                    weak := w.weak ++ [some (WeakPtr.copy w.heap other).2] }
  | PtrOp.weakMoveConstruct src =>
    match w.getWeak src with
    | none => some w
    | some other =>
      (WeakPtr.move fuel w.heap other).map (fun r =>
        { w with heap := r.1, weak := w.weak.set src (some r.2.2) ++ [some r.2.1] })
  | PtrOp.weakCopyAssign dst src => if dst = src then some w else w.weakCopyAssign fuel dst src
  | PtrOp.weakMoveAssign dst src => if dst = src then some w else w.weakMoveAssign fuel dst src
  | PtrOp.weakAssignShared dst src => w.weakAssignShared fuel dst src
  | PtrOp.weakReset i =>
    match w.getWeak i with
    | none => some w
    | some this =>
      (WeakPtr.Reset fuel w.heap this).map (fun r =>
        { w with heap := r.1, weak := w.weak.set i (some r.2) })
  | PtrOp.weakSwap i j => some (w.swapWeak i j)
  | PtrOp.weakDestroy i =>
    match w.getWeak i with
    | none => some w
    | some this =>
      (WeakPtr.destroy fuel w.heap this).map (fun h1 =>
        { w with heap := h1, weak := w.weak.set i none })

/-- A sequence of operations. -/
def World.runPtr (fuel : Nat) : World → List PtrOp → Option World
  | w, [] => some w
  | w, op :: ops => (w.stepPtr fuel op).bind (fun w1 => World.runPtr fuel w1 ops)

/-! ## Ghost: every decrement is called on a counter that is at least 1 -/

/-- Ghost: the decrements made while `delete block_` runs are on counters of at least 1, given
that property `delG` of the destructor of an object. -/
def deleteBlockGuardedWith (delG : Heap → Nat → Bool) (h : Heap) (b : Nat) : Bool :=
  match h.blocks[b]? with
  | none => true
  | some blk =>
    match blk.kind, blk.ptr_ with
    | BlockKind.pointer, some o => delG h o
    | _, _ => true

/-- Ghost: `WeakPtr::Dispose` calls `DecWeakRef` on a weak count of at least 1, and so do the
calls nested in its `delete block_`. -/
def WeakPtr.DisposeGuardedWith (delG : Heap → Nat → Bool) (h : Heap) (this : WeakPtr) : Bool :=
  match this.block_ with
  | none => true
  | some b =>
    decide (1 ≤ GetWeakRefCount h b) &&
      (let h1 := DecWeakRef h b
       if GetStrongRefCount h1 b = 0 ∧ GetWeakRefCount h1 b = 0 then
         deleteBlockGuardedWith delG h1 b
       else true)

/-- Ghost: the decrements made while the destructor of object `o` runs (those of the disposal
of its `weak_this_`) are on counters of at least 1.  Not established without fuel. -/
def deleteObjectGuarded : Nat → Heap → Nat → Bool
  | 0, _, _ => false
  | fuel + 1, h, o =>
    match h.objects[o]? with
    | none => true
    | some ob =>
      let h1 := h.modifyObject o (fun x => { x with destroyed := x.destroyed + 1 })
      match ob.weak_this_ with
      | none => true
      | some w => WeakPtr.DisposeGuardedWith (deleteObjectGuarded fuel) h1 w

/-- Ghost: `WeakPtr::Dispose` with all nested calls. -/
def WeakPtr.DisposeGuarded (fuel : Nat) (h : Heap) (this : WeakPtr) : Bool :=
  WeakPtr.DisposeGuardedWith (deleteObjectGuarded fuel) h this

/-- Ghost: `DecStrongRef` is called on a strong count of at least 1, and the decrements nested
in the destruction of the object are on counters of at least 1. -/
def DecStrongRefGuarded (fuel : Nat) (h : Heap) (b : Nat) : Bool :=
  match h.blocks[b]? with
  | none => true
  | some blk =>
    decide (1 ≤ blk.strong_ref_count_) &&
      (let s := (blk.strong_ref_count_ + SIZE_MOD - 1) % SIZE_MOD
       let h1 := h.modifyBlock b (fun k => { k with strong_ref_count_ := s })
       if s = 0 then
         match blk.ptr_ with
         | some o => deleteObjectGuarded fuel h1 o
         | none => true
       else true)

/-- Ghost: every decrement made while `SharedPtr::Dispose` runs (`DecStrongRef`, `DecWeakRef`,
and those nested in the destruction of the object and of the block) is on a counter of at
least 1. -/
def SharedPtr.DisposeGuarded (fuel : Nat) (h : Heap) (this : SharedPtr) : Bool :=
  match this.block_ with
  | none => true
  | some b =>
    let h1 := IncWeakRef h b
    DecStrongRefGuarded fuel h1 b &&
      (match DecStrongRef fuel h1 b with
       | none => false
       | some h2 =>
         decide (1 ≤ GetWeakRefCount h2 b) &&
           (let h3 := DecWeakRef h2 b
            if GetStrongRefCount h3 b = 0 ∧ GetWeakRefCount h3 b = 0 then
              deleteBlockGuardedWith (deleteObjectGuarded fuel) h3 b
            else true))

/-- Ghost: the decrements of `InitWeakThis(e)`, those of the `Dispose()` with which the
assignment to `e->weak_this_` starts. -/
def SharedPtr.InitWeakThisGuarded (fuel : Nat) (h : Heap) (e : Nat) : Bool :=
  match h.objects[e]? with
  | none => true
  | some ob =>
    match ob.weak_this_ with
    | none => true
    | some w => WeakPtr.DisposeGuarded fuel h w

/-- Ghost: the decrements of one operation, made in the state before it. -/
def World.stepPtrGuarded (fuel : Nat) (w : World) : PtrOp → Bool
  | PtrOp.shared (SharedOp.construct (some eo) true) =>
    SharedPtr.InitWeakThisGuarded fuel
      (IncStrongRef
        { (newObject w.heap eo).1 with
          blocks := (newObject w.heap eo).1.blocks ++
            [ControlBlockPointer.ctor (some (newObject w.heap eo).2)] }
        w.heap.blocks.length)
      (newObject w.heap eo).2
  | PtrOp.shared (SharedOp.makeShared true) =>
    SharedPtr.InitWeakThisGuarded fuel
      (IncStrongRef
        { blocks := w.heap.blocks ++ [ControlBlockHolder.ctor w.heap.objects.length]
          objects := w.heap.objects ++ [⟨some ⟨none, none⟩, 0⟩] }
        w.heap.blocks.length)
      w.heap.objects.length
  | PtrOp.shared (SharedOp.moveConstruct _) => SharedPtr.DisposeGuarded fuel w.heap ⟨none, none⟩
  | PtrOp.shared (SharedOp.copyAssign dst _) =>
    match w.getShared dst with
    | some this => SharedPtr.DisposeGuarded fuel w.heap this
    | none => true
  | PtrOp.shared (SharedOp.moveAssign dst _) =>
    match w.getShared dst with
    | some this => SharedPtr.DisposeGuarded fuel w.heap this
    | none => true
  | PtrOp.shared (SharedOp.reset i) =>
    match w.getShared i with
    | some this => SharedPtr.DisposeGuarded fuel w.heap this
    | none => true
  | PtrOp.shared (SharedOp.resetPtr i none) =>
    match w.getShared i with
    | some this => SharedPtr.DisposeGuarded fuel w.heap this
    | none => true
  | PtrOp.shared (SharedOp.resetPtr i (some eo)) =>
    match w.getShared i with
    | some this => SharedPtr.DisposeGuarded fuel (newObject w.heap eo).1 this
    | none => true
  | PtrOp.shared (SharedOp.destroy i) =>
    match w.getShared i with
    | some this => SharedPtr.DisposeGuarded fuel w.heap this
    | none => true
  | PtrOp.weakMoveConstruct _ => WeakPtr.DisposeGuarded fuel w.heap ⟨none, none⟩
  | PtrOp.weakCopyAssign dst src =>
    match w.getWeak dst with
    | some this => if dst = src then true else WeakPtr.DisposeGuarded fuel w.heap this
    | none => true
  | PtrOp.weakMoveAssign dst src =>
    match w.getWeak dst with
    | some this => if dst = src then true else WeakPtr.DisposeGuarded fuel w.heap this
    | none => true
  | PtrOp.weakAssignShared dst _ =>
    match w.getWeak dst with
    | some this => WeakPtr.DisposeGuarded fuel w.heap this
    | none => true
  | PtrOp.weakReset i =>
    match w.getWeak i with
    | some this => WeakPtr.DisposeGuarded fuel w.heap this
    | none => true
  | PtrOp.weakDestroy i =>
    match w.getWeak i with
    | some this => WeakPtr.DisposeGuarded fuel w.heap this
    | none => true
  | _ => true

/-- Ghost: every decrement made by every operation of the sequence is on a counter of at
least 1 (and every operation returns). -/
def World.runPtrGuarded (fuel : Nat) : World → List PtrOp → Bool
  | _, [] => true
  | w, op :: ops =>
    w.stepPtrGuarded fuel op &&
      (match w.stepPtr fuel op with
       | none => false
       | some w1 => World.runPtrGuarded fuel w1 ops)

/-- Ghost: the heap `h` with block `b` and object `o` overwritten. -/
def Heap.withCell (h : Heap) (b o : Nat) (blk : ControlBlock) (ob : Object) : Heap :=
  ⟨h.blocks.set b blk, h.objects.set o ob⟩

/-- Ghost: the counters `(strong, weak)` after one call, as the source computes them. -/
def CounterOp.counts : CounterOp → Nat → Nat → Nat × Nat
  | CounterOp.IncStrongRef, s, w => ((s + 1) % SIZE_MOD, w)
  | CounterOp.DecStrongRef, s, w => ((s + SIZE_MOD - 1) % SIZE_MOD, w)
  | CounterOp.IncWeakRef, s, w => (s, (w + 1) % SIZE_MOD)
  | CounterOp.DecWeakRef, s, w => (s, (w + SIZE_MOD - 1) % SIZE_MOD)

/-- Ghost: the first `DecStrongRef` of the sequence that brings a strong count starting at `s`
to 0 finds the weak count, starting at `w`, equal to 1 (one more decrement brings it to 0).
When the payload holds its `weak_this_` on the block, the release of that unit then frees the
block from inside the call. -/
def freedInside : List CounterOp → Nat → Nat → Bool
  | [], _, _ => false
  | op :: ops, s, w =>
    if op = CounterOp.DecStrongRef ∧ (s + SIZE_MOD - 1) % SIZE_MOD = 0 then
      decide ((w + SIZE_MOD - 1) % SIZE_MOD = 0)
    else freedInside ops (op.counts s w).1 (op.counts s w).2

/-- Ghost: the `weak_this_` of the payload is absent, empty, or on block `b`. -/
def selfOrInert (b : Nat) (ob : Object) : Prop :=
  ∀ wt, ob.weak_this_ = some wt → wt.block_ = none ∨ wt.block_ = some b

/-! ## Managed objects with handle data members

The same sources, for payload classes that have `SharedPtr` / `WeakPtr` data members
(`struct Node { SharedPtr<Node> next; };`).  The destructor of such an object destroys its data
members in reverse order of declaration and then its base class subobjects (the `weak_this_` of
`EnableSharedFromThis`), so releasing the last owner of an object releases what the object
holds, recursively. -/

/-- A data member of a managed object that is a handle. -/
inductive Member where
  | shared (s : SharedPtr)
  | weak (w : WeakPtr)
  deriving DecidableEq, Repr

/-- The block a member handle holds. -/
def Member.block_ : Member → Option Nat
  | Member.shared s => s.block_
  | Member.weak w => w.block_

/-- The heap of a program whose managed classes have handle data members: the heap as before,
and for each object, by address, its handle data members in order of declaration. -/
structure MemberHeap where
  heap : Heap
  members : List (List Member)
  deriving DecidableEq, Repr

/-- The handle data members of object `o`. -/
def MemberHeap.membersOf (h : MemberHeap) (o : Nat) : List Member :=
  (h.members[o]?).getD []

/-- Overwrite data member `k` of object `o`. -/
def MemberHeap.setMember (h : MemberHeap) (o k : Nat) (m : Member) : MemberHeap :=
  { h with members := h.members.set o ((h.membersOf o).set k m) }

/-- The source statement `delete block_`, given the meaning `del` of `delete` on an object. -/
def Members.deleteBlockWith (del : MemberHeap → Nat → Option MemberHeap) (h : MemberHeap)
    (b : Nat) : Option MemberHeap :=
  match h.heap.blocks[b]? with
  | none => some h
  | some blk =>
    match blk.kind, blk.ptr_ with
    | BlockKind.pointer, some o =>
      (del h o).map (fun h1 =>
        { h1 with heap := h1.heap.modifyBlock b (fun k => { k with deleted := k.deleted + 1 }) })
    | _, _ =>
      some { h with heap := h.heap.modifyBlock b (fun k => { k with deleted := k.deleted + 1 }) }

/-- `WeakPtr::Dispose`, given the meaning `del` of `delete` on an object. -/
def Members.WeakPtr.DisposeWith (del : MemberHeap → Nat → Option MemberHeap) (h : MemberHeap)
    (this : WeakPtr) : Option (MemberHeap × WeakPtr) :=
  match this.block_ with
  | none => some (h, this)
  | some b =>
    let h1 : MemberHeap := { h with heap := DecWeakRef h.heap b }
    if GetStrongRefCount h1.heap b = 0 ∧ GetWeakRefCount h1.heap b = 0 then
      (Members.deleteBlockWith del h1 b).map (fun h2 => (h2, { this with block_ := none }))
    else
      some (h1, this)

/-- `DecStrongRef`, given the meaning `del` of `delete` on an object: `--strong_ref_count_`, and
on reaching zero `delete ptr_; ptr_ = nullptr;` (`ControlBlockPointer`) resp.
`GetPointer()->~Y();` (`ControlBlockHolder`). -/
def Members.DecStrongRefWith (del : MemberHeap → Nat → Option MemberHeap) (h : MemberHeap)
    (b : Nat) : Option MemberHeap :=
  match h.heap.blocks[b]? with
  | none => some h
  | some blk =>
    let s := (blk.strong_ref_count_ + SIZE_MOD - 1) % SIZE_MOD
    let h1 : MemberHeap :=
      { h with heap := h.heap.modifyBlock b (fun k => { k with strong_ref_count_ := s }) }
    if s = 0 then
      match blk.kind, blk.ptr_ with
      | BlockKind.pointer, some o =>
        (del h1 o).map (fun h2 =>
          { h2 with heap := h2.heap.modifyBlock b (fun k => { k with ptr_ := none }) })
      | BlockKind.pointer, none =>
        some { h1 with heap := h1.heap.modifyBlock b (fun k => { k with ptr_ := none }) }
      | BlockKind.holder, some o => del h1 o
      | BlockKind.holder, none => some h1
    else
      some h1

/-- `SharedPtr::Dispose`, given the meaning `del` of `delete` on an object. -/
def Members.SharedPtr.DisposeWith (del : MemberHeap → Nat → Option MemberHeap) (h : MemberHeap)
    (this : SharedPtr) : Option (MemberHeap × SharedPtr) :=
  match this.block_ with
  | none => some (h, this)
  | some b =>
    (Members.DecStrongRefWith del { h with heap := IncWeakRef h.heap b } b).bind (fun h2 =>
      let h3 : MemberHeap := { h2 with heap := DecWeakRef h2.heap b }
      if GetStrongRefCount h3.heap b = 0 ∧ GetWeakRefCount h3.heap b = 0 then
        (Members.deleteBlockWith del h3 b).map (fun h4 => (h4, { this with block_ := none }))
      else
        some (h3, this))

/-- The destructor of data member `k` of object `o`, `~SharedPtr()` resp. `~WeakPtr()`:
`Dispose(); ptr_ = nullptr; block_ = nullptr;`, on the member as it is stored when its
destructor starts. -/
def Members.destroyMember (del : MemberHeap → Nat → Option MemberHeap) (h : MemberHeap)
    (o k : Nat) : Option MemberHeap :=
  match (h.membersOf o)[k]? with
  | none => some h
  | some (Member.shared s) =>
    (Members.SharedPtr.DisposeWith del h s).map (fun r =>
      r.1.setMember o k (Member.shared ⟨none, none⟩))
  | some (Member.weak w) =>
    (Members.WeakPtr.DisposeWith del h w).map (fun r =>
      r.1.setMember o k (Member.weak ⟨none, none⟩))

/-- The destructors of the data members of object `o` with the indices `ks`, in the order of
the list. -/
def Members.destroyMembers (del : MemberHeap → Nat → Option MemberHeap) (o : Nat) :
    MemberHeap → List Nat → Option MemberHeap
  | h, [] => some h
  | h, k :: ks =>
    (Members.destroyMember del h o k).bind (fun h1 => Members.destroyMembers del o h1 ks)

/-- Running the destructor of object `o`: counts the run, destroys the handle data members in
reverse order of declaration, then the base class subobject (`weak_this_`, for a type deriving
from `EnableSharedFromThis`). -/
def Members.deleteObject : Nat → MemberHeap → Nat → Option MemberHeap
  | 0, _, _ => none
  | fuel + 1, h, o =>
    match h.heap.objects[o]? with
    | none => some h
    | some ob =>
      let h1 : MemberHeap :=
        { h with heap := h.heap.modifyObject o (fun x => { x with destroyed := x.destroyed + 1 }) }
      (Members.destroyMembers (Members.deleteObject fuel) o h1
          (List.range (h1.membersOf o).length).reverse).bind (fun h2 =>
        match ob.weak_this_ with
        | none => some h2
        | some w =>
          (Members.WeakPtr.DisposeWith (Members.deleteObject fuel) h2 w).map (fun r =>
            { r.1 with heap :=
                r.1.heap.modifyObject o (fun x => { x with weak_this_ := some ⟨none, none⟩ }) }))

/-- The source statement `delete block_`. -/
def Members.deleteBlock (fuel : Nat) (h : MemberHeap) (b : Nat) : Option MemberHeap :=
  Members.deleteBlockWith (Members.deleteObject fuel) h b

/-- `WeakPtr::Dispose`. -/
def Members.WeakPtr.Dispose (fuel : Nat) (h : MemberHeap) (this : WeakPtr) :
    Option (MemberHeap × WeakPtr) :=
  Members.WeakPtr.DisposeWith (Members.deleteObject fuel) h this

/-- `DecStrongRef`. -/
def Members.DecStrongRef (fuel : Nat) (h : MemberHeap) (b : Nat) : Option MemberHeap :=
  Members.DecStrongRefWith (Members.deleteObject fuel) h b

/-- `SharedPtr::Dispose`. -/
def Members.SharedPtr.Dispose (fuel : Nat) (h : MemberHeap) (this : SharedPtr) :
    Option (MemberHeap × SharedPtr) :=
  Members.SharedPtr.DisposeWith (Members.deleteObject fuel) h this

/-- The expression `new T` for a `T` without the self-referencing capability whose handle data
members start as `ms` (empty handles for a default-constructed `T`). -/
def Members.newObject (h : MemberHeap) (ms : List Member) : MemberHeap × Nat :=
  ({ heap := { h.heap with objects := h.heap.objects ++ [⟨none, 0⟩] }
     members := h.members ++ [ms] },
    h.heap.objects.length)

/-- `explicit SharedPtr(T* ptr)` for a non-null `ptr` and a static type without the
self-referencing capability: the `if constexpr` branch with `InitWeakThis` is not compiled. -/
def Members.SharedPtr.fromPtr (h : MemberHeap) (ptr : Nat) : MemberHeap × SharedPtr :=
  let b := h.heap.blocks.length
  let h1 : Heap := { h.heap with blocks := h.heap.blocks ++ [ControlBlockPointer.ctor (some ptr)] }
  ({ h with heap := IncStrongRef h1 b }, ⟨some ptr, some b⟩)

/-- Program state: the heap and the `SharedPtr` variables of the program, by location. -/
structure Members.World where
  heap : MemberHeap
  shared : List (Option SharedPtr)
  deriving DecidableEq, Repr

/-- The live `SharedPtr` variable at location `i`, if any. -/
def Members.World.getShared (w : Members.World) (i : Nat) : Option SharedPtr :=
  match w.shared[i]? with
  | some (some s) => some s
  | _ => none

/-- `a = std::move(b)` for `SharedPtr` variables `a` (location `dst`) and `b` (location `src`):
`Dispose(); ptr_ = other.ptr_; block_ = other.block_; other.ptr_ = nullptr;
other.block_ = nullptr;`. -/
def Members.World.moveAssign (fuel : Nat) (w : Members.World) (dst src : Nat) :
    Option Members.World :=
  match w.getShared dst, w.getShared src with
  | some this, some _ =>
    (Members.SharedPtr.Dispose fuel w.heap this).map (fun r =>
      let w1 : Members.World := { w with heap := r.1, shared := w.shared.set dst (some r.2) }
      match w1.getShared src with
      | none => w1
      | some other =>
        { w1 with shared :=
            (w1.shared.set dst (some ⟨other.ptr_, other.block_⟩)).set src (some ⟨none, none⟩) })
  | _, _ => some w

/-- `p->m = v` for the `SharedPtr` data member `m` (index `k`) of the object at `p` and a
`SharedPtr` variable `v` (location `src`), `operator=(const SharedPtr& other)`:
`Dispose(); if (other.block_) other.block_->IncStrongRef(); ptr_ = other.ptr_;
block_ = other.block_;`.  Not a call, leaving the state as it is: `m` is not a `SharedPtr`
data member of an allocated object, or `v` is not alive. -/
def Members.World.memberCopyAssign (fuel : Nat) (w : Members.World) (p k src : Nat) :
    Option Members.World :=
  match w.getShared src, (w.heap.membersOf p)[k]? with
  | some other, some (Member.shared this) =>
    (Members.SharedPtr.Dispose fuel w.heap this).map (fun r =>
      let h1 : MemberHeap :=
        match other.block_ with
        | some b => { r.1 with heap := IncStrongRef r.1.heap b }
        | none => r.1
      { w with heap := h1.setMember p k (Member.shared ⟨other.ptr_, other.block_⟩) })
  | _, _ => some w

/-- `v.Reset()` for the `SharedPtr` variable at location `i`. -/
def Members.World.reset (fuel : Nat) (w : Members.World) (i : Nat) : Option Members.World :=
  match w.getShared i with
  | none => some w
  | some this =>
    (Members.SharedPtr.Dispose fuel w.heap this).map (fun r =>
      { w with heap := r.1, shared := w.shared.set i (some ⟨none, none⟩) })

/-- Operations of a program over `SharedPtr` variables and objects with handle data members.
`construct ms` is `SharedPtr<T> v(new T)` creating the next variable, `T` having the handle
data members `ms`; `memberCopyAssign p k src` is `p->m_k = v_src`. -/
inductive Members.Op where
  | construct (ms : List Member)
  | memberCopyAssign (p k src : Nat)
  | moveAssign (dst src : Nat)
  | reset (i : Nat)
  deriving DecidableEq, Repr

/-- One operation. -/
def Members.World.step (fuel : Nat) (w : Members.World) : Members.Op → Option Members.World
  | Members.Op.construct ms =>
    some { heap := (Members.SharedPtr.fromPtr (Members.newObject w.heap ms).1
                      (Members.newObject w.heap ms).2).1
           shared := w.shared ++
             [some (Members.SharedPtr.fromPtr (Members.newObject w.heap ms).1
                      (Members.newObject w.heap ms).2).2] }
  | Members.Op.memberCopyAssign p k src => w.memberCopyAssign fuel p k src
  | Members.Op.moveAssign dst src => w.moveAssign fuel dst src
  | Members.Op.reset i => w.reset fuel i

/-- A sequence of operations. -/
def Members.World.run (fuel : Nat) : Members.World → List Members.Op → Option Members.World
  | w, [] => some w
  | w, op :: ops => (w.step fuel op).bind (fun w1 => Members.World.run fuel w1 ops)

/-- The state with no variables, no blocks and no objects. -/
def Members.World.init : Members.World := ⟨⟨⟨[], []⟩, []⟩, []⟩

/-! ## Ghost helpers used in statements -/

/-- Ghost: the number of weak units held by the object's `weak_this_` (1 when it holds a block). -/
def Object.weakUnits (ob : Object) : Nat :=
  match ob.weak_this_ with
  | some ⟨_, some _⟩ => 1
  | _ => 0

/-- Ghost: the object as its destructor leaves it, `weak_this_` (when present) nulled. -/
def Object.afterDtor (ob : Object) : Object :=
  ⟨ob.weak_this_.map (fun _ => ⟨none, none⟩), ob.destroyed + 1⟩

/-- Ghost: the weak units that the object managed by a block holds through its `weak_this_`. -/
def selfUnits (h : Heap) (blk : ControlBlock) : Nat :=
  match blk.ptr_ with
  | none => 0
  | some o =>
    match h.objects[o]? with
    | none => 0
    | some ob => ob.weakUnits

/-- Ghost: the heap after the destructor of the object at `ptr` ran (nothing for `nullptr`). -/
def runDtor (h : Heap) (ptr : Option Nat) : Heap :=
  match ptr with
  | none => h
  | some o => h.modifyObject o Object.afterDtor

/-- The object managed by block `b` is allocated, and its `weak_this_` (if the type has one) is
empty or holds `b` itself, in which case the block's weak count accounts for it. -/
def managedOk (h : Heap) (b : Nat) (blk : ControlBlock) : Bool :=
  match blk.ptr_ with
  | none => true
  | some o =>
    match h.objects[o]? with
    | none => false
    | some ob =>
      match ob.weak_this_ with
      | none => true
      | some wt =>
        match wt.block_ with
        | none => true
        | some b' => b' == b && decide (1 ≤ blk.weak_ref_count_)

/-- Destroying a list of `WeakPtr` handles one after the other. -/
def WeakPtr.destroyAll (fuel : Nat) : Heap → List WeakPtr → Option Heap
  | h, [] => some h
  | h, w :: ws => (WeakPtr.destroy fuel h w).bind (fun h1 => WeakPtr.destroyAll fuel h1 ws)

/-- Destroying a list of `SharedPtr` handles one after the other. -/
def SharedPtr.destroyAll (fuel : Nat) : Heap → List SharedPtr → Option Heap
  | h, [] => some h
  | h, s :: ss => (SharedPtr.destroy fuel h s).bind (fun h1 => SharedPtr.destroyAll fuel h1 ss)

/-- The counting invariant of a heap against the numbers `hold b` / `wk b` of strong and weak
handle variables on each block: an allocated block that was not deleted has exactly these
counts (the weak count also covers the `weak_this_` members), and a deleted or unallocated
block is held by nothing. -/
structure HeapInv (h : Heap) (hold wk : Nat → Nat) : Prop where
  live : ∀ b blk, h.blocks[b]? = some blk → blk.deleted = 0 →
    blk.strong_ref_count_ = hold b ∧ blk.weak_ref_count_ = wk b + h.objUnits b ∧
    managedOk h b blk = true ∧
    (blk.strong_ref_count_ = 0 → blk.kind = BlockKind.holder ∨ blk.ptr_ = none)
  dead : ∀ b blk, h.blocks[b]? = some blk → blk.deleted ≠ 0 →
    hold b = 0 ∧ wk b = 0 ∧ h.objUnits b = 0
  fresh : ∀ b, h.blocks.length ≤ b → hold b = 0 ∧ wk b = 0 ∧ h.objUnits b = 0

/-- The counting invariant of a program state. -/
def World.Inv (w : World) : Prop := HeapInv w.heap w.holders w.weakHolders

/-- What one operation must establish from `w` to `w1`: the invariant again, at most one more
variable and one more object, and the `WeakPtr` variables as they were. -/
def World.StepOk (w w1 : World) : Prop :=
  w1.Inv ∧ w1.shared.length ≤ w.shared.length + 1 ∧
    w1.heap.objects.length ≤ w.heap.objects.length + 1 ∧ w1.weak = w.weak

/-- What one operation of `PtrOp` must establish from `w` to `w1`: the counting invariant again,
at most one more `SharedPtr` variable, and at most one more `WeakPtr` variable or object. -/
def World.StepOkPtr (w w1 : World) : Prop :=
  w1.Inv ∧ w1.shared.length ≤ w.shared.length + 1 ∧
    w1.weak.length + w1.heap.objects.length ≤ w.weak.length + w.heap.objects.length + 1

/-! ## Basic facts about heap updates -/

theorem blocks_modifyBlock_get (h : Heap) (b b' : Nat) (f : ControlBlock → ControlBlock) :
    (h.modifyBlock b f).blocks[b']? = if b = b' then (h.blocks[b']?).map f else h.blocks[b']? := by
  unfold Heap.modifyBlock
  split
  · rename_i blk hb
    by_cases hbb : b = b'
    · subst hbb
      simp [List.getElem?_set, hb]
      exact (List.getElem?_eq_some_iff.mp hb).1
    · simp [hbb, List.getElem?_set_ne hbb]
  · rename_i hb
    by_cases hbb : b = b'
    · subst hbb; simp [hb]
    · simp [hbb]

theorem objects_modifyBlock (h : Heap) (b : Nat) (f : ControlBlock → ControlBlock) :
    (h.modifyBlock b f).objects = h.objects := by
  unfold Heap.modifyBlock; split <;> rfl

theorem length_modifyBlock (h : Heap) (b : Nat) (f : ControlBlock → ControlBlock) :
    (h.modifyBlock b f).blocks.length = h.blocks.length := by
  unfold Heap.modifyBlock; split <;> simp

theorem objects_modifyObject_get (h : Heap) (o o' : Nat) (f : Object → Object) :
    (h.modifyObject o f).objects[o']? = if o = o' then (h.objects[o']?).map f else h.objects[o']? := by
  unfold Heap.modifyObject
  split
  · rename_i ob ho
    by_cases hoo : o = o'
    · subst hoo
      simp [List.getElem?_set, ho]
      exact (List.getElem?_eq_some_iff.mp ho).1
    · simp [hoo, List.getElem?_set_ne hoo]
  · rename_i ho
    by_cases hoo : o = o'
    · subst hoo; simp [ho]
    · simp [hoo]

theorem blocks_modifyObject (h : Heap) (o : Nat) (f : Object → Object) :
    (h.modifyObject o f).blocks = h.blocks := by
  unfold Heap.modifyObject; split <;> rfl

theorem length_modifyObject (h : Heap) (o : Nat) (f : Object → Object) :
    (h.modifyObject o f).objects.length = h.objects.length := by
  unfold Heap.modifyObject; split <;> simp

theorem IncStrongRef_eq (h : Heap) (b : Nat) (blk : ControlBlock) (hb : h.blocks[b]? = some blk) :
    IncStrongRef h b = h.setBlock b
      { blk with strong_ref_count_ := (blk.strong_ref_count_ + 1) % SIZE_MOD } := by
  simp [IncStrongRef, Heap.modifyBlock, Heap.setBlock, hb]

theorem IncWeakRef_eq (h : Heap) (b : Nat) (blk : ControlBlock) (hb : h.blocks[b]? = some blk) :
    IncWeakRef h b = h.setBlock b
      { blk with weak_ref_count_ := (blk.weak_ref_count_ + 1) % SIZE_MOD } := by
  simp [IncWeakRef, Heap.modifyBlock, Heap.setBlock, hb]

theorem DecWeakRef_eq (h : Heap) (b : Nat) (blk : ControlBlock) (hb : h.blocks[b]? = some blk) :
    DecWeakRef h b = h.setBlock b
      { blk with weak_ref_count_ := (blk.weak_ref_count_ + SIZE_MOD - 1) % SIZE_MOD } := by
  simp [DecWeakRef, Heap.modifyBlock, Heap.setBlock, hb]

theorem getElem?_set_self_of_some {α : Type} (l : List α) (i : Nat) (a x : α)
    (hi : l[i]? = some a) : (l.set i x)[i]? = some x := by
  have := (List.getElem?_eq_some_iff.mp hi).1
  simp [List.getElem?_set, this]

/-! ## Copy, move, aliasing, promotion -/

/-- C9: copy construction yields a handle with the source's pointer and block; when the source
holds a block the only change to the heap is that this block's strong count goes up by one (weak
count, stored pointer and every other block and object are as before); copying a handle without a
block returns the heap as it was.  The source is a `const&` argument and is not written. -/
theorem C9_copy_construction (h : Heap) (other : SharedPtr) :
    (SharedPtr.copy h other).2 = ⟨other.ptr_, other.block_⟩ ∧
    (other.block_ = none → (SharedPtr.copy h other).1 = h) ∧
    (∀ b blk, other.block_ = some b → h.blocks[b]? = some blk →
      blk.strong_ref_count_ + 1 < SIZE_MOD →
      (SharedPtr.copy h other).1 = h.setBlock b
        { blk with strong_ref_count_ := blk.strong_ref_count_ + 1 } ∧
      GetStrongRefCount (SharedPtr.copy h other).1 b = GetStrongRefCount h b + 1 ∧
      GetWeakRefCount (SharedPtr.copy h other).1 b = GetWeakRefCount h b ∧
      (SharedPtr.copy h other).2.UseCount (SharedPtr.copy h other).1 = other.UseCount h + 1) := by
  refine ⟨?_, ?_, ?_⟩
  · cases other with
    | mk p bl => cases bl <;> simp [SharedPtr.copy]
  · intro hnone
    simp [SharedPtr.copy, hnone]
  · intro b blk hb hblk hlt
    have hmod : (blk.strong_ref_count_ + 1) % SIZE_MOD = blk.strong_ref_count_ + 1 :=
      Nat.mod_eq_of_lt hlt
    have hset := getElem?_set_self_of_some h.blocks b blk
      { blk with strong_ref_count_ := blk.strong_ref_count_ + 1 } hblk
    simp [SharedPtr.copy, hb, IncStrongRef_eq h b blk hblk, hmod, GetStrongRefCount,
      GetWeakRefCount, SharedPtr.UseCount, hblk, hset, Heap.setBlock]

/-- Witness for C9 on a heap with one block of counts (1, 0). -/
theorem C9_copy_construction_witness :
    GetStrongRefCount (SharedPtr.copy ⟨[⟨BlockKind.pointer, 1, 0, some 0, 0⟩], [⟨none, 0⟩]⟩
      ⟨some 0, some 0⟩).1 0 = 2 :=
  ((C9_copy_construction ⟨[⟨BlockKind.pointer, 1, 0, some 0, 0⟩], [⟨none, 0⟩]⟩
    ⟨some 0, some 0⟩).2.2 0 ⟨BlockKind.pointer, 1, 0, some 0, 0⟩ rfl rfl (by decide)).2.1

/-- C10: move construction hands the source's (pointer, block) to the new handle, leaves the
source empty (`Get()` null, `UseCount()` 0, `operator bool` false) and returns the heap as it was,
so no counter of any block changes.  No fuel is needed. -/
theorem C10_move_construction (fuel : Nat) (h : Heap) (other : SharedPtr) :
    ∃ src, SharedPtr.move fuel h other = some (h, ⟨other.ptr_, other.block_⟩, src) ∧
      src.Get = none ∧ src.UseCount h = 0 ∧ src.toBool = false ∧ src.block_ = none := by
  refine ⟨⟨none, none⟩, ?_, rfl, rfl, rfl, rfl⟩
  simp [SharedPtr.move, SharedPtr.Dispose]

theorem block_of_strong_ne_zero (h : Heap) (b : Nat) (hne : GetStrongRefCount h b ≠ 0) :
    ∃ blk, h.blocks[b]? = some blk ∧ blk.strong_ref_count_ = GetStrongRefCount h b := by
  unfold GetStrongRefCount at *
  cases hb : h.blocks[b]? with
  | none => simp [hb] at hne
  | some blk => exact ⟨blk, rfl, by simp⟩

theorem fromWeak_live (h : Heap) (w : WeakPtr) (hne : w.UseCount h ≠ 0)
    (hlt : w.UseCount h + 1 < SIZE_MOD) :
    ∃ b blk, w.block_ = some b ∧ h.blocks[b]? = some blk ∧
      blk.strong_ref_count_ = w.UseCount h ∧
      SharedPtr.fromWeak h w =
        (h.setBlock b { blk with strong_ref_count_ := blk.strong_ref_count_ + 1 },
          Except.ok ⟨w.ptr_, some b⟩) := by
  cases hwb : w.block_ with
  | none => simp [WeakPtr.UseCount, hwb] at hne
  | some b =>
    have hu : w.UseCount h = GetStrongRefCount h b := by simp [WeakPtr.UseCount, hwb]
    obtain ⟨blk, hblk, hs⟩ := block_of_strong_ne_zero h b (by rw [← hu]; exact hne)
    refine ⟨b, blk, rfl, hblk, by rw [hs, hu], ?_⟩
    have hmod : (blk.strong_ref_count_ + 1) % SIZE_MOD = blk.strong_ref_count_ + 1 :=
      Nat.mod_eq_of_lt (by rw [hs, ← hu]; exact hlt)
    simp [SharedPtr.fromWeak, hne, hwb, IncStrongRef_eq h b blk hblk, hmod]

theorem fromWeak_raises_iff (h : Heap) (w : WeakPtr) :
    (SharedPtr.fromWeak h w).2 = Except.error BadWeakPtr.mk ↔ w.UseCount h = 0 := by
  by_cases hz : w.UseCount h = 0
  · simp [SharedPtr.fromWeak, hz]
  · simp only [SharedPtr.fromWeak, hz, if_false, iff_false]
    cases w.block_ <;> simp

/-- C5: constructing a `SharedPtr` from a `WeakPtr` throws `BadWeakPtr` exactly when the strong
count seen through the weak handle is 0 (a handle without a block reports 0); otherwise, the
counter not being at its maximum, it returns a handle with the weak handle's pointer and block,
and the only heap change is that this block's strong count is one higher.  The constructor of
`src/weak/shared.h` has the same text. -/
theorem C5_promotion_raises_iff_zero (h : Heap) (w : WeakPtr) :
    ((SharedPtr.fromWeak h w).2 = Except.error BadWeakPtr.mk ↔ w.UseCount h = 0) ∧
    (w.UseCount h ≠ 0 → w.UseCount h + 1 < SIZE_MOD →
      ∃ b blk, w.block_ = some b ∧ h.blocks[b]? = some blk ∧
        SharedPtr.fromWeak h w =
          (h.setBlock b { blk with strong_ref_count_ := blk.strong_ref_count_ + 1 },
            Except.ok ⟨w.ptr_, w.block_⟩) ∧
        GetStrongRefCount (SharedPtr.fromWeak h w).1 b = GetStrongRefCount h b + 1 ∧
        GetWeakRefCount (SharedPtr.fromWeak h w).1 b = GetWeakRefCount h b) := by
  constructor
  · exact fromWeak_raises_iff h w
  · intro hne hlt
    obtain ⟨b, blk, hwb, hblk, _, heq⟩ := fromWeak_live h w hne hlt
    refine ⟨b, blk, hwb, hblk, by rw [heq, hwb], ?_, ?_⟩
    · rw [heq]
      simp [GetStrongRefCount, Heap.setBlock, hblk,
        getElem?_set_self_of_some h.blocks b blk _ hblk]
    · rw [heq]
      simp [GetWeakRefCount, Heap.setBlock, hblk,
        getElem?_set_self_of_some h.blocks b blk _ hblk]

/-- Witness for C5: a weak handle on a block with counts (1, 1) is promoted, strong becomes 2. -/
theorem C5_promotion_raises_iff_zero_witness :
    ∃ b blk, (⟨some 0, some 0⟩ : WeakPtr).block_ = some b ∧
      (⟨[⟨BlockKind.pointer, 1, 1, some 0, 0⟩], [⟨none, 0⟩]⟩ : Heap).blocks[b]? = some blk ∧
      SharedPtr.fromWeak ⟨[⟨BlockKind.pointer, 1, 1, some 0, 0⟩], [⟨none, 0⟩]⟩ ⟨some 0, some 0⟩ =
        ((⟨[⟨BlockKind.pointer, 1, 1, some 0, 0⟩], [⟨none, 0⟩]⟩ : Heap).setBlock b
            { blk with strong_ref_count_ := blk.strong_ref_count_ + 1 },
          Except.ok ⟨some 0, some 0⟩) ∧
      GetStrongRefCount (SharedPtr.fromWeak
        ⟨[⟨BlockKind.pointer, 1, 1, some 0, 0⟩], [⟨none, 0⟩]⟩ ⟨some 0, some 0⟩).1 b =
        GetStrongRefCount ⟨[⟨BlockKind.pointer, 1, 1, some 0, 0⟩], [⟨none, 0⟩]⟩ b + 1 ∧
      GetWeakRefCount (SharedPtr.fromWeak
        ⟨[⟨BlockKind.pointer, 1, 1, some 0, 0⟩], [⟨none, 0⟩]⟩ ⟨some 0, some 0⟩).1 b =
        GetWeakRefCount ⟨[⟨BlockKind.pointer, 1, 1, some 0, 0⟩], [⟨none, 0⟩]⟩ b :=
  (C5_promotion_raises_iff_zero ⟨[⟨BlockKind.pointer, 1, 1, some 0, 0⟩], [⟨none, 0⟩]⟩
    ⟨some 0, some 0⟩).2 (by decide) (by decide)

/-- C6: when promotion throws `BadWeakPtr` the heap is returned exactly as it was: every counter
of every block, every ghost deletion count and every object is unchanged.  The weak handle is a
`const&` argument and is not written. -/
theorem C6_failed_promotion_changes_nothing (h : Heap) (w : WeakPtr)
    (hraise : (SharedPtr.fromWeak h w).2 = Except.error BadWeakPtr.mk) :
    (SharedPtr.fromWeak h w).1 = h ∧
    (∀ b, GetStrongRefCount (SharedPtr.fromWeak h w).1 b = GetStrongRefCount h b ∧
      GetWeakRefCount (SharedPtr.fromWeak h w).1 b = GetWeakRefCount h b ∧
      deletedCount (SharedPtr.fromWeak h w).1 b = deletedCount h b) := by
  have hz : w.UseCount h = 0 := (fromWeak_raises_iff h w).mp hraise
  have : (SharedPtr.fromWeak h w).1 = h := by simp [SharedPtr.fromWeak, hz]
  exact ⟨this, fun b => by rw [this]; exact ⟨rfl, rfl, rfl⟩⟩

/-- Witness for C6: an expired weak handle (block counts (0, 1)). -/
theorem C6_failed_promotion_changes_nothing_witness :
    (SharedPtr.fromWeak ⟨[⟨BlockKind.pointer, 0, 1, none, 0⟩], [⟨none, 1⟩]⟩
      ⟨some 0, some 0⟩).1 = ⟨[⟨BlockKind.pointer, 0, 1, none, 0⟩], [⟨none, 1⟩]⟩ :=
  (C6_failed_promotion_changes_nothing ⟨[⟨BlockKind.pointer, 0, 1, none, 0⟩], [⟨none, 1⟩]⟩
    ⟨some 0, some 0⟩ rfl).1

/-- C4: `Lock()` returns the empty handle exactly when the weak handle is expired; it never
throws; an expired `Lock()` leaves the heap as it was; and on a live handle (counter not at its
maximum) it returns a handle with the weak handle's pointer and block whose `UseCount()` is one
more than the weak handle's `UseCount()` before the call, the weak count being unchanged. -/
theorem C4_lock_empty_iff_expired (h : Heap) (w : WeakPtr) :
    ((WeakPtr.Lock h w).2 = Except.ok ⟨none, none⟩ ↔ w.Expired h = true) ∧
    (∀ e, (WeakPtr.Lock h w).2 ≠ Except.error e) ∧
    (w.Expired h = true → (WeakPtr.Lock h w).1 = h) ∧
    (w.Expired h = false → w.UseCount h + 1 < SIZE_MOD →
      ∃ b, w.block_ = some b ∧ (WeakPtr.Lock h w).2 = Except.ok ⟨w.ptr_, some b⟩ ∧
        SharedPtr.UseCount (WeakPtr.Lock h w).1 ⟨w.ptr_, some b⟩ = w.UseCount h + 1 ∧
        GetWeakRefCount (WeakPtr.Lock h w).1 b = GetWeakRefCount h b) := by
  by_cases hz : w.UseCount h = 0
  · have hexp : w.Expired h = true := by simp [WeakPtr.Expired, hz]
    simp [WeakPtr.Lock, hexp]
  · have hexp : w.Expired h = false := by simp [WeakPtr.Expired, hz]
    have hlock : WeakPtr.Lock h w = SharedPtr.fromWeak h w := by simp [WeakPtr.Lock, hexp]
    refine ⟨?_, ?_, ?_, ?_⟩
    · simp only [hlock, hexp, iff_false]
      simp only [SharedPtr.fromWeak, hz, if_false]
      cases hwb : w.block_ with
      | none => simp [WeakPtr.UseCount, hwb] at hz
      | some b => simp
    · intro e
      simp only [hlock, SharedPtr.fromWeak, hz, if_false]
      cases w.block_ <;> simp
    · intro hc; rw [hexp] at hc; cases hc
    · intro _ hlt
      obtain ⟨b, blk, hwb, hblk, hs, heq⟩ := fromWeak_live h w hz hlt
      refine ⟨b, hwb, by rw [hlock, heq], ?_, ?_⟩
      · rw [hlock, heq]
        simp [SharedPtr.UseCount, GetStrongRefCount, Heap.setBlock,
          getElem?_set_self_of_some h.blocks b blk _ hblk, hs]
      · rw [hlock, heq]
        simp [GetWeakRefCount, Heap.setBlock, hblk,
          getElem?_set_self_of_some h.blocks b blk _ hblk]

/-- Witness for C4: locking a live weak handle on a block with counts (1, 1). -/
theorem C4_lock_empty_iff_expired_witness :
    ∃ b, (⟨some 0, some 0⟩ : WeakPtr).block_ = some b ∧
      (WeakPtr.Lock ⟨[⟨BlockKind.pointer, 1, 1, some 0, 0⟩], [⟨none, 0⟩]⟩ ⟨some 0, some 0⟩).2 =
        Except.ok ⟨some 0, some b⟩ ∧
      SharedPtr.UseCount (WeakPtr.Lock ⟨[⟨BlockKind.pointer, 1, 1, some 0, 0⟩], [⟨none, 0⟩]⟩
        ⟨some 0, some 0⟩).1 ⟨some 0, some b⟩ =
        WeakPtr.UseCount ⟨[⟨BlockKind.pointer, 1, 1, some 0, 0⟩], [⟨none, 0⟩]⟩
          ⟨some 0, some 0⟩ + 1 ∧
      GetWeakRefCount (WeakPtr.Lock ⟨[⟨BlockKind.pointer, 1, 1, some 0, 0⟩], [⟨none, 0⟩]⟩
        ⟨some 0, some 0⟩).1 b =
        GetWeakRefCount ⟨[⟨BlockKind.pointer, 1, 1, some 0, 0⟩], [⟨none, 0⟩]⟩ b :=
  (C4_lock_empty_iff_expired ⟨[⟨BlockKind.pointer, 1, 1, some 0, 0⟩], [⟨none, 0⟩]⟩
    ⟨some 0, some 0⟩).2.2.2 (by decide) (by decide)

theorem modifyBlock_eq (h : Heap) (b : Nat) (f : ControlBlock → ControlBlock) (blk : ControlBlock)
    (hb : h.blocks[b]? = some blk) : h.modifyBlock b f = ⟨h.blocks.set b (f blk), h.objects⟩ := by
  simp [Heap.modifyBlock, hb]

theorem modifyObject_eq (h : Heap) (o : Nat) (f : Object → Object) (ob : Object)
    (ho : h.objects[o]? = some ob) : h.modifyObject o f = ⟨h.blocks, h.objects.set o (f ob)⟩ := by
  simp [Heap.modifyObject, ho]

theorem dec_inc_mod (w : Nat) (hw : w < SIZE_MOD) : ((w + 1) % SIZE_MOD + SIZE_MOD - 1) % SIZE_MOD = w := by
  unfold SIZE_MOD at *
  omega

theorem dec_mod (s : Nat) (h1 : 1 ≤ s) (hs : s < SIZE_MOD) : (s + SIZE_MOD - 1) % SIZE_MOD = s - 1 := by
  unfold SIZE_MOD at *
  omega

theorem SharedPtr.Dispose_shared (fuel : Nat) (h : Heap) (p : Option Nat) (b : Nat)
    (blk : ControlBlock) (hb : h.blocks[b]? = some blk) (hs : 2 ≤ blk.strong_ref_count_)
    (hsM : blk.strong_ref_count_ < SIZE_MOD) (hw : blk.weak_ref_count_ < SIZE_MOD) :
    SharedPtr.Dispose fuel h ⟨p, some b⟩ =
      some (h.setBlock b { blk with strong_ref_count_ := blk.strong_ref_count_ - 1 },
        ⟨p, some b⟩) := by
  have hlen := (List.getElem?_eq_some_iff.mp hb).1
  have h1 : (blk.strong_ref_count_ + SIZE_MOD - 1) % SIZE_MOD = blk.strong_ref_count_ - 1 :=
    dec_mod _ (by omega) hsM
  have h2 : blk.strong_ref_count_ - 1 ≠ 0 := by omega
  simp [SharedPtr.Dispose, IncWeakRef, DecStrongRef, DecWeakRef, Heap.modifyBlock, hb, hlen,
    List.getElem?_set, h1, h2, GetStrongRefCount, Heap.setBlock, dec_inc_mod _ hw]

theorem get_set_same {α : Type} (l : List α) (i : Nat) (a x : α) (hi : l[i]? = some a) :
    (l.set i x)[i]? = some x := getElem?_set_self_of_some l i a x hi

theorem WeakPtr.DisposeWith_none (del : Heap → Nat → Option Heap) (h : Heap) (q : Option Nat) :
    WeakPtr.DisposeWith del h ⟨q, none⟩ = some (h, ⟨q, none⟩) := rfl

theorem WeakPtr.DisposeWith_keep (del : Heap → Nat → Option Heap) (h : Heap) (q : Option Nat)
    (b : Nat) (blk : ControlBlock) (hb : h.blocks[b]? = some blk)
    (hw1 : 1 ≤ blk.weak_ref_count_) (hwM : blk.weak_ref_count_ < SIZE_MOD)
    (hne : blk.strong_ref_count_ ≠ 0 ∨ blk.weak_ref_count_ ≠ 1) :
    WeakPtr.DisposeWith del h ⟨q, some b⟩ =
      some (h.setBlock b { blk with weak_ref_count_ := blk.weak_ref_count_ - 1 },
        ⟨q, some b⟩) := by
  have h4 := dec_mod _ hw1 hwM
  have hcond : ¬ (blk.strong_ref_count_ = 0 ∧ blk.weak_ref_count_ - 1 = 0) := by
    intro hc; rcases hne with h' | h'
    · exact h' hc.1
    · omega
  simp only [WeakPtr.DisposeWith, DecWeakRef_eq h b blk hb, h4, GetStrongRefCount,
    GetWeakRefCount, Heap.setBlock, get_set_same _ _ _ _ hb, hcond, if_false]

theorem WeakPtr.DisposeWith_free (del : Heap → Nat → Option Heap) (h : Heap) (q : Option Nat)
    (b : Nat) (blk : ControlBlock) (hb : h.blocks[b]? = some blk)
    (hs : blk.strong_ref_count_ = 0) (hw : blk.weak_ref_count_ = 1)
    (hnp : blk.kind = BlockKind.holder ∨ blk.ptr_ = none) :
    WeakPtr.DisposeWith del h ⟨q, some b⟩ =
      some (h.setBlock b { blk with weak_ref_count_ := 0, deleted := blk.deleted + 1 },
        ⟨q, none⟩) := by
  have h4 : (blk.weak_ref_count_ + SIZE_MOD - 1) % SIZE_MOD = 0 := by
    rw [hw]; unfold SIZE_MOD; omega
  have hlen := (List.getElem?_eq_some_iff.mp hb).1
  rcases hnp with hk | hp
  · simp [WeakPtr.DisposeWith, DecWeakRef_eq h b blk hb, h4, GetStrongRefCount,
      GetWeakRefCount, Heap.setBlock, hs, deleteBlockWith, hk, Heap.modifyBlock, hlen,
      List.getElem?_set]
  · cases hk : blk.kind <;>
    simp [WeakPtr.DisposeWith, DecWeakRef_eq h b blk hb, h4, GetStrongRefCount,
      GetWeakRefCount, Heap.setBlock, hs, deleteBlockWith, hk, hp, Heap.modifyBlock, hlen,
      List.getElem?_set]

theorem deleteObject_plain (n : Nat) (h : Heap) (o : Nat) (ob : Object)
    (ho : h.objects[o]? = some ob) (hwt : ob.weak_this_ = none) :
    deleteObject (n + 1) h o =
      some ⟨h.blocks, h.objects.set o { ob with destroyed := ob.destroyed + 1 }⟩ := by
  simp [deleteObject, ho, hwt, modifyObject_eq h o _ ob ho]

theorem deleteObject_empty (n : Nat) (h : Heap) (o : Nat) (ob : Object) (q : Option Nat)
    (ho : h.objects[o]? = some ob) (hwt : ob.weak_this_ = some ⟨q, none⟩) :
    deleteObject (n + 1) h o =
      some ⟨h.blocks, h.objects.set o ⟨some ⟨none, none⟩, ob.destroyed + 1⟩⟩ := by
  simp [deleteObject, ho, hwt, modifyObject_eq h o _ ob ho, WeakPtr.DisposeWith_none,
    Heap.modifyObject, get_set_same _ _ _ _ ho]

theorem deleteObject_self (n : Nat) (h : Heap) (o : Nat) (ob : Object) (q : Option Nat)
    (b : Nat) (blk : ControlBlock)
    (ho : h.objects[o]? = some ob) (hwt : ob.weak_this_ = some ⟨q, some b⟩)
    (hb : h.blocks[b]? = some blk)
    (hw1 : 1 ≤ blk.weak_ref_count_) (hwM : blk.weak_ref_count_ < SIZE_MOD)
    (hne : blk.strong_ref_count_ ≠ 0 ∨ blk.weak_ref_count_ ≠ 1) :
    deleteObject (n + 1) h o =
      some ⟨h.blocks.set b { blk with weak_ref_count_ := blk.weak_ref_count_ - 1 },
        h.objects.set o ⟨some ⟨none, none⟩, ob.destroyed + 1⟩⟩ := by
  obtain ⟨wt, d⟩ := ob
  simp only at hwt
  subst hwt
  have holen := (List.getElem?_eq_some_iff.mp ho).1
  have hk := WeakPtr.DisposeWith_keep (deleteObject n)
    ⟨h.blocks, h.objects.set o ⟨some ⟨q, some b⟩, d + 1⟩⟩ q b blk hb hw1 hwM hne
  simp [deleteObject, ho, modifyObject_eq h o _ _ ho, hk, Heap.setBlock,
    Heap.modifyObject, holen, List.getElem?_set]

theorem set_eq_self_of_get {α : Type} (l : List α) (i : Nat) (a : α) (hi : l[i]? = some a) :
    l.set i a = l := by
  induction l generalizing i with
  | nil => rfl
  | cons x xs ih =>
    cases i with
    | zero => simp at hi; simp [hi]
    | succ j => simp at hi; simp [ih j hi]

theorem deleteObject_managed (n : Nat) (h : Heap) (o : Nat) (ob : Object) (b : Nat)
    (blk : ControlBlock) (ho : h.objects[o]? = some ob) (hb : h.blocks[b]? = some blk)
    (hwM : blk.weak_ref_count_ < SIZE_MOD)
    (hself : ∀ wt, ob.weak_this_ = some wt → wt.block_ = none ∨
      (wt.block_ = some b ∧ 1 ≤ blk.weak_ref_count_ ∧
        (blk.strong_ref_count_ ≠ 0 ∨ blk.weak_ref_count_ ≠ 1))) :
    deleteObject (n + 1) h o =
      some ⟨h.blocks.set b { blk with weak_ref_count_ := blk.weak_ref_count_ - ob.weakUnits },
        h.objects.set o ob.afterDtor⟩ := by
  obtain ⟨wt, d⟩ := ob
  cases wt with
  | none =>
    rw [deleteObject_plain n h o _ ho rfl]
    simp [Object.weakUnits, Object.afterDtor, set_eq_self_of_get _ _ _ hb]
  | some w =>
    obtain ⟨q, wb⟩ := w
    cases wb with
    | none =>
      rw [deleteObject_empty n h o _ q ho rfl]
      simp [Object.weakUnits, Object.afterDtor, set_eq_self_of_get _ _ _ hb]
    | some b' =>
      have hh := hself _ rfl
      simp at hh
      obtain ⟨hbb, hw1, hne⟩ := hh
      subst hbb
      rw [deleteObject_self n h o _ q b' blk ho rfl hb hw1 hwM hne]
      simp [Object.weakUnits, Object.afterDtor]

theorem DecStrongRef_shared (fuel : Nat) (h : Heap) (b : Nat) (blk : ControlBlock)
    (hb : h.blocks[b]? = some blk) (hs : 2 ≤ blk.strong_ref_count_)
    (hsM : blk.strong_ref_count_ < SIZE_MOD) :
    DecStrongRef fuel h b =
      some (h.setBlock b { blk with strong_ref_count_ := blk.strong_ref_count_ - 1 }) := by
  have h1 := dec_mod _ (by omega) hsM
  have h2 : blk.strong_ref_count_ - 1 ≠ 0 := by omega
  simp [DecStrongRef, hb, h1, h2, modifyBlock_eq h b _ blk hb, Heap.setBlock]

theorem DecStrongRef_last (n : Nat) (h : Heap) (b o : Nat) (blk : ControlBlock) (ob : Object)
    (hb : h.blocks[b]? = some blk) (hs : blk.strong_ref_count_ = 1)
    (hwM : blk.weak_ref_count_ < SIZE_MOD)
    (hp : blk.ptr_ = some o) (ho : h.objects[o]? = some ob)
    (hself : ∀ wt, ob.weak_this_ = some wt →
      wt.block_ = none ∨ (wt.block_ = some b ∧ 2 ≤ blk.weak_ref_count_)) :
    DecStrongRef (n + 1) h b =
      some ⟨h.blocks.set b
          { kind := blk.kind
            strong_ref_count_ := 0
            weak_ref_count_ := blk.weak_ref_count_ - ob.weakUnits
            ptr_ := if blk.kind = BlockKind.pointer then none else blk.ptr_
            deleted := blk.deleted },
        h.objects.set o ob.afterDtor⟩ := by
  have hlen := (List.getElem?_eq_some_iff.mp hb).1
  have h1 : (1 + SIZE_MOD - 1) % SIZE_MOD = 0 := by unfold SIZE_MOD; omega
  obtain ⟨k, s, w, pt, d⟩ := blk
  simp only at hs hp hwM hself
  subst hs hp
  have hdel := deleteObject_managed n
    ⟨h.blocks.set b ⟨k, 0, w, some o, d⟩, h.objects⟩ o ob b
    ⟨k, 0, w, some o, d⟩ ho (by simp [hlen, List.getElem?_set]) hwM
    (by
      intro wt hwt
      rcases hself wt hwt with h' | ⟨h', h''⟩
      · exact Or.inl h'
      · exact Or.inr ⟨h', by simp; omega, Or.inr (by simp; omega)⟩)
  simp only [List.set_set] at hdel
  cases k <;>
  simp [DecStrongRef, hb, h1, modifyBlock_eq h b _ _ hb, hdel,
    Heap.modifyBlock, hlen, List.getElem?_set]

theorem Object.weakUnits_cases (ob : Object) :
    (ob.weakUnits = 0 ∧ ∀ wt, ob.weak_this_ = some wt → wt.block_ = none) ∨
    (ob.weakUnits = 1 ∧ ∃ q b, ob.weak_this_ = some ⟨q, some b⟩) := by
  obtain ⟨wt, d⟩ := ob
  cases wt with
  | none => left; simp [Object.weakUnits]
  | some w =>
    obtain ⟨q, wb⟩ := w
    cases wb with
    | none => left; simp [Object.weakUnits]
    | some b => right; exact ⟨rfl, q, b, rfl⟩

theorem SharedPtr.Dispose_none (fuel : Nat) (h : Heap) (p : Option Nat) :
    SharedPtr.Dispose fuel h ⟨p, none⟩ = some (h, ⟨p, none⟩) := rfl

theorem SharedPtr.Dispose_last (n : Nat) (h : Heap) (p : Option Nat) (b o : Nat)
    (blk : ControlBlock) (ob : Object)
    (hb : h.blocks[b]? = some blk) (hs : blk.strong_ref_count_ = 1)
    (hw : blk.weak_ref_count_ + 1 < SIZE_MOD)
    (hp : blk.ptr_ = some o) (ho : h.objects[o]? = some ob)
    (hself : ∀ wt, ob.weak_this_ = some wt →
      wt.block_ = none ∨ (wt.block_ = some b ∧ 1 ≤ blk.weak_ref_count_)) :
    SharedPtr.Dispose (n + 1) h ⟨p, some b⟩ =
      some (⟨h.blocks.set b
          { kind := blk.kind
            strong_ref_count_ := 0
            weak_ref_count_ := blk.weak_ref_count_ - ob.weakUnits
            ptr_ := if blk.kind = BlockKind.pointer then none else blk.ptr_
            deleted := if blk.weak_ref_count_ - ob.weakUnits = 0
              then blk.deleted + 1 else blk.deleted },
          h.objects.set o ob.afterDtor⟩,
        ⟨p, if blk.weak_ref_count_ - ob.weakUnits = 0 then none else some b⟩) := by
  have hlen := (List.getElem?_eq_some_iff.mp hb).1
  obtain ⟨k, s, w, pt, d⟩ := blk
  simp only at hs hp hw hself
  subst hs hp
  have hmod : (w + 1) % SIZE_MOD = w + 1 := Nat.mod_eq_of_lt hw
  have hu : ob.weakUnits ≤ 1 ∧ (ob.weakUnits = 1 → 1 ≤ w) := by
    rcases ob.weakUnits_cases with ⟨h0, _⟩ | ⟨h1, q, b', hwt⟩
    · omega
    · refine ⟨by omega, fun _ => ?_⟩
      rcases hself _ hwt with h' | ⟨_, h'⟩
      · simp at h'
      · exact h'
  have hdec := DecStrongRef_last n ⟨h.blocks.set b ⟨k, 1, w + 1, some o, d⟩, h.objects⟩ b o
    ⟨k, 1, w + 1, some o, d⟩ ob (by simp [hlen, List.getElem?_set]) rfl
    (by simp only; unfold SIZE_MOD at *; omega) rfl ho
    (by
      intro wt hwt
      rcases hself wt hwt with h' | ⟨h', h''⟩
      · exact Or.inl h'
      · exact Or.inr ⟨h', by simp only; omega⟩)
  simp only [List.set_set] at hdec
  have hdw : (w + 1 - ob.weakUnits + SIZE_MOD - 1) % SIZE_MOD = w - ob.weakUnits := by
    unfold SIZE_MOD at *; omega
  simp only [SharedPtr.Dispose, IncWeakRef_eq h b _ hb, hmod, Heap.setBlock, hdec,
    Option.some_bind, DecWeakRef, GetStrongRefCount, GetWeakRefCount]
  cases k <;>
  by_cases hz : w - ob.weakUnits = 0 <;>
  simp [Heap.modifyBlock, hlen, List.getElem?_set, hdw, hz, deleteBlock, deleteBlockWith]

theorem managedOk_some (h : Heap) (b o : Nat) (blk : ControlBlock)
    (hok : managedOk h b blk = true) (hp : blk.ptr_ = some o) :
    ∃ ob, h.objects[o]? = some ob ∧ ∀ wt, ob.weak_this_ = some wt →
      wt.block_ = none ∨ (wt.block_ = some b ∧ 1 ≤ blk.weak_ref_count_) := by
  unfold managedOk at hok
  rw [hp] at hok
  simp only at hok
  cases ho : h.objects[o]? with
  | none => simp [ho] at hok
  | some ob =>
    refine ⟨ob, rfl, ?_⟩
    intro wt hwt
    simp only [ho, hwt] at hok
    cases hwb : wt.block_ with
    | none => exact Or.inl rfl
    | some b' =>
      simp only [hwb, Bool.and_eq_true, beq_iff_eq, decide_eq_true_eq] at hok
      exact Or.inr ⟨by rw [hok.1], hok.2⟩

theorem SharedPtr.Dispose_last_null (fuel : Nat) (h : Heap) (p : Option Nat) (b : Nat)
    (blk : ControlBlock)
    (hb : h.blocks[b]? = some blk) (hs : blk.strong_ref_count_ = 1)
    (hw : blk.weak_ref_count_ + 1 < SIZE_MOD) (hp : blk.ptr_ = none) :
    SharedPtr.Dispose fuel h ⟨p, some b⟩ =
      some (h.setBlock b
          { kind := blk.kind
            strong_ref_count_ := 0
            weak_ref_count_ := blk.weak_ref_count_
            ptr_ := none
            deleted := if blk.weak_ref_count_ = 0 then blk.deleted + 1 else blk.deleted },
        ⟨p, if blk.weak_ref_count_ = 0 then none else some b⟩) := by
  have hlen := (List.getElem?_eq_some_iff.mp hb).1
  obtain ⟨k, s, w, pt, d⟩ := blk
  simp only at hs hp hw
  subst hs hp
  have hmod : (w + 1) % SIZE_MOD = w + 1 := Nat.mod_eq_of_lt hw
  have h1 : (1 + SIZE_MOD - 1) % SIZE_MOD = 0 := by unfold SIZE_MOD; omega
  have hdw : (w + 1 + SIZE_MOD - 1) % SIZE_MOD = w := by unfold SIZE_MOD at *; omega
  have hwm : w % SIZE_MOD = w := Nat.mod_eq_of_lt (by omega)
  cases k <;>
  simp [SharedPtr.Dispose, IncWeakRef_eq h b _ hb, hmod, Heap.setBlock, DecStrongRef, h1,
    DecWeakRef, GetStrongRefCount, GetWeakRefCount, Heap.modifyBlock, hlen, List.getElem?_set,
    hdw, hwm, deleteBlock, deleteBlockWith] <;>
  by_cases hz : w = 0 <;> simp [hz]

theorem SharedPtr.Dispose_last_ok (n : Nat) (h : Heap) (p : Option Nat) (b : Nat)
    (blk : ControlBlock)
    (hb : h.blocks[b]? = some blk) (hs : blk.strong_ref_count_ = 1)
    (hw : blk.weak_ref_count_ + 1 < SIZE_MOD) (hok : managedOk h b blk = true) :
    SharedPtr.Dispose (n + 1) h ⟨p, some b⟩ =
      some ((runDtor h blk.ptr_).setBlock b
          { kind := blk.kind
            strong_ref_count_ := 0
            weak_ref_count_ := blk.weak_ref_count_ - selfUnits h blk
            ptr_ := if blk.kind = BlockKind.pointer then none else blk.ptr_
            deleted := if blk.weak_ref_count_ - selfUnits h blk = 0
              then blk.deleted + 1 else blk.deleted },
        ⟨p, if blk.weak_ref_count_ - selfUnits h blk = 0 then none else some b⟩) := by
  cases hp : blk.ptr_ with
  | none =>
    rw [SharedPtr.Dispose_last_null (n + 1) h p b blk hb hs hw hp]
    simp [runDtor, selfUnits, hp]
  | some o =>
    obtain ⟨ob, ho, hself⟩ := managedOk_some h b o blk hok hp
    rw [SharedPtr.Dispose_last n h p b o blk ob hb hs hw hp ho hself]
    simp [runDtor, selfUnits, hp, ho, modifyObject_eq h o _ ob ho, Heap.setBlock]

/-! ## Object destruction happens once (C2) -/

theorem deleteBlockWith_inert (del : Heap → Nat → Option Heap) (h : Heap) (b : Nat)
    (hin : ∀ blk, h.blocks[b]? = some blk → blk.kind = BlockKind.holder ∨ blk.ptr_ = none) :
    deleteBlockWith del h b =
      some (h.modifyBlock b (fun k => { k with deleted := k.deleted + 1 })) := by
  unfold deleteBlockWith
  cases hb : h.blocks[b]? with
  | none => simp [Heap.modifyBlock, hb]
  | some blk =>
    rcases hin blk hb with hk | hp
    · simp [hk]
    · cases hk : blk.kind <;> simp [hp]

theorem WeakPtr.destroy_inert (fuel : Nat) (h : Heap) (w : WeakPtr) (b : Nat)
    (hwb : w.block_ = some b)
    (hin : ∀ blk, h.blocks[b]? = some blk → blk.kind = BlockKind.holder ∨ blk.ptr_ = none) :
    ∃ h1, WeakPtr.destroy fuel h w = some h1 ∧ h1.objects = h.objects ∧
      (∀ blk, h1.blocks[b]? = some blk → blk.kind = BlockKind.holder ∨ blk.ptr_ = none) := by
  have hin1 : ∀ blk, (DecWeakRef h b).blocks[b]? = some blk →
      blk.kind = BlockKind.holder ∨ blk.ptr_ = none := by
    intro blk hblk
    rw [DecWeakRef, blocks_modifyBlock_get] at hblk
    simp only [if_true] at hblk
    cases hb : h.blocks[b]? with
    | none => simp [hb] at hblk
    | some blk0 =>
      simp [hb] at hblk
      subst hblk
      exact hin blk0 hb
  simp only [WeakPtr.destroy, WeakPtr.Dispose, WeakPtr.DisposeWith, hwb]
  split
  · rw [deleteBlockWith_inert _ _ _ hin1]
    refine ⟨_, rfl, ?_, ?_⟩
    · simp [objects_modifyBlock, DecWeakRef]
    · intro blk hblk
      rw [blocks_modifyBlock_get] at hblk
      simp only [if_true] at hblk
      cases hb : (DecWeakRef h b).blocks[b]? with
      | none => simp [hb] at hblk
      | some blk0 =>
        simp [hb] at hblk
        subst hblk
        exact hin1 blk0 hb
  · exact ⟨_, rfl, by simp [objects_modifyBlock, DecWeakRef], hin1⟩

theorem WeakPtr.destroyAll_inert (fuel : Nat) (b : Nat) (ws : List WeakPtr) :
    ∀ (h : Heap), (∀ w ∈ ws, w.block_ = some b) →
    (∀ blk, h.blocks[b]? = some blk → blk.kind = BlockKind.holder ∨ blk.ptr_ = none) →
    ∃ h1, WeakPtr.destroyAll fuel h ws = some h1 ∧ h1.objects = h.objects ∧
      (∀ blk, h1.blocks[b]? = some blk → blk.kind = BlockKind.holder ∨ blk.ptr_ = none) := by
  induction ws with
  | nil => intro h _ hin; exact ⟨h, rfl, rfl, hin⟩
  | cons w ws ih =>
    intro h hall hin
    obtain ⟨h1, hd, ho, hin1⟩ := WeakPtr.destroy_inert fuel h w b (hall w (by simp)) hin
    obtain ⟨h2, hd2, ho2, hin2⟩ := ih h1 (fun x hx => hall x (by simp [hx])) hin1
    exact ⟨h2, by simp [WeakPtr.destroyAll, hd, hd2], by rw [ho2, ho], hin2⟩

/-- C2: for a block of either class with strong count 1 (any weak count), disposing the last
`SharedPtr` runs the destructor of the managed object exactly once; afterwards neither the
disposal of any number of `WeakPtr` handles on the block nor `delete block_` runs it again. -/
theorem C2_last_owner_destroys_object_once (n : Nat) (h : Heap) (s : SharedPtr) (b o : Nat)
    (blk : ControlBlock) (hsb : s.block_ = some b) (hb : h.blocks[b]? = some blk)
    (hs : blk.strong_ref_count_ = 1) (hw : blk.weak_ref_count_ + 1 < SIZE_MOD)
    (hp : blk.ptr_ = some o) (hok : managedOk h b blk = true) :
    ∃ h1 s1, SharedPtr.Dispose (n + 1) h s = some (h1, s1) ∧
      destroyedCount h1 o = destroyedCount h o + 1 ∧
      ∀ (fuel : Nat) (ws : List WeakPtr), (∀ w ∈ ws, w.block_ = some b) →
        ∃ h2, WeakPtr.destroyAll fuel h1 ws = some h2 ∧
          destroyedCount h2 o = destroyedCount h o + 1 ∧
          ∃ h3, deleteBlock fuel h2 b = some h3 ∧
            destroyedCount h3 o = destroyedCount h o + 1 := by
  obtain ⟨p, sb⟩ := s
  simp only at hsb
  subst hsb
  obtain ⟨ob, ho, _⟩ := managedOk_some h b o blk hok hp
  have hlen := (List.getElem?_eq_some_iff.mp hb).1
  have holen := (List.getElem?_eq_some_iff.mp ho).1
  refine ⟨_, _, SharedPtr.Dispose_last_ok n h p b blk hb hs hw hok, ?_, ?_⟩
  · simp [destroyedCount, Heap.setBlock, runDtor, hp, modifyObject_eq h o _ ob ho, ho, holen,
      List.getElem?_set, Object.afterDtor]
  · intro fuel ws hall
    have hin : ∀ blk', ((runDtor h blk.ptr_).setBlock b
        { kind := blk.kind
          strong_ref_count_ := 0
          weak_ref_count_ := blk.weak_ref_count_ - selfUnits h blk
          ptr_ := if blk.kind = BlockKind.pointer then none else blk.ptr_
          deleted := if blk.weak_ref_count_ - selfUnits h blk = 0
            then blk.deleted + 1 else blk.deleted }).blocks[b]? = some blk' →
        blk'.kind = BlockKind.holder ∨ blk'.ptr_ = none := by
      intro blk' hblk'
      simp [Heap.setBlock, runDtor, hp, modifyObject_eq h o _ ob ho, hlen,
        List.getElem?_set] at hblk'
      subst hblk'
      cases hk : blk.kind <;> simp
    have hd1 : destroyedCount ((runDtor h blk.ptr_).setBlock b
        { kind := blk.kind
          strong_ref_count_ := 0
          weak_ref_count_ := blk.weak_ref_count_ - selfUnits h blk
          ptr_ := if blk.kind = BlockKind.pointer then none else blk.ptr_
          deleted := if blk.weak_ref_count_ - selfUnits h blk = 0
            then blk.deleted + 1 else blk.deleted }) o = destroyedCount h o + 1 := by
      simp [destroyedCount, Heap.setBlock, runDtor, hp, modifyObject_eq h o _ ob ho, ho, holen,
        List.getElem?_set, Object.afterDtor]
    obtain ⟨h2, hd2, ho2, hin2⟩ := WeakPtr.destroyAll_inert fuel b ws _ hall hin
    refine ⟨h2, hd2, ?_, _, deleteBlockWith_inert _ h2 b hin2, ?_⟩
    · rw [← hd1]; simp [destroyedCount, ho2]
    · rw [← hd1]; simp [destroyedCount, ho2, objects_modifyBlock]

/-- Witness for C2: a `ControlBlockHolder` with counts (1, 2) managing a plain object. -/
theorem C2_last_owner_destroys_object_once_witness :
    ∃ h1 s1, SharedPtr.Dispose 1 ⟨[⟨BlockKind.holder, 1, 2, some 0, 0⟩], [⟨none, 0⟩]⟩
        ⟨some 0, some 0⟩ = some (h1, s1) ∧
      destroyedCount h1 0 =
        destroyedCount ⟨[⟨BlockKind.holder, 1, 2, some 0, 0⟩], [⟨none, 0⟩]⟩ 0 + 1 ∧
      ∀ (fuel : Nat) (ws : List WeakPtr), (∀ w ∈ ws, w.block_ = some 0) →
        ∃ h2, WeakPtr.destroyAll fuel h1 ws = some h2 ∧
          destroyedCount h2 0 =
            destroyedCount ⟨[⟨BlockKind.holder, 1, 2, some 0, 0⟩], [⟨none, 0⟩]⟩ 0 + 1 ∧
          ∃ h3, deleteBlock fuel h2 0 = some h3 ∧
            destroyedCount h3 0 =
              destroyedCount ⟨[⟨BlockKind.holder, 1, 2, some 0, 0⟩], [⟨none, 0⟩]⟩ 0 + 1 :=
  C2_last_owner_destroys_object_once 0 ⟨[⟨BlockKind.holder, 1, 2, some 0, 0⟩], [⟨none, 0⟩]⟩
    ⟨some 0, some 0⟩ 0 0 ⟨BlockKind.holder, 1, 2, some 0, 0⟩ rfl rfl rfl (by decide) rfl rfl

/-! ## Aliasing construction (C8) -/

theorem SharedPtr.destroyAll_shared (fuel : Nat) (b : Nat) (ss : List SharedPtr) :
    ∀ (h : Heap) (blk : ControlBlock), h.blocks[b]? = some blk →
      (∀ x ∈ ss, x.block_ = some b) → ss.length < blk.strong_ref_count_ →
      blk.strong_ref_count_ < SIZE_MOD → blk.weak_ref_count_ < SIZE_MOD →
      SharedPtr.destroyAll fuel h ss =
        some (h.setBlock b
          { blk with strong_ref_count_ := blk.strong_ref_count_ - ss.length }) := by
  induction ss with
  | nil =>
    intro h blk hb _ _ _ _
    simp [SharedPtr.destroyAll, Heap.setBlock, set_eq_self_of_get _ _ _ hb]
  | cons x xs ih =>
    intro h blk hb hall hlen hsM hwM
    have hlen' : xs.length + 1 < blk.strong_ref_count_ := by simpa using hlen
    obtain ⟨p, xb⟩ := x
    have hxb : xb = some b := hall ⟨p, xb⟩ (by simp)
    subst hxb
    have hblen := (List.getElem?_eq_some_iff.mp hb).1
    have hd := SharedPtr.Dispose_shared fuel h p b blk hb (by omega) hsM hwM
    have hb1 : (h.setBlock b
        { blk with strong_ref_count_ := blk.strong_ref_count_ - 1 }).blocks[b]? =
        some { blk with strong_ref_count_ := blk.strong_ref_count_ - 1 } := by
      simp [Heap.setBlock, hblen, List.getElem?_set]
    have := ih _ _ hb1 (fun y hy => hall y (by simp [hy])) (by simp only; omega)
      (by simp only; omega) hwM
    simp only [SharedPtr.destroyAll, SharedPtr.destroy, hd, Option.map_some', Option.some_bind,
      this]
    simp [Heap.setBlock, List.set_set, Nat.sub_sub, Nat.add_comm]

/-- C8: for an owner `A` holding a block and any pointer `p`, `B = SharedPtr(A, p)` has
`Get() == p` and `A`'s block; the block's strong count rises by exactly one (nothing else in the
heap changes), so `B.UseCount() == A.UseCount()`; `A` is a `const&` argument and is not written.
The managed object is not destroyed while an owner remains: destroying fewer handles of the block
than its strong count leaves every object (and the block's deletion count) untouched and lowers
the strong count by the number of handles destroyed. -/
theorem C8_aliasing_construction (h : Heap) (A : SharedPtr) (p : Option Nat) (b : Nat)
    (blk : ControlBlock) (hA : A.block_ = some b) (hb : h.blocks[b]? = some blk)
    (hsM : blk.strong_ref_count_ + 1 < SIZE_MOD) (hwM : blk.weak_ref_count_ < SIZE_MOD) :
    (SharedPtr.alias h A p).2.Get = p ∧
    (SharedPtr.alias h A p).2.block_ = A.block_ ∧
    (SharedPtr.alias h A p).1 =
      h.setBlock b { blk with strong_ref_count_ := blk.strong_ref_count_ + 1 } ∧
    GetStrongRefCount (SharedPtr.alias h A p).1 b = GetStrongRefCount h b + 1 ∧
    (SharedPtr.alias h A p).2.UseCount (SharedPtr.alias h A p).1 =
      A.UseCount (SharedPtr.alias h A p).1 ∧
    ∀ (fuel : Nat) (ss : List SharedPtr), (∀ x ∈ ss, x.block_ = some b) →
      ss.length < GetStrongRefCount (SharedPtr.alias h A p).1 b →
      ∃ h1, SharedPtr.destroyAll fuel (SharedPtr.alias h A p).1 ss = some h1 ∧
        h1.objects = h.objects ∧
        deletedCount h1 b = deletedCount h b ∧
        GetStrongRefCount h1 b = GetStrongRefCount (SharedPtr.alias h A p).1 b - ss.length := by
  have hblen := (List.getElem?_eq_some_iff.mp hb).1
  have hmod : (blk.strong_ref_count_ + 1) % SIZE_MOD = blk.strong_ref_count_ + 1 :=
    Nat.mod_eq_of_lt hsM
  have halias : SharedPtr.alias h A p =
      (h.setBlock b { blk with strong_ref_count_ := blk.strong_ref_count_ + 1 },
        ⟨p, some b⟩) := by
    simp [SharedPtr.alias, hA, IncStrongRef_eq h b blk hb, hmod]
  have hb1 : (h.setBlock b
      { blk with strong_ref_count_ := blk.strong_ref_count_ + 1 }).blocks[b]? =
      some { blk with strong_ref_count_ := blk.strong_ref_count_ + 1 } := by
    simp [Heap.setBlock, hblen, List.getElem?_set]
  have hcount : GetStrongRefCount (h.setBlock b
      { blk with strong_ref_count_ := blk.strong_ref_count_ + 1 }) b =
      blk.strong_ref_count_ + 1 := by
    simp [GetStrongRefCount, hb1]
  rw [halias]
  refine ⟨rfl, hA.symm, rfl, ?_, ?_, ?_⟩
  · rw [hcount]; simp [GetStrongRefCount, hb]
  · simp [SharedPtr.UseCount, hA]
  · intro fuel ss hall hlen
    simp only [hcount] at hlen ⊢
    have := SharedPtr.destroyAll_shared fuel b ss _ _ hb1 hall (by simpa using hlen)
      (by simp only; omega) hwM
    refine ⟨_, this, ?_, ?_, ?_⟩
    · simp [Heap.setBlock]
    · simp [deletedCount, Heap.setBlock, hblen, List.getElem?_set, hb]
    · simp [GetStrongRefCount, Heap.setBlock, hblen, List.getElem?_set]

/-- Witness for C8: aliasing on a block with counts (1, 0), then destroying one of the two
owners. -/
theorem C8_aliasing_construction_witness :
    GetStrongRefCount (SharedPtr.alias ⟨[⟨BlockKind.pointer, 1, 0, some 0, 0⟩], [⟨none, 0⟩]⟩
      ⟨some 0, some 0⟩ (some 7)).1 0 =
      GetStrongRefCount ⟨[⟨BlockKind.pointer, 1, 0, some 0, 0⟩], [⟨none, 0⟩]⟩ 0 + 1 :=
  (C8_aliasing_construction ⟨[⟨BlockKind.pointer, 1, 0, some 0, 0⟩], [⟨none, 0⟩]⟩
    ⟨some 0, some 0⟩ (some 7) 0 ⟨BlockKind.pointer, 1, 0, some 0, 0⟩ rfl rfl
    (by decide) (by decide)).2.2.2.1

/-! ## Closed forms of the constructors and of `WeakPtr::Dispose` -/

theorem set_append_length {α : Type} (l : List α) (x y : α) :
    (l ++ [x]).set l.length y = l ++ [y] := by
  induction l with
  | nil => rfl
  | cons a as ih => simp [ih]

theorem WeakPtr.Dispose_ok (fuel : Nat) (h : Heap) (q : Option Nat) (b : Nat)
    (blk : ControlBlock) (hb : h.blocks[b]? = some blk)
    (hw1 : 1 ≤ blk.weak_ref_count_) (hwM : blk.weak_ref_count_ < SIZE_MOD)
    (hin : blk.strong_ref_count_ = 0 → blk.kind = BlockKind.holder ∨ blk.ptr_ = none) :
    WeakPtr.Dispose fuel h ⟨q, some b⟩ =
      some (h.setBlock b
          { blk with
            weak_ref_count_ := blk.weak_ref_count_ - 1
            deleted := if blk.strong_ref_count_ = 0 ∧ blk.weak_ref_count_ = 1
              then blk.deleted + 1 else blk.deleted },
        ⟨q, if blk.strong_ref_count_ = 0 ∧ blk.weak_ref_count_ = 1 then none else some b⟩) := by
  by_cases hc : blk.strong_ref_count_ = 0 ∧ blk.weak_ref_count_ = 1
  · rw [WeakPtr.Dispose, WeakPtr.DisposeWith_free _ h q b blk hb hc.1 hc.2 (hin hc.1)]
    simp [hc]
  · rw [WeakPtr.Dispose, WeakPtr.DisposeWith_keep _ h q b blk hb hw1 hwM (by omega)]
    simp [hc]

theorem fromPtr_new (fuel : Nat) (h : Heap) (eo es : Bool) :
    SharedPtr.fromPtr fuel (newObject h eo).1 (some (newObject h eo).2) es =
      some (⟨h.blocks ++ [⟨BlockKind.pointer, 1, if eo && es then 1 else 0,
              some h.objects.length, 0⟩],
            h.objects ++ [⟨if eo then some (if es then ⟨some h.objects.length,
              some h.blocks.length⟩ else ⟨none, none⟩) else none, 0⟩]⟩,
        ⟨some h.objects.length, some h.blocks.length⟩) := by
  have h1 : (1 : Nat) % SIZE_MOD = 1 := by decide
  cases eo <;> cases es <;>
  simp [SharedPtr.fromPtr, newObject, IncStrongRef, Heap.modifyBlock, set_append_length,
    SharedPtr.InitWeakThis, WeakPtr.assignShared, WeakPtr.Dispose, WeakPtr.DisposeWith,
    IncWeakRef, Heap.modifyObject, h1]

theorem MakeShared_eq (fuel : Nat) (h : Heap) (e : Bool) :
    MakeShared fuel h e =
      some (⟨h.blocks ++ [⟨BlockKind.holder, 1, if e then 1 else 0,
              some h.objects.length, 0⟩],
            h.objects ++ [⟨if e then some ⟨some h.objects.length, some h.blocks.length⟩
              else none, 0⟩]⟩,
        ⟨some h.objects.length, some h.blocks.length⟩) := by
  have h1 : (1 : Nat) % SIZE_MOD = 1 := by decide
  cases e <;>
  simp [MakeShared, IncStrongRef, Heap.modifyBlock, set_append_length,
    SharedPtr.InitWeakThis, WeakPtr.assignShared, WeakPtr.Dispose, WeakPtr.DisposeWith,
    IncWeakRef, Heap.modifyObject, h1]

/-! ## Expiry after the last owner is gone (C7) -/

theorem get_append_length {α : Type} (l : List α) (x : α) : (l ++ [x])[l.length]? = some x := by
  simp

/-- C7: for every object (plain or self-referencing, reached through a static type with or without
the capability) and every starting heap: construct `S` over `new T`, construct `W` from `S`,
destroy `S`.  All three steps return, and afterwards `W.Expired()` is true, `W.UseCount()` is 0,
`W.Lock()` returns the empty handle without touching the heap, `SharedPtr(W)` throws
`BadWeakPtr`, the object has been destroyed once and the block is still allocated. -/
theorem C7_expired_after_last_owner (n fuel : Nat) (h : Heap) (eo es : Bool) :
    ∃ h2 s h4,
      SharedPtr.fromPtr fuel (newObject h eo).1 (some (newObject h eo).2) es = some (h2, s) ∧
      SharedPtr.destroy (n + 1) (WeakPtr.fromShared h2 s).1 s = some h4 ∧
      (WeakPtr.fromShared h2 s).2.Expired h4 = true ∧
      (WeakPtr.fromShared h2 s).2.UseCount h4 = 0 ∧
      WeakPtr.Lock h4 (WeakPtr.fromShared h2 s).2 = (h4, Except.ok ⟨none, none⟩) ∧
      SharedPtr.fromWeak h4 (WeakPtr.fromShared h2 s).2 = (h4, Except.error BadWeakPtr.mk) ∧
      destroyedCount h4 (newObject h eo).2 = 1 ∧
      deletedCount h4 h.blocks.length = 0 := by
  have hshared : ∀ (u : Nat) (hu : u + 1 < SIZE_MOD) (ob : Object),
      WeakPtr.fromShared
        ⟨h.blocks ++ [⟨BlockKind.pointer, 1, u, some h.objects.length, 0⟩], h.objects ++ [ob]⟩
        ⟨some h.objects.length, some h.blocks.length⟩ =
      (⟨h.blocks ++ [⟨BlockKind.pointer, 1, u + 1, some h.objects.length, 0⟩],
          h.objects ++ [ob]⟩, ⟨some h.objects.length, some h.blocks.length⟩) := by
    intro u hu ob
    simp [WeakPtr.fromShared, IncWeakRef, Heap.modifyBlock, set_append_length,
      Nat.mod_eq_of_lt hu]
  have hdisp : ∀ (u : Nat) (hu : u + 2 < SIZE_MOD) (ob : Object),
      managedOk ⟨h.blocks ++ [⟨BlockKind.pointer, 1, u + 1, some h.objects.length, 0⟩],
          h.objects ++ [ob]⟩ h.blocks.length
        ⟨BlockKind.pointer, 1, u + 1, some h.objects.length, 0⟩ = true →
      ob.weakUnits = u → ob.destroyed = 0 →
      SharedPtr.destroy (n + 1)
        ⟨h.blocks ++ [⟨BlockKind.pointer, 1, u + 1, some h.objects.length, 0⟩],
          h.objects ++ [ob]⟩ ⟨some h.objects.length, some h.blocks.length⟩ =
      some ⟨h.blocks ++ [⟨BlockKind.pointer, 0, 1, none, 0⟩],
          h.objects ++ [ob.afterDtor]⟩ := by
    intro u hu ob hok hun _
    have := SharedPtr.Dispose_last_ok n
      ⟨h.blocks ++ [⟨BlockKind.pointer, 1, u + 1, some h.objects.length, 0⟩],
          h.objects ++ [ob]⟩ (some h.objects.length) h.blocks.length
      ⟨BlockKind.pointer, 1, u + 1, some h.objects.length, 0⟩ (by simp) rfl
      (by simp only; omega) hok
    simp [SharedPtr.destroy, this, selfUnits, hun, runDtor, Heap.modifyObject, Heap.setBlock,
      set_append_length]
  have hfinal : ∀ (ob : Object), ob.destroyed = 1 →
      (⟨some h.objects.length, some h.blocks.length⟩ : WeakPtr).Expired
        ⟨h.blocks ++ [⟨BlockKind.pointer, 0, 1, none, 0⟩], h.objects ++ [ob]⟩ = true ∧
      (⟨some h.objects.length, some h.blocks.length⟩ : WeakPtr).UseCount
        ⟨h.blocks ++ [⟨BlockKind.pointer, 0, 1, none, 0⟩], h.objects ++ [ob]⟩ = 0 ∧
      WeakPtr.Lock ⟨h.blocks ++ [⟨BlockKind.pointer, 0, 1, none, 0⟩], h.objects ++ [ob]⟩
        ⟨some h.objects.length, some h.blocks.length⟩ =
        (⟨h.blocks ++ [⟨BlockKind.pointer, 0, 1, none, 0⟩], h.objects ++ [ob]⟩,
          Except.ok ⟨none, none⟩) ∧
      SharedPtr.fromWeak ⟨h.blocks ++ [⟨BlockKind.pointer, 0, 1, none, 0⟩], h.objects ++ [ob]⟩
        ⟨some h.objects.length, some h.blocks.length⟩ =
        (⟨h.blocks ++ [⟨BlockKind.pointer, 0, 1, none, 0⟩], h.objects ++ [ob]⟩,
          Except.error BadWeakPtr.mk) ∧
      destroyedCount ⟨h.blocks ++ [⟨BlockKind.pointer, 0, 1, none, 0⟩], h.objects ++ [ob]⟩
        h.objects.length = 1 ∧
      deletedCount ⟨h.blocks ++ [⟨BlockKind.pointer, 0, 1, none, 0⟩], h.objects ++ [ob]⟩
        h.blocks.length = 0 := by
    intro ob hd
    simp [WeakPtr.Expired, WeakPtr.UseCount, GetStrongRefCount, WeakPtr.Lock, SharedPtr.fromWeak,
      destroyedCount, deletedCount, hd]
  have key : ∀ (u : Nat) (hu : u + 2 < SIZE_MOD) (ob : Object),
      managedOk ⟨h.blocks ++ [⟨BlockKind.pointer, 1, u + 1, some h.objects.length, 0⟩],
          h.objects ++ [ob]⟩ h.blocks.length
        ⟨BlockKind.pointer, 1, u + 1, some h.objects.length, 0⟩ = true →
      ob.weakUnits = u → ob.destroyed = 0 →
      SharedPtr.fromPtr fuel (newObject h eo).1 (some (newObject h eo).2) es =
        some (⟨h.blocks ++ [⟨BlockKind.pointer, 1, u, some h.objects.length, 0⟩],
          h.objects ++ [ob]⟩, ⟨some h.objects.length, some h.blocks.length⟩) →
      ∃ h2 s h4,
        SharedPtr.fromPtr fuel (newObject h eo).1 (some (newObject h eo).2) es = some (h2, s) ∧
        SharedPtr.destroy (n + 1) (WeakPtr.fromShared h2 s).1 s = some h4 ∧
        (WeakPtr.fromShared h2 s).2.Expired h4 = true ∧
        (WeakPtr.fromShared h2 s).2.UseCount h4 = 0 ∧
        WeakPtr.Lock h4 (WeakPtr.fromShared h2 s).2 = (h4, Except.ok ⟨none, none⟩) ∧
        SharedPtr.fromWeak h4 (WeakPtr.fromShared h2 s).2 = (h4, Except.error BadWeakPtr.mk) ∧
        destroyedCount h4 (newObject h eo).2 = 1 ∧
        deletedCount h4 h.blocks.length = 0 := by
    intro u hu ob hok hun hd hctor
    refine ⟨_, _, ⟨h.blocks ++ [⟨BlockKind.pointer, 0, 1, none, 0⟩],
      h.objects ++ [ob.afterDtor]⟩, hctor, ?_⟩
    rw [hshared u (by omega) ob]
    refine ⟨hdisp u hu ob hok hun hd, ?_⟩
    have := hfinal ob.afterDtor (by simp [Object.afterDtor, hd])
    simpa [newObject] using this
  have hp := fromPtr_new fuel h eo es
  cases eo <;> cases es
  · exact key 0 (by decide) ⟨none, 0⟩ (by simp [managedOk]) rfl rfl hp
  · exact key 0 (by decide) ⟨none, 0⟩ (by simp [managedOk]) rfl rfl hp
  · exact key 0 (by decide) ⟨some ⟨none, none⟩, 0⟩ (by simp [managedOk]) rfl rfl hp
  · exact key 1 (by decide) ⟨some ⟨some h.objects.length, some h.blocks.length⟩, 0⟩
      (by simp [managedOk]) rfl rfl hp

/-! ## Block lifetime (C3) -/

theorem setBlock_get (h : Heap) (b b' : Nat) (blk x : ControlBlock)
    (hb : h.blocks[b]? = some blk) :
    (h.setBlock b x).blocks[b']? = if b = b' then some x else h.blocks[b']? := by
  have hlen := (List.getElem?_eq_some_iff.mp hb).1
  by_cases hbb : b = b'
  · subst hbb; simp [Heap.setBlock, hlen, List.getElem?_set]
  · simp [Heap.setBlock, hbb, List.getElem?_set_ne hbb]

theorem runDtor_blocks (h : Heap) (ptr : Option Nat) : (runDtor h ptr).blocks = h.blocks := by
  cases ptr with
  | none => rfl
  | some o => simp [runDtor, blocks_modifyObject]

theorem SharedPtr.sharedDispose_frees_iff (n : Nat) (h : Heap) (s : SharedPtr) (b : Nat)
    (blk : ControlBlock) (hsb : s.block_ = some b) (hb : h.blocks[b]? = some blk)
    (hs1 : 1 ≤ blk.strong_ref_count_) (hsM : blk.strong_ref_count_ < SIZE_MOD)
    (hwM : blk.weak_ref_count_ + 1 < SIZE_MOD) (hok : managedOk h b blk = true) :
    ∃ h1 s1, SharedPtr.Dispose (n + 1) h s = some (h1, s1) ∧
      deletedCount h1 b = deletedCount h b +
        (if GetStrongRefCount h1 b = 0 ∧ GetWeakRefCount h1 b = 0 then 1 else 0) ∧
      (∀ b', b' ≠ b → deletedCount h1 b' = deletedCount h b') := by
  obtain ⟨p, sb⟩ := s
  simp only at hsb
  subst hsb
  by_cases hs : blk.strong_ref_count_ = 1
  · refine ⟨_, _, SharedPtr.Dispose_last_ok n h p b blk hb hs hwM hok, ?_, ?_⟩
    · have hb' : (runDtor h blk.ptr_).blocks[b]? = some blk := by rw [runDtor_blocks]; exact hb
      simp only [deletedCount, GetStrongRefCount, GetWeakRefCount,
        setBlock_get _ b b blk _ hb', if_true, hb, true_and]
      split <;> simp
    · intro b' hne
      have hb' : (runDtor h blk.ptr_).blocks[b]? = some blk := by rw [runDtor_blocks]; exact hb
      simp only [deletedCount, setBlock_get _ b b' blk _ hb', Ne.symm hne, if_false,
        runDtor_blocks]
  · refine ⟨_, _, SharedPtr.Dispose_shared (n + 1) h p b blk hb (by omega) hsM (by omega),
      ?_, ?_⟩
    · have : blk.strong_ref_count_ - 1 ≠ 0 := by omega
      simp [deletedCount, GetStrongRefCount, setBlock_get _ b b blk _ hb, hb, this]
    · intro b' hne
      simp only [deletedCount, setBlock_get _ b b' blk _ hb, Ne.symm hne, if_false]

theorem WeakPtr.weakDispose_frees_iff (fuel : Nat) (h : Heap) (w : WeakPtr) (b : Nat)
    (blk : ControlBlock) (hwb : w.block_ = some b) (hb : h.blocks[b]? = some blk)
    (hw1 : 1 ≤ blk.weak_ref_count_) (hwM : blk.weak_ref_count_ < SIZE_MOD)
    (hin : blk.strong_ref_count_ = 0 → blk.kind = BlockKind.holder ∨ blk.ptr_ = none) :
    ∃ h1 w1, WeakPtr.Dispose fuel h w = some (h1, w1) ∧
      deletedCount h1 b = deletedCount h b +
        (if GetStrongRefCount h1 b = 0 ∧ GetWeakRefCount h1 b = 0 then 1 else 0) ∧
      (∀ b', b' ≠ b → deletedCount h1 b' = deletedCount h b') := by
  obtain ⟨q, wb⟩ := w
  simp only at hwb
  subst hwb
  refine ⟨_, _, WeakPtr.Dispose_ok fuel h q b blk hb hw1 hwM hin, ?_, ?_⟩
  · simp only [deletedCount, GetStrongRefCount, GetWeakRefCount,
      setBlock_get _ b b blk _ hb, if_true, hb]
    have : blk.weak_ref_count_ - 1 = 0 ↔ blk.weak_ref_count_ = 1 := by omega
    simp only [this]
    split <;> simp
  · intro b' hne
    simp only [deletedCount, setBlock_get _ b b' blk _ hb, Ne.symm hne, if_false]

theorem managedOk_of_units_zero (h h' : Heap) (b : Nat) (blk blk' : ControlBlock)
    (hok : managedOk h b blk = true) (hu : selfUnits h blk = 0)
    (hobj : h'.objects = h.objects) (hp : blk'.ptr_ = blk.ptr_) :
    managedOk h' b blk' = true ∧ selfUnits h' blk' = 0 := by
  unfold managedOk selfUnits at *
  rw [hobj, hp]
  cases hpt : blk.ptr_ with
  | none => simp
  | some o =>
    simp only [hpt] at hok hu ⊢
    cases ho : h.objects[o]? with
    | none => simp [ho] at hok
    | some ob =>
      simp only [ho] at hok hu ⊢
      refine ⟨?_, hu⟩
      rcases ob.weakUnits_cases with ⟨_, hnone⟩ | ⟨h1, _⟩
      · cases hwt : ob.weak_this_ with
        | none => rfl
        | some wt => simp [hnone wt hwt]
      · omega

/-- C3: a block is freed by the disposal that leaves both counters at 0, and only by it.
For a block with counts (1, 1) held by a `SharedPtr` `S` and a `WeakPtr` `W` (the managed object
holding no weak unit of its own): destroying `S` leaves the block allocated with counts (0, 1)
and destroying `W` afterwards frees it; destroying `W` first leaves it allocated with (1, 0) and
destroying `S` afterwards frees it; either way it has been freed once.  In general a
`SharedPtr::Dispose` or `WeakPtr::Dispose` on a block raises that block's deletion count by one
if both counters are 0 afterwards and by nothing otherwise, and changes no other block's. -/
theorem C3_block_freed_once_when_both_zero (n fuel : Nat) (h : Heap) (S : SharedPtr) (W : WeakPtr)
    (b : Nat) (blk : ControlBlock) (hS : S.block_ = some b) (hW : W.block_ = some b)
    (hb : h.blocks[b]? = some blk) (hs : blk.strong_ref_count_ = 1)
    (hw : blk.weak_ref_count_ = 1) (hd : blk.deleted = 0)
    (hok : managedOk h b blk = true) (hu : selfUnits h blk = 0) :
    (∃ h1, SharedPtr.destroy (n + 1) h S = some h1 ∧
      GetStrongRefCount h1 b = 0 ∧ GetWeakRefCount h1 b = 1 ∧ deletedCount h1 b = 0 ∧
      ∃ h2, WeakPtr.destroy fuel h1 W = some h2 ∧
        GetStrongRefCount h2 b = 0 ∧ GetWeakRefCount h2 b = 0 ∧ deletedCount h2 b = 1) ∧
    (∃ h1, WeakPtr.destroy fuel h W = some h1 ∧
      GetStrongRefCount h1 b = 1 ∧ GetWeakRefCount h1 b = 0 ∧ deletedCount h1 b = 0 ∧
      ∃ h2, SharedPtr.destroy (n + 1) h1 S = some h2 ∧
        GetStrongRefCount h2 b = 0 ∧ GetWeakRefCount h2 b = 0 ∧ deletedCount h2 b = 1) ∧
    (∀ (h' : Heap) (s : SharedPtr) (b' : Nat) (blk' : ControlBlock),
      s.block_ = some b' → h'.blocks[b']? = some blk' →
      1 ≤ blk'.strong_ref_count_ → blk'.strong_ref_count_ < SIZE_MOD →
      blk'.weak_ref_count_ + 1 < SIZE_MOD → managedOk h' b' blk' = true →
      ∃ h1 s1, SharedPtr.Dispose (n + 1) h' s = some (h1, s1) ∧
        deletedCount h1 b' = deletedCount h' b' +
          (if GetStrongRefCount h1 b' = 0 ∧ GetWeakRefCount h1 b' = 0 then 1 else 0) ∧
        (∀ c, c ≠ b' → deletedCount h1 c = deletedCount h' c)) ∧
    (∀ (h' : Heap) (w : WeakPtr) (b' : Nat) (blk' : ControlBlock),
      w.block_ = some b' → h'.blocks[b']? = some blk' →
      1 ≤ blk'.weak_ref_count_ → blk'.weak_ref_count_ < SIZE_MOD →
      (blk'.strong_ref_count_ = 0 → blk'.kind = BlockKind.holder ∨ blk'.ptr_ = none) →
      ∃ h1 w1, WeakPtr.Dispose fuel h' w = some (h1, w1) ∧
        deletedCount h1 b' = deletedCount h' b' +
          (if GetStrongRefCount h1 b' = 0 ∧ GetWeakRefCount h1 b' = 0 then 1 else 0) ∧
        (∀ c, c ≠ b' → deletedCount h1 c = deletedCount h' c)) := by
  obtain ⟨p, sb⟩ := S
  obtain ⟨q, wb⟩ := W
  simp only at hS hW
  subst hS hW
  obtain ⟨k, s0, w0, pt, d0⟩ := blk
  simp only at hs hw hd
  subst hs hw hd
  have hlen := (List.getElem?_eq_some_iff.mp hb).1
  have hrb : (runDtor h pt).blocks[b]? = some ⟨k, 1, 1, pt, 0⟩ := by
    rw [runDtor_blocks]; exact hb
  have hrlen : b < (runDtor h pt).blocks.length := by rw [runDtor_blocks]; exact hlen
  have c2 : (1 : Nat) + 1 < SIZE_MOD := by decide
  have c1 : (1 : Nat) < SIZE_MOD := by decide
  have c0 : (0 : Nat) + 1 < SIZE_MOD := by decide
  refine ⟨?_, ?_, ?_, ?_⟩
  · have hd1 := SharedPtr.Dispose_last_ok n h p b _ hb rfl c2 hok
    simp only [hu, Nat.sub_zero, Nat.one_ne_zero, if_false] at hd1
    have hb1 := setBlock_get (runDtor h pt) b b _
      ⟨k, 0, 1, if k = BlockKind.pointer then none else pt, 0⟩ hrb
    simp only [if_true] at hb1
    have hd2 := WeakPtr.Dispose_ok fuel _ q b _ hb1 (Nat.le_refl 1) c1
      (by intro _; cases k <;> simp)
    refine ⟨_, by rw [SharedPtr.destroy, hd1]; rfl, ?_, ?_, ?_, ?_⟩
    · simp [GetStrongRefCount, hb1]
    · simp [GetWeakRefCount, hb1]
    · simp [deletedCount, hb1]
    · refine ⟨_, by rw [WeakPtr.destroy, hd2]; rfl, ?_, ?_, ?_⟩ <;>
      simp [GetStrongRefCount, GetWeakRefCount, deletedCount, Heap.setBlock, hrlen,
        List.getElem?_set]
  · have hd1 := WeakPtr.Dispose_ok fuel h q b _ hb (Nat.le_refl 1) c1 (by simp)
    simp only [Nat.one_ne_zero, false_and, if_false, Nat.sub_self] at hd1
    have hb1 := setBlock_get h b b _ ⟨k, 1, 0, pt, 0⟩ hb
    simp only [if_true] at hb1
    obtain ⟨hok1, hu1⟩ := managedOk_of_units_zero h (h.setBlock b ⟨k, 1, 0, pt, 0⟩) b
      ⟨k, 1, 1, pt, 0⟩ ⟨k, 1, 0, pt, 0⟩ hok hu rfl rfl
    have hd2 := SharedPtr.Dispose_last_ok n _ p b _ hb1 rfl c0 hok1
    simp only [hu1, Nat.sub_zero, if_true] at hd2
    refine ⟨_, by rw [WeakPtr.destroy, hd1]; rfl, ?_, ?_, ?_, ?_⟩
    · simp [GetStrongRefCount, hb1]
    · simp [GetWeakRefCount, hb1]
    · simp [deletedCount, hb1]
    · have hb2 : (runDtor (h.setBlock b ⟨k, 1, 0, pt, 0⟩) pt).blocks[b]? =
          some ⟨k, 1, 0, pt, 0⟩ := by rw [runDtor_blocks]; exact hb1
      refine ⟨_, by rw [SharedPtr.destroy, hd2]; rfl, ?_, ?_, ?_⟩ <;>
      simp [GetStrongRefCount, GetWeakRefCount, deletedCount, setBlock_get _ b b _ _ hb2]
  · intro h' s b' blk' hsb hb' hs1 hsM hwM hok'
    exact SharedPtr.sharedDispose_frees_iff n h' s b' blk' hsb hb' hs1 hsM hwM hok'
  · intro h' w b' blk' hwb hb' hw1 hwM hin
    exact WeakPtr.weakDispose_frees_iff fuel h' w b' blk' hwb hb' hw1 hwM hin

/-- Witness for C3: the heap built by `S = SharedPtr(new T)` and `W = WeakPtr(S)` from the empty
heap; destroying `S` and then `W` frees the block. -/
theorem C3_block_freed_once_when_both_zero_witness :
    ∃ h1, SharedPtr.destroy 1 ⟨[⟨BlockKind.pointer, 1, 1, some 0, 0⟩], [⟨none, 0⟩]⟩
        ⟨some 0, some 0⟩ = some h1 ∧
      GetStrongRefCount h1 0 = 0 ∧ GetWeakRefCount h1 0 = 1 ∧ deletedCount h1 0 = 0 ∧
      ∃ h2, WeakPtr.destroy 0 h1 ⟨some 0, some 0⟩ = some h2 ∧
        GetStrongRefCount h2 0 = 0 ∧ GetWeakRefCount h2 0 = 0 ∧ deletedCount h2 0 = 1 :=
  (C3_block_freed_once_when_both_zero 0 0 ⟨[⟨BlockKind.pointer, 1, 1, some 0, 0⟩], [⟨none, 0⟩]⟩
    ⟨some 0, some 0⟩ ⟨some 0, some 0⟩ 0 ⟨BlockKind.pointer, 1, 1, some 0, 0⟩
    rfl rfl rfl rfl rfl rfl rfl rfl).1

/-! ## Counting lemmas -/

theorem countP_set_add {α : Type} (p : α → Bool) (l : List α) (i : Nat) (a x : α)
    (hi : l[i]? = some a) :
    (l.set i x).countP p + (if p a then 1 else 0) = l.countP p + (if p x then 1 else 0) := by
  induction l generalizing i with
  | nil => simp at hi
  | cons y ys ih =>
    cases i with
    | zero =>
      simp at hi
      subst hi
      simp [List.countP_cons]
      omega
    | succ j =>
      simp at hi
      have := ih j hi
      simp [List.countP_cons]
      omega

theorem countP_concat {α : Type} (p : α → Bool) (l : List α) (x : α) :
    (l ++ [x]).countP p = l.countP p + (if p x then 1 else 0) := by
  simp [List.countP_append, List.countP_cons]

theorem afterDtor_holds_none (ob : Object) (b : Nat) : objHoldsBlock b ob.afterDtor = false := by
  obtain ⟨wt, d⟩ := ob
  cases wt <;> simp [objHoldsBlock, Object.afterDtor]

theorem objHolds_weakUnits (ob : Object) (b : Nat) (hh : objHoldsBlock b ob = true) :
    ob.weakUnits = 1 := by
  obtain ⟨wt, d⟩ := ob
  cases wt with
  | none => simp [objHoldsBlock] at hh
  | some w =>
    obtain ⟨q, wb⟩ := w
    cases wb with
    | none => simp [objHoldsBlock] at hh
    | some b' => rfl

/-- Under `managedOk`, the managed object holds block `b'` exactly when `b' = b` and it holds a
weak unit at all. -/
theorem managedOk_holds (h : Heap) (b o : Nat) (blk : ControlBlock) (ob : Object)
    (hok : managedOk h b blk = true) (hp : blk.ptr_ = some o) (ho : h.objects[o]? = some ob)
    (b' : Nat) :
    (if objHoldsBlock b' ob then 1 else 0) = (if b' = b then ob.weakUnits else 0) := by
  obtain ⟨ob1, ho1, hself⟩ := managedOk_some h b o blk hok hp
  rw [ho] at ho1
  cases ho1
  rcases ob.weakUnits_cases with ⟨h0, hnone⟩ | ⟨h1, q, bb, hwt⟩
  · have : objHoldsBlock b' ob = false := by
      unfold objHoldsBlock
      cases hwt : ob.weak_this_ with
      | none => rfl
      | some wt => simp [hnone wt hwt]
    simp [this, h0]
  · rcases hself _ hwt with hc | ⟨hc, _⟩
    · simp at hc
    · simp at hc
      subst hc
      by_cases hbb : b' = bb
      · subst hbb; simp [objHoldsBlock, hwt, h1]
      · have : objHoldsBlock b' ob = false := by
          simp [objHoldsBlock, hwt]; exact fun hx => hbb hx.symm
        simp [this, hbb]

theorem objUnits_runDtor (h : Heap) (b : Nat) (blk : ControlBlock)
    (hok : managedOk h b blk = true) (b' : Nat) :
    (runDtor h blk.ptr_).objUnits b' + (if b' = b then selfUnits h blk else 0) =
      h.objUnits b' := by
  cases hp : blk.ptr_ with
  | none => simp [runDtor, selfUnits, hp]
  | some o =>
    obtain ⟨ob, ho, _⟩ := managedOk_some h b o blk hok hp
    have hc := countP_set_add (objHoldsBlock b') h.objects o ob ob.afterDtor ho
    rw [afterDtor_holds_none] at hc
    simp only [Bool.false_eq_true, if_false, Nat.add_zero] at hc
    rw [managedOk_holds h b o blk ob hok hp ho b'] at hc
    simp only [runDtor, Heap.objUnits, modifyObject_eq h o _ ob ho, selfUnits, hp, ho]
    exact hc

theorem managedOk_mono (h h' : Heap) (b : Nat) (blk blk' : ControlBlock)
    (hok : managedOk h b blk = true) (hp : blk'.ptr_ = blk.ptr_ ∨ blk'.ptr_ = none)
    (hobj : ∀ o ob, blk.ptr_ = some o → h.objects[o]? = some ob →
      ∃ ob', h'.objects[o]? = some ob' ∧
        ((ob'.weak_this_ = ob.weak_this_ ∧
            (1 ≤ blk.weak_ref_count_ → 1 ≤ blk'.weak_ref_count_)) ∨
          ob' = ob.afterDtor)) :
    managedOk h' b blk' = true := by
  rcases hp with hp | hp
  swap
  · simp [managedOk, hp]
  cases hpt : blk.ptr_ with
  | none => simp [managedOk, hp, hpt]
  | some o =>
    obtain ⟨ob, ho, hself⟩ := managedOk_some h b o blk hok hpt
    obtain ⟨ob', ho', hrel⟩ := hobj o ob hpt ho
    simp only [managedOk, hp, hpt, ho']
    rcases hrel with ⟨hsame, hw⟩ | hdt
    · cases hwt : ob'.weak_this_ with
      | none => rfl
      | some wt =>
        rcases hself wt (by rw [← hsame, hwt]) with hn | ⟨hb, h1⟩
        · simp [hn]
        · simp [hb, hw h1]
    · subst hdt
      obtain ⟨wt, d⟩ := ob
      cases wt <;> simp [Object.afterDtor]

theorem runDtor_objects_get (h : Heap) (ptr : Option Nat) (o : Nat) :
    (runDtor h ptr).objects[o]? =
      if ptr = some o then (h.objects[o]?).map Object.afterDtor else h.objects[o]? := by
  cases ptr with
  | none => simp [runDtor]
  | some p =>
    simp only [runDtor, objects_modifyObject_get, Option.some.injEq]

theorem runDtor_objects_length (h : Heap) (ptr : Option Nat) :
    (runDtor h ptr).objects.length = h.objects.length := by
  cases ptr with
  | none => rfl
  | some p => simp [runDtor, length_modifyObject]

theorem managedOk_runDtor (h : Heap) (ptr : Option Nat) (b c : Nat) (blk x : ControlBlock)
    (hok : managedOk h b blk = true) :
    managedOk ((runDtor h ptr).setBlock c x) b blk = true := by
  refine managedOk_mono h _ b blk blk hok (Or.inl rfl) ?_
  intro o ob _ ho
  have hg : ((runDtor h ptr).setBlock c x).objects[o]? =
      if ptr = some o then (h.objects[o]?).map Object.afterDtor else h.objects[o]? :=
    runDtor_objects_get h ptr o
  by_cases hpo : ptr = some o
  · exact ⟨ob.afterDtor, by rw [hg]; simp [hpo, ho], Or.inr rfl⟩
  · exact ⟨ob, by rw [hg]; simp [hpo, ho], Or.inl ⟨rfl, fun x => x⟩⟩

/-! ## The counting invariant under the heap operations -/

theorem HeapInv.block_of_held {h : Heap} {hold wk : Nat → Nat} (hinv : HeapInv h hold wk)
    (b : Nat) (hh : 1 ≤ hold b) : ∃ blk, h.blocks[b]? = some blk ∧ blk.deleted = 0 := by
  cases hb : h.blocks[b]? with
  | none =>
    have := (hinv.fresh b (List.getElem?_eq_none_iff.mp hb)).1
    omega
  | some blk =>
    by_cases hd : blk.deleted = 0
    · exact ⟨blk, rfl, hd⟩
    · have := (hinv.dead b blk hb hd).1
      omega

theorem objUnits_setBlock (h : Heap) (b : Nat) (x : ControlBlock) (b' : Nat) :
    (h.setBlock b x).objUnits b' = h.objUnits b' := rfl

theorem managedOk_same_objects (h h' : Heap) (b : Nat) (blk blk' : ControlBlock)
    (hok : managedOk h b blk = true) (hp : blk'.ptr_ = blk.ptr_)
    (hw : 1 ≤ blk.weak_ref_count_ → 1 ≤ blk'.weak_ref_count_)
    (hobj : h'.objects = h.objects) : managedOk h' b blk' = true :=
  managedOk_mono h h' b blk blk' hok (Or.inl hp)
    (fun o ob _ ho => ⟨ob, by rw [hobj]; exact ho, Or.inl ⟨rfl, hw⟩⟩)

theorem HeapInv.dispose_shared {h : Heap} {hold wk : Nat → Nat} (hinv : HeapInv h hold wk)
    (b : Nat) (blk : ControlBlock) (hb : h.blocks[b]? = some blk) (hd : blk.deleted = 0)
    (hs : 2 ≤ blk.strong_ref_count_) (hold' : Nat → Nat)
    (hh' : ∀ b', hold' b' + (if b' = b then 1 else 0) = hold b') :
    HeapInv (h.setBlock b { blk with strong_ref_count_ := blk.strong_ref_count_ - 1 })
      hold' wk := by
  obtain ⟨hl1, hl2, hl3, _⟩ := hinv.live b blk hb hd
  constructor
  · intro b' blk' hb' hd'
    rw [setBlock_get h b b' blk _ hb] at hb'
    by_cases hbb : b = b'
    · subst hbb
      simp only [if_true, Option.some.injEq] at hb'
      subst hb'
      have := hh' b
      simp only [if_true] at this
      refine ⟨by simp only; omega, by simpa [objUnits_setBlock] using hl2, ?_, ?_⟩
      · exact managedOk_same_objects h _ b blk _ hl3 rfl (fun x => x) rfl
      · intro h0; simp only at h0; omega
    · simp only [hbb, if_false] at hb'
      obtain ⟨g1, g2, g3, g4⟩ := hinv.live b' blk' hb' hd'
      have := hh' b'
      simp only [Ne.symm hbb, if_false, Nat.add_zero] at this
      refine ⟨by omega, by simpa [objUnits_setBlock] using g2, ?_, g4⟩
      exact managedOk_same_objects h _ b' blk' _ g3 rfl (fun x => x) rfl
  · intro b' blk' hb' hd'
    rw [setBlock_get h b b' blk _ hb] at hb'
    by_cases hbb : b = b'
    · subst hbb
      simp only [if_true, Option.some.injEq] at hb'
      subst hb'
      exact absurd hd hd'
    · simp only [hbb, if_false] at hb'
      have := hh' b'
      simp only [Ne.symm hbb, if_false, Nat.add_zero] at this
      rw [this, objUnits_setBlock]
      exact hinv.dead b' blk' hb' hd'
  · intro b' hlen
    have hblen := (List.getElem?_eq_some_iff.mp hb).1
    have hlen' : h.blocks.length ≤ b' := by simpa [Heap.setBlock] using hlen
    have hbb : b' ≠ b := by omega
    have := hh' b'
    simp only [hbb, if_false, Nat.add_zero] at this
    rw [this, objUnits_setBlock]
    exact hinv.fresh b' hlen'

theorem HeapInv.dispose_last {h : Heap} {hold wk : Nat → Nat} (hinv : HeapInv h hold wk)
    (b : Nat) (blk : ControlBlock) (hb : h.blocks[b]? = some blk) (hd : blk.deleted = 0)
    (hs : blk.strong_ref_count_ = 1) (hold' : Nat → Nat)
    (hh' : ∀ b', hold' b' + (if b' = b then 1 else 0) = hold b') :
    HeapInv ((runDtor h blk.ptr_).setBlock b
        { kind := blk.kind
          strong_ref_count_ := 0
          weak_ref_count_ := blk.weak_ref_count_ - selfUnits h blk
          ptr_ := if blk.kind = BlockKind.pointer then none else blk.ptr_
          deleted := if blk.weak_ref_count_ - selfUnits h blk = 0
            then blk.deleted + 1 else blk.deleted })
      hold' wk := by
  obtain ⟨hl1, hl2, hl3, _⟩ := hinv.live b blk hb hd
  have hF1 := objUnits_runDtor h b blk hl3
  have hrb : (runDtor h blk.ptr_).blocks[b]? = some blk := by rw [runDtor_blocks]; exact hb
  have hholdb : hold' b = 0 := by
    have := hh' b
    simp only [if_true] at this
    omega
  have hub := hF1 b
  simp only [if_true] at hub
  have hother : ∀ b', b' ≠ b → hold' b' = hold b' ∧
      (runDtor h blk.ptr_).objUnits b' = h.objUnits b' := by
    intro b' hne
    have h1 := hh' b'
    have h2 := hF1 b'
    simp only [hne, if_false, Nat.add_zero] at h1 h2
    exact ⟨h1, h2⟩
  constructor
  · intro b' blk' hb' hd'
    rw [setBlock_get _ b b' blk _ hrb] at hb'
    by_cases hbb : b = b'
    · subst hbb
      simp only [if_true, Option.some.injEq] at hb'
      subst hb'
      simp only at hd' ⊢
      refine ⟨hholdb.symm, ?_, ?_, ?_⟩
      · rw [objUnits_setBlock]; omega
      · refine managedOk_mono h _ b blk _ hl3 ?_ ?_
        · simp only
          cases blk.kind <;> simp
        · intro o ob hp ho
          refine ⟨ob.afterDtor, ?_, Or.inr rfl⟩
          show (runDtor h blk.ptr_).objects[o]? = some ob.afterDtor
          rw [runDtor_objects_get h blk.ptr_ o]; simp [hp, ho]
      · intro _
        cases blk.kind <;> simp
    · simp only [hbb, if_false, runDtor_blocks] at hb'
      obtain ⟨g1, g2, g3, g4⟩ := hinv.live b' blk' hb' hd'
      obtain ⟨e1, e2⟩ := hother b' (Ne.symm hbb)
      refine ⟨by omega, by rw [objUnits_setBlock]; omega, ?_, g4⟩
      exact managedOk_runDtor h blk.ptr_ b' b blk' _ g3
  · intro b' blk' hb' hd'
    rw [setBlock_get _ b b' blk _ hrb] at hb'
    by_cases hbb : b = b'
    · subst hbb
      simp only [if_true, Option.some.injEq] at hb'
      subst hb'
      simp only at hd'
      have hz : blk.weak_ref_count_ - selfUnits h blk = 0 := by
        by_contra hne
        simp only [hne, if_false] at hd'
        exact hd' hd
      rw [objUnits_setBlock]
      refine ⟨hholdb, ?_, ?_⟩ <;> omega
    · simp only [hbb, if_false, runDtor_blocks] at hb'
      obtain ⟨e1, e2⟩ := hother b' (Ne.symm hbb)
      rw [e1, objUnits_setBlock, e2]
      exact hinv.dead b' blk' hb' hd'
  · intro b' hlen
    have hblen := (List.getElem?_eq_some_iff.mp hb).1
    have hlen' : h.blocks.length ≤ b' := by
      simpa [Heap.setBlock, runDtor_blocks] using hlen
    obtain ⟨e1, e2⟩ := hother b' (by omega)
    rw [e1, objUnits_setBlock, e2]
    exact hinv.fresh b' hlen'

theorem HeapInv.dispose (n : Nat) {h : Heap} {hold wk : Nat → Nat} (hinv : HeapInv h hold wk)
    (s : SharedPtr) (b : Nat) (hsb : s.block_ = some b) (hh : 1 ≤ hold b)
    (hM : hold b < SIZE_MOD) (hwM : wk b + h.objUnits b + 1 < SIZE_MOD) :
    ∃ h' s1, SharedPtr.Dispose (n + 1) h s = some (h', s1) ∧
      (∀ hold', (∀ b', hold' b' + (if b' = b then 1 else 0) = hold b') →
        HeapInv h' hold' wk) ∧
      h'.blocks.length = h.blocks.length ∧ h'.objects.length = h.objects.length ∧
      s1.ptr_ = s.ptr_ ∧
      (s1.block_ = none ∨
        (s1.block_ = some b ∧ ∃ blk', h'.blocks[b]? = some blk' ∧ blk'.deleted = 0)) ∧
      (∀ (o : Nat) (ob' : Object), h'.objects[o]? = some ob' →
        ∃ ob : Object, h.objects[o]? = some ob ∧ (ob' = ob ∨ ob' = ob.afterDtor)) := by
  obtain ⟨p, sb⟩ := s
  simp only at hsb
  subst hsb
  obtain ⟨blk, hb, hd⟩ := hinv.block_of_held b hh
  obtain ⟨hl1, hl2, hl3, _⟩ := hinv.live b blk hb hd
  have hblen := (List.getElem?_eq_some_iff.mp hb).1
  by_cases hs : blk.strong_ref_count_ = 1
  · have hrb : (runDtor h blk.ptr_).blocks[b]? = some blk := by rw [runDtor_blocks]; exact hb
    refine ⟨_, _, SharedPtr.Dispose_last_ok n h p b blk hb hs (by omega) hl3,
      fun hold' hh' => hinv.dispose_last b blk hb hd hs hold' hh', ?_, ?_, rfl, ?_, ?_⟩
    · simp [Heap.setBlock, runDtor_blocks]
    · simp [Heap.setBlock, runDtor_objects_length]
    · by_cases hz : blk.weak_ref_count_ - selfUnits h blk = 0
      · left; simp [hz]
      · right
        refine ⟨by simp [hz], ?_⟩
        rw [setBlock_get _ b b blk _ hrb]
        simp [hz, hd]
    · intro o ob' ho'
      have hg : (runDtor h blk.ptr_).objects[o]? = some ob' := ho'
      rw [runDtor_objects_get] at hg
      by_cases hpo : blk.ptr_ = some o
      · simp only [hpo, if_true] at hg
        cases ho : h.objects[o]? with
        | none => simp [ho] at hg
        | some ob =>
          simp [ho] at hg
          exact ⟨ob, rfl, Or.inr hg.symm⟩
      · simp only [hpo, if_false] at hg
        exact ⟨ob', hg, Or.inl rfl⟩
  · have hs2 : 2 ≤ blk.strong_ref_count_ := by omega
    refine ⟨_, _, SharedPtr.Dispose_shared (n + 1) h p b blk hb hs2 (by omega) (by omega),
      fun hold' hh' => hinv.dispose_shared b blk hb hd hs2 hold' hh', ?_, ?_, rfl, ?_, ?_⟩
    · simp [Heap.setBlock]
    · simp [Heap.setBlock]
    · right
      refine ⟨rfl, ?_⟩
      rw [setBlock_get _ b b blk _ hb]
      simp [hd]
    · intro o ob' ho'
      exact ⟨ob', ho', Or.inl rfl⟩

theorem HeapInv.incStrong {h : Heap} {hold wk : Nat → Nat} (hinv : HeapInv h hold wk)
    (b : Nat) (blk : ControlBlock) (hb : h.blocks[b]? = some blk) (hd : blk.deleted = 0)
    (hM : hold b + 1 < SIZE_MOD) (hold' : Nat → Nat)
    (hh' : ∀ b', hold' b' = hold b' + (if b' = b then 1 else 0)) :
    HeapInv (IncStrongRef h b) hold' wk := by
  obtain ⟨hl1, hl2, hl3, _⟩ := hinv.live b blk hb hd
  have hmod : (blk.strong_ref_count_ + 1) % SIZE_MOD = blk.strong_ref_count_ + 1 :=
    Nat.mod_eq_of_lt (by omega)
  rw [IncStrongRef_eq h b blk hb, hmod]
  constructor
  · intro b' blk' hb' hd'
    rw [setBlock_get h b b' blk _ hb] at hb'
    by_cases hbb : b = b'
    · subst hbb
      simp only [if_true, Option.some.injEq] at hb'
      subst hb'
      have := hh' b
      simp only [if_true] at this
      refine ⟨by simp only; omega, by simpa [objUnits_setBlock] using hl2, ?_, ?_⟩
      · exact managedOk_same_objects h _ b blk _ hl3 rfl (fun x => x) rfl
      · intro h0; simp only at h0; omega
    · simp only [hbb, if_false] at hb'
      obtain ⟨g1, g2, g3, g4⟩ := hinv.live b' blk' hb' hd'
      have := hh' b'
      simp only [Ne.symm hbb, if_false, Nat.add_zero] at this
      refine ⟨by omega, by simpa [objUnits_setBlock] using g2, ?_, g4⟩
      exact managedOk_same_objects h _ b' blk' _ g3 rfl (fun x => x) rfl
  · intro b' blk' hb' hd'
    rw [setBlock_get h b b' blk _ hb] at hb'
    by_cases hbb : b = b'
    · subst hbb
      simp only [if_true, Option.some.injEq] at hb'
      subst hb'
      exact absurd hd hd'
    · simp only [hbb, if_false] at hb'
      have := hh' b'
      simp only [Ne.symm hbb, if_false, Nat.add_zero] at this
      rw [this, objUnits_setBlock]
      exact hinv.dead b' blk' hb' hd'
  · intro b' hlen
    have hblen := (List.getElem?_eq_some_iff.mp hb).1
    have hlen' : h.blocks.length ≤ b' := by simpa [Heap.setBlock] using hlen
    have hbb : b' ≠ b := by omega
    have := hh' b'
    simp only [hbb, if_false, Nat.add_zero] at this
    rw [this, objUnits_setBlock]
    exact hinv.fresh b' hlen'

theorem get_append_of_some {α : Type} (l l2 : List α) (i : Nat) (a : α) (hi : l[i]? = some a) :
    (l ++ l2)[i]? = some a := by
  have hlt := (List.getElem?_eq_some_iff.mp hi).1
  rw [List.getElem?_append_left hlt]; exact hi

theorem get_concat_cases {α : Type} (l : List α) (x a : α) (i : Nat)
    (hi : (l ++ [x])[i]? = some a) : l[i]? = some a ∨ (i = l.length ∧ a = x) := by
  by_cases hlt : i < l.length
  · rw [List.getElem?_append_left hlt] at hi; exact Or.inl hi
  · have hle : l.length ≤ i := Nat.le_of_not_lt hlt
    rw [List.getElem?_append_right hle] at hi
    have hlt2 := (List.getElem?_eq_some_iff.mp hi).1
    simp at hlt2
    have : i = l.length := by omega
    subst this
    simp at hi
    exact Or.inr ⟨rfl, hi.symm⟩

theorem managedOk_append (h : Heap) (bs : List ControlBlock) (objs : List Object) (b : Nat)
    (blk : ControlBlock) (hok : managedOk h b blk = true) :
    managedOk ⟨bs, h.objects ++ objs⟩ b blk = true :=
  managedOk_mono h _ b blk blk hok (Or.inl rfl)
    (fun _ ob _ ho => ⟨ob, get_append_of_some _ _ _ _ ho, Or.inl ⟨rfl, fun x => x⟩⟩)

theorem HeapInv.alloc {h : Heap} {hold wk : Nat → Nat} (hinv : HeapInv h hold wk)
    (nb : ControlBlock) (objs : List Object)
    (hnd : nb.deleted = 0) (hns : nb.strong_ref_count_ = 1)
    (hnw : nb.weak_ref_count_ = objs.countP (objHoldsBlock h.blocks.length))
    (hobjs : ∀ ob ∈ objs, ∀ b', objHoldsBlock b' ob = true → b' = h.blocks.length)
    (hok : managedOk ⟨h.blocks ++ [nb], h.objects ++ objs⟩ h.blocks.length nb = true)
    (hold' : Nat → Nat)
    (hh' : ∀ b', hold' b' = hold b' + (if b' = h.blocks.length then 1 else 0)) :
    HeapInv ⟨h.blocks ++ [nb], h.objects ++ objs⟩ hold' wk := by
  have hunits : ∀ b', (⟨h.blocks ++ [nb], h.objects ++ objs⟩ : Heap).objUnits b' =
      h.objUnits b' + objs.countP (objHoldsBlock b') := by
    intro b'; simp [Heap.objUnits, List.countP_append]
  have hzero : ∀ b', b' ≠ h.blocks.length → objs.countP (objHoldsBlock b') = 0 := by
    intro b' hne
    rw [List.countP_eq_zero]
    intro ob hob hc
    exact hne (hobjs ob hob b' hc)
  obtain ⟨f1, f2, f3⟩ := hinv.fresh h.blocks.length (Nat.le_refl _)
  constructor
  · intro b' blk' hb' hd'
    rcases get_concat_cases _ _ _ _ hb' with hold_ | ⟨hbl, hblk⟩
    · have hlt := (List.getElem?_eq_some_iff.mp hold_).1
      have hne : b' ≠ h.blocks.length := by omega
      obtain ⟨g1, g2, g3, g4⟩ := hinv.live b' blk' hold_ hd'
      have := hh' b'
      simp only [hne, if_false, Nat.add_zero] at this
      refine ⟨by omega, by rw [hunits, hzero b' hne]; omega, ?_, g4⟩
      exact managedOk_append h _ objs b' blk' g3
    · subst hbl hblk
      have := hh' h.blocks.length
      simp only [if_true] at this
      refine ⟨by omega, by rw [hunits]; omega, hok, ?_⟩
      intro h0; omega
  · intro b' blk' hb' hd'
    rcases get_concat_cases _ _ _ _ hb' with hold_ | ⟨hbl, hblk⟩
    · have hlt := (List.getElem?_eq_some_iff.mp hold_).1
      have hne : b' ≠ h.blocks.length := by omega
      obtain ⟨g1, g2, g3⟩ := hinv.dead b' blk' hold_ hd'
      have := hh' b'
      simp only [hne, if_false, Nat.add_zero] at this
      exact ⟨by omega, g2, by rw [hunits, hzero b' hne]; omega⟩
    · subst hblk
      exact absurd hnd hd'
  · intro b' hlen
    have hlen' : h.blocks.length + 1 ≤ b' := by simpa using hlen
    have hne : b' ≠ h.blocks.length := by omega
    obtain ⟨g1, g2, g3⟩ := hinv.fresh b' (by omega)
    have := hh' b'
    simp only [hne, if_false, Nat.add_zero] at this
    exact ⟨by omega, g2, by rw [hunits, hzero b' hne]; omega⟩

theorem HeapInv.allocObject {h : Heap} {hold wk : Nat → Nat} (hinv : HeapInv h hold wk)
    (ob : Object) (hob : ∀ b', objHoldsBlock b' ob = false) :
    HeapInv ⟨h.blocks, h.objects ++ [ob]⟩ hold wk := by
  have hunits : ∀ b', (⟨h.blocks, h.objects ++ [ob]⟩ : Heap).objUnits b' = h.objUnits b' := by
    intro b'; simp [Heap.objUnits, List.countP_append, List.countP_cons, hob]
  constructor
  · intro b' blk' hb' hd'
    obtain ⟨g1, g2, g3, g4⟩ := hinv.live b' blk' hb' hd'
    exact ⟨g1, by rw [hunits]; exact g2, managedOk_append h _ [ob] b' blk' g3, g4⟩
  · intro b' blk' hb' hd'
    rw [hunits]; exact hinv.dead b' blk' hb' hd'
  · intro b' hlen
    rw [hunits]; exact hinv.fresh b' hlen

/-! ## The counting invariant under the program operations -/

theorem holdsBlock_ite (b' : Nat) (s : SharedPtr) (b : Nat) (hs : s.block_ = some b) :
    (if holdsBlock b' (some s) then 1 else 0) = (if b' = b then 1 else 0) := by
  by_cases hbb : b' = b
  · subst hbb; simp [holdsBlock, hs]
  · have : ¬ b = b' := fun hx => hbb hx.symm
    simp [holdsBlock, hs, hbb, this]

theorem holdsBlock_empty (b' : Nat) (s : SharedPtr) (hs : s.block_ = none) :
    holdsBlock b' (some s) = false := by
  simp [holdsBlock, hs]

theorem objUnits_le (h : Heap) (b : Nat) : h.objUnits b ≤ h.objects.length :=
  List.countP_le_length _

theorem HeapInv.congr {h : Heap} {hold hold' wk : Nat → Nat} (hinv : HeapInv h hold wk)
    (heq : ∀ b, hold' b = hold b) : HeapInv h hold' wk := by
  have : hold' = hold := funext heq
  rw [this]; exact hinv

theorem release_inv (n : Nat) (h : Heap) (shared : List (Option SharedPtr))
    (weak : List (Option WeakPtr)) (i : Nat) (this : SharedPtr)
    (hget : shared[i]? = some (some this))
    (hinv : HeapInv h (fun b => shared.countP (holdsBlock b))
      (fun b => weak.countP (weakHoldsBlock b)))
    (hS : shared.length < SIZE_MOD) (hW : weak.length + h.objects.length + 1 < SIZE_MOD) :
    ∃ h' s1, SharedPtr.Dispose (n + 1) h this = some (h', s1) ∧
      (∀ k, (∀ b', holdsBlock b' k = false) →
        HeapInv h' (fun b => (shared.set i k).countP (holdsBlock b))
          (fun b => weak.countP (weakHoldsBlock b))) ∧
      h'.blocks.length = h.blocks.length ∧ h'.objects.length = h.objects.length ∧
      s1.ptr_ = this.ptr_ ∧
      (s1.block_ = none ∨ (s1.block_ = this.block_ ∧
        ∃ b blk', this.block_ = some b ∧ h'.blocks[b]? = some blk' ∧ blk'.deleted = 0)) ∧
      (∀ (o : Nat) (ob' : Object), h'.objects[o]? = some ob' →
        ∃ ob : Object, h.objects[o]? = some ob ∧ (ob' = ob ∨ ob' = ob.afterDtor)) := by
  cases hb : this.block_ with
  | none =>
    obtain ⟨p, tb⟩ := this
    simp only at hb
    subst hb
    refine ⟨h, ⟨p, none⟩, rfl, ?_, rfl, rfl, rfl, Or.inl rfl,
      fun o ob' ho => ⟨ob', ho, Or.inl rfl⟩⟩
    intro k hk
    refine hinv.congr (fun b => ?_)
    have hc := countP_set_add (holdsBlock b) shared i _ k hget
    simp only [hk b, holdsBlock_empty b ⟨p, none⟩ rfl, Bool.false_eq_true, if_false,
      Nat.add_zero] at hc
    exact hc
  | some b =>
    have hcount : ∀ k, (∀ b', holdsBlock b' k = false) → ∀ b',
        (shared.set i k).countP (holdsBlock b') + (if b' = b then 1 else 0) =
          shared.countP (holdsBlock b') := by
      intro k hk b'
      have hc := countP_set_add (holdsBlock b') shared i _ k hget
      rw [holdsBlock_ite b' this b hb] at hc
      simp only [hk b', Bool.false_eq_true, if_false, Nat.add_zero] at hc
      exact hc
    have hh : 1 ≤ shared.countP (holdsBlock b) := by
      have hc := hcount none (fun _ => rfl) b
      simp only [if_true] at hc
      omega
    have hle : shared.countP (holdsBlock b) ≤ shared.length := List.countP_le_length _
    have hwle : weak.countP (weakHoldsBlock b) ≤ weak.length := List.countP_le_length _
    have hole := objUnits_le h b
    obtain ⟨h', s1, hd, hinv', hl1, hl2, hp, hblk, hobj⟩ :=
      HeapInv.dispose n hinv this b hb hh (by omega) (by omega)
    refine ⟨h', s1, hd, fun k hk => hinv' _ (hcount k hk), hl1, hl2, hp, ?_, hobj⟩
    rcases hblk with hn | ⟨hsb, blk', hg, hdel⟩
    · exact Or.inl hn
    · exact Or.inr ⟨hsb, b, blk', rfl, hg, hdel⟩

theorem acquire_inv (h : Heap) (shared shared' : List (Option SharedPtr))
    (weak : List (Option WeakPtr)) (b : Nat) (blk : ControlBlock)
    (hb : h.blocks[b]? = some blk) (hd : blk.deleted = 0)
    (hinv : HeapInv h (fun b => shared.countP (holdsBlock b))
      (fun b => weak.countP (weakHoldsBlock b)))
    (hS : shared.length + 1 < SIZE_MOD)
    (hcount : ∀ b', shared'.countP (holdsBlock b') =
      shared.countP (holdsBlock b') + (if b' = b then 1 else 0)) :
    HeapInv (IncStrongRef h b) (fun b => shared'.countP (holdsBlock b))
      (fun b => weak.countP (weakHoldsBlock b)) := by
  have hle : shared.countP (holdsBlock b) ≤ shared.length := List.countP_le_length _
  exact hinv.incStrong b blk hb hd (by omega) _ hcount

theorem held_block_live (h : Heap) (shared : List (Option SharedPtr))
    (weak : List (Option WeakPtr)) (i : Nat) (s : SharedPtr) (b : Nat)
    (hinv : HeapInv h (fun b => shared.countP (holdsBlock b))
      (fun b => weak.countP (weakHoldsBlock b)))
    (hget : shared[i]? = some (some s)) (hsb : s.block_ = some b) :
    ∃ blk, h.blocks[b]? = some blk ∧ blk.deleted = 0 ∧
      blk.strong_ref_count_ = shared.countP (holdsBlock b) := by
  have hh : 1 ≤ shared.countP (holdsBlock b) := by
    have hc := countP_set_add (holdsBlock b) shared i _ none hget
    rw [holdsBlock_ite b s b hsb] at hc
    simp [holdsBlock] at hc
    omega
  obtain ⟨blk, hb, hd⟩ := hinv.block_of_held b hh
  exact ⟨blk, hb, hd, (hinv.live b blk hb hd).1⟩

theorem World.inv_iff (w : World) :
    w.Inv ↔ HeapInv w.heap (fun b => w.shared.countP (holdsBlock b))
      (fun b => w.weak.countP (weakHoldsBlock b)) := Iff.rfl

theorem countP_push_block (shared : List (Option SharedPtr)) (s : SharedPtr) (b b' : Nat)
    (hs : s.block_ = some b) :
    (shared ++ [some s]).countP (holdsBlock b') =
      shared.countP (holdsBlock b') + (if b' = b then 1 else 0) := by
  rw [countP_concat, holdsBlock_ite b' s b hs]

theorem countP_push_empty (shared : List (Option SharedPtr)) (s : SharedPtr) (b' : Nat)
    (hs : s.block_ = none) :
    (shared ++ [some s]).countP (holdsBlock b') = shared.countP (holdsBlock b') := by
  rw [countP_concat, holdsBlock_empty b' s hs]; simp

theorem fromPtr_null (fuel : Nat) (h : Heap) :
    SharedPtr.fromPtr fuel h none false =
      some (⟨h.blocks ++ [⟨BlockKind.pointer, 1, 0, none, 0⟩], h.objects⟩,
        ⟨none, some h.blocks.length⟩) := by
  have h1 : (1 : Nat) % SIZE_MOD = 1 := by decide
  simp [SharedPtr.fromPtr, IncStrongRef, Heap.modifyBlock, set_append_length, h1]

theorem step_construct_null (fuel : Nat) (w : World) (es : Bool) (hinv : w.Inv) :
    ∃ w1, w.step fuel (SharedOp.construct none es) = some w1 ∧ w.StepOk w1 := by
  cases es with
  | true => exact ⟨w, rfl, hinv, by omega, by omega, rfl⟩
  | false =>
    refine ⟨⟨⟨w.heap.blocks ++ [⟨BlockKind.pointer, 1, 0, none, 0⟩], w.heap.objects⟩,
      w.shared ++ [some ⟨none, some w.heap.blocks.length⟩], w.weak⟩,
      by simp only [World.step, fromPtr_null, Bool.false_eq_true, if_false,
        Option.map_some'], ?_, by simp, by simp, rfl⟩
    refine (World.inv_iff _).mpr ?_
    have := HeapInv.alloc hinv ⟨BlockKind.pointer, 1, 0, none, 0⟩ [] rfl rfl rfl
      (by simp) (by simp [managedOk])
      (fun b => (w.shared ++ [some (SharedPtr.mk none (some w.heap.blocks.length))]).countP
        (holdsBlock b))
      (fun b' => countP_push_block w.shared _ _ b' rfl)
    simpa using this

theorem step_construct_new (fuel : Nat) (w : World) (eo es : Bool) (hinv : w.Inv) :
    ∃ w1, w.step fuel (SharedOp.construct (some eo) es) = some w1 ∧ w.StepOk w1 := by
  refine ⟨⟨⟨w.heap.blocks ++ [⟨BlockKind.pointer, 1, if eo && es then 1 else 0,
          some w.heap.objects.length, 0⟩],
        w.heap.objects ++ [⟨if eo then some (if es then ⟨some w.heap.objects.length,
          some w.heap.blocks.length⟩ else ⟨none, none⟩) else none, 0⟩]⟩,
      w.shared ++ [some ⟨some w.heap.objects.length, some w.heap.blocks.length⟩], w.weak⟩,
    by simp only [World.step, fromPtr_new, Option.map_some'], ?_, by simp, by simp, rfl⟩
  refine (World.inv_iff _).mpr ?_
  refine HeapInv.alloc hinv _ [_] rfl rfl ?_ ?_ ?_ _
    (fun b' => countP_push_block w.shared _ _ b' rfl)
  · cases eo <;> cases es <;> simp [objHoldsBlock]
  · intro ob hob b' hb'
    simp only [List.mem_singleton] at hob
    subst hob
    cases eo <;> cases es <;> simp [objHoldsBlock] at hb' ⊢
    exact hb'.symm
  · cases eo <;> cases es <;> simp [managedOk]

theorem step_makeShared (fuel : Nat) (w : World) (e : Bool) (hinv : w.Inv) :
    ∃ w1, w.step fuel (SharedOp.makeShared e) = some w1 ∧ w.StepOk w1 := by
  refine ⟨⟨⟨w.heap.blocks ++ [⟨BlockKind.holder, 1, if e then 1 else 0,
          some w.heap.objects.length, 0⟩],
        w.heap.objects ++ [⟨if e then some ⟨some w.heap.objects.length,
          some w.heap.blocks.length⟩ else none, 0⟩]⟩,
      w.shared ++ [some ⟨some w.heap.objects.length, some w.heap.blocks.length⟩], w.weak⟩,
    by simp only [World.step, MakeShared_eq, Option.map_some'], ?_, by simp, by simp, rfl⟩
  refine (World.inv_iff _).mpr ?_
  refine HeapInv.alloc hinv _ [_] rfl rfl ?_ ?_ ?_ _
    (fun b' => countP_push_block w.shared _ _ b' rfl)
  · cases e <;> simp [objHoldsBlock]
  · intro ob hob b' hb'
    simp only [List.mem_singleton] at hob
    subst hob
    cases e <;> simp [objHoldsBlock] at hb' ⊢
    exact hb'.symm
  · cases e <;> simp [managedOk]

theorem step_empty (fuel : Nat) (w : World) (hinv : w.Inv) :
    ∃ w1, w.step fuel SharedOp.empty = some w1 ∧ w.StepOk w1 := by
  refine ⟨⟨w.heap, w.shared ++ [some (SharedPtr.mk none none)], w.weak⟩, rfl, ?_, by simp,
    by simp, rfl⟩
  refine (World.inv_iff _).mpr ?_
  exact HeapInv.congr hinv (fun b => countP_push_empty w.shared _ b rfl)

theorem getShared_some (w : World) (i : Nat) (s : SharedPtr) (h : w.getShared i = some s) :
    w.shared[i]? = some (some s) := by
  unfold World.getShared at h
  split at h
  · rename_i s' hs
    cases h
    exact hs
  · cases h

theorem getShared_of_get (w : World) (i : Nat) (s : SharedPtr)
    (h : w.shared[i]? = some (some s)) : w.getShared i = some s := by
  simp [World.getShared, h]

theorem World.StepOk.refl (w : World) (hinv : w.Inv) : w.StepOk w :=
  ⟨hinv, by omega, by omega, rfl⟩

theorem holdsBlock_fields (b : Nat) (s : SharedPtr) :
    holdsBlock b (some ⟨s.ptr_, s.block_⟩) = holdsBlock b (some s) := rfl

theorem step_copyConstruct (fuel : Nat) (w : World) (src : Nat) (hinv : w.Inv)
    (hS : w.shared.length + 1 < SIZE_MOD) :
    ∃ w1, w.step fuel (SharedOp.copyConstruct src) = some w1 ∧ w.StepOk w1 := by
  cases hg : w.getShared src with
  | none => exact ⟨w, by simp [World.step, hg], World.StepOk.refl w hinv⟩
  | some other =>
    have hget := getShared_some w src other hg
    refine ⟨⟨(SharedPtr.copy w.heap other).1,
      w.shared ++ [some (SharedPtr.copy w.heap other).2], w.weak⟩,
      by simp [World.step, hg], ?_, by simp, ?_, rfl⟩
    · refine (World.inv_iff _).mpr ?_
      cases hb : other.block_ with
      | none =>
        simp only [SharedPtr.copy, hb]
        exact HeapInv.congr hinv (fun b => countP_push_empty w.shared _ b rfl)
      | some b =>
        obtain ⟨blk, hblk, hd, _⟩ := held_block_live w.heap w.shared w.weak src other b
          hinv hget hb
        simp only [SharedPtr.copy, hb]
        exact acquire_inv w.heap w.shared _ w.weak b blk hblk hd hinv hS
          (fun b' => countP_push_block w.shared _ b b' rfl)
    · cases hb : other.block_ <;> simp [SharedPtr.copy, hb, IncStrongRef, objects_modifyBlock]

theorem step_moveConstruct (fuel : Nat) (w : World) (src : Nat) (hinv : w.Inv) :
    ∃ w1, w.step fuel (SharedOp.moveConstruct src) = some w1 ∧ w.StepOk w1 := by
  cases hg : w.getShared src with
  | none => exact ⟨w, by simp [World.step, hg], World.StepOk.refl w hinv⟩
  | some other =>
    have hget := getShared_some w src other hg
    refine ⟨⟨w.heap, w.shared.set src (some (SharedPtr.mk none none)) ++
        [some (SharedPtr.mk other.ptr_ other.block_)], w.weak⟩,
      by simp [World.step, hg, SharedPtr.move, SharedPtr.Dispose], ?_, by simp, by simp, rfl⟩
    refine (World.inv_iff _).mpr ?_
    refine HeapInv.congr hinv (fun b => ?_)
    have hc := countP_set_add (holdsBlock b) w.shared src _
      (some (SharedPtr.mk none none)) hget
    rw [countP_concat, holdsBlock_fields]
    simp only [holdsBlock_empty b ⟨none, none⟩ rfl, Bool.false_eq_true, if_false,
      Nat.add_zero] at hc
    exact hc

theorem step_reset (n : Nat) (w : World) (i : Nat) (hinv : w.Inv)
    (hS : w.shared.length < SIZE_MOD)
    (hW : w.weak.length + w.heap.objects.length + 1 < SIZE_MOD) :
    ∃ w1, w.step (n + 1) (SharedOp.reset i) = some w1 ∧ w.StepOk w1 := by
  cases hg : w.getShared i with
  | none => exact ⟨w, by simp [World.step, hg], World.StepOk.refl w hinv⟩
  | some this =>
    have hget := getShared_some w i this hg
    obtain ⟨h', s1, hd, hinv', _, hl2, _, _, _⟩ :=
      release_inv n w.heap w.shared w.weak i this hget hinv hS hW
    refine ⟨⟨h', w.shared.set i (some (SharedPtr.mk none none)), w.weak⟩,
      by simp [World.step, hg, SharedPtr.Reset, hd], ?_, by simp, by simp [hl2], rfl⟩
    exact (World.inv_iff _).mpr (hinv' _ (fun b => rfl))

theorem step_destroy (n : Nat) (w : World) (i : Nat) (hinv : w.Inv)
    (hS : w.shared.length < SIZE_MOD)
    (hW : w.weak.length + w.heap.objects.length + 1 < SIZE_MOD) :
    ∃ w1, w.step (n + 1) (SharedOp.destroy i) = some w1 ∧ w.StepOk w1 := by
  cases hg : w.getShared i with
  | none => exact ⟨w, by simp [World.step, hg], World.StepOk.refl w hinv⟩
  | some this =>
    have hget := getShared_some w i this hg
    obtain ⟨h', s1, hd, hinv', _, hl2, _, _, _⟩ :=
      release_inv n w.heap w.shared w.weak i this hget hinv hS hW
    refine ⟨⟨h', w.shared.set i none, w.weak⟩,
      by simp [World.step, hg, SharedPtr.destroy, hd], ?_, by simp, by simp [hl2], rfl⟩
    exact (World.inv_iff _).mpr (hinv' _ (fun b => rfl))

theorem step_swap (fuel : Nat) (w : World) (i j : Nat) (hinv : w.Inv) :
    ∃ w1, w.step fuel (SharedOp.swap i j) = some w1 ∧ w.StepOk w1 := by
  refine ⟨w.swap i j, rfl, ?_⟩
  unfold World.swap
  cases hgi : w.getShared i with
  | none => exact World.StepOk.refl w hinv
  | some a =>
    cases hgj : w.getShared j with
    | none => exact World.StepOk.refl w hinv
    | some b =>
      have hi := getShared_some w i a hgi
      have hj := getShared_some w j b hgj
      refine ⟨?_, by simp, by simp, rfl⟩
      refine (World.inv_iff _).mpr ?_
      refine HeapInv.congr hinv (fun c => ?_)
      simp only [World.holders]
      by_cases hij : i = j
      · subst hij
        rw [hi] at hj
        cases hj
        simp [List.set_set, set_eq_self_of_get _ _ _ hi]
      · have h1 := countP_set_add (holdsBlock c) w.shared i _ (some b) hi
        have hj' : (w.shared.set i (some b))[j]? = some (some b) := by
          rw [List.getElem?_set_ne hij]; exact hj
        have h2 := countP_set_add (holdsBlock c) (w.shared.set i (some b)) j _ (some a) hj'
        omega

theorem assign_inv (h' : Heap) (shared : List (Option SharedPtr)) (weak : List (Option WeakPtr))
    (dst : Nat) (x : Option SharedPtr) (p : Option Nat) (b : Nat) (blk : ControlBlock)
    (hx : shared[dst]? = some x)
    (hrel : ∀ k, (∀ b', holdsBlock b' k = false) →
      HeapInv h' (fun b => (shared.set dst k).countP (holdsBlock b))
        (fun b => weak.countP (weakHoldsBlock b)))
    (hS : shared.length + 1 < SIZE_MOD)
    (hb : h'.blocks[b]? = some blk) (hd : blk.deleted = 0) :
    HeapInv (IncStrongRef h' b)
      (fun c => (shared.set dst (some ⟨p, some b⟩)).countP (holdsBlock c))
      (fun c => weak.countP (weakHoldsBlock c)) := by
  have hlen := (List.getElem?_eq_some_iff.mp hx).1
  have h0 : (shared.set dst (some (SharedPtr.mk none none)))[dst]? =
      some (some (SharedPtr.mk none none)) := by
    simp [List.getElem?_set, hlen]
  refine acquire_inv h' (shared.set dst (some (SharedPtr.mk none none))) _ weak b blk hb hd
    (hrel _ (fun b' => rfl)) (by simpa using hS) ?_
  intro b'
  have hc := countP_set_add (holdsBlock b') _ dst _ (some (SharedPtr.mk p (some b))) h0
  rw [List.set_set, holdsBlock_ite b' ⟨p, some b⟩ b rfl] at hc
  simp only [holdsBlock_empty b' ⟨none, none⟩ rfl, Bool.false_eq_true, if_false,
    Nat.add_zero] at hc
  exact hc

theorem step_copyAssign (n : Nat) (w : World) (dst src : Nat) (hinv : w.Inv)
    (hS : w.shared.length + 1 < SIZE_MOD)
    (hW : w.weak.length + w.heap.objects.length + 1 < SIZE_MOD) :
    ∃ w1, w.step (n + 1) (SharedOp.copyAssign dst src) = some w1 ∧ w.StepOk w1 := by
  cases hgd : w.getShared dst with
  | none => exact ⟨w, by simp [World.step, World.copyAssign, hgd], World.StepOk.refl w hinv⟩
  | some this =>
    cases hgs : w.getShared src with
    | none => exact ⟨w, by simp [World.step, World.copyAssign, hgd, hgs], World.StepOk.refl w hinv⟩
    | some other0 =>
      have hd_get := getShared_some w dst this hgd
      have hs_get := getShared_some w src other0 hgs
      have hdlen := (List.getElem?_eq_some_iff.mp hd_get).1
      obtain ⟨h', s1, hd, hinv', _, hl2, _, hblk, _⟩ :=
        release_inv n w.heap w.shared w.weak dst this hd_get hinv (by omega) hW
      -- the handle read as `other` after `Dispose()`
      have hother : ∃ other, World.getShared
            ⟨h', w.shared.set dst (some s1), w.weak⟩ src = some other ∧
          (∀ b, other.block_ = some b → ∃ blk, h'.blocks[b]? = some blk ∧ blk.deleted = 0) := by
        by_cases hsd : src = dst
        · subst hsd
          refine ⟨s1, getShared_of_get _ _ _ (by simp [List.getElem?_set, hdlen]), ?_⟩
          intro b hb
          rcases hblk with hn | ⟨_, b0, blk', hb0, hg, hdel⟩
          · rw [hn] at hb; cases hb
          · rename_i heq
            rw [heq, hb0] at hb
            cases hb
            exact ⟨blk', hg, hdel⟩
        · refine ⟨other0, getShared_of_get _ _ _
            (by simp [List.getElem?_set_ne (Ne.symm hsd), hs_get]), ?_⟩
          intro b hb
          have hk := hinv' (some (SharedPtr.mk none none)) (fun _ => rfl)
          have hg0 : (w.shared.set dst (some (SharedPtr.mk none none)))[src]? =
              some (some other0) := by
            rw [List.getElem?_set_ne (Ne.symm hsd)]; exact hs_get
          obtain ⟨blk, h1, h2, _⟩ := held_block_live h' _ w.weak src other0 b hk hg0 hb
          exact ⟨blk, h1, h2⟩
      obtain ⟨other, hgo, hlive⟩ := hother
      refine ⟨⟨(match other.block_ with
          | some b => IncStrongRef h' b
          | none => h'),
        w.shared.set dst (some (SharedPtr.mk other.ptr_ other.block_)), w.weak⟩, ?_, ?_,
        by simp, ?_, rfl⟩
      · simp only [World.step, World.copyAssign, hgd, hgs, hd, Option.map_some', hgo,
          List.set_set]
      · refine (World.inv_iff _).mpr ?_
        cases hob : other.block_ with
        | none => exact hinv' _ (fun _ => rfl)
        | some b =>
          obtain ⟨blk, hb, hdel⟩ := hlive b hob
          exact assign_inv h' w.shared w.weak dst _ other.ptr_ b blk hd_get hinv' hS hb hdel
      · cases other.block_ <;> simp [IncStrongRef, objects_modifyBlock, hl2]

theorem step_moveAssign (n : Nat) (w : World) (dst src : Nat) (hinv : w.Inv)
    (hS : w.shared.length + 1 < SIZE_MOD)
    (hW : w.weak.length + w.heap.objects.length + 1 < SIZE_MOD) :
    ∃ w1, w.step (n + 1) (SharedOp.moveAssign dst src) = some w1 ∧ w.StepOk w1 := by
  cases hgd : w.getShared dst with
  | none => exact ⟨w, by simp [World.step, World.moveAssign, hgd], World.StepOk.refl w hinv⟩
  | some this =>
    cases hgs : w.getShared src with
    | none => exact ⟨w, by simp [World.step, World.moveAssign, hgd, hgs], World.StepOk.refl w hinv⟩
    | some other0 =>
      have hd_get := getShared_some w dst this hgd
      have hs_get := getShared_some w src other0 hgs
      have hdlen := (List.getElem?_eq_some_iff.mp hd_get).1
      obtain ⟨h', s1, hd, hinv', _, hl2, _, _, _⟩ :=
        release_inv n w.heap w.shared w.weak dst this hd_get hinv (by omega) hW
      by_cases hsd : src = dst
      · subst hsd
        have hgo : World.getShared ⟨h', w.shared.set src (some s1), w.weak⟩ src = some s1 :=
          getShared_of_get _ _ _ (by simp [List.getElem?_set, hdlen])
        refine ⟨⟨h', w.shared.set src (some (SharedPtr.mk none none)), w.weak⟩, ?_, ?_,
          by simp, by simp [hl2], rfl⟩
        · simp only [World.step, World.moveAssign, hgd, hd, Option.map_some', hgo,
            List.set_set]
        · exact (World.inv_iff _).mpr (hinv' _ (fun _ => rfl))
      · have hgo : World.getShared ⟨h', w.shared.set dst (some s1), w.weak⟩ src =
            some other0 :=
          getShared_of_get _ _ _ (by simp [List.getElem?_set_ne (Ne.symm hsd), hs_get])
        refine ⟨⟨h', (w.shared.set dst (some (SharedPtr.mk other0.ptr_ other0.block_))).set src
            (some (SharedPtr.mk none none)), w.weak⟩, ?_, ?_, by simp, by simp [hl2], rfl⟩
        · simp only [World.step, World.moveAssign, hgd, hgs, hd, Option.map_some', hgo,
            List.set_set]
        · refine (World.inv_iff _).mpr ?_
          refine HeapInv.congr (hinv' (some (SharedPtr.mk none none)) (fun _ => rfl))
            (fun c => ?_)
          simp only
          have h0 : (w.shared.set dst (some (SharedPtr.mk none none)))[dst]? =
              some (some (SharedPtr.mk none none)) := by
            simp [List.getElem?_set, hdlen]
          have c1 := countP_set_add (holdsBlock c) _ dst _
            (some (SharedPtr.mk other0.ptr_ other0.block_)) h0
          rw [List.set_set, holdsBlock_fields] at c1
          have h1 : (w.shared.set dst (some (SharedPtr.mk other0.ptr_ other0.block_)))[src]? =
              some (some other0) := by
            rw [List.getElem?_set_ne (Ne.symm hsd)]; exact hs_get
          have c2 := countP_set_add (holdsBlock c) _ src _ (some (SharedPtr.mk none none)) h1
          simp only [holdsBlock_empty c ⟨none, none⟩ rfl, Bool.false_eq_true, if_false,
            Nat.add_zero] at c1 c2
          omega

theorem ResetPtr_some (fuel : Nat) (h : Heap) (this : SharedPtr) (p : Nat) :
    SharedPtr.ResetPtr fuel h this (some p) =
      (SharedPtr.Dispose fuel h this).map (fun r =>
        (⟨r.1.blocks ++ [⟨BlockKind.pointer, 1, 0, some p, 0⟩], r.1.objects⟩,
          ⟨some p, some r.1.blocks.length⟩)) := by
  have h1 : (1 : Nat) % SIZE_MOD = 1 := by decide
  simp only [SharedPtr.ResetPtr]
  congr 1
  funext r
  simp [IncStrongRef, Heap.modifyBlock, set_append_length, h1]

theorem step_resetPtr_null (n : Nat) (w : World) (i : Nat) (hinv : w.Inv)
    (hS : w.shared.length < SIZE_MOD)
    (hW : w.weak.length + w.heap.objects.length + 1 < SIZE_MOD) :
    ∃ w1, w.step (n + 1) (SharedOp.resetPtr i none) = some w1 ∧ w.StepOk w1 := by
  cases hg : w.getShared i with
  | none => exact ⟨w, by simp [World.step, hg], World.StepOk.refl w hinv⟩
  | some this =>
    have hget := getShared_some w i this hg
    obtain ⟨h', s1, hd, hinv', _, hl2, _, _, _⟩ :=
      release_inv n w.heap w.shared w.weak i this hget hinv hS hW
    refine ⟨⟨h', w.shared.set i (some (SharedPtr.mk none none)), w.weak⟩,
      by simp [World.step, hg, SharedPtr.ResetPtr, SharedPtr.Reset, hd], ?_, by simp,
      by simp [hl2], rfl⟩
    exact (World.inv_iff _).mpr (hinv' _ (fun b => rfl))

theorem step_resetPtr_new (n : Nat) (w : World) (i : Nat) (eo : Bool) (hinv : w.Inv)
    (hS : w.shared.length < SIZE_MOD)
    (hW : w.weak.length + w.heap.objects.length + 2 < SIZE_MOD) :
    ∃ w1, w.step (n + 1) (SharedOp.resetPtr i (some eo)) = some w1 ∧ w.StepOk w1 := by
  cases hg : w.getShared i with
  | none => exact ⟨w, by simp [World.step, hg], World.StepOk.refl w hinv⟩
  | some this =>
    have hget := getShared_some w i this hg
    have hilen := (List.getElem?_eq_some_iff.mp hget).1
    have hinv1 : HeapInv ⟨w.heap.blocks, w.heap.objects ++
        [⟨if eo then some ⟨none, none⟩ else none, 0⟩]⟩
        (fun b => w.shared.countP (holdsBlock b)) (fun b => w.weak.countP (weakHoldsBlock b)) :=
      HeapInv.allocObject hinv _ (by intro b'; cases eo <;> simp [objHoldsBlock])
    obtain ⟨h', s1, hd, hinv', _, hl2, _, _, hobj⟩ :=
      release_inv n _ w.shared w.weak i this hget hinv1 hS (by simp; omega)
    have hl2' : h'.objects.length = w.heap.objects.length + 1 := by simpa using hl2
    refine ⟨⟨⟨h'.blocks ++ [⟨BlockKind.pointer, 1, 0, some w.heap.objects.length, 0⟩],
        h'.objects⟩,
      w.shared.set i (some (SharedPtr.mk (some w.heap.objects.length) (some h'.blocks.length))),
      w.weak⟩, ?_, ?_, by simp, by simp [hl2'], rfl⟩
    · simp only [World.step, hg, newObject, ResetPtr_some, hd, Option.map_some']
    · refine (World.inv_iff _).mpr ?_
      -- the fresh object is still without a block in its `weak_this_`
      have hp : ∃ ob', h'.objects[w.heap.objects.length]? = some ob' ∧
          ∀ wt, ob'.weak_this_ = some wt → wt.block_ = none := by
        have hlt : w.heap.objects.length < h'.objects.length := by omega
        obtain ⟨ob', hob'⟩ : ∃ ob', h'.objects[w.heap.objects.length]? = some ob' :=
          ⟨_, List.getElem?_eq_getElem hlt⟩
        refine ⟨ob', hob', ?_⟩
        obtain ⟨ob, ho, hrel⟩ := hobj _ ob' hob'
        simp at ho
        subst ho
        intro wt hwt
        rcases hrel with rfl | rfl <;> cases eo <;> simp [Object.afterDtor] at hwt <;>
          simp [← hwt]
      obtain ⟨ob', hob', hwt'⟩ := hp
      have hk := hinv' (some (SharedPtr.mk none none)) (fun _ => rfl)
      have hok : managedOk ⟨h'.blocks ++
          [⟨BlockKind.pointer, 1, 0, some w.heap.objects.length, 0⟩], h'.objects ++ []⟩
          h'.blocks.length ⟨BlockKind.pointer, 1, 0, some w.heap.objects.length, 0⟩ = true := by
        simp only [managedOk, List.append_nil, hob']
        cases hw : ob'.weak_this_ with
        | none => rfl
        | some wt => simp [hwt' wt hw]
      have h0 : (w.shared.set i (some (SharedPtr.mk none none)))[i]? =
          some (some (SharedPtr.mk none none)) := by
        simp [List.getElem?_set, hilen]
      have := HeapInv.alloc hk ⟨BlockKind.pointer, 1, 0, some w.heap.objects.length, 0⟩ []
        rfl rfl rfl (by simp) hok
        (fun c => (w.shared.set i (some (SharedPtr.mk (some w.heap.objects.length)
          (some h'.blocks.length)))).countP (holdsBlock c))
        (by
          intro b'
          have hc := countP_set_add (holdsBlock b') _ i _
            (some (SharedPtr.mk (some w.heap.objects.length) (some h'.blocks.length))) h0
          rw [List.set_set, holdsBlock_ite b' ⟨some w.heap.objects.length,
            some h'.blocks.length⟩ h'.blocks.length rfl] at hc
          simp only [holdsBlock_empty b' ⟨none, none⟩ rfl, Bool.false_eq_true, if_false,
            Nat.add_zero] at hc
          exact hc)
      simpa using this

/-! ## `UseCount()` counts the live owners (C1) -/

theorem World.step_ok (n : Nat) (w : World) (op : SharedOp) (hinv : w.Inv)
    (hS : w.shared.length + 1 < SIZE_MOD)
    (hW : w.weak.length + w.heap.objects.length + 2 < SIZE_MOD) :
    ∃ w1, w.step (n + 1) op = some w1 ∧ w.StepOk w1 := by
  cases op with
  | construct obj es =>
    cases obj with
    | none => exact step_construct_null (n + 1) w es hinv
    | some eo => exact step_construct_new (n + 1) w eo es hinv
  | empty => exact step_empty (n + 1) w hinv
  | makeShared e => exact step_makeShared (n + 1) w e hinv
  | copyConstruct src => exact step_copyConstruct (n + 1) w src hinv hS
  | moveConstruct src => exact step_moveConstruct (n + 1) w src hinv
  | copyAssign dst src => exact step_copyAssign n w dst src hinv hS (by omega)
  | moveAssign dst src => exact step_moveAssign n w dst src hinv hS (by omega)
  | reset i => exact step_reset n w i hinv (by omega) (by omega)
  | resetPtr i obj =>
    cases obj with
    | none => exact step_resetPtr_null n w i hinv (by omega) (by omega)
    | some eo => exact step_resetPtr_new n w i eo hinv (by omega) hW
  | swap i j => exact step_swap (n + 1) w i j hinv
  | destroy i => exact step_destroy n w i hinv (by omega) (by omega)

theorem World.init_inv : World.init.Inv := by
  refine (World.inv_iff _).mpr ?_
  constructor
  · intro b blk hb; simp [World.init] at hb
  · intro b blk hb; simp [World.init] at hb
  · intro b _; simp [World.init, Heap.objUnits]

theorem World.run_ok (n : Nat) (ops : List SharedOp) :
    ∀ (w : World), w.Inv → w.shared.length + ops.length < SIZE_MOD →
      w.weak.length + w.heap.objects.length + ops.length + 1 < SIZE_MOD →
      ∃ w1, World.run (n + 1) w ops = some w1 ∧ w1.Inv := by
  induction ops with
  | nil => intro w hinv _ _; exact ⟨w, rfl, hinv⟩
  | cons op ops ih =>
    intro w hinv hS hW
    simp only [List.length_cons] at hS hW
    obtain ⟨w1, hstep, hinv1, hs1, ho1, hw1⟩ := World.step_ok n w op hinv (by omega) (by omega)
    obtain ⟨w2, hrun, hinv2⟩ := ih w1 hinv1 (by omega) (by rw [hw1]; omega)
    exact ⟨w2, by simp [World.run, hstep, hrun], hinv2⟩

/-- C1: every sequence of `SharedPtr` operations (construction from a raw pointer, `MakeShared`,
copy and move construction, copy and move assignment including self-assignment, `Reset`,
`Reset(ptr)`, `Swap`, destruction), run from the state without handles, returns (any fuel of at
least 1 suffices), and afterwards every live `SharedPtr` that holds a block reports as
`UseCount()` the number of live `SharedPtr` instances holding that block.  The length bound keeps
the number of handles below the range of `size_t`. -/
theorem C1_use_count_counts_live_owners (n : Nat) (ops : List SharedOp)
    (hlen : ops.length + 1 < SIZE_MOD) :
    ∃ w, World.run (n + 1) World.init ops = some w ∧
      ∀ (i : Nat) (s : SharedPtr) (b : Nat), w.shared[i]? = some (some s) →
        s.block_ = some b → s.UseCount w.heap = w.holders b := by
  obtain ⟨w, hrun, hinv⟩ := World.run_ok n ops World.init World.init_inv
    (by simp [World.init]; omega) (by simp [World.init]; omega)
  refine ⟨w, hrun, ?_⟩
  intro i s b hget hsb
  obtain ⟨blk, hb, _, hcount⟩ := held_block_live w.heap w.shared w.weak i s b hinv hget hsb
  simp [SharedPtr.UseCount, hsb, GetStrongRefCount, hb, hcount, World.holders]

/-- Witness for C1: construct over a self-referencing object, copy, self-assign, destroy the
copy, create a second object with `MakeShared`, move-assign and swap. -/
theorem C1_use_count_counts_live_owners_witness :
    ∃ w, World.run 1 World.init
        [SharedOp.construct (some true) true, SharedOp.copyConstruct 0, SharedOp.copyAssign 0 0,
          SharedOp.destroy 1, SharedOp.makeShared true, SharedOp.moveAssign 0 1,
          SharedOp.swap 0 2] = some w ∧
      ∀ (i : Nat) (s : SharedPtr) (b : Nat), w.shared[i]? = some (some s) →
        s.block_ = some b → s.UseCount w.heap = w.holders b :=
  C1_use_count_counts_live_owners 0
    [SharedOp.construct (some true) true, SharedOp.copyConstruct 0, SharedOp.copyAssign 0 0,
      SharedOp.destroy 1, SharedOp.makeShared true, SharedOp.moveAssign 0 1,
      SharedOp.swap 0 2] (by decide)

/-! ## Release of ownership: move assignment and `Reset` (C11, C12) -/

theorem SharedPtr.Dispose_effect (n : Nat) (h : Heap) (s : SharedPtr) (b : Nat)
    (blk : ControlBlock) (hsb : s.block_ = some b) (hb : h.blocks[b]? = some blk)
    (hs1 : 1 ≤ blk.strong_ref_count_) (hsM : blk.strong_ref_count_ < SIZE_MOD)
    (hwM : blk.weak_ref_count_ + 1 < SIZE_MOD) (hok : managedOk h b blk = true) :
    ∃ h1 s1, SharedPtr.Dispose (n + 1) h s = some (h1, s1) ∧ s1.ptr_ = s.ptr_ ∧
      GetStrongRefCount h1 b = GetStrongRefCount h b - 1 ∧
      deletedCount h1 b = deletedCount h b +
        (if GetStrongRefCount h1 b = 0 ∧ GetWeakRefCount h1 b = 0 then 1 else 0) ∧
      (∀ c, c ≠ b → h1.blocks[c]? = h.blocks[c]?) ∧
      h1.blocks.length = h.blocks.length := by
  obtain ⟨p, sb⟩ := s
  simp only at hsb
  subst hsb
  by_cases hs : blk.strong_ref_count_ = 1
  · have hb' : (runDtor h blk.ptr_).blocks[b]? = some blk := by rw [runDtor_blocks]; exact hb
    refine ⟨_, _, SharedPtr.Dispose_last_ok n h p b blk hb hs hwM hok, rfl, ?_, ?_, ?_, ?_⟩
    · simp [GetStrongRefCount, setBlock_get _ b b blk _ hb', hb, hs]
    · simp only [deletedCount, GetStrongRefCount, GetWeakRefCount,
        setBlock_get _ b b blk _ hb', if_true, hb, true_and]
      split <;> simp
    · intro c hne
      simp only [setBlock_get _ b c blk _ hb', Ne.symm hne, if_false, runDtor_blocks]
    · simp [Heap.setBlock, runDtor_blocks]
  · refine ⟨_, _, SharedPtr.Dispose_shared (n + 1) h p b blk hb (by omega) hsM (by omega),
      rfl, ?_, ?_, ?_, ?_⟩
    · simp [GetStrongRefCount, setBlock_get _ b b blk _ hb, hb]
    · have : blk.strong_ref_count_ - 1 ≠ 0 := by omega
      simp [deletedCount, GetStrongRefCount, setBlock_get _ b b blk _ hb, hb, this]
    · intro c hne
      simp only [setBlock_get _ b c blk _ hb, Ne.symm hne, if_false]
    · simp [Heap.setBlock]

theorem moveAssign_distinct (fuel : Nat) (w : World) (dst src : Nat) (a b : SharedPtr)
    (h1 : Heap) (s1 : SharedPtr) (hne : dst ≠ src)
    (hga : w.getShared dst = some a) (hgb : w.getShared src = some b)
    (hd : SharedPtr.Dispose fuel w.heap a = some (h1, s1)) :
    w.moveAssign fuel dst src =
      some ⟨h1, (w.shared.set dst (some ⟨b.ptr_, b.block_⟩)).set src (some ⟨none, none⟩),
        w.weak⟩ := by
  have hs_get := getShared_some w src b hgb
  have hgo : World.getShared ⟨h1, w.shared.set dst (some s1), w.weak⟩ src = some b :=
    getShared_of_get _ _ _ (by simp [List.getElem?_set_ne hne, hs_get])
  simp only [World.moveAssign, hga, hgb, hd, Option.map_some', hgo, List.set_set]

/-- Move assignment over payloads without handle data members: for two distinct handles `a`
(location `dst`) and `b` (location `src`), `a = std::move(b)` returns; `a` ends with the former pointer and block of `b` and `b` ends empty.
When `a` held no block the heap is untouched.  When `a` held block `ba`, the strong count of `ba`
is one lower, `ba` has been freed by this assignment exactly if both its counters are then 0, and
every other block (the former block of `b` when it differs from `ba`) is as before; no other
variable changes. -/
theorem World.moveAssign_releases_then_takes (n : Nat) (w : World) (dst src : Nat)
    (a b : SharedPtr) (hne : dst ≠ src)
    (hga : w.getShared dst = some a) (hgb : w.getShared src = some b) :
    (a.block_ = none →
      w.moveAssign (n + 1) dst src =
        some ⟨w.heap, (w.shared.set dst (some ⟨b.ptr_, b.block_⟩)).set src (some ⟨none, none⟩),
          w.weak⟩) ∧
    (∀ (ba : Nat) (blk : ControlBlock), a.block_ = some ba → w.heap.blocks[ba]? = some blk →
      1 ≤ blk.strong_ref_count_ → blk.strong_ref_count_ < SIZE_MOD →
      blk.weak_ref_count_ + 1 < SIZE_MOD → managedOk w.heap ba blk = true →
      ∃ w1, w.moveAssign (n + 1) dst src = some w1 ∧
        w1.getShared dst = some ⟨b.ptr_, b.block_⟩ ∧
        w1.getShared src = some ⟨none, none⟩ ∧
        GetStrongRefCount w1.heap ba = GetStrongRefCount w.heap ba - 1 ∧
        deletedCount w1.heap ba = deletedCount w.heap ba +
          (if GetStrongRefCount w1.heap ba = 0 ∧ GetWeakRefCount w1.heap ba = 0
            then 1 else 0) ∧
        (∀ c, c ≠ ba → w1.heap.blocks[c]? = w.heap.blocks[c]?) ∧
        (∀ k, k ≠ dst → k ≠ src → w1.shared[k]? = w.shared[k]?) ∧
        w1.weak = w.weak) := by
  have hd_get := getShared_some w dst a hga
  have hs_get := getShared_some w src b hgb
  have hdlen := (List.getElem?_eq_some_iff.mp hd_get).1
  have hslen := (List.getElem?_eq_some_iff.mp hs_get).1
  constructor
  · intro hnone
    obtain ⟨p, ab⟩ := a
    simp only at hnone
    subst hnone
    exact moveAssign_distinct (n + 1) w dst src _ b w.heap ⟨p, none⟩ hne hga hgb rfl
  · intro ba blk hab hblk hs1 hsM hwM hok
    obtain ⟨h1, s1, hd, _, hstrong, hdel, hframe, _⟩ :=
      SharedPtr.Dispose_effect n w.heap a ba blk hab hblk hs1 hsM hwM hok
    refine ⟨_, moveAssign_distinct (n + 1) w dst src a b h1 s1 hne hga hgb hd, ?_, ?_,
      hstrong, hdel, hframe, ?_, rfl⟩
    · exact getShared_of_get _ _ _
        (by simp [List.getElem?_set_ne (Ne.symm hne), List.getElem?_set, hdlen])
    · exact getShared_of_get _ _ _ (by simp [List.getElem?_set, hslen])
    · intro k hkd hks
      simp [List.getElem?_set_ne (Ne.symm hks), List.getElem?_set_ne (Ne.symm hkd)]

/-- Example: `a` is the sole owner of block 0, `b` the sole owner of block 1; after
`a = std::move(b)` block 0 has strong count 0. -/
theorem World.moveAssign_releases_then_takes_example :
    ∃ w1, World.moveAssign 1
        ⟨⟨[⟨BlockKind.pointer, 1, 0, some 0, 0⟩, ⟨BlockKind.pointer, 1, 0, some 1, 0⟩],
          [⟨none, 0⟩, ⟨none, 0⟩]⟩, [some ⟨some 0, some 0⟩, some ⟨some 1, some 1⟩], []⟩ 0 1 =
        some w1 ∧
      w1.getShared 0 = some ⟨some 1, some 1⟩ ∧
      w1.getShared 1 = some ⟨none, none⟩ ∧
      GetStrongRefCount w1.heap 0 = 1 - 1 :=
  match (World.moveAssign_releases_then_takes 0
    ⟨⟨[⟨BlockKind.pointer, 1, 0, some 0, 0⟩, ⟨BlockKind.pointer, 1, 0, some 1, 0⟩],
      [⟨none, 0⟩, ⟨none, 0⟩]⟩, [some ⟨some 0, some 0⟩, some ⟨some 1, some 1⟩], []⟩ 0 1
    ⟨some 0, some 0⟩ ⟨some 1, some 1⟩ (by decide) rfl rfl).2 0
    ⟨BlockKind.pointer, 1, 0, some 0, 0⟩ rfl rfl (by decide) (by decide) (by decide) rfl with
  | ⟨w1, h1, h2, h3, h4, _⟩ => ⟨w1, h1, h2, h3, h4⟩

theorem set_swap_comm {α : Type} (l : List α) (i j : Nat) (x y : α)
    (hi : l[i]? = some x) (hj : l[j]? = some y) :
    (l.set i y).set j x = (l.set j x).set i y := by
  by_cases hij : i = j
  · subst hij
    rw [hi] at hj
    cases hj
    rfl
  · exact (List.set_comm y x l hij)

theorem set_swap_twice {α : Type} (l : List α) (i j : Nat) (x y : α)
    (hi : l[i]? = some x) (hj : l[j]? = some y) :
    (((l.set i y).set j x).set i x).set j y = l := by
  have hil := (List.getElem?_eq_some_iff.mp hi).1
  have hjl := (List.getElem?_eq_some_iff.mp hj).1
  apply List.ext_getElem?
  intro k
  by_cases hkj : j = k
  · subst hkj
    simp [List.getElem?_set, hjl, hj]
  · by_cases hki : i = k
    · subst hki
      simp [List.getElem?_set, hil, hi, hkj]
    · simp [List.getElem?_set, hki, hkj]

theorem getWeak_some (w : World) (i : Nat) (s : WeakPtr) (h : w.getWeak i = some s) :
    w.weak[i]? = some (some s) := by
  unfold World.getWeak at h
  split at h
  · rename_i s' hs
    cases h
    exact hs
  · cases h

theorem getWeak_of_get (w : World) (i : Nat) (s : WeakPtr)
    (h : w.weak[i]? = some (some s)) : w.getWeak i = some s := by
  simp [World.getWeak, h]

theorem swap_get_first {α : Type} (l : List α) (i j : Nat) (x y : α)
    (hi : l[i]? = some x) (hj : l[j]? = some y) : ((l.set i y).set j x)[i]? = some y := by
  have hil := (List.getElem?_eq_some_iff.mp hi).1
  by_cases hij : i = j
  · subst hij
    rw [hi] at hj
    cases hj
    simp [List.getElem?_set, hil]
  · simp [List.getElem?_set, hil, hij, Ne.symm hij]

theorem swap_get_second {α : Type} (l : List α) (i j : Nat) (x y : α)
    (hj : l[j]? = some y) : ((l.set i y).set j x)[j]? = some x := by
  have hjl := (List.getElem?_eq_some_iff.mp hj).1
  simp [List.getElem?_set, hjl]

/-- C13: `a.Swap(b)` returns the heap as it was, so no counter of any block changes; `a` ends
with the former fields of `b` and `b` with those of `a`, every other variable as before; swapping
twice restores the state, and `a.Swap(b)` gives the same state as `b.Swap(a)`.  The same holds
for `WeakPtr::Swap`. -/
theorem C13_swap_exchanges_fields (w : World) (i j : Nat) :
    ((w.swap i j).heap = w.heap ∧ (w.swap i j).weak = w.weak ∧
      (∀ a b, w.getShared i = some a → w.getShared j = some b →
        (w.swap i j).getShared i = some b ∧ (w.swap i j).getShared j = some a ∧
        ∀ k, k ≠ i → k ≠ j → (w.swap i j).shared[k]? = w.shared[k]?) ∧
      (w.swap i j).swap i j = w ∧ w.swap i j = w.swap j i) ∧
    ((w.swapWeak i j).heap = w.heap ∧ (w.swapWeak i j).shared = w.shared ∧
      (∀ a b, w.getWeak i = some a → w.getWeak j = some b →
        (w.swapWeak i j).getWeak i = some b ∧ (w.swapWeak i j).getWeak j = some a ∧
        ∀ k, k ≠ i → k ≠ j → (w.swapWeak i j).weak[k]? = w.weak[k]?) ∧
      (w.swapWeak i j).swapWeak i j = w ∧ w.swapWeak i j = w.swapWeak j i) := by
  constructor
  · cases hgi : w.getShared i with
    | none =>
      have h1 : w.swap i j = w := by simp [World.swap, hgi]
      have h2 : w.swap j i = w := by
        unfold World.swap; rw [hgi]; cases w.getShared j <;> rfl
      refine ⟨?_, ?_, ?_, ?_, ?_⟩
      · rw [h1]
      · rw [h1]
      · intro a b ha; cases ha
      · rw [h1, h1]
      · rw [h1, h2]
    | some a =>
      cases hgj : w.getShared j with
      | none =>
        have h1 : w.swap i j = w := by simp [World.swap, hgi, hgj]
        have h2 : w.swap j i = w := by simp [World.swap, hgi, hgj]
        refine ⟨?_, ?_, ?_, ?_, ?_⟩
        · rw [h1]
        · rw [h1]
        · intro a b _ hb; cases hb
        · rw [h1, h1]
        · rw [h1, h2]
      | some b =>
        have hi := getShared_some w i a hgi
        have hj := getShared_some w j b hgj
        have h1 : w.swap i j = ⟨w.heap, (w.shared.set i (some b)).set j (some a), w.weak⟩ := by
          simp [World.swap, hgi, hgj]
        have h2 : w.swap j i = ⟨w.heap, (w.shared.set j (some a)).set i (some b), w.weak⟩ := by
          simp [World.swap, hgi, hgj]
        have g1 := swap_get_first w.shared i j _ _ hi hj
        have g2 := swap_get_second w.shared i j (some a) _ hj
        have e1 : World.getShared
            ⟨w.heap, (w.shared.set i (some b)).set j (some a), w.weak⟩ i = some b :=
          getShared_of_get ⟨w.heap, (w.shared.set i (some b)).set j (some a), w.weak⟩ i b g1
        have e2 : World.getShared
            ⟨w.heap, (w.shared.set i (some b)).set j (some a), w.weak⟩ j = some a :=
          getShared_of_get ⟨w.heap, (w.shared.set i (some b)).set j (some a), w.weak⟩ j a g2
        refine ⟨?_, ?_, ?_, ?_, ?_⟩
        · rw [h1]
        · rw [h1]
        · intro a' b' ha' hb'
          cases ha'; cases hb'
          rw [h1]
          refine ⟨e1, e2, ?_⟩
          intro k hki hkj
          simp [List.getElem?_set_ne (Ne.symm hkj), List.getElem?_set_ne (Ne.symm hki)]
        · rw [h1]
          simp only [World.swap, e1, e2]
          rw [set_swap_twice w.shared i j _ _ hi hj]
        · rw [h1, h2, set_swap_comm w.shared i j _ _ hi hj]
  · cases hgi : w.getWeak i with
    | none =>
      have h1 : w.swapWeak i j = w := by simp [World.swapWeak, hgi]
      have h2 : w.swapWeak j i = w := by
        unfold World.swapWeak; rw [hgi]; cases w.getWeak j <;> rfl
      refine ⟨?_, ?_, ?_, ?_, ?_⟩
      · rw [h1]
      · rw [h1]
      · intro a b ha; cases ha
      · rw [h1, h1]
      · rw [h1, h2]
    | some a =>
      cases hgj : w.getWeak j with
      | none =>
        have h1 : w.swapWeak i j = w := by simp [World.swapWeak, hgi, hgj]
        have h2 : w.swapWeak j i = w := by simp [World.swapWeak, hgi, hgj]
        refine ⟨?_, ?_, ?_, ?_, ?_⟩
        · rw [h1]
        · rw [h1]
        · intro a b _ hb; cases hb
        · rw [h1, h1]
        · rw [h1, h2]
      | some b =>
        have hi := getWeak_some w i a hgi
        have hj := getWeak_some w j b hgj
        have h1 : w.swapWeak i j =
            ⟨w.heap, w.shared, (w.weak.set i (some b)).set j (some a)⟩ := by
          simp [World.swapWeak, hgi, hgj]
        have h2 : w.swapWeak j i =
            ⟨w.heap, w.shared, (w.weak.set j (some a)).set i (some b)⟩ := by
          simp [World.swapWeak, hgi, hgj]
        have g1 := swap_get_first w.weak i j _ _ hi hj
        have g2 := swap_get_second w.weak i j (some a) _ hj
        have e1 : World.getWeak
            ⟨w.heap, w.shared, (w.weak.set i (some b)).set j (some a)⟩ i = some b :=
          getWeak_of_get ⟨w.heap, w.shared, (w.weak.set i (some b)).set j (some a)⟩ i b g1
        have e2 : World.getWeak
            ⟨w.heap, w.shared, (w.weak.set i (some b)).set j (some a)⟩ j = some a :=
          getWeak_of_get ⟨w.heap, w.shared, (w.weak.set i (some b)).set j (some a)⟩ j a g2
        refine ⟨?_, ?_, ?_, ?_, ?_⟩
        · rw [h1]
        · rw [h1]
        · intro a' b' ha' hb'
          cases ha'; cases hb'
          rw [h1]
          refine ⟨e1, e2, ?_⟩
          intro k hki hkj
          simp [List.getElem?_set_ne (Ne.symm hkj), List.getElem?_set_ne (Ne.symm hki)]
        · rw [h1]
          simp only [World.swapWeak, e1, e2]
          rw [set_swap_twice w.weak i j _ _ hi hj]
        · rw [h1, h2, set_swap_comm w.weak i j _ _ hi hj]

/-- Witness for C13: two `SharedPtr` variables on different blocks exchange their fields. -/
theorem C13_swap_exchanges_fields_witness :
    (World.swap ⟨⟨[⟨BlockKind.pointer, 1, 0, some 0, 0⟩, ⟨BlockKind.holder, 1, 0, some 1, 0⟩],
        [⟨none, 0⟩, ⟨none, 0⟩]⟩, [some ⟨some 0, some 0⟩, some ⟨some 1, some 1⟩], []⟩
      0 1).getShared 0 = some ⟨some 1, some 1⟩ :=
  ((C13_swap_exchanges_fields
    ⟨⟨[⟨BlockKind.pointer, 1, 0, some 0, 0⟩, ⟨BlockKind.holder, 1, 0, some 1, 0⟩],
      [⟨none, 0⟩, ⟨none, 0⟩]⟩, [some ⟨some 0, some 0⟩, some ⟨some 1, some 1⟩], []⟩
    0 1).1.2.2.1 ⟨some 0, some 0⟩ ⟨some 1, some 1⟩ rfl rfl).1

/-! ## `WeakPtr` from `SharedPtr` (C14) -/

theorem IncWeakRef_counts (h : Heap) (b : Nat) (blk : ControlBlock)
    (hb : h.blocks[b]? = some blk) (hw : blk.weak_ref_count_ + 1 < SIZE_MOD) :
    IncWeakRef h b = h.setBlock b { blk with weak_ref_count_ := blk.weak_ref_count_ + 1 } ∧
    GetWeakRefCount (IncWeakRef h b) b = GetWeakRefCount h b + 1 ∧
    GetStrongRefCount (IncWeakRef h b) b = GetStrongRefCount h b ∧
    (∀ c, c ≠ b → (IncWeakRef h b).blocks[c]? = h.blocks[c]?) ∧
    (IncWeakRef h b).objects = h.objects := by
  have hmod : (blk.weak_ref_count_ + 1) % SIZE_MOD = blk.weak_ref_count_ + 1 :=
    Nat.mod_eq_of_lt hw
  rw [IncWeakRef_eq h b blk hb, hmod]
  refine ⟨rfl, ?_, ?_, ?_, rfl⟩
  · simp [GetWeakRefCount, setBlock_get h b b blk _ hb, hb]
  · simp [GetStrongRefCount, setBlock_get h b b blk _ hb, hb]
  · intro c hne
    simp [setBlock_get h b c blk _ hb, Ne.symm hne]

/-- C14 as stated fails for assignment: a `WeakPtr` that already holds the block of `s` (here it
was made from `s`, counts (1, 1)) is assigned `s` again; `Dispose()` gives its weak unit back
before `IncWeakRef()`, and the weak count is 1 afterwards as before, not 2. -/
theorem C14_assignment_counterexample :
    WeakPtr.fromShared ⟨[⟨BlockKind.pointer, 1, 0, some 0, 0⟩], [⟨none, 0⟩]⟩ ⟨some 0, some 0⟩ =
      (⟨[⟨BlockKind.pointer, 1, 1, some 0, 0⟩], [⟨none, 0⟩]⟩, ⟨some 0, some 0⟩) ∧
    WeakPtr.assignShared 1 ⟨[⟨BlockKind.pointer, 1, 1, some 0, 0⟩], [⟨none, 0⟩]⟩
      ⟨some 0, some 0⟩ ⟨some 0, some 0⟩ =
      some (⟨[⟨BlockKind.pointer, 1, 1, some 0, 0⟩], [⟨none, 0⟩]⟩, ⟨some 0, some 0⟩) ∧
    GetWeakRefCount ⟨[⟨BlockKind.pointer, 1, 1, some 0, 0⟩], [⟨none, 0⟩]⟩ 0 = 1 ∧
    (WeakPtr.assignShared 1 ⟨[⟨BlockKind.pointer, 1, 1, some 0, 0⟩], [⟨none, 0⟩]⟩
      ⟨some 0, some 0⟩ ⟨some 0, some 0⟩).map (fun r => GetWeakRefCount r.1 0) ≠
      some (GetWeakRefCount ⟨[⟨BlockKind.pointer, 1, 1, some 0, 0⟩], [⟨none, 0⟩]⟩ 0 + 1) := by
  decide

/-- C14 (amended): constructing a `WeakPtr` from a `SharedPtr` `s`, and assigning `s` to a
`WeakPtr` that holds no block, gives the `WeakPtr` the pointer and block of `s`, raises the weak
count of that block by exactly one and leaves its strong count (so `s.UseCount()`) and every
other block unchanged; from a `SharedPtr` without a block the result holds no block and the heap
is untouched.  Assigning `s` to a `WeakPtr` that holds a block first gives that block's weak
unit back: when it is the block of `s` the weak count ends where it started, otherwise the
block of `s` gains one and the former block loses one; strong counts do not change. -/
theorem C14_weak_from_shared (fuel : Nat) (h : Heap) (s : SharedPtr) :
    (s.block_ = none →
      WeakPtr.fromShared h s = (h, ⟨none, none⟩) ∧
      ∀ q, WeakPtr.assignShared fuel h ⟨q, none⟩ s = some (h, ⟨s.ptr_, none⟩)) ∧
    (∀ (b : Nat) (blk : ControlBlock), s.block_ = some b → h.blocks[b]? = some blk →
      blk.weak_ref_count_ + 1 < SIZE_MOD →
      (WeakPtr.fromShared h s = (IncWeakRef h b, ⟨s.ptr_, some b⟩) ∧
        (∀ q, WeakPtr.assignShared fuel h ⟨q, none⟩ s =
          some (IncWeakRef h b, ⟨s.ptr_, some b⟩)) ∧
        GetWeakRefCount (IncWeakRef h b) b = GetWeakRefCount h b + 1 ∧
        GetStrongRefCount (IncWeakRef h b) b = GetStrongRefCount h b ∧
        s.UseCount (IncWeakRef h b) = s.UseCount h ∧
        (∀ c, c ≠ b → (IncWeakRef h b).blocks[c]? = h.blocks[c]?)) ∧
      (∀ (q : Option Nat) (bw : Nat) (blkw : ControlBlock), h.blocks[bw]? = some blkw →
        1 ≤ blkw.weak_ref_count_ → blkw.weak_ref_count_ < SIZE_MOD →
        1 ≤ blk.strong_ref_count_ →
        (blkw.strong_ref_count_ = 0 → blkw.kind = BlockKind.holder ∨ blkw.ptr_ = none) →
        ∃ h2, WeakPtr.assignShared fuel h ⟨q, some bw⟩ s = some (h2, ⟨s.ptr_, some b⟩) ∧
          GetStrongRefCount h2 b = GetStrongRefCount h b ∧
          GetWeakRefCount h2 b =
            (if bw = b then GetWeakRefCount h b else GetWeakRefCount h b + 1) ∧
          (bw ≠ b → GetWeakRefCount h2 bw = GetWeakRefCount h bw - 1 ∧
            GetStrongRefCount h2 bw = GetStrongRefCount h bw))) := by
  constructor
  · intro hnone
    refine ⟨by simp [WeakPtr.fromShared, hnone], fun q => ?_⟩
    simp [WeakPtr.assignShared, WeakPtr.Dispose, WeakPtr.DisposeWith, hnone]
  · intro b blk hsb hb hwM
    obtain ⟨_, hw1, hs1, hfr, _⟩ := IncWeakRef_counts h b blk hb hwM
    refine ⟨⟨by simp [WeakPtr.fromShared, hsb], fun q => ?_, hw1, hs1, ?_, hfr⟩, ?_⟩
    · simp [WeakPtr.assignShared, WeakPtr.Dispose, WeakPtr.DisposeWith, hsb]
    · simp [SharedPtr.UseCount, hsb, hs1]
    · intro q bw blkw hbw hw1' hwM' hstrong hin
      have hd := WeakPtr.Dispose_ok fuel h q bw blkw hbw hw1' hwM' hin
      by_cases hbb : bw = b
      · subst hbb
        rw [hb] at hbw
        cases hbw
        have hne : ¬ (blk.strong_ref_count_ = 0 ∧ blk.weak_ref_count_ = 1) := by omega
        simp only [hne, if_false] at hd
        have hb1 := setBlock_get h bw bw blk
          { blk with weak_ref_count_ := blk.weak_ref_count_ - 1 } hb
        simp only [if_true] at hb1
        obtain ⟨_, g1, g2, _, _⟩ := IncWeakRef_counts _ bw _ hb1 (by simp only; omega)
        refine ⟨IncWeakRef (h.setBlock bw
          { blk with weak_ref_count_ := blk.weak_ref_count_ - 1 }) bw,
          by simp [WeakPtr.assignShared, hd, hsb], ?_, ?_, fun hc => absurd rfl hc⟩
        · rw [g2]; simp [GetStrongRefCount, hb1, hb]
        · rw [g1]; simp [GetWeakRefCount, hb1, hb]; omega
      · have hb1 : (h.setBlock bw
            { blkw with
              weak_ref_count_ := blkw.weak_ref_count_ - 1
              deleted := if blkw.strong_ref_count_ = 0 ∧ blkw.weak_ref_count_ = 1
                then blkw.deleted + 1 else blkw.deleted }).blocks[b]? = some blk := by
          rw [setBlock_get h bw b blkw _ hbw]; simp [hbb, hb]
        obtain ⟨_, g1, g2, g3, _⟩ := IncWeakRef_counts _ b _ hb1 hwM
        have hbw1 := setBlock_get h bw bw blkw
          { blkw with
            weak_ref_count_ := blkw.weak_ref_count_ - 1
            deleted := if blkw.strong_ref_count_ = 0 ∧ blkw.weak_ref_count_ = 1
              then blkw.deleted + 1 else blkw.deleted } hbw
        simp only [if_true] at hbw1
        refine ⟨IncWeakRef (h.setBlock bw
          { blkw with
            weak_ref_count_ := blkw.weak_ref_count_ - 1
            deleted := if blkw.strong_ref_count_ = 0 ∧ blkw.weak_ref_count_ = 1
              then blkw.deleted + 1 else blkw.deleted }) b,
          by simp [WeakPtr.assignShared, hd, hsb], ?_, ?_, fun _ => ⟨?_, ?_⟩⟩
        · rw [g2]; simp [GetStrongRefCount, hb1, hb]
        · rw [g1]; simp [GetWeakRefCount, hb1, hb, hbb]
        · simp [GetWeakRefCount, g3 bw hbb, hbw1, hbw]
        · simp [GetStrongRefCount, g3 bw hbb, hbw1, hbw]

/-- Witness for the amended C14: a `WeakPtr` on block 1 is assigned a `SharedPtr` on block 0. -/
theorem C14_weak_from_shared_witness :
    ∃ h2, WeakPtr.assignShared 0
        ⟨[⟨BlockKind.pointer, 1, 0, some 0, 0⟩, ⟨BlockKind.pointer, 1, 1, some 1, 0⟩],
          [⟨none, 0⟩, ⟨none, 0⟩]⟩ ⟨some 1, some 1⟩ ⟨some 0, some 0⟩ =
        some (h2, ⟨some 0, some 0⟩) ∧
      GetWeakRefCount h2 0 = 1 :=
  match ((C14_weak_from_shared 0
    ⟨[⟨BlockKind.pointer, 1, 0, some 0, 0⟩, ⟨BlockKind.pointer, 1, 1, some 1, 0⟩],
      [⟨none, 0⟩, ⟨none, 0⟩]⟩ ⟨some 0, some 0⟩).2 0 ⟨BlockKind.pointer, 1, 0, some 0, 0⟩
    rfl rfl (by decide)).2 (some 1) 1 ⟨BlockKind.pointer, 1, 1, some 1, 0⟩ rfl (by decide)
    (by decide) (by decide) (by decide) with
  | ⟨h2, e1, _, e3, _⟩ => ⟨h2, e1, e3⟩

/-! ## `WeakPtr` observers (C15) -/

/-- C15: for every `WeakPtr` `w`, `w.UseCount()` is the strong count of its block, or 0 when `w`
holds no block; `w.Expired()` is true exactly when `w.UseCount() == 0`; a default-constructed
`WeakPtr` (both fields null) is expired in every heap; and `Reset()` returns, on a handle
without a block and on a handle whose block carries its weak unit, with the handle expired. -/
theorem C15_weak_use_count_and_expired (fuel : Nat) (h : Heap) (w : WeakPtr) :
    (∀ b, w.block_ = some b → w.UseCount h = GetStrongRefCount h b) ∧
    (w.block_ = none → w.UseCount h = 0) ∧
    (w.Expired h = true ↔ w.UseCount h = 0) ∧
    (WeakPtr.UseCount h ⟨none, none⟩ = 0 ∧ WeakPtr.Expired h ⟨none, none⟩ = true) ∧
    (w.block_ = none → WeakPtr.Reset fuel h w = some (h, ⟨none, none⟩)) ∧
    (∀ (b : Nat) (blk : ControlBlock), w.block_ = some b → h.blocks[b]? = some blk →
      1 ≤ blk.weak_ref_count_ → blk.weak_ref_count_ < SIZE_MOD →
      (blk.strong_ref_count_ = 0 → blk.kind = BlockKind.holder ∨ blk.ptr_ = none) →
      ∃ h1, WeakPtr.Reset fuel h w = some (h1, ⟨none, none⟩) ∧
        WeakPtr.UseCount h1 ⟨none, none⟩ = 0 ∧ WeakPtr.Expired h1 ⟨none, none⟩ = true ∧
        GetWeakRefCount h1 b = GetWeakRefCount h b - 1) ∧
    (∀ h1 w1, WeakPtr.Reset fuel h w = some (h1, w1) → w1.Expired h1 = true) := by
  refine ⟨?_, ?_, ?_, ⟨rfl, rfl⟩, ?_, ?_, ?_⟩
  · intro b hb
    simp [WeakPtr.UseCount, hb]
  · intro hb
    simp [WeakPtr.UseCount, hb]
  · simp [WeakPtr.Expired]
  · intro hb
    obtain ⟨q, wb⟩ := w
    simp only at hb
    subst hb
    simp [WeakPtr.Reset, WeakPtr.Dispose, WeakPtr.DisposeWith]
  · intro b blk hwb hb hw1 hwM hin
    obtain ⟨q, wb⟩ := w
    simp only at hwb
    subst hwb
    have hd := WeakPtr.Dispose_ok fuel h q b blk hb hw1 hwM hin
    refine ⟨h.setBlock b
        { blk with
          weak_ref_count_ := blk.weak_ref_count_ - 1
          deleted := if blk.strong_ref_count_ = 0 ∧ blk.weak_ref_count_ = 1
            then blk.deleted + 1 else blk.deleted },
      by simp [WeakPtr.Reset, hd], rfl, rfl, ?_⟩
    simp [GetWeakRefCount, setBlock_get h b b blk _ hb, hb]
  · intro h1 w1 hr
    simp only [WeakPtr.Reset, Option.map_eq_some'] at hr
    obtain ⟨r, _, hr2⟩ := hr
    cases hr2
    rfl

/-- Witness for C15: `Reset()` of the only `WeakPtr` on a block with counts (1, 1). -/
theorem C15_weak_use_count_and_expired_witness :
    ∃ h1, WeakPtr.Reset 0 ⟨[⟨BlockKind.pointer, 1, 1, some 0, 0⟩], [⟨none, 0⟩]⟩
        ⟨some 0, some 0⟩ = some (h1, ⟨none, none⟩) ∧
      WeakPtr.UseCount h1 ⟨none, none⟩ = 0 ∧ WeakPtr.Expired h1 ⟨none, none⟩ = true ∧
      GetWeakRefCount h1 0 =
        GetWeakRefCount ⟨[⟨BlockKind.pointer, 1, 1, some 0, 0⟩], [⟨none, 0⟩]⟩ 0 - 1 :=
  (C15_weak_use_count_and_expired 0 ⟨[⟨BlockKind.pointer, 1, 1, some 0, 0⟩], [⟨none, 0⟩]⟩
    ⟨some 0, some 0⟩).2.2.2.2.2.1 0 ⟨BlockKind.pointer, 1, 1, some 0, 0⟩ rfl rfl (by decide)
    (by decide) (by decide)

/-! ## Installing the self-reference (C16) -/

/-- C16: for every heap, the first `SharedPtr` over a fresh instance of a type deriving from
`EnableSharedFromThis`, built by `SharedPtr<T>(new T)` or by `MakeShared<T>()`, returns with
`UseCount() == 1` on a new block whose strong count is 1 and whose weak count is exactly 1; the
handle points to the instance, and the instance's `weak_this_` holds that block and a pointer
to the instance.  Nothing else in the heap changes. -/
theorem C16_self_reference_grants_no_ownership (fuel : Nat) (h : Heap) :
    (∃ h1 s, SharedPtr.fromPtr fuel (newObject h true).1 (some (newObject h true).2) true =
        some (h1, s) ∧
      s = ⟨some h.objects.length, some h.blocks.length⟩ ∧
      s.UseCount h1 = 1 ∧ GetStrongRefCount h1 h.blocks.length = 1 ∧
      GetWeakRefCount h1 h.blocks.length = 1 ∧
      h1.objects[h.objects.length]? =
        some ⟨some ⟨some h.objects.length, some h.blocks.length⟩, 0⟩ ∧
      h1.blocks.length = h.blocks.length + 1 ∧
      (∀ c, c < h.blocks.length → h1.blocks[c]? = h.blocks[c]?) ∧
      (∀ o, o < h.objects.length → h1.objects[o]? = h.objects[o]?)) ∧
    (∃ h1 s, MakeShared fuel h true = some (h1, s) ∧
      s = ⟨some h.objects.length, some h.blocks.length⟩ ∧
      s.UseCount h1 = 1 ∧ GetStrongRefCount h1 h.blocks.length = 1 ∧
      GetWeakRefCount h1 h.blocks.length = 1 ∧
      h1.objects[h.objects.length]? =
        some ⟨some ⟨some h.objects.length, some h.blocks.length⟩, 0⟩ ∧
      h1.blocks.length = h.blocks.length + 1 ∧
      (∀ c, c < h.blocks.length → h1.blocks[c]? = h.blocks[c]?) ∧
      (∀ o, o < h.objects.length → h1.objects[o]? = h.objects[o]?)) := by
  constructor
  · refine ⟨_, _, fromPtr_new fuel h true true, rfl, ?_, ?_, ?_, ?_, ?_, ?_, ?_⟩
    · simp [SharedPtr.UseCount, GetStrongRefCount]
    · simp [GetStrongRefCount]
    · simp [GetWeakRefCount]
    · simp
    · simp
    · intro c hc; simp [List.getElem?_append_left hc]
    · intro o ho; simp [List.getElem?_append_left ho]
  · refine ⟨_, _, MakeShared_eq fuel h true, rfl, ?_, ?_, ?_, ?_, ?_, ?_, ?_⟩
    · simp [SharedPtr.UseCount, GetStrongRefCount]
    · simp [GetStrongRefCount]
    · simp [GetWeakRefCount]
    · simp
    · simp
    · intro c hc; simp [List.getElem?_append_left hc]
    · intro o ho; simp [List.getElem?_append_left ho]

/-- Witness for C16: both constructions on a heap that already has a block and an object. -/
theorem C16_self_reference_grants_no_ownership_witness :
    (∃ h1 s, SharedPtr.fromPtr 0
        (newObject ⟨[⟨BlockKind.pointer, 1, 0, some 0, 0⟩], [⟨none, 0⟩]⟩ true).1
        (some (newObject ⟨[⟨BlockKind.pointer, 1, 0, some 0, 0⟩], [⟨none, 0⟩]⟩ true).2) true =
        some (h1, s) ∧ s.UseCount h1 = 1 ∧ GetWeakRefCount h1 1 = 1) ∧
    (∃ h1 s, MakeShared 0 ⟨[⟨BlockKind.pointer, 1, 0, some 0, 0⟩], [⟨none, 0⟩]⟩ true =
        some (h1, s) ∧ s.UseCount h1 = 1 ∧ GetWeakRefCount h1 1 = 1) :=
  match C16_self_reference_grants_no_ownership 0
    ⟨[⟨BlockKind.pointer, 1, 0, some 0, 0⟩], [⟨none, 0⟩]⟩ with
  | ⟨⟨h1, s, e, _, u, _, k, _⟩, ⟨h2, s2, e2, _, u2, _, k2, _⟩⟩ =>
    ⟨⟨h1, s, e, u, k⟩, ⟨h2, s2, e2, u2, k2⟩⟩

/-! ## `WeakFromThis` (C18) -/

theorem SharedFromThis_live (h : Heap) (o b : Nat) (ob : Object) (blk : ControlBlock)
    (ho : h.objects[o]? = some ob) (hwt : ob.weak_this_ = some ⟨some o, some b⟩)
    (hb : h.blocks[b]? = some blk) (hs1 : 1 ≤ blk.strong_ref_count_)
    (hsM : blk.strong_ref_count_ + 1 < SIZE_MOD) :
    SharedFromThis h o =
      some (h.setBlock b { blk with strong_ref_count_ := blk.strong_ref_count_ + 1 },
        Except.ok ⟨some o, some b⟩) := by
  have hu : WeakPtr.UseCount h ⟨some o, some b⟩ = blk.strong_ref_count_ := by
    simp [WeakPtr.UseCount, GetStrongRefCount, hb]
  obtain ⟨b', blk', hb', hblk', _, hfw⟩ := fromWeak_live h ⟨some o, some b⟩
    (by rw [hu]; omega) (by rw [hu]; exact hsM)
  simp only [Option.some.injEq] at hb'
  subst hb'
  rw [hb] at hblk'
  cases hblk'
  simp [SharedFromThis, ho, hwt, hfw]

theorem trace_cons (fuel b o : Nat) (h : Heap) (op : CounterOp) (ops : List CounterOp) :
    CounterOp.trace fuel b o h (op :: ops) =
      (op.apply fuel h b).bind (fun h1 =>
        (CounterOp.trace fuel b o h1 ops).map (fun t => observeBlock h1 b o :: t)) :=
  rfl

theorem observe_oneBlock (kind : BlockKind) (s w : Nat) (pp : Option Nat) (d : Nat) :
    observeBlock (oneBlock kind s w pp d) 0 0 = (s, w, d) :=
  rfl

theorem apply_IncStrongRef (n : Nat) (kind : BlockKind) (s w : Nat) (pp : Option Nat)
    (d : Nat) :
    CounterOp.apply n (oneBlock kind s w pp d) 0 CounterOp.IncStrongRef =
      some (oneBlock kind ((s + 1) % SIZE_MOD) w pp d) := by
  simp [CounterOp.apply, IncStrongRef, oneBlock, Heap.modifyBlock]

theorem apply_IncWeakRef (n : Nat) (kind : BlockKind) (s w : Nat) (pp : Option Nat)
    (d : Nat) :
    CounterOp.apply n (oneBlock kind s w pp d) 0 CounterOp.IncWeakRef =
      some (oneBlock kind s ((w + 1) % SIZE_MOD) pp d) := by
  simp [CounterOp.apply, IncWeakRef, oneBlock, Heap.modifyBlock]

theorem apply_DecWeakRef (n : Nat) (kind : BlockKind) (s w : Nat) (pp : Option Nat)
    (d : Nat) :
    CounterOp.apply n (oneBlock kind s w pp d) 0 CounterOp.DecWeakRef =
      some (oneBlock kind s ((w + SIZE_MOD - 1) % SIZE_MOD) pp d) := by
  simp only [CounterOp.apply, DecWeakRef, oneBlock, Heap.modifyBlock]
  rfl

theorem apply_DecStrongRef_keep (n : Nat) (kind : BlockKind) (s w : Nat) (pp : Option Nat)
    (d : Nat) (hz : (s + SIZE_MOD - 1) % SIZE_MOD ≠ 0) :
    CounterOp.apply n (oneBlock kind s w pp d) 0 CounterOp.DecStrongRef =
      some (oneBlock kind ((s + SIZE_MOD - 1) % SIZE_MOD) w pp d) := by
  have e : (oneBlock kind s w pp d).blocks[0]? = some ⟨kind, s, w, pp, 0⟩ := rfl
  simp only [CounterOp.apply, DecStrongRef, e, hz, if_false]
  rfl

theorem apply_DecStrongRef_pointer (n : Nat) (s w d : Nat)
    (hz : (s + SIZE_MOD - 1) % SIZE_MOD = 0) :
    CounterOp.apply (n + 1) (oneBlock BlockKind.pointer s w (some 0) d) 0
        CounterOp.DecStrongRef =
      some (oneBlock BlockKind.pointer 0 w none (d + 1)) := by
  have e : (oneBlock BlockKind.pointer s w (some 0) d).blocks[0]? =
      some ⟨BlockKind.pointer, s, w, some 0, 0⟩ := rfl
  simp only [CounterOp.apply, DecStrongRef, e, hz, if_true]
  rfl

theorem apply_DecStrongRef_null (n : Nat) (s w d : Nat)
    (hz : (s + SIZE_MOD - 1) % SIZE_MOD = 0) :
    CounterOp.apply n (oneBlock BlockKind.pointer s w none d) 0 CounterOp.DecStrongRef =
      some (oneBlock BlockKind.pointer 0 w none d) := by
  have e : (oneBlock BlockKind.pointer s w none d).blocks[0]? =
      some ⟨BlockKind.pointer, s, w, none, 0⟩ := rfl
  simp only [CounterOp.apply, DecStrongRef, e, hz, if_true]
  rfl

theorem apply_DecStrongRef_holder (n : Nat) (s w d : Nat)
    (hz : (s + SIZE_MOD - 1) % SIZE_MOD = 0) :
    CounterOp.apply (n + 1) (oneBlock BlockKind.holder s w (some 0) d) 0
        CounterOp.DecStrongRef =
      some (oneBlock BlockKind.holder 0 w (some 0) (d + 1)) := by
  have e : (oneBlock BlockKind.holder s w (some 0) d).blocks[0]? =
      some ⟨BlockKind.holder, s, w, some 0, 0⟩ := rfl
  simp only [CounterOp.apply, DecStrongRef, e, hz, if_true]
  rfl

theorem apply_DecStrongRef_pointer_zero (n : Nat) (s w d : Nat) (live : Bool)
    (hz : (s + SIZE_MOD - 1) % SIZE_MOD = 0) :
    CounterOp.apply (n + 1)
        (oneBlock BlockKind.pointer s w (if live then some 0 else none) d) 0
        CounterOp.DecStrongRef =
      some (oneBlock BlockKind.pointer 0 w (if false then some 0 else none)
        (d + if live then 1 else 0)) := by
  cases live
  · exact apply_DecStrongRef_null (n + 1) s w d hz
  · exact apply_DecStrongRef_pointer n s w d hz

theorem trace_step (fuel : Nat) (h : Heap) (kind : BlockKind) (s w : Nat) (pp : Option Nat)
    (d : Nat) (op : CounterOp) (ops : List CounterOp) (t : List (Nat × Nat × Nat))
    (ha : op.apply fuel h 0 = some (oneBlock kind s w pp d))
    (ht : CounterOp.trace fuel 0 0 (oneBlock kind s w pp d) ops = some t) :
    CounterOp.trace fuel 0 0 h (op :: ops) = some ((s, w, d) :: t) := by
  rw [trace_cons, ha, Option.some_bind, ht]
  rfl

/-- Both block classes answer every call sequence, and with equal counters after every call. -/
theorem trace_counters (n : Nat) (ops : List CounterOp) :
    ∀ (s w : Nat) (live : Bool) (dP dH : Nat),
      ∃ tP tH,
        CounterOp.trace (n + 1) 0 0
          (oneBlock BlockKind.pointer s w (if live then some 0 else none) dP) ops = some tP ∧
        CounterOp.trace (n + 1) 0 0 (oneBlock BlockKind.holder s w (some 0) dH) ops = some tH ∧
        tP.length = ops.length ∧ tH.length = ops.length ∧
        tP.map (fun t => (t.1, t.2.1)) = tH.map (fun t => (t.1, t.2.1)) := by
  induction ops with
  | nil => intro s w live dP dH; exact ⟨[], [], rfl, rfl, rfl, rfl, rfl⟩
  | cons op ops ih =>
    intro s w live dP dH
    cases op with
    | IncStrongRef =>
      obtain ⟨tP, tH, hP, hH, lP, lH, hc⟩ := ih ((s + 1) % SIZE_MOD) w live dP dH
      exact ⟨((s + 1) % SIZE_MOD, w, dP) :: tP, ((s + 1) % SIZE_MOD, w, dH) :: tH,
        trace_step _ _ _ _ _ _ _ _ _ _ (apply_IncStrongRef _ _ _ _ _ _) hP,
        trace_step _ _ _ _ _ _ _ _ _ _ (apply_IncStrongRef _ _ _ _ _ _) hH,
        by simp [lP], by simp [lH], by simp only [List.map_cons, hc]⟩
    | IncWeakRef =>
      obtain ⟨tP, tH, hP, hH, lP, lH, hc⟩ := ih s ((w + 1) % SIZE_MOD) live dP dH
      exact ⟨(s, (w + 1) % SIZE_MOD, dP) :: tP, (s, (w + 1) % SIZE_MOD, dH) :: tH,
        trace_step _ _ _ _ _ _ _ _ _ _ (apply_IncWeakRef _ _ _ _ _ _) hP,
        trace_step _ _ _ _ _ _ _ _ _ _ (apply_IncWeakRef _ _ _ _ _ _) hH,
        by simp [lP], by simp [lH], by simp only [List.map_cons, hc]⟩
    | DecWeakRef =>
      obtain ⟨tP, tH, hP, hH, lP, lH, hc⟩ := ih s ((w + SIZE_MOD - 1) % SIZE_MOD) live dP dH
      exact ⟨(s, (w + SIZE_MOD - 1) % SIZE_MOD, dP) :: tP,
        (s, (w + SIZE_MOD - 1) % SIZE_MOD, dH) :: tH,
        trace_step _ _ _ _ _ _ _ _ _ _ (apply_DecWeakRef _ _ _ _ _ _) hP,
        trace_step _ _ _ _ _ _ _ _ _ _ (apply_DecWeakRef _ _ _ _ _ _) hH,
        by simp [lP], by simp [lH], by simp only [List.map_cons, hc]⟩
    | DecStrongRef =>
      by_cases hz : (s + SIZE_MOD - 1) % SIZE_MOD = 0
      · obtain ⟨tP, tH, hP, hH, lP, lH, hc⟩ :=
          ih 0 w false (dP + if live then 1 else 0) (dH + 1)
        exact ⟨(0, w, dP + if live then 1 else 0) :: tP, (0, w, dH + 1) :: tH,
          trace_step _ _ _ _ _ _ _ _ _ _ (apply_DecStrongRef_pointer_zero n s w dP live hz) hP,
          trace_step _ _ _ _ _ _ _ _ _ _ (apply_DecStrongRef_holder n s w dH hz) hH,
          by simp [lP], by simp [lH], by simp only [List.map_cons, hc]⟩
      · obtain ⟨tP, tH, hP, hH, lP, lH, hc⟩ :=
          ih ((s + SIZE_MOD - 1) % SIZE_MOD) w live dP dH
        exact ⟨((s + SIZE_MOD - 1) % SIZE_MOD, w, dP) :: tP,
          ((s + SIZE_MOD - 1) % SIZE_MOD, w, dH) :: tH,
          trace_step _ _ _ _ _ _ _ _ _ _ (apply_DecStrongRef_keep _ _ _ _ _ _ hz) hP,
          trace_step _ _ _ _ _ _ _ _ _ _ (apply_DecStrongRef_keep _ _ _ _ _ _ hz) hH,
          by simp [lP], by simp [lH], by simp only [List.map_cons, hc]⟩

/-- With equal destructor counts at the start, the two classes give the same observations
exactly when `DecStrongRef` reaches 0 at most once while the pointer block still stores its
pointer, and never once the pointer block has nulled it. -/
theorem trace_eq_iff (n : Nat) (ops : List CounterOp) :
    ∀ (s w : Nat) (live : Bool) (d : Nat),
      CounterOp.trace (n + 1) 0 0
          (oneBlock BlockKind.pointer s w (if live then some 0 else none) d) ops =
        CounterOp.trace (n + 1) 0 0 (oneBlock BlockKind.holder s w (some 0) d) ops ↔
      zeroHits s ops ≤ (if live then 1 else 0) := by
  induction ops with
  | nil => intro s w live d; simp [CounterOp.trace, zeroHits]
  | cons op ops ih =>
    intro s w live d
    cases op with
    | IncStrongRef =>
      obtain ⟨tP, tH, hP, hH, _⟩ := trace_counters n ops ((s + 1) % SIZE_MOD) w live d d
      have h1 := ih ((s + 1) % SIZE_MOD) w live d
      rw [hP, hH] at h1
      rw [trace_cons, trace_cons, apply_IncStrongRef, apply_IncStrongRef, Option.some_bind,
        Option.some_bind, hP, hH]
      simp only [Option.map_some', Option.some.injEq, List.cons.injEq, observe_oneBlock,
        true_and] at h1 ⊢
      exact h1
    | IncWeakRef =>
      obtain ⟨tP, tH, hP, hH, _⟩ := trace_counters n ops s ((w + 1) % SIZE_MOD) live d d
      have h1 := ih s ((w + 1) % SIZE_MOD) live d
      rw [hP, hH] at h1
      rw [trace_cons, trace_cons, apply_IncWeakRef, apply_IncWeakRef, Option.some_bind,
        Option.some_bind, hP, hH]
      simp only [Option.map_some', Option.some.injEq, List.cons.injEq, observe_oneBlock,
        true_and] at h1 ⊢
      exact h1
    | DecWeakRef =>
      obtain ⟨tP, tH, hP, hH, _⟩ :=
        trace_counters n ops s ((w + SIZE_MOD - 1) % SIZE_MOD) live d d
      have h1 := ih s ((w + SIZE_MOD - 1) % SIZE_MOD) live d
      rw [hP, hH] at h1
      rw [trace_cons, trace_cons, apply_DecWeakRef, apply_DecWeakRef, Option.some_bind,
        Option.some_bind, hP, hH]
      simp only [Option.map_some', Option.some.injEq, List.cons.injEq, observe_oneBlock,
        true_and] at h1 ⊢
      exact h1
    | DecStrongRef =>
      have hzh : zeroHits s (CounterOp.DecStrongRef :: ops) =
          (if (s + SIZE_MOD - 1) % SIZE_MOD = 0 then 1 else 0) +
            zeroHits ((s + SIZE_MOD - 1) % SIZE_MOD) ops := rfl
      by_cases hz : (s + SIZE_MOD - 1) % SIZE_MOD = 0
      · rw [hzh, hz]
        simp only [if_true]
        obtain ⟨tP, tH, hP, hH, _⟩ :=
          trace_counters n ops 0 w false (d + if live then 1 else 0) (d + 1)
        rw [trace_cons, trace_cons, apply_DecStrongRef_pointer_zero n s w d live hz,
          apply_DecStrongRef_holder n s w d hz, Option.some_bind, Option.some_bind, hP, hH]
        cases live with
        | false =>
          simp only [Option.map_some', Option.some.injEq, List.cons.injEq, observe_oneBlock]
          simp
        | true =>
          have h1 := ih 0 w false (d + 1)
          simp only [if_true] at hP
          rw [hP, hH] at h1
          simp only [Option.map_some', Option.some.injEq, List.cons.injEq, observe_oneBlock,
            if_true, true_and] at h1 ⊢
          rw [h1]
          simp only [Bool.false_eq_true, if_false]
          omega
      · rw [hzh]
        simp only [hz, if_false, Nat.zero_add]
        obtain ⟨tP, tH, hP, hH, _⟩ :=
          trace_counters n ops ((s + SIZE_MOD - 1) % SIZE_MOD) w live d d
        have h1 := ih ((s + SIZE_MOD - 1) % SIZE_MOD) w live d
        rw [hP, hH] at h1
        rw [trace_cons, trace_cons, apply_DecStrongRef_keep _ _ _ _ _ _ hz,
          apply_DecStrongRef_keep _ _ _ _ _ _ hz, Option.some_bind, Option.some_bind, hP, hH]
        simp only [Option.map_some', Option.some.injEq, List.cons.injEq, observe_oneBlock,
          true_and] at h1 ⊢
        exact h1

/-- C19 as stated fails: on fresh blocks (counts (0, 0)) over a plain payload, the calls
`IncStrongRef, DecStrongRef, IncStrongRef, DecStrongRef` give both classes the same counters,
but the second `DecStrongRef` that reaches 0 runs the payload destructor again in
`ControlBlockHolder` (`GetPointer()->~Y()`, destructor count 2), and not in
`ControlBlockPointer`, whose `ptr_` was nulled by the first one (`delete nullptr`, count 1). -/
theorem C19_second_zero_counterexample :
    CounterOp.trace 1 0 0 ⟨[ControlBlockPointer.ctor (some 0)], [⟨none, 0⟩]⟩
        [CounterOp.IncStrongRef, CounterOp.DecStrongRef, CounterOp.IncStrongRef,
          CounterOp.DecStrongRef] =
      some [(1, 0, 0), (0, 0, 1), (1, 0, 1), (0, 0, 1)] ∧
    CounterOp.trace 1 0 0 ⟨[ControlBlockHolder.ctor 0], [⟨none, 0⟩]⟩
        [CounterOp.IncStrongRef, CounterOp.DecStrongRef, CounterOp.IncStrongRef,
          CounterOp.DecStrongRef] =
      some [(1, 0, 0), (0, 0, 1), (1, 0, 1), (0, 0, 2)] ∧
    CounterOp.trace 1 0 0 ⟨[ControlBlockPointer.ctor (some 0)], [⟨none, 0⟩]⟩
        [CounterOp.IncStrongRef, CounterOp.DecStrongRef, CounterOp.IncStrongRef,
          CounterOp.DecStrongRef] ≠
      CounterOp.trace 1 0 0 ⟨[ControlBlockHolder.ctor 0], [⟨none, 0⟩]⟩
        [CounterOp.IncStrongRef, CounterOp.DecStrongRef, CounterOp.IncStrongRef,
          CounterOp.DecStrongRef] := by
  decide

/-! ## Effect of the four counter calls (C20) -/

theorem DecStrongRef_keep (fuel : Nat) (h : Heap) (b : Nat) (blk : ControlBlock)
    (hb : h.blocks[b]? = some blk)
    (hz : (blk.strong_ref_count_ + SIZE_MOD - 1) % SIZE_MOD ≠ 0) :
    DecStrongRef fuel h b =
      some (h.setBlock b
        { blk with strong_ref_count_ := (blk.strong_ref_count_ + SIZE_MOD - 1) % SIZE_MOD }) := by
  simp only [DecStrongRef, hb, hz, if_false, modifyBlock_eq h b _ blk hb]
  rfl

theorem DecStrongRef_null (fuel : Nat) (h : Heap) (b : Nat) (blk : ControlBlock)
    (hb : h.blocks[b]? = some blk) (hs : blk.strong_ref_count_ = 1) (hp : blk.ptr_ = none) :
    DecStrongRef fuel h b = some (h.setBlock b { blk with strong_ref_count_ := 0 }) := by
  obtain ⟨k, s, w, pt, d⟩ := blk
  simp only at hs hp
  subst hs hp
  have hlen := (List.getElem?_eq_some_iff.mp hb).1
  have h1 : (1 + SIZE_MOD - 1) % SIZE_MOD = 0 := by decide
  cases k <;>
  simp [DecStrongRef, hb, h1, Heap.modifyBlock, Heap.setBlock, hlen, List.getElem?_set]

/-! ## Destruction in `src/shared/shared.h` (C21) -/

/-- C21, the code at the failing input: in `src/shared/shared.h`, for every heap, the handle
returned by `MakeShared<T>()` is the sole owner of a block with counts (1, 0), and destroying it
returns with the destructor of the object run twice: once by `DecStrongRef` when the strong
count goes from 1 to 0, and once more by `~ControlBlockHolder` when `DecBlockRef` deletes the
block. -/
theorem C21_holder_destroys_twice (n : Nat) (h : Heap) :
    (SrcShared.MakeShared h).2 = ⟨some h.objects.length, some h.blocks.length⟩ ∧
    GetStrongRefCount (SrcShared.MakeShared h).1 h.blocks.length = 1 ∧
    GetWeakRefCount (SrcShared.MakeShared h).1 h.blocks.length = 0 ∧
    destroyedCount (SrcShared.MakeShared h).1 h.objects.length = 0 ∧
    (∃ h1, DecStrongRef (n + 1) (SrcShared.MakeShared h).1 h.blocks.length = some h1 ∧
      destroyedCount h1 h.objects.length = 1 ∧ deletedCount h1 h.blocks.length = 0) ∧
    ∃ h2, SrcShared.destroy (n + 1) (SrcShared.MakeShared h).1 (SrcShared.MakeShared h).2 =
        some h2 ∧
      destroyedCount h2 h.objects.length = 2 ∧ deletedCount h2 h.blocks.length = 1 := by
  have h1 : (1 : Nat) % SIZE_MOD = 1 := by decide
  have h0 : (1 + SIZE_MOD - 1) % SIZE_MOD = 0 := by decide
  have hms : (SrcShared.MakeShared h).1 =
      ⟨h.blocks ++ [⟨BlockKind.holder, 1, 0, some h.objects.length, 0⟩],
        h.objects ++ [⟨none, 0⟩]⟩ := by
    simp [SrcShared.MakeShared, IncStrongRef, Heap.modifyBlock, set_append_length, h1]
  have hdec : DecStrongRef (n + 1) (SrcShared.MakeShared h).1 h.blocks.length =
      some ⟨h.blocks ++ [⟨BlockKind.holder, 0, 0, some h.objects.length, 0⟩],
        h.objects ++ [⟨none, 1⟩]⟩ := by
    rw [hms]
    simp [DecStrongRef, h0, Heap.modifyBlock, set_append_length, deleteObject,
      Heap.modifyObject]
  refine ⟨rfl, ?_, ?_, ?_, ?_, ?_⟩
  · rw [hms]; simp [GetStrongRefCount]
  · rw [hms]; simp [GetWeakRefCount]
  · rw [hms]; simp [destroyedCount]
  · exact ⟨_, hdec, by simp [destroyedCount], by simp [deletedCount]⟩
  · refine ⟨⟨h.blocks ++ [⟨BlockKind.holder, 0, 0, some h.objects.length, 1⟩],
      h.objects ++ [⟨none, 2⟩]⟩, ?_, ?_, ?_⟩
    · simp only [SrcShared.destroy, SrcShared.DecBlockRef, SrcShared.MakeShared] at hdec ⊢
      simp only [hdec, Option.some_bind]
      simp [GetStrongRefCount, GetWeakRefCount, SrcShared.deleteBlock, deleteObject,
        Heap.modifyObject, Heap.modifyBlock, set_append_length]
    · simp [destroyedCount]
    · simp [deletedCount]

/-! ## `SharedFromThis` on an empty or expired back-reference (C22) -/

/-- C22: `SharedFromThis()` on an allocated object of a self-referencing type throws
`BadWeakPtr` exactly when the stored `weak_this_` reports `UseCount() == 0`, that is when it
holds no block or is expired, and then the heap (every counter) is returned unchanged.  In
particular it throws on a fresh object of such a type that was never placed under a
`SharedPtr`, whose `weak_this_` is default-constructed. -/
theorem C22_shared_from_this_throws (h : Heap) (o : Nat) (ob : Object) (w : WeakPtr)
    (ho : h.objects[o]? = some ob) (hwt : ob.weak_this_ = some w) :
    (w.UseCount h = 0 → SharedFromThis h o = some (h, Except.error BadWeakPtr.mk)) ∧
    (w.block_ = none → SharedFromThis h o = some (h, Except.error BadWeakPtr.mk)) ∧
    (w.Expired h = true → SharedFromThis h o = some (h, Except.error BadWeakPtr.mk)) ∧
    ((∃ h1, SharedFromThis h o = some (h1, Except.error BadWeakPtr.mk)) ↔ w.UseCount h = 0) ∧
    (∀ g : Heap, SharedFromThis (newObject g true).1 (newObject g true).2 =
      some ((newObject g true).1, Except.error BadWeakPtr.mk)) := by
  have hz : w.UseCount h = 0 → SharedFromThis h o = some (h, Except.error BadWeakPtr.mk) := by
    intro hu
    simp [SharedFromThis, ho, hwt, SharedPtr.fromWeak, hu]
  refine ⟨hz, ?_, ?_, ?_, ?_⟩
  · intro hb
    exact hz (by simp [WeakPtr.UseCount, hb])
  · intro he
    exact hz (by simpa [WeakPtr.Expired] using he)
  · constructor
    · rintro ⟨h1, he⟩
      by_contra hne
      simp only [SharedFromThis, ho, hwt, SharedPtr.fromWeak, hne, if_false] at he
      cases hb : w.block_ <;> simp [hb] at he
    · intro hu
      exact ⟨h, hz hu⟩
  · intro g
    simp [SharedFromThis, newObject, SharedPtr.fromWeak, WeakPtr.UseCount]

/-- Witness for C22: `SharedFromThis()` called while the destructor of the object runs, the
strong count being 0 already. -/
theorem C22_shared_from_this_throws_witness :
    SharedFromThis ⟨[⟨BlockKind.holder, 0, 1, some 0, 0⟩], [⟨some ⟨some 0, some 0⟩, 0⟩]⟩ 0 =
      some (⟨[⟨BlockKind.holder, 0, 1, some 0, 0⟩], [⟨some ⟨some 0, some 0⟩, 0⟩]⟩,
        Except.error BadWeakPtr.mk) :=
  (C22_shared_from_this_throws
    ⟨[⟨BlockKind.holder, 0, 1, some 0, 0⟩], [⟨some ⟨some 0, some 0⟩, 0⟩]⟩ 0
    ⟨some ⟨some 0, some 0⟩, 0⟩ ⟨some 0, some 0⟩ rfl rfl).1 rfl

/-! ## `UniquePtr`: `Release`, `Reset`, move assignment (C23, C24, C25) -/

theorem Release_eq (w : UniqueWorld) (i : Nat) (u : UniquePtr) (hu : w.vars[i]? = some u) :
    w.Release i = (u.ptr, ⟨w.vars.set i ⟨none, u.deleter⟩, w.calls⟩) := by
  simp [UniqueWorld.Release, hu]

theorem Reset_eq (w : UniqueWorld) (i : Nat) (u : UniquePtr) (p : Option Nat)
    (hu : w.vars[i]? = some u) :
    w.Reset i p = ⟨w.vars.set i ⟨p, u.deleter⟩,
      w.calls ++ (match u.ptr with
        | some q => [⟨u.deleter, q, p⟩]
        | none => [])⟩ := by
  have hlen := (List.getElem?_eq_some_iff.mp hu).1
  obtain ⟨up, ud⟩ := u
  cases up with
  | none => simp [UniqueWorld.Reset, hu]
  | some q => simp [UniqueWorld.Reset, hu, UniqueWorld.callDeleter, hlen]

/-- C23: `Release()` on a `UniquePtr` variable returns the pointer the variable stored, leaves
it storing null (`Get()` null, `operator bool` false) with its deleter, other variables and the
record of deleter invocations unchanged, so the deleter is not invoked; and the destructor run
afterwards adds no invocation either. -/
theorem C23_unique_release (w : UniqueWorld) (i : Nat) (u : UniquePtr)
    (hu : w.vars[i]? = some u) :
    (w.Release i).1 = u.ptr ∧
    (w.Release i).2.vars[i]? = some ⟨none, u.deleter⟩ ∧
    (∀ v, (w.Release i).2.vars[i]? = some v → v.Get = none ∧ v.toBool = false) ∧
    (∀ k, k ≠ i → (w.Release i).2.vars[k]? = w.vars[k]?) ∧
    (w.Release i).2.calls = w.calls ∧
    ((w.Release i).2.destroy i).calls = w.calls := by
  have hlen := (List.getElem?_eq_some_iff.mp hu).1
  rw [Release_eq w i u hu]
  have hget : (w.vars.set i ⟨none, u.deleter⟩)[i]? = some ⟨none, u.deleter⟩ := by
    simp [hlen]
  refine ⟨rfl, hget, ?_, ?_, rfl, ?_⟩
  · intro v hv
    simp only at hv
    rw [hget] at hv
    cases hv
    exact ⟨rfl, rfl⟩
  · intro k hk
    simp [List.getElem?_set_ne (Ne.symm hk)]
  · simp [UniqueWorld.destroy, hget]

/-- Witness for C23. -/
theorem C23_unique_release_witness :
    (UniqueWorld.Release ⟨[⟨some 5, 0⟩], []⟩ 0).1 = some 5 ∧
    ((UniqueWorld.Release ⟨[⟨some 5, 0⟩], []⟩ 0).2.destroy 0).calls = [] :=
  match C23_unique_release ⟨[⟨some 5, 0⟩], []⟩ 0 ⟨some 5, 0⟩ rfl with
  | ⟨e1, _, _, _, _, e6⟩ => ⟨e1, e6⟩

/-- C24: `Reset(p)` on a `UniquePtr` variable makes `p` the stored pointer and keeps the
deleter and the other variables; when the previously stored pointer was null the deleter is not
invoked, and when it was a non-null `q` the deleter is invoked exactly once, on `q`, at a moment
when the variable already stores `p`. -/
theorem C24_unique_reset (w : UniqueWorld) (i : Nat) (u : UniquePtr) (p : Option Nat)
    (hu : w.vars[i]? = some u) :
    (w.Reset i p).vars[i]? = some ⟨p, u.deleter⟩ ∧
    (∀ k, k ≠ i → (w.Reset i p).vars[k]? = w.vars[k]?) ∧
    (u.ptr = none → (w.Reset i p).calls = w.calls) ∧
    (∀ q, u.ptr = some q → (w.Reset i p).calls = w.calls ++ [⟨u.deleter, q, p⟩]) ∧
    ((w.Reset i p).calls.length = w.calls.length + 1 ↔ u.ptr ≠ none) := by
  have hlen := (List.getElem?_eq_some_iff.mp hu).1
  rw [Reset_eq w i u p hu]
  refine ⟨by simp [hlen], ?_, ?_, ?_, ?_⟩
  · intro k hk
    simp [List.getElem?_set_ne (Ne.symm hk)]
  · intro hn
    simp [hn]
  · intro q hq
    simp [hq]
  · cases hp : u.ptr <;> simp

/-- Witness for C24: `Reset(p)` on a variable that stores a pointer. -/
theorem C24_unique_reset_witness :
    (UniqueWorld.Reset ⟨[⟨some 5, 0⟩], []⟩ 0 (some 6)).calls = [] ++ [⟨0, 5, some 6⟩] :=
  (C24_unique_reset ⟨[⟨some 5, 0⟩], []⟩ 0 ⟨some 5, 0⟩ (some 6) rfl).2.2.2.1 5 rfl

/-- C25: for two distinct `UniquePtr` variables `a` (at `dst`) and `b` (at `src`),
`a = std::move(b)` leaves `a` with the pointer and the deleter `b` had, `b` with null, and the
other variables unchanged; the deleter of `a` is invoked exactly once on the previous pointer
of `a` when that was non-null and not at all otherwise, so it is not invoked on the
transferred pointer, `a` and `b` not having stored the same pointer.  When `a` and `b` are the
same variable the whole state, stored pointer included, is unchanged and no deleter is
invoked. -/
theorem C25_unique_move_assignment (w : UniqueWorld) (dst src : Nat) (a b : UniquePtr)
    (ha : w.vars[dst]? = some a) (hb : w.vars[src]? = some b) :
    (dst ≠ src →
      (w.moveAssign dst src).vars[dst]? = some ⟨b.ptr, b.deleter⟩ ∧
      (w.moveAssign dst src).vars[src]? = some ⟨none, b.deleter⟩ ∧
      (∀ k, k ≠ dst → k ≠ src → (w.moveAssign dst src).vars[k]? = w.vars[k]?) ∧
      (a.ptr = none → (w.moveAssign dst src).calls = w.calls) ∧
      (∀ q, a.ptr = some q →
        (w.moveAssign dst src).calls = w.calls ++ [⟨a.deleter, q, b.ptr⟩]) ∧
      (a.ptr ≠ b.ptr → ∀ p, b.ptr = some p →
        ∃ extra, (w.moveAssign dst src).calls = w.calls ++ extra ∧
          ∀ c ∈ extra, c.arg ≠ p)) ∧
    (dst = src → w.moveAssign dst src = w) := by
  have hlenA := (List.getElem?_eq_some_iff.mp ha).1
  have hlenB := (List.getElem?_eq_some_iff.mp hb).1
  constructor
  · intro hne
    have h1 : (w.vars.set src ⟨none, b.deleter⟩)[dst]? = some a := by
      rw [List.getElem?_set_ne (Ne.symm hne)]; exact ha
    have hma : w.moveAssign dst src =
        ⟨(w.vars.set src ⟨none, b.deleter⟩).set dst ⟨b.ptr, b.deleter⟩,
          w.calls ++ (match a.ptr with
            | some q => [⟨a.deleter, q, b.ptr⟩]
            | none => [])⟩ := by
      simp only [UniqueWorld.moveAssign, Release_eq w src b hb]
      rw [Reset_eq _ dst a b.ptr h1]
      simp [hlenA, hlenB, List.getElem?_set, hne, Ne.symm hne]
    rw [hma]
    refine ⟨by simp [hlenA], ?_, ?_, ?_, ?_, ?_⟩
    · simp [List.getElem?_set, hne, Ne.symm hne, hlenB]
    · intro k hk1 hk2
      simp [List.getElem?_set_ne (Ne.symm hk1), List.getElem?_set_ne (Ne.symm hk2)]
    · intro hn; simp [hn]
    · intro q hq; simp [hq]
    · intro hab p hp
      refine ⟨_, rfl, ?_⟩
      intro c hc
      cases hq : a.ptr with
      | none => simp [hq] at hc
      | some q =>
        simp only [hq, List.mem_singleton] at hc
        subst hc
        intro hqp
        simp only at hqp
        apply hab
        rw [hq, hp, hqp]
  · intro he
    subst he
    have hab : b = a := Option.some.inj (hb.symm.trans ha)
    subst hab
    have h1 : (w.vars.set dst ⟨none, b.deleter⟩)[dst]? = some ⟨none, b.deleter⟩ := by
      simp [hlenB]
    simp only [UniqueWorld.moveAssign, Release_eq w dst b hb]
    rw [Reset_eq _ dst _ b.ptr h1]
    obtain ⟨vars, calls⟩ := w
    simp only at hb hlenB h1 ⊢
    have hg : vars[dst] = b := (List.getElem?_eq_some_iff.mp hb).2
    simp [hlenB, hg, set_eq_self_of_get _ _ _ hb]

/-- Witness for C25: `a` stores 1 with deleter 7, `b` stores 2 with deleter 8. -/
theorem C25_unique_move_assignment_witness :
    (UniqueWorld.moveAssign ⟨[⟨some 1, 7⟩, ⟨some 2, 8⟩], []⟩ 0 1).vars[0]? = some ⟨some 2, 8⟩ ∧
    (UniqueWorld.moveAssign ⟨[⟨some 1, 7⟩, ⟨some 2, 8⟩], []⟩ 0 1).vars[1]? = some ⟨none, 8⟩ ∧
    (UniqueWorld.moveAssign ⟨[⟨some 1, 7⟩, ⟨some 2, 8⟩], []⟩ 0 1).calls =
      [] ++ [⟨7, 1, some 2⟩] :=
  match (C25_unique_move_assignment ⟨[⟨some 1, 7⟩, ⟨some 2, 8⟩], []⟩ 0 1 ⟨some 1, 7⟩
    ⟨some 2, 8⟩ rfl rfl).1 (by decide) with
  | ⟨e1, e2, _, _, e5, _⟩ => ⟨e1, e2, e5 1 rfl⟩

/-! ## The weak count guards the block while the last owner is released (C26) -/

/-- C26: let block `b` (either class) have counts strong = 1 and weak = 1 + w, manage object
`o`, and let the `weak_this_` of `o` hold `b` (the other `w` weak units belong to `WeakPtr`
instances), `w + 3` below 2^64.  Disposing the last `SharedPtr`: (1) the nested disposal of
`weak_this_`, run by the destructor of `o` in the state where `DecStrongRef` has set the strong
count to 0 under the temporary weak increment, sees weak count 2 + w, keeps its block and frees
nothing; (2) `DecStrongRef` returns with counts (0, 1 + w), the object destroyed once and the
block not freed; (3) `Dispose` returns with counts (0, w), and it has freed the block once if
`w = 0` and not at all otherwise. -/
theorem C26_weak_guard_during_release (n : Nat) (h : Heap) (p q : Option Nat) (b o w : Nat)
    (blk : ControlBlock) (ob : Object)
    (hb : h.blocks[b]? = some blk) (hs : blk.strong_ref_count_ = 1)
    (hw : blk.weak_ref_count_ = 1 + w) (hwM : w + 3 < SIZE_MOD)
    (hp : blk.ptr_ = some o) (ho : h.objects[o]? = some ob)
    (hwt : ob.weak_this_ = some ⟨q, some b⟩) :
    (∃ hm, WeakPtr.Dispose n
        (((IncWeakRef h b).modifyBlock b (fun k => { k with strong_ref_count_ := 0 })).modifyObject
          o (fun x => { x with destroyed := x.destroyed + 1 })) ⟨q, some b⟩ =
        some (hm, ⟨q, some b⟩) ∧
      GetWeakRefCount hm b = 1 + w ∧ deletedCount hm b = deletedCount h b) ∧
    (∃ h2, DecStrongRef (n + 1) (IncWeakRef h b) b = some h2 ∧
      GetStrongRefCount h2 b = 0 ∧ GetWeakRefCount h2 b = 1 + w ∧
      deletedCount h2 b = deletedCount h b ∧
      destroyedCount h2 o = destroyedCount h o + 1) ∧
    (∃ h3 s1, SharedPtr.Dispose (n + 1) h ⟨p, some b⟩ = some (h3, s1) ∧
      GetStrongRefCount h3 b = 0 ∧ GetWeakRefCount h3 b = w ∧
      deletedCount h3 b = deletedCount h b + (if w = 0 then 1 else 0) ∧
      (s1.block_ = none ↔ w = 0) ∧
      destroyedCount h3 o = destroyedCount h o + 1) := by
  have hlen := (List.getElem?_eq_some_iff.mp hb).1
  have holen := (List.getElem?_eq_some_iff.mp ho).1
  have hunits : ob.weakUnits = 1 := by
    obtain ⟨wt, d⟩ := ob
    simp only at hwt
    subst hwt
    rfl
  obtain ⟨einc, _, _, _, _⟩ := IncWeakRef_counts h b blk hb (by omega)
  have hb1 : (h.setBlock b { blk with weak_ref_count_ := blk.weak_ref_count_ + 1 }).blocks[b]? =
      some { blk with weak_ref_count_ := blk.weak_ref_count_ + 1 } := by
    rw [setBlock_get h b b blk _ hb]; simp
  refine ⟨?_, ?_, ?_⟩
  · have hmid : (((IncWeakRef h b).modifyBlock b
          (fun k => { k with strong_ref_count_ := 0 })).modifyObject o
          (fun x => { x with destroyed := x.destroyed + 1 })).blocks[b]? =
        some ⟨blk.kind, 0, blk.weak_ref_count_ + 1, blk.ptr_, blk.deleted⟩ := by
      rw [einc, blocks_modifyObject, blocks_modifyBlock_get, hb1]
      simp
    have hk := WeakPtr.DisposeWith_keep (deleteObject n) _ q b _ hmid (by simp) (by simp; omega)
      (Or.inr (by simp; omega))
    refine ⟨_, hk, ?_, ?_⟩
    · simp [GetWeakRefCount, setBlock_get _ b b _ _ hmid, hw]
    · simp [deletedCount, setBlock_get _ b b _ _ hmid, hb]
  · rw [einc]
    have hd := DecStrongRef_last n _ b o { blk with weak_ref_count_ := blk.weak_ref_count_ + 1 }
      ob hb1 hs (by simp only; omega) hp ho
      (fun wt hwt' => Or.inr (by
        rw [hwt] at hwt'
        cases hwt'
        exact ⟨rfl, by simp only; omega⟩))
    refine ⟨_, hd, ?_, ?_, ?_, ?_⟩
    · simp [GetStrongRefCount, Heap.setBlock, hlen]
    · simp [GetWeakRefCount, Heap.setBlock, hlen, hunits, hw]
    · simp [deletedCount, Heap.setBlock, hlen, hb]
    · simp [destroyedCount, Heap.setBlock, holen, ho, Object.afterDtor]
  · have hd := SharedPtr.Dispose_last n h p b o blk ob hb hs (by omega) hp ho
      (fun wt hwt' => Or.inr (by
        rw [hwt] at hwt'
        cases hwt'
        exact ⟨rfl, by omega⟩))
    have hww : blk.weak_ref_count_ - ob.weakUnits = w := by omega
    rw [hww] at hd
    refine ⟨_, _, hd, ?_, ?_, ?_, ?_, ?_⟩
    · simp [GetStrongRefCount, hlen]
    · simp [GetWeakRefCount, hlen]
    · simp only [deletedCount, hb]
      by_cases hw0 : w = 0 <;> simp [hlen, hw0]
    · by_cases hw0 : w = 0 <;> simp [hw0]
    · simp [destroyedCount, holen, ho, Object.afterDtor]

/-- Witness for C26: the block of `MakeShared` for a self-referencing type and one outside
`WeakPtr`, counts (1, 2). -/
theorem C26_weak_guard_during_release_witness :
    ∃ h3 s1, SharedPtr.Dispose 1
        ⟨[⟨BlockKind.holder, 1, 2, some 0, 0⟩], [⟨some ⟨some 0, some 0⟩, 0⟩]⟩
        ⟨some 0, some 0⟩ = some (h3, s1) ∧
      GetStrongRefCount h3 0 = 0 ∧ GetWeakRefCount h3 0 = 1 ∧ deletedCount h3 0 = 0 :=
  match (C26_weak_guard_during_release 0
    ⟨[⟨BlockKind.holder, 1, 2, some 0, 0⟩], [⟨some ⟨some 0, some 0⟩, 0⟩]⟩ (some 0) (some 0)
    0 0 1 ⟨BlockKind.holder, 1, 2, some 0, 0⟩ ⟨some ⟨some 0, some 0⟩, 0⟩ rfl rfl rfl
    (by decide) rfl rfl rfl).2.2 with
  | ⟨h3, s1, e, g1, g2, g3, _⟩ => ⟨h3, s1, e, g1, g2, g3⟩

/-! ## The two disposal routines (C27) -/

theorem weakUnits_zero_afterDtor (ob : Object) (h0 : ob.weakUnits = 0) :
    ∀ wt, ob.weak_this_ = some wt → wt.block_ = none := by
  rcases ob.weakUnits_cases with ⟨_, h⟩ | ⟨h1, _⟩
  · exact h
  · omega

/-- Closed form of both disposal routines when other owners remain. -/
theorem SrcWeak.srcWeakDispose_shared (fuel : Nat) (h : Heap) (p : Option Nat) (b : Nat)
    (blk : ControlBlock) (hb : h.blocks[b]? = some blk) (hs : 2 ≤ blk.strong_ref_count_)
    (hsM : blk.strong_ref_count_ < SIZE_MOD) :
    SrcWeak.Dispose (DecStrongRef fuel) (deleteBlock fuel) h ⟨p, some b⟩ =
      some (h.setBlock b { blk with strong_ref_count_ := blk.strong_ref_count_ - 1 },
        ⟨p, some b⟩) := by
  have h2 : blk.strong_ref_count_ - 1 ≠ 0 := by omega
  simp [SrcWeak.Dispose, DecStrongRef_shared fuel h b blk hb hs hsM, GetStrongRefCount,
    setBlock_get h b b blk _ hb, h2]

/-- The heap and the handle both disposal routines leave when the last owner of a block whose
object holds no weak unit goes away. -/
theorem SrcWeak.srcWeakDispose_last (n : Nat) (h : Heap) (p : Option Nat) (b : Nat)
    (blk : ControlBlock) (hb : h.blocks[b]? = some blk) (hs : blk.strong_ref_count_ = 1)
    (hwM : blk.weak_ref_count_ < SIZE_MOD)
    (hobj : ∀ o, blk.ptr_ = some o → ∃ ob, h.objects[o]? = some ob ∧ ob.weakUnits = 0) :
    SrcWeak.Dispose (DecStrongRef (n + 1)) (deleteBlock (n + 1)) h ⟨p, some b⟩ =
      some ((runDtor h blk.ptr_).setBlock b
          { kind := blk.kind
            strong_ref_count_ := 0
            weak_ref_count_ := blk.weak_ref_count_
            ptr_ := if blk.kind = BlockKind.pointer then none else blk.ptr_
            deleted := if blk.weak_ref_count_ = 0 then blk.deleted + 1 else blk.deleted },
        ⟨p, if blk.weak_ref_count_ = 0 then none else some b⟩) := by
  have hlen := (List.getElem?_eq_some_iff.mp hb).1
  obtain ⟨k, s, w, pt, d⟩ := blk
  simp only at hs hwM hobj
  subst hs
  cases pt with
  | none =>
    have hd := DecStrongRef_null (n + 1) h b ⟨k, 1, w, none, d⟩ hb rfl rfl
    simp only [SrcWeak.Dispose, hd, Option.some_bind, runDtor]
    cases k <;> by_cases hz : w = 0 <;>
    simp [GetStrongRefCount, GetWeakRefCount, Heap.setBlock, hlen, hz, deleteBlock,
      deleteBlockWith, Heap.modifyBlock]
  | some o =>
    obtain ⟨ob, ho, h0⟩ := hobj o rfl
    have holen := (List.getElem?_eq_some_iff.mp ho).1
    have hd := DecStrongRef_last n h b o ⟨k, 1, w, some o, d⟩ ob hb rfl hwM rfl ho
      (fun wt hwt => Or.inl (weakUnits_zero_afterDtor ob h0 wt hwt))
    simp only [h0, Nat.sub_zero] at hd
    simp only [SrcWeak.Dispose, hd, Option.some_bind, runDtor]
    cases k <;> by_cases hz : w = 0 <;>
    simp [GetStrongRefCount, GetWeakRefCount, Heap.setBlock, hlen, hz, deleteBlock,
      deleteBlockWith, Heap.modifyBlock, modifyObject_eq h o _ ob ho]

theorem SharedPtr.Dispose_last_plain (n : Nat) (h : Heap) (p : Option Nat) (b : Nat)
    (blk : ControlBlock) (hb : h.blocks[b]? = some blk) (hs : blk.strong_ref_count_ = 1)
    (hwM : blk.weak_ref_count_ < SIZE_MOD)
    (hobj : ∀ o, blk.ptr_ = some o → ∃ ob, h.objects[o]? = some ob ∧ ob.weakUnits = 0) :
    SharedPtr.Dispose (n + 1) h ⟨p, some b⟩ =
      some ((runDtor h blk.ptr_).setBlock b
          { kind := blk.kind
            strong_ref_count_ := 0
            weak_ref_count_ := blk.weak_ref_count_
            ptr_ := if blk.kind = BlockKind.pointer then none else blk.ptr_
            deleted := if blk.weak_ref_count_ = 0 then blk.deleted + 1 else blk.deleted },
        ⟨p, if blk.weak_ref_count_ = 0 then none else some b⟩) := by
  have hlen := (List.getElem?_eq_some_iff.mp hb).1
  obtain ⟨k, s, w, pt, d⟩ := blk
  simp only at hs hwM hobj
  subst hs
  have hlt : (w + 1) % SIZE_MOD < SIZE_MOD := Nat.mod_lt _ (by decide)
  have hdw := dec_inc_mod w hwM
  have hinc := IncWeakRef_eq h b _ hb
  simp only at hinc
  generalize (w + 1) % SIZE_MOD = w1 at hlt hdw hinc
  have hb1 : (h.setBlock b ⟨k, 1, w1, pt, d⟩).blocks[b]? = some ⟨k, 1, w1, pt, d⟩ := by
    simp [Heap.setBlock, hlen]
  cases pt with
  | none =>
    have hd := DecStrongRef_null (n + 1) _ b _ hb1 rfl rfl
    simp only [SharedPtr.Dispose, hinc, hd, Option.some_bind, runDtor]
    cases k <;> by_cases hz : w = 0 <;>
    simp [GetStrongRefCount, GetWeakRefCount, Heap.setBlock, hlen, hz, deleteBlock,
      deleteBlockWith, Heap.modifyBlock, DecWeakRef, hdw]
  | some o =>
    obtain ⟨ob, ho, h0⟩ := hobj o rfl
    have holen := (List.getElem?_eq_some_iff.mp ho).1
    have hd := DecStrongRef_last n _ b o _ ob hb1 rfl hlt rfl ho
      (fun wt hwt => Or.inl (weakUnits_zero_afterDtor ob h0 wt hwt))
    simp only [h0, Nat.sub_zero] at hd
    simp only [SharedPtr.Dispose, hinc, hd, Option.some_bind, runDtor]
    cases k <;> by_cases hz : w = 0 <;>
    simp [GetStrongRefCount, GetWeakRefCount, Heap.setBlock, hlen, hz, deleteBlock,
      deleteBlockWith, Heap.modifyBlock, modifyObject_eq h o _ ob ho, DecWeakRef, hdw]

/-- C27: let a handle hold block `b` (either class) with strong count at least 1 and any weak
count, both within `size_t`, whose managed object, when the block stores a pointer, is allocated
and holds no weak reference (it has no `weak_this_`, or one without a block).  Then `Dispose`
of `src/shared-from-this/shared.h` (increment weak, decrement strong, decrement weak, test) and
`Dispose` of `src/weak/shared.h` (decrement strong, test), the latter run on the same block
classes, both return, with the same heap and the same handle: strong count one lower, weak
count unchanged, the object destroyed in both or in neither (exactly when the strong count
was 1), and the block freed in both or in neither (exactly when both counts are then 0). -/
theorem C27_dispose_routines_agree (n : Nat) (h : Heap) (p : Option Nat) (b : Nat)
    (blk : ControlBlock) (hb : h.blocks[b]? = some blk)
    (hs1 : 1 ≤ blk.strong_ref_count_) (hsM : blk.strong_ref_count_ < SIZE_MOD)
    (hwM : blk.weak_ref_count_ < SIZE_MOD)
    (hobj : ∀ o, blk.ptr_ = some o → ∃ ob, h.objects[o]? = some ob ∧ ob.weakUnits = 0) :
    ∃ h1 s1,
      SharedPtr.Dispose (n + 1) h ⟨p, some b⟩ = some (h1, s1) ∧
      SrcWeak.Dispose (DecStrongRef (n + 1)) (deleteBlock (n + 1)) h ⟨p, some b⟩ =
        some (h1, s1) ∧
      GetStrongRefCount h1 b = blk.strong_ref_count_ - 1 ∧
      GetWeakRefCount h1 b = blk.weak_ref_count_ ∧
      (∀ o, blk.ptr_ = some o →
        destroyedCount h1 o =
          destroyedCount h o + (if blk.strong_ref_count_ = 1 then 1 else 0)) ∧
      deletedCount h1 b = deletedCount h b +
        (if blk.strong_ref_count_ = 1 ∧ blk.weak_ref_count_ = 0 then 1 else 0) ∧
      (s1.block_ = none ↔ blk.strong_ref_count_ = 1 ∧ blk.weak_ref_count_ = 0) := by
  have hlen := (List.getElem?_eq_some_iff.mp hb).1
  by_cases hs : blk.strong_ref_count_ = 1
  · have hrb : (runDtor h blk.ptr_).blocks[b]? = some blk := by rw [runDtor_blocks]; exact hb
    refine ⟨_, _, SharedPtr.Dispose_last_plain n h p b blk hb hs hwM hobj,
      SrcWeak.srcWeakDispose_last n h p b blk hb hs hwM hobj, ?_, ?_, ?_, ?_, ?_⟩
    · simp [GetStrongRefCount, setBlock_get _ b b blk _ hrb, hs]
    · simp [GetWeakRefCount, setBlock_get _ b b blk _ hrb]
    · intro o hp
      obtain ⟨ob, ho, _⟩ := hobj o hp
      simp [destroyedCount, Heap.setBlock, hp, runDtor, modifyObject_eq h o _ ob ho, ho, hs,
        (List.getElem?_eq_some_iff.mp ho).1, Object.afterDtor]
    · simp only [deletedCount, setBlock_get _ b b blk _ hrb, hb, hs, if_true, true_and]
      split <;> simp
    · by_cases hz : blk.weak_ref_count_ = 0 <;> simp [hs, hz]
  · refine ⟨_, _, SharedPtr.Dispose_shared (n + 1) h p b blk hb (by omega) hsM hwM,
      SrcWeak.srcWeakDispose_shared (n + 1) h p b blk hb (by omega) hsM, ?_, ?_, ?_, ?_, ?_⟩
    · simp [GetStrongRefCount, setBlock_get _ b b blk _ hb]
    · simp [GetWeakRefCount, setBlock_get _ b b blk _ hb]
    · intro o _
      simp [destroyedCount, Heap.setBlock, hs]
    · simp [deletedCount, setBlock_get _ b b blk _ hb, hb, hs]
    · simp [hs]

/-- Witness for C27: the last owner of a plain object with one `WeakPtr` outstanding. -/
theorem C27_dispose_routines_agree_witness :
    ∃ h1 s1,
      SharedPtr.Dispose 1 ⟨[⟨BlockKind.pointer, 1, 1, some 0, 0⟩], [⟨none, 0⟩]⟩
        ⟨some 0, some 0⟩ = some (h1, s1) ∧
      SrcWeak.Dispose (DecStrongRef 1) (deleteBlock 1)
        ⟨[⟨BlockKind.pointer, 1, 1, some 0, 0⟩], [⟨none, 0⟩]⟩ ⟨some 0, some 0⟩ =
        some (h1, s1) :=
  match C27_dispose_routines_agree 0 ⟨[⟨BlockKind.pointer, 1, 1, some 0, 0⟩], [⟨none, 0⟩]⟩
    (some 0) 0 ⟨BlockKind.pointer, 1, 1, some 0, 0⟩ rfl (by decide) (by decide) (by decide)
    (fun o ho => ⟨⟨none, 0⟩, by cases ho; rfl, rfl⟩) with
  | ⟨h1, s1, e1, e2, _⟩ => ⟨h1, s1, e1, e2⟩

/-! ## `ControlBlockPointer` destroys its object at most once (C28) -/

theorem counterRun_cons (fuel b : Nat) (h : Heap) (op : CounterOp) (ops : List CounterOp) :
    CounterOp.run fuel b h (op :: ops) =
      (op.apply fuel h b).bind (fun h1 => CounterOp.run fuel b h1 ops) :=
  rfl

/-- The state a `ControlBlockPointer` over a plain object is in after any sequence of counter
calls: the stored pointer is still there exactly if it was (`live`) and no `DecStrongRef`
reached 0, and the destructor ran once more exactly if the pointer was there and some
`DecStrongRef` reached 0. -/
theorem run_pointer_block (n : Nat) (ops : List CounterOp) :
    ∀ (s w : Nat) (live : Bool) (d : Nat),
      ∃ s1 w1, CounterOp.run (n + 1) 0
          (oneBlock BlockKind.pointer s w (if live then some 0 else none) d) ops =
        some (oneBlock BlockKind.pointer s1 w1
          (if live = true ∧ zeroHits s ops = 0 then some 0 else none)
          (d + if live = true ∧ zeroHits s ops ≠ 0 then 1 else 0)) := by
  induction ops with
  | nil =>
    intro s w live d
    refine ⟨s, w, ?_⟩
    cases live <;> simp [CounterOp.run, zeroHits]
  | cons op ops ih =>
    intro s w live d
    cases op with
    | IncStrongRef =>
      obtain ⟨s1, w1, h1⟩ := ih ((s + 1) % SIZE_MOD) w live d
      exact ⟨s1, w1, by rw [counterRun_cons, apply_IncStrongRef, Option.some_bind, h1]; rfl⟩
    | IncWeakRef =>
      obtain ⟨s1, w1, h1⟩ := ih s ((w + 1) % SIZE_MOD) live d
      exact ⟨s1, w1, by rw [counterRun_cons, apply_IncWeakRef, Option.some_bind, h1]; rfl⟩
    | DecWeakRef =>
      obtain ⟨s1, w1, h1⟩ := ih s ((w + SIZE_MOD - 1) % SIZE_MOD) live d
      exact ⟨s1, w1, by rw [counterRun_cons, apply_DecWeakRef, Option.some_bind, h1]; rfl⟩
    | DecStrongRef =>
      have hzh : zeroHits s (CounterOp.DecStrongRef :: ops) =
          (if (s + SIZE_MOD - 1) % SIZE_MOD = 0 then 1 else 0) +
            zeroHits ((s + SIZE_MOD - 1) % SIZE_MOD) ops := rfl
      by_cases hz : (s + SIZE_MOD - 1) % SIZE_MOD = 0
      · obtain ⟨s1, w1, h1⟩ := ih 0 w false (d + if live then 1 else 0)
        refine ⟨s1, w1, ?_⟩
        rw [counterRun_cons, apply_DecStrongRef_pointer_zero n s w d live hz, Option.some_bind,
          h1, hzh, hz]
        cases live <;> simp
      · obtain ⟨s1, w1, h1⟩ := ih ((s + SIZE_MOD - 1) % SIZE_MOD) w live d
        refine ⟨s1, w1, ?_⟩
        rw [counterRun_cons, apply_DecStrongRef_keep _ _ _ _ _ _ hz, Option.some_bind, h1, hzh]
        simp only [hz, if_false, Nat.zero_add]

/-! ## Self copy-assignment (C29) -/

/-- C29, the code at the failing input: `SharedPtr<T> a(new T); a = a;`.  Before the assignment
`a` is the sole owner (`Get()` the object, `UseCount()` 1, object alive).  `operator=` starts
with `Dispose()`, which brings the strong count to 0, destroys the object and frees the block;
`other` is `*this`, so `other.block_` is then null and nothing is acquired.  Afterwards `a`
still stores the pointer to the destroyed object, holds no block and reports
`UseCount() == 0`. -/
theorem C29_self_assignment_of_sole_owner :
    World.run 1 World.init [SharedOp.construct (some false) false] =
      some ⟨⟨[⟨BlockKind.pointer, 1, 0, some 0, 0⟩], [⟨none, 0⟩]⟩,
        [some ⟨some 0, some 0⟩], []⟩ ∧
    SharedPtr.UseCount ⟨[⟨BlockKind.pointer, 1, 0, some 0, 0⟩], [⟨none, 0⟩]⟩
      ⟨some 0, some 0⟩ = 1 ∧
    World.copyAssign 1
        ⟨⟨[⟨BlockKind.pointer, 1, 0, some 0, 0⟩], [⟨none, 0⟩]⟩, [some ⟨some 0, some 0⟩], []⟩
        0 0 =
      some ⟨⟨[⟨BlockKind.pointer, 0, 0, none, 1⟩], [⟨none, 1⟩]⟩, [some ⟨some 0, none⟩], []⟩ ∧
    SharedPtr.UseCount ⟨[⟨BlockKind.pointer, 0, 0, none, 1⟩], [⟨none, 1⟩]⟩ ⟨some 0, none⟩ = 0 ∧
    destroyedCount ⟨[⟨BlockKind.pointer, 0, 0, none, 1⟩], [⟨none, 1⟩]⟩ 0 = 1 := by
  decide

/-! ## The counting invariant under the `WeakPtr` operations -/

theorem HeapInv.block_of_weak {h : Heap} {hold wk : Nat → Nat} (hinv : HeapInv h hold wk)
    (b : Nat) (hh : 1 ≤ wk b) : ∃ blk, h.blocks[b]? = some blk ∧ blk.deleted = 0 := by
  cases hb : h.blocks[b]? with
  | none =>
    have hlen : h.blocks.length ≤ b := by
      by_contra hlt
      have := List.getElem?_eq_getElem (Nat.lt_of_not_le hlt)
      rw [hb] at this
      cases this
    have := (hinv.fresh b hlen).2.1
    omega
  | some blk =>
    refine ⟨blk, rfl, ?_⟩
    by_contra hd
    have := (hinv.dead b blk hb hd).2.1
    omega

theorem HeapInv.incWeak {h : Heap} {hold wk : Nat → Nat} (hinv : HeapInv h hold wk)
    (b : Nat) (blk : ControlBlock) (hb : h.blocks[b]? = some blk) (hd : blk.deleted = 0)
    (hM : wk b + h.objUnits b + 1 < SIZE_MOD) (wk' : Nat → Nat)
    (hh' : ∀ b', wk' b' = wk b' + (if b' = b then 1 else 0)) :
    HeapInv (IncWeakRef h b) hold wk' := by
  obtain ⟨hl1, hl2, hl3, hl4⟩ := hinv.live b blk hb hd
  have hmod : (blk.weak_ref_count_ + 1) % SIZE_MOD = blk.weak_ref_count_ + 1 :=
    Nat.mod_eq_of_lt (by omega)
  rw [IncWeakRef_eq h b blk hb, hmod]
  constructor
  · intro b' blk' hb' hd'
    rw [setBlock_get h b b' blk _ hb] at hb'
    by_cases hbb : b = b'
    · subst hbb
      simp only [if_true, Option.some.injEq] at hb'
      subst hb'
      have := hh' b
      simp only [if_true] at this
      refine ⟨hl1, by simp only [objUnits_setBlock]; omega, ?_, hl4⟩
      exact managedOk_same_objects h _ b blk _ hl3 rfl (fun _ => by simp only; omega) rfl
    · simp only [hbb, if_false] at hb'
      obtain ⟨g1, g2, g3, g4⟩ := hinv.live b' blk' hb' hd'
      have := hh' b'
      simp only [Ne.symm hbb, if_false, Nat.add_zero] at this
      refine ⟨g1, by simp only [objUnits_setBlock]; omega, ?_, g4⟩
      exact managedOk_same_objects h _ b' blk' _ g3 rfl (fun x => x) rfl
  · intro b' blk' hb' hd'
    rw [setBlock_get h b b' blk _ hb] at hb'
    by_cases hbb : b = b'
    · subst hbb
      simp only [if_true, Option.some.injEq] at hb'
      subst hb'
      exact absurd hd hd'
    · simp only [hbb, if_false] at hb'
      have := hh' b'
      simp only [Ne.symm hbb, if_false, Nat.add_zero] at this
      rw [this, objUnits_setBlock]
      exact hinv.dead b' blk' hb' hd'
  · intro b' hlen
    have hblen := (List.getElem?_eq_some_iff.mp hb).1
    have hlen' : h.blocks.length ≤ b' := by simpa [Heap.setBlock] using hlen
    have hbb : b' ≠ b := by omega
    have := hh' b'
    simp only [hbb, if_false, Nat.add_zero] at this
    rw [this, objUnits_setBlock]
    exact hinv.fresh b' hlen'

theorem managedOk_units (h : Heap) (b : Nat) (blk : ControlBlock)
    (hok : managedOk h b blk = true) (hu : 1 ≤ h.objUnits b → 2 ≤ blk.weak_ref_count_)
    (blk' : ControlBlock) (hp : blk'.ptr_ = blk.ptr_)
    (hw : blk'.weak_ref_count_ = blk.weak_ref_count_ - 1) :
    managedOk (h.setBlock b blk') b blk' = true := by
  unfold managedOk at hok ⊢
  rw [hp]
  cases hpo : blk.ptr_ with
  | none => rfl
  | some o =>
    simp only [hpo] at hok ⊢
    have hobjs : (h.setBlock b blk').objects = h.objects := rfl
    rw [hobjs]
    cases ho : h.objects[o]? with
    | none => simp [ho] at hok
    | some ob =>
      simp only [ho] at hok ⊢
      cases hwt : ob.weak_this_ with
      | none => rfl
      | some wt =>
        simp only [hwt] at hok ⊢
        cases hwb : wt.block_ with
        | none => rfl
        | some b' =>
          simp only [hwb, Bool.and_eq_true, beq_iff_eq, decide_eq_true_eq] at hok ⊢
          refine ⟨hok.1, ?_⟩
          have hmem : ob ∈ h.objects := List.getElem?_mem ho
          have hob : objHoldsBlock b ob = true := by
            simp [objHoldsBlock, hwt, hwb, hok.1]
          have hpos : 1 ≤ h.objUnits b := by
            unfold Heap.objUnits
            exact List.countP_pos_iff.mpr ⟨ob, hmem, hob⟩
          have := hu hpos
          omega

theorem HeapInv.weakDispose (fuel : Nat) {h : Heap} {hold wk : Nat → Nat}
    (hinv : HeapInv h hold wk) (q : Option Nat) (b : Nat) (hh : 1 ≤ wk b)
    (hM : wk b + h.objUnits b < SIZE_MOD) :
    ∃ h' w1, WeakPtr.Dispose fuel h ⟨q, some b⟩ = some (h', w1) ∧
      (∀ wk', (∀ b', wk' b' + (if b' = b then 1 else 0) = wk b') → HeapInv h' hold wk') ∧
      h'.objects = h.objects ∧ h'.blocks.length = h.blocks.length ∧
      w1.ptr_ = q ∧ (w1.block_ = none ∨ w1.block_ = some b) := by
  obtain ⟨blk, hb, hd⟩ := hinv.block_of_weak b hh
  obtain ⟨hl1, hl2, hl3, hl4⟩ := hinv.live b blk hb hd
  have hdisp := WeakPtr.Dispose_ok fuel h q b blk hb (by omega) (by omega) hl4
  refine ⟨_, _, hdisp, ?_, rfl, by simp [Heap.setBlock], rfl, ?_⟩
  · intro wk' hh'
    have hwb := hh' b
    simp only [if_true] at hwb
    constructor
    · intro b' blk' hb' hd'
      rw [setBlock_get h b b' blk _ hb] at hb'
      by_cases hbb : b = b'
      · subst hbb
        simp only [if_true, Option.some.injEq] at hb'
        subst hb'
        simp only at hd' ⊢
        refine ⟨hl1, by simp only [objUnits_setBlock]; omega, ?_, hl4⟩
        exact managedOk_units h b blk hl3 (fun hu => by omega) _ rfl rfl
      · simp only [hbb, if_false] at hb'
        obtain ⟨g1, g2, g3, g4⟩ := hinv.live b' blk' hb' hd'
        have := hh' b'
        simp only [Ne.symm hbb, if_false, Nat.add_zero] at this
        refine ⟨g1, by simp only [objUnits_setBlock]; omega, ?_, g4⟩
        exact managedOk_same_objects h _ b' blk' _ g3 rfl (fun x => x) rfl
    · intro b' blk' hb' hd'
      rw [setBlock_get h b b' blk _ hb] at hb'
      by_cases hbb : b = b'
      · subst hbb
        simp only [if_true, Option.some.injEq] at hb'
        subst hb'
        simp only at hd'
        have hc : blk.strong_ref_count_ = 0 ∧ blk.weak_ref_count_ = 1 := by
          by_contra hne
          simp only [hne, if_false] at hd'
          exact hd' hd
        simp only [objUnits_setBlock]
        refine ⟨?_, ?_, ?_⟩ <;> omega
      · simp only [hbb, if_false] at hb'
        have := hh' b'
        simp only [Ne.symm hbb, if_false, Nat.add_zero] at this
        rw [this, objUnits_setBlock]
        exact hinv.dead b' blk' hb' hd'
    · intro b' hlen
      have hblen := (List.getElem?_eq_some_iff.mp hb).1
      have hlen' : h.blocks.length ≤ b' := by simpa [Heap.setBlock] using hlen
      have hbb : b' ≠ b := by omega
      have := hh' b'
      simp only [hbb, if_false, Nat.add_zero] at this
      rw [this, objUnits_setBlock]
      exact hinv.fresh b' hlen'
  · by_cases hc : blk.strong_ref_count_ = 0 ∧ blk.weak_ref_count_ = 1
    · left; simp [hc]
    · right; simp [hc]

/-! ## The counting invariant under the operations of `PtrOp` -/

theorem HeapInv.congrWeak {h : Heap} {hold wk wk' : Nat → Nat} (hinv : HeapInv h hold wk)
    (heq : ∀ b, wk' b = wk b) : HeapInv h hold wk' := by
  have : wk' = wk := funext heq
  rw [this]; exact hinv

theorem weakHoldsBlock_ite (b' : Nat) (s : WeakPtr) (b : Nat) (hs : s.block_ = some b) :
    (if weakHoldsBlock b' (some s) then 1 else 0) = (if b' = b then 1 else 0) := by
  simp only [weakHoldsBlock, hs, beq_iff_eq, Option.some.injEq]
  by_cases hbb : b' = b
  · simp [hbb]
  · simp [hbb, Ne.symm hbb]

theorem weakHoldsBlock_empty (b' : Nat) (s : WeakPtr) (hs : s.block_ = none) :
    weakHoldsBlock b' (some s) = false := by
  simp [weakHoldsBlock, hs]

theorem weak_release_inv (fuel : Nat) (h : Heap) (shared : List (Option SharedPtr))
    (weak : List (Option WeakPtr)) (i : Nat) (this : WeakPtr)
    (hget : weak[i]? = some (some this))
    (hinv : HeapInv h (fun b => shared.countP (holdsBlock b))
      (fun b => weak.countP (weakHoldsBlock b)))
    (hW : weak.length + h.objects.length < SIZE_MOD) :
    ∃ h' w1, WeakPtr.Dispose fuel h this = some (h', w1) ∧
      (∀ k, (∀ b', weakHoldsBlock b' k = false) →
        HeapInv h' (fun b => shared.countP (holdsBlock b))
          (fun b => (weak.set i k).countP (weakHoldsBlock b))) ∧
      h'.objects = h.objects ∧ h'.blocks.length = h.blocks.length ∧
      w1.ptr_ = this.ptr_ ∧ (w1.block_ = none ∨ w1.block_ = this.block_) := by
  obtain ⟨q, tb⟩ := this
  cases tb with
  | none =>
    refine ⟨h, ⟨q, none⟩, by simp [WeakPtr.Dispose, WeakPtr.DisposeWith], ?_, rfl, rfl, rfl,
      Or.inl rfl⟩
    intro k hk
    refine hinv.congrWeak (fun b => ?_)
    have hc := countP_set_add (weakHoldsBlock b) weak i _ k hget
    simp only [hk b, weakHoldsBlock_empty b ⟨q, none⟩ rfl, Bool.false_eq_true, if_false,
      Nat.add_zero] at hc
    exact hc
  | some b =>
    have hcount : ∀ k, (∀ b', weakHoldsBlock b' k = false) → ∀ b',
        (weak.set i k).countP (weakHoldsBlock b') + (if b' = b then 1 else 0) =
          weak.countP (weakHoldsBlock b') := by
      intro k hk b'
      have hc := countP_set_add (weakHoldsBlock b') weak i _ k hget
      rw [weakHoldsBlock_ite b' ⟨q, some b⟩ b rfl] at hc
      simp only [hk b', Bool.false_eq_true, if_false, Nat.add_zero] at hc
      exact hc
    have hh : 1 ≤ weak.countP (weakHoldsBlock b) := by
      have hc := hcount none (fun _ => rfl) b
      simp only [if_true] at hc
      omega
    have hwle : weak.countP (weakHoldsBlock b) ≤ weak.length := List.countP_le_length _
    have hole := objUnits_le h b
    obtain ⟨h', w1, hd, hinv', ho, hl, hp, hblk⟩ :=
      HeapInv.weakDispose fuel hinv q b hh (by omega)
    exact ⟨h', w1, hd, fun k hk => hinv' _ (hcount k hk), ho, hl, hp, hblk⟩

theorem weak_acquire_inv (h : Heap) (shared : List (Option SharedPtr))
    (weak weak' : List (Option WeakPtr)) (b : Nat) (blk : ControlBlock)
    (hb : h.blocks[b]? = some blk) (hd : blk.deleted = 0)
    (hinv : HeapInv h (fun b => shared.countP (holdsBlock b))
      (fun b => weak.countP (weakHoldsBlock b)))
    (hW : weak.length + h.objects.length + 1 < SIZE_MOD)
    (hcount : ∀ b', weak'.countP (weakHoldsBlock b') =
      weak.countP (weakHoldsBlock b') + (if b' = b then 1 else 0)) :
    HeapInv (IncWeakRef h b) (fun b => shared.countP (holdsBlock b))
      (fun b => weak'.countP (weakHoldsBlock b)) := by
  have hle : weak.countP (weakHoldsBlock b) ≤ weak.length := List.countP_le_length _
  have hole := objUnits_le h b
  exact hinv.incWeak b blk hb hd (by omega) _ hcount

theorem weak_block_live (h : Heap) (shared : List (Option SharedPtr))
    (weak : List (Option WeakPtr)) (i : Nat) (s : WeakPtr) (b : Nat)
    (hinv : HeapInv h (fun b => shared.countP (holdsBlock b))
      (fun b => weak.countP (weakHoldsBlock b)))
    (hget : weak[i]? = some (some s)) (hsb : s.block_ = some b) :
    ∃ blk, h.blocks[b]? = some blk ∧ blk.deleted = 0 ∧
      blk.strong_ref_count_ = shared.countP (holdsBlock b) ∧
      1 ≤ blk.weak_ref_count_ := by
  have hh : 1 ≤ weak.countP (weakHoldsBlock b) := by
    have hc := countP_set_add (weakHoldsBlock b) weak i _ none hget
    rw [weakHoldsBlock_ite b s b hsb] at hc
    simp [weakHoldsBlock] at hc
    omega
  obtain ⟨blk, hb, hd⟩ := hinv.block_of_weak b hh
  obtain ⟨g1, g2, _, _⟩ := hinv.live b blk hb hd
  exact ⟨blk, hb, hd, g1, by omega⟩

theorem World.StepOkPtr.same (w : World) (hinv : w.Inv) : w.StepOkPtr w :=
  ⟨hinv, by omega, by omega⟩

theorem World.StepOk.toPtr {w w1 : World} (hs : w.StepOk w1) : w.StepOkPtr w1 := by
  obtain ⟨h1, h2, h3, h4⟩ := hs
  exact ⟨h1, h2, by rw [h4]; omega⟩

theorem countP_push_weak (weak : List (Option WeakPtr)) (s : WeakPtr) (b b' : Nat)
    (hs : s.block_ = some b) :
    (weak ++ [some s]).countP (weakHoldsBlock b') =
      weak.countP (weakHoldsBlock b') + (if b' = b then 1 else 0) := by
  rw [countP_concat, weakHoldsBlock_ite b' s b hs]

theorem countP_push_weak_empty (weak : List (Option WeakPtr)) (s : WeakPtr) (b' : Nat)
    (hs : s.block_ = none) :
    (weak ++ [some s]).countP (weakHoldsBlock b') = weak.countP (weakHoldsBlock b') := by
  rw [countP_concat, weakHoldsBlock_empty b' s hs]; simp

theorem stepPtr_weakEmpty (fuel : Nat) (w : World) (hinv : w.Inv) :
    ∃ w1, w.stepPtr fuel PtrOp.weakEmpty = some w1 ∧ w.StepOkPtr w1 := by
  refine ⟨⟨w.heap, w.shared, w.weak ++ [some (WeakPtr.mk none none)]⟩, rfl, ?_, by simp,
    by simp; omega⟩
  refine (World.inv_iff _).mpr ?_
  exact HeapInv.congrWeak hinv (fun b => countP_push_weak_empty w.weak _ b rfl)

theorem stepPtr_weakFromShared (fuel : Nat) (w : World) (src : Nat) (hinv : w.Inv)
    (hW : w.weak.length + w.heap.objects.length + 1 < SIZE_MOD) :
    ∃ w1, w.stepPtr fuel (PtrOp.weakFromShared src) = some w1 ∧ w.StepOkPtr w1 := by
  cases hg : w.getShared src with
  | none => exact ⟨w, by simp [World.stepPtr, hg], World.StepOkPtr.same w hinv⟩
  | some other =>
    have hget := getShared_some w src other hg
    refine ⟨⟨(WeakPtr.fromShared w.heap other).1, w.shared,
      w.weak ++ [some (WeakPtr.fromShared w.heap other).2]⟩,
      by simp [World.stepPtr, hg], ?_, by simp, ?_⟩
    · refine (World.inv_iff _).mpr ?_
      cases hb : other.block_ with
      | none =>
        simp only [WeakPtr.fromShared, hb]
        exact HeapInv.congrWeak hinv (fun b => countP_push_weak_empty w.weak _ b rfl)
      | some b =>
        obtain ⟨blk, hblk, hd, _⟩ := held_block_live w.heap w.shared w.weak src other b
          hinv hget hb
        simp only [WeakPtr.fromShared, hb]
        exact weak_acquire_inv w.heap w.shared w.weak _ b blk hblk hd hinv hW
          (fun b' => countP_push_weak w.weak _ b b' rfl)
    · cases hb : other.block_ <;>
      simp [WeakPtr.fromShared, hb, IncWeakRef, objects_modifyBlock] <;> omega

theorem stepPtr_weakCopyConstruct (fuel : Nat) (w : World) (src : Nat) (hinv : w.Inv)
    (hW : w.weak.length + w.heap.objects.length + 1 < SIZE_MOD) :
    ∃ w1, w.stepPtr fuel (PtrOp.weakCopyConstruct src) = some w1 ∧ w.StepOkPtr w1 := by
  cases hg : w.getWeak src with
  | none => exact ⟨w, by simp [World.stepPtr, hg], World.StepOkPtr.same w hinv⟩
  | some other =>
    have hget := getWeak_some w src other hg
    refine ⟨⟨(WeakPtr.copy w.heap other).1, w.shared,
      w.weak ++ [some (WeakPtr.copy w.heap other).2]⟩,
      by simp [World.stepPtr, hg], ?_, by simp, ?_⟩
    · refine (World.inv_iff _).mpr ?_
      cases hb : other.block_ with
      | none =>
        simp only [WeakPtr.copy, hb]
        exact HeapInv.congrWeak hinv (fun b => countP_push_weak_empty w.weak _ b rfl)
      | some b =>
        obtain ⟨blk, hblk, hd, _⟩ := weak_block_live w.heap w.shared w.weak src other b
          hinv hget hb
        simp only [WeakPtr.copy, hb]
        exact weak_acquire_inv w.heap w.shared w.weak _ b blk hblk hd hinv hW
          (fun b' => countP_push_weak w.weak _ b b' rfl)
    · cases hb : other.block_ <;>
      simp [WeakPtr.copy, hb, IncWeakRef, objects_modifyBlock] <;> omega

theorem stepPtr_weakMoveConstruct (fuel : Nat) (w : World) (src : Nat) (hinv : w.Inv) :
    ∃ w1, w.stepPtr fuel (PtrOp.weakMoveConstruct src) = some w1 ∧ w.StepOkPtr w1 := by
  cases hg : w.getWeak src with
  | none => exact ⟨w, by simp [World.stepPtr, hg], World.StepOkPtr.same w hinv⟩
  | some other =>
    have hget := getWeak_some w src other hg
    refine ⟨⟨w.heap, w.shared, w.weak.set src (some (WeakPtr.mk none none)) ++
        [some (WeakPtr.mk other.ptr_ other.block_)]⟩,
      by simp [World.stepPtr, hg, WeakPtr.move, WeakPtr.Dispose, WeakPtr.DisposeWith], ?_,
      by simp, by simp; omega⟩
    refine (World.inv_iff _).mpr ?_
    refine HeapInv.congrWeak hinv (fun b => ?_)
    have hc := countP_set_add (weakHoldsBlock b) w.weak src _
      (some (WeakPtr.mk none none)) hget
    rw [countP_concat]
    simp only [weakHoldsBlock_empty b ⟨none, none⟩ rfl, Bool.false_eq_true, if_false,
      Nat.add_zero] at hc
    have he : weakHoldsBlock b (some (WeakPtr.mk other.ptr_ other.block_)) =
        weakHoldsBlock b (some other) := rfl
    rw [he]
    exact hc

theorem stepPtr_weakReset (fuel : Nat) (w : World) (i : Nat) (hinv : w.Inv)
    (hW : w.weak.length + w.heap.objects.length < SIZE_MOD) :
    ∃ w1, w.stepPtr fuel (PtrOp.weakReset i) = some w1 ∧ w.StepOkPtr w1 := by
  cases hg : w.getWeak i with
  | none => exact ⟨w, by simp [World.stepPtr, hg], World.StepOkPtr.same w hinv⟩
  | some this =>
    have hget := getWeak_some w i this hg
    obtain ⟨h', w1, hd, hinv', ho, _, _, _⟩ :=
      weak_release_inv fuel w.heap w.shared w.weak i this hget hinv hW
    refine ⟨⟨h', w.shared, w.weak.set i (some (WeakPtr.mk none none))⟩,
      by simp [World.stepPtr, hg, WeakPtr.Reset, hd], ?_, by simp, by simp [ho]⟩
    exact (World.inv_iff _).mpr (hinv' _ (fun b' => rfl))

theorem stepPtr_weakDestroy (fuel : Nat) (w : World) (i : Nat) (hinv : w.Inv)
    (hW : w.weak.length + w.heap.objects.length < SIZE_MOD) :
    ∃ w1, w.stepPtr fuel (PtrOp.weakDestroy i) = some w1 ∧ w.StepOkPtr w1 := by
  cases hg : w.getWeak i with
  | none => exact ⟨w, by simp [World.stepPtr, hg], World.StepOkPtr.same w hinv⟩
  | some this =>
    have hget := getWeak_some w i this hg
    obtain ⟨h', w1, hd, hinv', ho, _, _, _⟩ :=
      weak_release_inv fuel w.heap w.shared w.weak i this hget hinv hW
    refine ⟨⟨h', w.shared, w.weak.set i none⟩,
      by simp [World.stepPtr, hg, WeakPtr.destroy, hd], ?_, by simp, by simp [ho]⟩
    exact (World.inv_iff _).mpr (hinv' _ (fun b' => rfl))

theorem stepPtr_weakSwap (fuel : Nat) (w : World) (i j : Nat) (hinv : w.Inv) :
    ∃ w1, w.stepPtr fuel (PtrOp.weakSwap i j) = some w1 ∧ w.StepOkPtr w1 := by
  refine ⟨w.swapWeak i j, rfl, ?_⟩
  unfold World.swapWeak
  cases hgi : w.getWeak i with
  | none => exact World.StepOkPtr.same w hinv
  | some a =>
    cases hgj : w.getWeak j with
    | none => exact World.StepOkPtr.same w hinv
    | some b =>
      have hi := getWeak_some w i a hgi
      have hj := getWeak_some w j b hgj
      refine ⟨?_, by simp, by simp⟩
      refine (World.inv_iff _).mpr ?_
      refine HeapInv.congrWeak hinv (fun c => ?_)
      simp only [World.weakHolders]
      by_cases hij : i = j
      · subst hij
        rw [hi] at hj
        cases hj
        simp [List.set_set, set_eq_self_of_get _ _ _ hi]
      · have h1 := countP_set_add (weakHoldsBlock c) w.weak i _ (some b) hi
        have hj' : (w.weak.set i (some b))[j]? = some (some b) := by
          rw [List.getElem?_set_ne hij]; exact hj
        have h2 := countP_set_add (weakHoldsBlock c) (w.weak.set i (some b)) j _ (some a) hj'
        omega

theorem stepPtr_weakCopyAssign (fuel : Nat) (w : World) (dst src : Nat) (hinv : w.Inv)
    (hW : w.weak.length + w.heap.objects.length + 1 < SIZE_MOD) :
    ∃ w1, w.stepPtr fuel (PtrOp.weakCopyAssign dst src) = some w1 ∧ w.StepOkPtr w1 := by
  by_cases hne : dst = src
  · exact ⟨w, by simp [World.stepPtr, hne], World.StepOkPtr.same w hinv⟩
  cases hgd : w.getWeak dst with
  | none =>
    exact ⟨w, by simp [World.stepPtr, hne, World.weakCopyAssign, hgd],
      World.StepOkPtr.same w hinv⟩
  | some this =>
    cases hgs : w.getWeak src with
    | none =>
      exact ⟨w, by simp [World.stepPtr, hne, World.weakCopyAssign, hgd, hgs],
        World.StepOkPtr.same w hinv⟩
    | some other =>
      have hd_get := getWeak_some w dst this hgd
      have hs_get := getWeak_some w src other hgs
      obtain ⟨h', w1, hd, hinv', ho, _, _, _⟩ :=
        weak_release_inv fuel w.heap w.shared w.weak dst this hd_get hinv (by omega)
      have hgo : World.getWeak ⟨h', w.shared, w.weak.set dst (some w1)⟩ src = some other :=
        getWeak_of_get _ _ _ (by simp [List.getElem?_set_ne hne, hs_get])
      have hI := hinv' none (fun _ => rfl)
      have hsrc' : (w.weak.set dst none)[src]? = some (some other) := by
        rw [List.getElem?_set_ne hne]; exact hs_get
      have hlen' : (w.weak.set dst none).length = w.weak.length := by simp
      cases hb : other.block_ with
      | none =>
        refine ⟨⟨h', w.shared, w.weak.set dst (some ⟨other.ptr_, none⟩)⟩, ?_, ?_, by simp,
          by simp [ho]⟩
        · simp [World.stepPtr, hne, World.weakCopyAssign, hgd, hgs, hd, hgo, hb,
            List.set_set]
        · refine (World.inv_iff _).mpr ?_
          exact hinv' _ (fun b' => weakHoldsBlock_empty b' _ rfl)
      | some b =>
        obtain ⟨blk, hblk, hdel, _⟩ := weak_block_live h' w.shared (w.weak.set dst none) src
          other b hI hsrc' hb
        refine ⟨⟨IncWeakRef h' b, w.shared, w.weak.set dst (some ⟨other.ptr_, some b⟩)⟩,
          ?_, ?_, by simp, by simp [IncWeakRef, objects_modifyBlock, ho]⟩
        · simp [World.stepPtr, hne, World.weakCopyAssign, hgd, hgs, hd, hgo, hb,
            List.set_set]
        · refine (World.inv_iff _).mpr ?_
          refine weak_acquire_inv h' w.shared (w.weak.set dst none) _ b blk hblk hdel hI
            (by rw [hlen', ho]; exact hW) (fun b' => ?_)
          have hdn : (w.weak.set dst none)[dst]? = some none := by
            simp [(List.getElem?_eq_some_iff.mp hd_get).1]
          have hc := countP_set_add (weakHoldsBlock b') (w.weak.set dst none) dst none
            (some ⟨other.ptr_, some b⟩) hdn
          rw [List.set_set, weakHoldsBlock_ite b' ⟨other.ptr_, some b⟩ b rfl] at hc
          simp only [weakHoldsBlock, Bool.false_eq_true, if_false, Nat.add_zero] at hc
          exact hc

theorem stepPtr_weakMoveAssign (fuel : Nat) (w : World) (dst src : Nat) (hinv : w.Inv)
    (hW : w.weak.length + w.heap.objects.length < SIZE_MOD) :
    ∃ w1, w.stepPtr fuel (PtrOp.weakMoveAssign dst src) = some w1 ∧ w.StepOkPtr w1 := by
  by_cases hne : dst = src
  · exact ⟨w, by simp [World.stepPtr, hne], World.StepOkPtr.same w hinv⟩
  cases hgd : w.getWeak dst with
  | none =>
    exact ⟨w, by simp [World.stepPtr, hne, World.weakMoveAssign, hgd],
      World.StepOkPtr.same w hinv⟩
  | some this =>
    cases hgs : w.getWeak src with
    | none =>
      exact ⟨w, by simp [World.stepPtr, hne, World.weakMoveAssign, hgd, hgs],
        World.StepOkPtr.same w hinv⟩
    | some other =>
      have hd_get := getWeak_some w dst this hgd
      have hs_get := getWeak_some w src other hgs
      obtain ⟨h', w1, hd, hinv', ho, _, _, _⟩ :=
        weak_release_inv fuel w.heap w.shared w.weak dst this hd_get hinv hW
      have hgo : World.getWeak ⟨h', w.shared, w.weak.set dst (some w1)⟩ src = some other :=
        getWeak_of_get _ _ _ (by simp [List.getElem?_set_ne hne, hs_get])
      have hI := hinv' none (fun _ => rfl)
      refine ⟨⟨h', w.shared, (w.weak.set dst (some ⟨other.ptr_, other.block_⟩)).set src
          (some ⟨none, none⟩)⟩, ?_, ?_, by simp, by simp [ho]⟩
      · simp [World.stepPtr, hne, World.weakMoveAssign, hgd, hgs, hd, hgo, List.set_set]
      · refine (World.inv_iff _).mpr ?_
        refine HeapInv.congrWeak hI (fun c => ?_)
        have hdn : (w.weak.set dst none)[dst]? = some none := by
          simp [(List.getElem?_eq_some_iff.mp hd_get).1]
        have h1 := countP_set_add (weakHoldsBlock c) (w.weak.set dst none) dst none
          (some ⟨other.ptr_, other.block_⟩) hdn
        rw [List.set_set] at h1
        have hsrc' : (w.weak.set dst (some ⟨other.ptr_, other.block_⟩))[src]? =
            some (some other) := by
          rw [List.getElem?_set_ne hne]; exact hs_get
        have h2 := countP_set_add (weakHoldsBlock c)
          (w.weak.set dst (some ⟨other.ptr_, other.block_⟩)) src _ (some ⟨none, none⟩) hsrc'
        have he : weakHoldsBlock c (some (WeakPtr.mk other.ptr_ other.block_)) =
            weakHoldsBlock c (some other) := rfl
        rw [he] at h1
        simp only [weakHoldsBlock_empty c ⟨none, none⟩ rfl, Bool.false_eq_true, if_false,
          Nat.add_zero] at h2
        have hn : weakHoldsBlock c none = false := rfl
        simp only [hn, Bool.false_eq_true, if_false, Nat.add_zero] at h1
        simp only
        omega

theorem stepPtr_weakAssignShared (fuel : Nat) (w : World) (dst src : Nat) (hinv : w.Inv)
    (hW : w.weak.length + w.heap.objects.length + 1 < SIZE_MOD) :
    ∃ w1, w.stepPtr fuel (PtrOp.weakAssignShared dst src) = some w1 ∧ w.StepOkPtr w1 := by
  cases hgd : w.getWeak dst with
  | none =>
    exact ⟨w, by simp [World.stepPtr, World.weakAssignShared, hgd],
      World.StepOkPtr.same w hinv⟩
  | some this =>
    cases hgs : w.getShared src with
    | none =>
      exact ⟨w, by simp [World.stepPtr, World.weakAssignShared, hgd, hgs],
        World.StepOkPtr.same w hinv⟩
    | some other =>
      have hd_get := getWeak_some w dst this hgd
      have hs_get := getShared_some w src other hgs
      obtain ⟨h', w1, hd, hinv', ho, _, _, _⟩ :=
        weak_release_inv fuel w.heap w.shared w.weak dst this hd_get hinv (by omega)
      have hI := hinv' none (fun _ => rfl)
      have hlen' : (w.weak.set dst none).length = w.weak.length := by simp
      cases hb : other.block_ with
      | none =>
        refine ⟨⟨h', w.shared, w.weak.set dst (some ⟨other.ptr_, none⟩)⟩, ?_, ?_, by simp,
          by simp [ho]⟩
        · simp [World.stepPtr, World.weakAssignShared, hgd, hgs, WeakPtr.assignShared, hd, hb]
        · refine (World.inv_iff _).mpr ?_
          exact hinv' _ (fun b' => weakHoldsBlock_empty b' _ rfl)
      | some b =>
        obtain ⟨blk, hblk, hdel, _⟩ := held_block_live h' w.shared (w.weak.set dst none) src
          other b hI hs_get hb
        refine ⟨⟨IncWeakRef h' b, w.shared, w.weak.set dst (some ⟨other.ptr_, some b⟩)⟩,
          ?_, ?_, by simp, by simp [IncWeakRef, objects_modifyBlock, ho]⟩
        · simp [World.stepPtr, World.weakAssignShared, hgd, hgs, WeakPtr.assignShared, hd, hb]
        · refine (World.inv_iff _).mpr ?_
          refine weak_acquire_inv h' w.shared (w.weak.set dst none) _ b blk hblk hdel hI
            (by rw [hlen', ho]; exact hW) (fun b' => ?_)
          have hdn : (w.weak.set dst none)[dst]? = some none := by
            simp [(List.getElem?_eq_some_iff.mp hd_get).1]
          have hc := countP_set_add (weakHoldsBlock b') (w.weak.set dst none) dst none
            (some ⟨other.ptr_, some b⟩) hdn
          rw [List.set_set, weakHoldsBlock_ite b' ⟨other.ptr_, some b⟩ b rfl] at hc
          simp only [weakHoldsBlock, Bool.false_eq_true, if_false, Nat.add_zero] at hc
          exact hc

theorem stepPtr_alias (fuel : Nat) (w : World) (src : Nat) (ptr : Option Nat) (hinv : w.Inv)
    (hS : w.shared.length + 1 < SIZE_MOD) :
    ∃ w1, w.stepPtr fuel (PtrOp.aliasConstruct src ptr) = some w1 ∧ w.StepOkPtr w1 := by
  cases hg : w.getShared src with
  | none => exact ⟨w, by simp [World.stepPtr, hg], World.StepOkPtr.same w hinv⟩
  | some other =>
    have hget := getShared_some w src other hg
    cases hb : other.block_ with
    | none => exact ⟨w, by simp [World.stepPtr, hg, hb], World.StepOkPtr.same w hinv⟩
    | some b =>
      obtain ⟨blk, hblk, hd, _⟩ := held_block_live w.heap w.shared w.weak src other b
        hinv hget hb
      refine ⟨⟨IncStrongRef w.heap b, w.shared ++ [some ⟨ptr, some b⟩], w.weak⟩,
        by simp [World.stepPtr, hg, hb, SharedPtr.alias], ?_, by simp,
        by simp [IncStrongRef, objects_modifyBlock]⟩
      refine (World.inv_iff _).mpr ?_
      exact acquire_inv w.heap w.shared _ w.weak b blk hblk hd hinv hS
        (fun b' => countP_push_block w.shared _ b b' rfl)

theorem promote_inv (w : World) (src : Nat) (other : WeakPtr) (hinv : w.Inv)
    (hget : w.weak[src]? = some (some other)) (hne : other.UseCount w.heap ≠ 0)
    (hS : w.shared.length + 1 < SIZE_MOD) :
    ∃ b, other.block_ = some b ∧
      SharedPtr.fromWeak w.heap other =
        (IncStrongRef w.heap b, Except.ok ⟨other.ptr_, some b⟩) ∧
      World.StepOkPtr w ⟨IncStrongRef w.heap b, w.shared ++ [some ⟨other.ptr_, some b⟩],
        w.weak⟩ := by
  cases hb : other.block_ with
  | none => simp [WeakPtr.UseCount, hb] at hne
  | some b =>
    obtain ⟨blk, hblk, hd, _⟩ := weak_block_live w.heap w.shared w.weak src other b
      hinv hget hb
    refine ⟨b, rfl, by simp [SharedPtr.fromWeak, hne, hb], ?_, by simp,
      by simp [IncStrongRef, objects_modifyBlock]⟩
    refine (World.inv_iff _).mpr ?_
    exact acquire_inv w.heap w.shared _ w.weak b blk hblk hd hinv hS
      (fun b' => countP_push_block w.shared _ b b' rfl)

theorem stepPtr_promote (fuel : Nat) (w : World) (src : Nat) (hinv : w.Inv)
    (hS : w.shared.length + 1 < SIZE_MOD) :
    ∃ w1, w.stepPtr fuel (PtrOp.promote src) = some w1 ∧ w.StepOkPtr w1 := by
  cases hg : w.getWeak src with
  | none => exact ⟨w, by simp [World.stepPtr, hg], World.StepOkPtr.same w hinv⟩
  | some other =>
    have hget := getWeak_some w src other hg
    by_cases hz : other.UseCount w.heap = 0
    · exact ⟨w, by simp [World.stepPtr, hg, SharedPtr.fromWeak, hz],
        World.StepOkPtr.same w hinv⟩
    · obtain ⟨b, _, hfw, hok⟩ := promote_inv w src other hinv hget hz hS
      exact ⟨_, by simp [World.stepPtr, hg, hfw], hok⟩

theorem stepPtr_lock (fuel : Nat) (w : World) (src : Nat) (hinv : w.Inv)
    (hS : w.shared.length + 1 < SIZE_MOD) :
    ∃ w1, w.stepPtr fuel (PtrOp.lock src) = some w1 ∧ w.StepOkPtr w1 := by
  cases hg : w.getWeak src with
  | none => exact ⟨w, by simp [World.stepPtr, hg], World.StepOkPtr.same w hinv⟩
  | some other =>
    have hget := getWeak_some w src other hg
    by_cases hz : other.UseCount w.heap = 0
    · refine ⟨⟨w.heap, w.shared ++ [some ⟨none, none⟩], w.weak⟩,
        by simp [World.stepPtr, hg, WeakPtr.Lock, WeakPtr.Expired, hz], ?_, by simp, by simp⟩
      refine (World.inv_iff _).mpr ?_
      exact HeapInv.congr hinv (fun b => countP_push_empty w.shared _ b rfl)
    · obtain ⟨b, _, hfw, hok⟩ := promote_inv w src other hinv hget hz hS
      exact ⟨_, by simp [World.stepPtr, hg, WeakPtr.Lock, WeakPtr.Expired, hz, hfw], hok⟩

theorem World.stepPtr_ok (n : Nat) (w : World) (op : PtrOp) (hinv : w.Inv)
    (hS : w.shared.length + 1 < SIZE_MOD)
    (hW : w.weak.length + w.heap.objects.length + 2 < SIZE_MOD) :
    ∃ w1, w.stepPtr (n + 1) op = some w1 ∧ w.StepOkPtr w1 := by
  cases op with
  | shared op =>
    obtain ⟨w1, h1, h2⟩ := World.step_ok n w op hinv hS hW
    exact ⟨w1, h1, h2.toPtr⟩
  | aliasConstruct src ptr => exact stepPtr_alias (n + 1) w src ptr hinv hS
  | promote src => exact stepPtr_promote (n + 1) w src hinv hS
  | lock src => exact stepPtr_lock (n + 1) w src hinv hS
  | weakEmpty => exact stepPtr_weakEmpty (n + 1) w hinv
  | weakFromShared src => exact stepPtr_weakFromShared (n + 1) w src hinv (by omega)
  | weakCopyConstruct src => exact stepPtr_weakCopyConstruct (n + 1) w src hinv (by omega)
  | weakMoveConstruct src => exact stepPtr_weakMoveConstruct (n + 1) w src hinv
  | weakCopyAssign dst src => exact stepPtr_weakCopyAssign (n + 1) w dst src hinv (by omega)
  | weakMoveAssign dst src => exact stepPtr_weakMoveAssign (n + 1) w dst src hinv (by omega)
  | weakAssignShared dst src =>
    exact stepPtr_weakAssignShared (n + 1) w dst src hinv (by omega)
  | weakReset i => exact stepPtr_weakReset (n + 1) w i hinv (by omega)
  | weakSwap i j => exact stepPtr_weakSwap (n + 1) w i j hinv
  | weakDestroy i => exact stepPtr_weakDestroy (n + 1) w i hinv (by omega)

/-! ## Every decrement is on a counter of at least 1 (C30) -/

theorem WeakPtr.weakGuarded_none (fuel : Nat) (h : Heap) (q : Option Nat) :
    WeakPtr.DisposeGuarded fuel h ⟨q, none⟩ = true := rfl

theorem SharedPtr.sharedGuarded_none (fuel : Nat) (h : Heap) (p : Option Nat) :
    SharedPtr.DisposeGuarded fuel h ⟨p, none⟩ = true := rfl

theorem WeakPtr.weakGuarded_of_live (fuel : Nat) (h : Heap) (q : Option Nat) (b : Nat)
    (blk : ControlBlock) (hb : h.blocks[b]? = some blk) (hw1 : 1 ≤ blk.weak_ref_count_)
    (hin : blk.strong_ref_count_ = 0 → blk.kind = BlockKind.holder ∨ blk.ptr_ = none) :
    WeakPtr.DisposeGuarded fuel h ⟨q, some b⟩ = true := by
  have hlen := (List.getElem?_eq_some_iff.mp hb).1
  obtain ⟨k, s, w, pt, d⟩ := blk
  simp only at hw1 hin
  simp only [WeakPtr.DisposeGuarded, WeakPtr.DisposeGuardedWith, GetWeakRefCount, hb,
    Bool.and_eq_true, decide_eq_true_eq]
  refine ⟨hw1, ?_⟩
  simp only [DecWeakRef_eq h b _ hb, GetStrongRefCount, GetWeakRefCount,
    setBlock_get h b b _ _ hb, if_true]
  split
  · rename_i hc
    rcases hin hc.1 with hk | hp
    · subst hk
      simp [deleteBlockGuardedWith, setBlock_get h b b _ _ hb]
    · subst hp
      cases k <;> simp [deleteBlockGuardedWith, setBlock_get h b b _ _ hb]
  · rfl

theorem DecStrongRefGuarded_ok (n : Nat) (h : Heap) (b : Nat) (blk : ControlBlock)
    (hb : h.blocks[b]? = some blk) (hs1 : 1 ≤ blk.strong_ref_count_)
    (hsM : blk.strong_ref_count_ < SIZE_MOD)
    (hobj : ∀ o ob, blk.ptr_ = some o → h.objects[o]? = some ob →
      ∀ wt, ob.weak_this_ = some wt →
        wt.block_ = none ∨ (wt.block_ = some b ∧ 2 ≤ blk.weak_ref_count_ ∧
          blk.weak_ref_count_ < SIZE_MOD)) :
    DecStrongRefGuarded (n + 1) h b = true := by
  have hlen := (List.getElem?_eq_some_iff.mp hb).1
  obtain ⟨k, s, w, pt, d⟩ := blk
  simp only at hs1 hsM hobj
  have hdec := dec_mod s hs1 hsM
  simp only [DecStrongRefGuarded, hb, Bool.and_eq_true, decide_eq_true_eq, hdec,
    modifyBlock_eq h b _ _ hb]
  refine ⟨hs1, ?_⟩
  split
  · cases pt with
    | none => rfl
    | some o =>
      simp only
      cases ho : h.objects[o]? with
      | none => simp [deleteObjectGuarded, ho]
      | some ob =>
        have holen := (List.getElem?_eq_some_iff.mp ho).1
        obtain ⟨wt, dd⟩ := ob
        cases wt with
        | none => simp [deleteObjectGuarded, ho]
        | some wt =>
          obtain ⟨q, wb⟩ := wt
          rcases hobj o _ rfl ho _ rfl with hn | ⟨hbb, hw2, hwM⟩
          · simp only at hn
            subst hn
            simp [deleteObjectGuarded, ho, WeakPtr.DisposeGuardedWith]
          · simp only at hbb
            subst hbb
            have hw' : (w + SIZE_MOD - 1) % SIZE_MOD = w - 1 := dec_mod w (by omega) hwM
            have hne : w - 1 ≠ 0 := by omega
            have hmo : (Heap.mk (h.blocks.set b ⟨k, s - 1, w, some o, d⟩)
                h.objects).modifyObject o (fun x => { x with destroyed := x.destroyed + 1 }) =
                ⟨h.blocks.set b ⟨k, s - 1, w, some o, d⟩,
                  h.objects.set o ⟨some ⟨q, some b⟩, dd + 1⟩⟩ :=
              modifyObject_eq (Heap.mk (h.blocks.set b ⟨k, s - 1, w, some o, d⟩) h.objects)
                o _ _ ho
            have hbk : (Heap.mk (h.blocks.set b ⟨k, s - 1, w, some o, d⟩)
                (h.objects.set o ⟨some ⟨q, some b⟩, dd + 1⟩)).blocks[b]? =
                some ⟨k, s - 1, w, some o, d⟩ := by
              simp [hlen]
            simp only [deleteObjectGuarded, ho, hmo, WeakPtr.DisposeGuardedWith,
              GetWeakRefCount, GetStrongRefCount, hbk, DecWeakRef_eq _ b _ hbk, hw']
            simp [Heap.setBlock, hlen, hne]
            omega
  · rfl

theorem SharedPtr.DisposeGuarded_eq (fuel : Nat) (h : Heap) (p : Option Nat) (b : Nat) :
    SharedPtr.DisposeGuarded fuel h ⟨p, some b⟩ =
      (DecStrongRefGuarded fuel (IncWeakRef h b) b &&
        match DecStrongRef fuel (IncWeakRef h b) b with
        | none => false
        | some h2 => WeakPtr.DisposeGuarded fuel h2 ⟨none, some b⟩) :=
  rfl

theorem SharedPtr.sharedGuarded_of_live (n : Nat) (h : Heap) (p : Option Nat) (b : Nat)
    (blk : ControlBlock) (hb : h.blocks[b]? = some blk) (hs1 : 1 ≤ blk.strong_ref_count_)
    (hsM : blk.strong_ref_count_ < SIZE_MOD) (hwM : blk.weak_ref_count_ + 1 < SIZE_MOD)
    (hok : managedOk h b blk = true) :
    SharedPtr.DisposeGuarded (n + 1) h ⟨p, some b⟩ = true := by
  have hlen := (List.getElem?_eq_some_iff.mp hb).1
  have hmod : (blk.weak_ref_count_ + 1) % SIZE_MOD = blk.weak_ref_count_ + 1 :=
    Nat.mod_eq_of_lt hwM
  have hinc := IncWeakRef_eq h b blk hb
  rw [hmod] at hinc
  have hb1 : (h.setBlock b { blk with weak_ref_count_ := blk.weak_ref_count_ + 1 }).blocks[b]? =
      some { blk with weak_ref_count_ := blk.weak_ref_count_ + 1 } := by
    rw [setBlock_get h b b blk _ hb]; simp
  have hobj : ∀ o ob, blk.ptr_ = some o → h.objects[o]? = some ob →
      ∀ wt, ob.weak_this_ = some wt →
        wt.block_ = none ∨ (wt.block_ = some b ∧ 1 ≤ blk.weak_ref_count_) := by
    intro o ob hp ho wt hwt
    obtain ⟨ob', ho', hc⟩ := managedOk_some h b o blk hok hp
    rw [ho] at ho'
    cases ho'
    exact hc wt hwt
  rw [SharedPtr.DisposeGuarded_eq, hinc, Bool.and_eq_true]
  constructor
  · refine DecStrongRefGuarded_ok n _ b _ hb1 hs1 hsM ?_
    intro o ob hp ho wt hwt
    rcases hobj o ob hp ho wt hwt with hn | ⟨h1, h2⟩
    · exact Or.inl hn
    · exact Or.inr ⟨h1, by simp only; omega, by simp only; omega⟩
  · by_cases hs : blk.strong_ref_count_ = 1
    · have hpc : blk.ptr_ = none ∨ ∃ o, blk.ptr_ = some o := by
        cases blk.ptr_ <;> simp
      rcases hpc with hp | ⟨o, hp⟩
      · rw [DecStrongRef_null (n + 1) _ b _ hb1 hs hp]
        refine WeakPtr.weakGuarded_of_live (n + 1) _ none b
          ⟨blk.kind, 0, blk.weak_ref_count_ + 1, blk.ptr_, blk.deleted⟩
          (by simp [Heap.setBlock, hlen]) (by simp) (fun _ => Or.inr hp)
      · obtain ⟨ob, ho, hc⟩ := managedOk_some h b o blk hok hp
        have hu : ob.weakUnits ≤ 1 ∧ (ob.weakUnits = 1 → 1 ≤ blk.weak_ref_count_) := by
          rcases ob.weakUnits_cases with ⟨h0, _⟩ | ⟨h1, q, b', hwt⟩
          · omega
          · refine ⟨by omega, fun _ => ?_⟩
            rcases hc _ hwt with h' | ⟨_, h'⟩
            · simp at h'
            · exact h'
        rw [DecStrongRef_last n _ b o _ ob hb1 hs (by simp only; omega) hp ho
          (fun wt hwt => by
            rcases hc wt hwt with h' | ⟨h', h''⟩
            · exact Or.inl h'
            · exact Or.inr ⟨h', by simp only; omega⟩)]
        refine WeakPtr.weakGuarded_of_live (n + 1) _ none b
          ⟨blk.kind, 0, blk.weak_ref_count_ + 1 - ob.weakUnits,
            if blk.kind = BlockKind.pointer then none else blk.ptr_, blk.deleted⟩
          (by simp [Heap.setBlock, hlen]) (by simp only; omega) (fun _ => ?_)
        cases blk.kind <;> simp
    · rw [DecStrongRef_shared (n + 1) _ b _ hb1 (by simp only; omega) hsM]
      refine WeakPtr.weakGuarded_of_live (n + 1) _ none b
        ⟨blk.kind, blk.strong_ref_count_ - 1, blk.weak_ref_count_ + 1, blk.ptr_, blk.deleted⟩
        (by simp [Heap.setBlock, hlen]) (by simp) (fun h0 => ?_)
      simp only at h0
      omega

theorem shared_guarded (n : Nat) (h : Heap) (shared : List (Option SharedPtr))
    (weak : List (Option WeakPtr)) (i : Nat) (this : SharedPtr)
    (hget : shared[i]? = some (some this))
    (hinv : HeapInv h (fun b => shared.countP (holdsBlock b))
      (fun b => weak.countP (weakHoldsBlock b)))
    (hS : shared.length < SIZE_MOD) (hW : weak.length + h.objects.length + 1 < SIZE_MOD) :
    SharedPtr.DisposeGuarded (n + 1) h this = true := by
  obtain ⟨p, tb⟩ := this
  cases tb with
  | none => rfl
  | some b =>
    obtain ⟨blk, hb, hd, hcnt⟩ := held_block_live h shared weak i ⟨p, some b⟩ b hinv hget rfl
    obtain ⟨_, g2, g3, _⟩ := hinv.live b blk hb hd
    have hh : 1 ≤ shared.countP (holdsBlock b) := by
      have hc := countP_set_add (holdsBlock b) shared i _ none hget
      rw [holdsBlock_ite b ⟨p, some b⟩ b rfl] at hc
      simp [holdsBlock] at hc
      omega
    have hle : shared.countP (holdsBlock b) ≤ shared.length := List.countP_le_length _
    have hwle : weak.countP (weakHoldsBlock b) ≤ weak.length := List.countP_le_length _
    have hole := objUnits_le h b
    exact SharedPtr.sharedGuarded_of_live n h p b blk hb (by omega) (by omega) (by omega) g3

theorem weak_guarded (fuel : Nat) (h : Heap) (shared : List (Option SharedPtr))
    (weak : List (Option WeakPtr)) (i : Nat) (this : WeakPtr)
    (hget : weak[i]? = some (some this))
    (hinv : HeapInv h (fun b => shared.countP (holdsBlock b))
      (fun b => weak.countP (weakHoldsBlock b))) :
    WeakPtr.DisposeGuarded fuel h this = true := by
  obtain ⟨q, tb⟩ := this
  cases tb with
  | none => rfl
  | some b =>
    obtain ⟨blk, hb, hd, _, hw1⟩ := weak_block_live h shared weak i ⟨q, some b⟩ b hinv hget rfl
    obtain ⟨_, _, _, g4⟩ := hinv.live b blk hb hd
    exact WeakPtr.weakGuarded_of_live fuel h q b blk hb hw1 g4

theorem shared_guarded_at (n : Nat) (w : World) (i : Nat) (hinv : w.Inv)
    (hS : w.shared.length < SIZE_MOD)
    (hW : w.weak.length + w.heap.objects.length + 1 < SIZE_MOD) :
    (match w.getShared i with
      | some this => SharedPtr.DisposeGuarded (n + 1) w.heap this
      | none => true) = true := by
  cases hg : w.getShared i with
  | none => rfl
  | some this =>
    exact shared_guarded n w.heap w.shared w.weak i this (getShared_some w i this hg) hinv hS hW

theorem weak_guarded_at (fuel : Nat) (w : World) (i : Nat) (hinv : w.Inv) :
    (match w.getWeak i with
      | some this => WeakPtr.DisposeGuarded fuel w.heap this
      | none => true) = true := by
  cases hg : w.getWeak i with
  | none => rfl
  | some this =>
    exact weak_guarded fuel w.heap w.shared w.weak i this (getWeak_some w i this hg) hinv

theorem World.stepPtrGuarded_ok (n : Nat) (w : World) (op : PtrOp) (hinv : w.Inv)
    (hS : w.shared.length + 1 < SIZE_MOD)
    (hW : w.weak.length + w.heap.objects.length + 2 < SIZE_MOD) :
    w.stepPtrGuarded (n + 1) op = true := by
  cases op with
  | shared sop =>
    cases sop with
    | construct obj es =>
      cases obj with
      | none => cases es <;> rfl
      | some eo =>
        cases es with
        | false => rfl
        | true =>
          cases eo <;>
          simp [World.stepPtrGuarded, SharedPtr.InitWeakThisGuarded, newObject, IncStrongRef,
            objects_modifyBlock, WeakPtr.weakGuarded_none]
    | empty => rfl
    | makeShared e =>
      cases e with
      | false => rfl
      | true =>
        simp [World.stepPtrGuarded, SharedPtr.InitWeakThisGuarded, IncStrongRef,
          objects_modifyBlock, WeakPtr.weakGuarded_none]
    | copyConstruct src => rfl
    | moveConstruct src => rfl
    | copyAssign dst src => exact shared_guarded_at n w dst hinv (by omega) (by omega)
    | moveAssign dst src => exact shared_guarded_at n w dst hinv (by omega) (by omega)
    | reset i => exact shared_guarded_at n w i hinv (by omega) (by omega)
    | resetPtr i obj =>
      cases obj with
      | none => exact shared_guarded_at n w i hinv (by omega) (by omega)
      | some eo =>
        have hinv1 : HeapInv ⟨w.heap.blocks, w.heap.objects ++
            [⟨if eo then some ⟨none, none⟩ else none, 0⟩]⟩
            (fun b => w.shared.countP (holdsBlock b))
            (fun b => w.weak.countP (weakHoldsBlock b)) :=
          HeapInv.allocObject hinv _ (by intro b'; cases eo <;> simp [objHoldsBlock])
        show (match w.getShared i with
          | some this => SharedPtr.DisposeGuarded (n + 1) (newObject w.heap eo).1 this
          | none => true) = true
        cases hg : w.getShared i with
        | none => rfl
        | some this =>
          exact shared_guarded n _ w.shared w.weak i this (getShared_some w i this hg) hinv1
            (by omega) (by simp only [newObject, List.length_append, List.length_singleton]; omega)
    | swap i j => rfl
    | destroy i => exact shared_guarded_at n w i hinv (by omega) (by omega)
  | aliasConstruct src ptr => rfl
  | promote src => rfl
  | lock src => rfl
  | weakEmpty => rfl
  | weakFromShared src => rfl
  | weakCopyConstruct src => rfl
  | weakMoveConstruct src => rfl
  | weakCopyAssign dst src =>
    show (match w.getWeak dst with
      | some this => if dst = src then true else WeakPtr.DisposeGuarded (n + 1) w.heap this
      | none => true) = true
    have hwg := weak_guarded_at (n + 1) w dst hinv
    cases hg : w.getWeak dst with
    | none => rfl
    | some t =>
      simp only [hg] at hwg
      by_cases hne : dst = src <;> simp [hne, hwg]
  | weakMoveAssign dst src =>
    show (match w.getWeak dst with
      | some this => if dst = src then true else WeakPtr.DisposeGuarded (n + 1) w.heap this
      | none => true) = true
    have hwg := weak_guarded_at (n + 1) w dst hinv
    cases hg : w.getWeak dst with
    | none => rfl
    | some t =>
      simp only [hg] at hwg
      by_cases hne : dst = src <;> simp [hne, hwg]
  | weakAssignShared dst src => exact weak_guarded_at (n + 1) w dst hinv
  | weakReset i => exact weak_guarded_at (n + 1) w i hinv
  | weakSwap i j => rfl
  | weakDestroy i => exact weak_guarded_at (n + 1) w i hinv

theorem runPtr_cons (fuel : Nat) (w : World) (op : PtrOp) (ops : List PtrOp) :
    World.runPtr fuel w (op :: ops) =
      (w.stepPtr fuel op).bind (fun w1 => World.runPtr fuel w1 ops) :=
  rfl

theorem runPtrGuarded_cons (fuel : Nat) (w : World) (op : PtrOp) (ops : List PtrOp) :
    World.runPtrGuarded fuel w (op :: ops) =
      (w.stepPtrGuarded fuel op &&
        match w.stepPtr fuel op with
        | none => false
        | some w1 => World.runPtrGuarded fuel w1 ops) :=
  rfl

theorem World.runPtr_ok (n : Nat) (ops : List PtrOp) :
    ∀ (w : World), w.Inv → w.shared.length + ops.length < SIZE_MOD →
      w.weak.length + w.heap.objects.length + ops.length + 1 < SIZE_MOD →
      ∃ w1, World.runPtr (n + 1) w ops = some w1 ∧ w1.Inv ∧
        World.runPtrGuarded (n + 1) w ops = true ∧
        w1.shared.length ≤ w.shared.length + ops.length ∧
        w1.weak.length + w1.heap.objects.length ≤
          w.weak.length + w.heap.objects.length + ops.length := by
  induction ops with
  | nil => intro w hinv _ _; exact ⟨w, rfl, hinv, rfl, by simp, by simp⟩
  | cons op ops ih =>
    intro w hinv hS hW
    simp only [List.length_cons] at hS hW ⊢
    obtain ⟨w1, hstep, hinv1, hs1, hw1⟩ := World.stepPtr_ok n w op hinv (by omega) (by omega)
    have hg := World.stepPtrGuarded_ok n w op hinv (by omega) (by omega)
    obtain ⟨w2, hrun, hinv2, hg2, hs2, hw2⟩ := ih w1 hinv1 (by omega) (by omega)
    refine ⟨w2, by rw [runPtr_cons, hstep, Option.some_bind, hrun], hinv2, ?_, by omega,
      by omega⟩
    rw [runPtrGuarded_cons, hg, hstep]
    simpa using hg2

/-- The ghost predicates do detect an underflow: a `WeakPtr` on a block whose weak count is 0,
and a `SharedPtr` on a block whose strong count is 0. -/
theorem guarded_detects_underflow :
    WeakPtr.DisposeGuarded 1 ⟨[⟨BlockKind.pointer, 1, 0, some 0, 0⟩], [⟨none, 0⟩]⟩
      ⟨some 0, some 0⟩ = false ∧
    SharedPtr.DisposeGuarded 1 ⟨[⟨BlockKind.pointer, 0, 1, none, 0⟩], [⟨none, 1⟩]⟩
      ⟨some 0, some 0⟩ = false := by
  decide

/-- Programs over handle variables, the payloads holding no handle besides `weak_this_`:
every sequence of `SharedPtr` and `WeakPtr` operations (construction from a raw
pointer, `MakeShared`, copy and move construction and assignment, aliasing from an owner that
holds a block, `Reset`, `Reset(ptr)`, `Swap`, `Lock`, promotion, destruction, and the `WeakPtr`
constructors, assignments between distinct variables, `Reset`, `Swap` and destructor), run
from the state without handles, returns, and every `DecStrongRef` call made on the way was on a
strong count of at least 1 and every `DecWeakRef` call on a weak count of at least 1, the calls
nested in the destruction of objects and blocks included.  In the state reached the same holds
for the disposal of any live handle, and every block that is not freed has as strong count the
number of live `SharedPtr` variables on it and as weak count the number of live `WeakPtr`
variables and `weak_this_` members on it, both at most the length of the sequence: no counter
has wrapped around.  The sequence is shorter than 2^64 - 1. -/
theorem World.runPtr_no_underflow (n : Nat) (ops : List PtrOp)
    (hlen : ops.length + 1 < SIZE_MOD) :
    ∃ w, World.runPtr (n + 1) World.init ops = some w ∧
      World.runPtrGuarded (n + 1) World.init ops = true ∧
      (∀ (i : Nat) (s : SharedPtr), w.shared[i]? = some (some s) →
        SharedPtr.DisposeGuarded (n + 1) w.heap s = true) ∧
      (∀ (j : Nat) (k : WeakPtr), w.weak[j]? = some (some k) →
        WeakPtr.DisposeGuarded (n + 1) w.heap k = true) ∧
      (∀ (b : Nat) (blk : ControlBlock), w.heap.blocks[b]? = some blk → blk.deleted = 0 →
        blk.strong_ref_count_ = w.holders b ∧
        blk.weak_ref_count_ = w.weakHolders b + w.heap.objUnits b ∧
        blk.strong_ref_count_ ≤ ops.length ∧ blk.weak_ref_count_ ≤ ops.length) := by
  obtain ⟨w, hrun, hinv, hg, hs, hw⟩ := World.runPtr_ok n ops World.init World.init_inv
    (by simp [World.init]; omega) (by simp [World.init]; omega)
  have hs' : w.shared.length ≤ ops.length := by simpa [World.init] using hs
  have hw' : w.weak.length + w.heap.objects.length ≤ ops.length := by
    simpa [World.init] using hw
  refine ⟨w, hrun, hg, ?_, ?_, ?_⟩
  · intro i s hget
    exact shared_guarded n w.heap w.shared w.weak i s hget hinv (by omega) (by omega)
  · intro j k hget
    exact weak_guarded (n + 1) w.heap w.shared w.weak j k hget hinv
  · intro b blk hb hd
    obtain ⟨g1, g2, _, _⟩ := hinv.live b blk hb hd
    have h1 : w.holders b ≤ w.shared.length := List.countP_le_length _
    have h2 : w.weakHolders b ≤ w.weak.length := List.countP_le_length _
    have h3 := objUnits_le w.heap b
    exact ⟨g1, g2, by omega, by omega⟩

/-- Example: a self-referencing object from `MakeShared`, a `WeakPtr` to it, a copy, a
`Lock()`, the three owners destroyed, a promotion that throws, the `WeakPtr` destroyed. -/
theorem World.runPtr_no_underflow_example :
    ∃ w, World.runPtr 1 World.init
        [PtrOp.shared (SharedOp.makeShared true), PtrOp.weakFromShared 0,
          PtrOp.shared (SharedOp.copyConstruct 0), PtrOp.lock 0,
          PtrOp.shared (SharedOp.destroy 0), PtrOp.shared (SharedOp.destroy 1),
          PtrOp.shared (SharedOp.destroy 2), PtrOp.promote 0, PtrOp.weakDestroy 0] = some w ∧
      World.runPtrGuarded 1 World.init
        [PtrOp.shared (SharedOp.makeShared true), PtrOp.weakFromShared 0,
          PtrOp.shared (SharedOp.copyConstruct 0), PtrOp.lock 0,
          PtrOp.shared (SharedOp.destroy 0), PtrOp.shared (SharedOp.destroy 1),
          PtrOp.shared (SharedOp.destroy 2), PtrOp.promote 0, PtrOp.weakDestroy 0] = true :=
  match World.runPtr_no_underflow 0
    [PtrOp.shared (SharedOp.makeShared true), PtrOp.weakFromShared 0,
      PtrOp.shared (SharedOp.copyConstruct 0), PtrOp.lock 0,
      PtrOp.shared (SharedOp.destroy 0), PtrOp.shared (SharedOp.destroy 1),
      PtrOp.shared (SharedOp.destroy 2), PtrOp.promote 0, PtrOp.weakDestroy 0]
    (by decide) with
  | ⟨w, h1, h2, _⟩ => ⟨w, h1, h2⟩

/-! ## `Reset(ptr)` against the raw-pointer constructor (C31) -/

/-- C31: `Reset(p)` on an empty handle and `SharedPtr(p)`, both run on a fresh object `p` of a
self-referencing type.  Both leave `Get() == p` and `UseCount() == 1` on a fresh pointer block.
The constructor installs the back-reference (weak count 1, `weak_this_` holds the block) and a
later `SharedFromThis()` succeeds; `Reset(p)` never calls `InitWeakThis`, so the weak count
is 0, `weak_this_` stays default-constructed and a later `SharedFromThis()` throws
`BadWeakPtr`.  On an object of a type without the capability the two agree. -/
theorem C31_reset_ptr_skips_back_reference (fuel : Nat) (h : Heap) :
    SharedPtr.ResetPtr fuel (newObject h true).1 ⟨none, none⟩ (some (newObject h true).2) =
      some (⟨h.blocks ++ [⟨BlockKind.pointer, 1, 0, some h.objects.length, 0⟩],
             h.objects ++ [⟨some ⟨none, none⟩, 0⟩]⟩,
        ⟨some h.objects.length, some h.blocks.length⟩) ∧
    SharedPtr.fromPtr fuel (newObject h true).1 (some (newObject h true).2) true =
      some (⟨h.blocks ++ [⟨BlockKind.pointer, 1, 1, some h.objects.length, 0⟩],
             h.objects ++ [⟨some ⟨some h.objects.length, some h.blocks.length⟩, 0⟩]⟩,
        ⟨some h.objects.length, some h.blocks.length⟩) ∧
    (∀ hr s, SharedPtr.ResetPtr fuel (newObject h true).1 ⟨none, none⟩
        (some (newObject h true).2) = some (hr, s) →
      s.Get = some (newObject h true).2 ∧ s.UseCount hr = 1 ∧
      GetWeakRefCount hr h.blocks.length = 0 ∧
      hr.objects[(newObject h true).2]? = some ⟨some ⟨none, none⟩, 0⟩ ∧
      SharedFromThis hr (newObject h true).2 = some (hr, Except.error BadWeakPtr.mk)) ∧
    (∀ hc s, SharedPtr.fromPtr fuel (newObject h true).1 (some (newObject h true).2) true =
        some (hc, s) →
      s.Get = some (newObject h true).2 ∧ s.UseCount hc = 1 ∧
      GetWeakRefCount hc h.blocks.length = 1 ∧
      hc.objects[(newObject h true).2]? =
        some ⟨some ⟨some h.objects.length, some h.blocks.length⟩, 0⟩ ∧
      SharedFromThis hc (newObject h true).2 =
        some (hc.setBlock h.blocks.length ⟨BlockKind.pointer, 2, 1, some h.objects.length, 0⟩,
          Except.ok s)) ∧
    (∀ es, SharedPtr.ResetPtr fuel (newObject h false).1 ⟨none, none⟩
        (some (newObject h false).2) =
      SharedPtr.fromPtr fuel (newObject h false).1 (some (newObject h false).2) es) := by
  have hR : ∀ eo, SharedPtr.ResetPtr fuel (newObject h eo).1 ⟨none, none⟩
      (some (newObject h eo).2) =
      some (⟨h.blocks ++ [⟨BlockKind.pointer, 1, 0, some h.objects.length, 0⟩],
             h.objects ++ [⟨if eo then some ⟨none, none⟩ else none, 0⟩]⟩,
        ⟨some h.objects.length, some h.blocks.length⟩) := by
    intro eo
    rw [ResetPtr_some, SharedPtr.Dispose_none]
    simp [newObject]
  have hC := fromPtr_new fuel h true true
  simp only [Bool.and_self, if_true] at hC
  have hRt := hR true
  simp only [if_true] at hRt
  have ho : (newObject h true).2 = h.objects.length := rfl
  refine ⟨hRt, hC, ?_, ?_, ?_⟩
  · intro hr s he
    rw [hRt] at he
    simp only [Option.some.injEq, Prod.mk.injEq] at he
    obtain ⟨rfl, rfl⟩ := he
    rw [ho]
    refine ⟨rfl, ?_, ?_, ?_, ?_⟩
    · simp [SharedPtr.UseCount, GetStrongRefCount]
    · simp [GetWeakRefCount]
    · simp
    · simp [SharedFromThis, SharedPtr.fromWeak, WeakPtr.UseCount]
  · intro hc s he
    rw [hC] at he
    simp only [Option.some.injEq, Prod.mk.injEq] at he
    obtain ⟨rfl, rfl⟩ := he
    rw [ho]
    refine ⟨rfl, ?_, ?_, ?_, ?_⟩
    · simp [SharedPtr.UseCount, GetStrongRefCount]
    · simp [GetWeakRefCount]
    · simp
    · exact SharedFromThis_live _ h.objects.length h.blocks.length
        ⟨some ⟨some h.objects.length, some h.blocks.length⟩, 0⟩
        ⟨BlockKind.pointer, 1, 1, some h.objects.length, 0⟩
        (by simp) rfl (by simp) (by simp) (by simp [SIZE_MOD])
  · intro es
    rw [hR false, fromPtr_new fuel h false es]
    simp

/-! ## One block and its payload inside any heap -/

theorem cell_block (h : Heap) (b o : Nat) (blk : ControlBlock) (ob : Object)
    (hb : b < h.blocks.length) : (h.withCell b o blk ob).blocks[b]? = some blk := by
  simp [Heap.withCell, hb]

theorem cell_object (h : Heap) (b o : Nat) (blk : ControlBlock) (ob : Object)
    (ho : o < h.objects.length) : (h.withCell b o blk ob).objects[o]? = some ob := by
  simp [Heap.withCell, ho]

theorem cell_cell (h : Heap) (b o : Nat) (blk blk1 : ControlBlock) (ob ob1 : Object) :
    (h.withCell b o blk ob).withCell b o blk1 ob1 = h.withCell b o blk1 ob1 := by
  simp [Heap.withCell]

theorem cell_self (h : Heap) (b o : Nat) (blk : ControlBlock) (ob : Object)
    (hb : h.blocks[b]? = some blk) (ho : h.objects[o]? = some ob) :
    h.withCell b o blk ob = h := by
  simp [Heap.withCell, set_eq_self_of_get _ _ _ hb, set_eq_self_of_get _ _ _ ho]

theorem observe_cell (h : Heap) (b o : Nat) (blk : ControlBlock) (ob : Object)
    (hb : b < h.blocks.length) (ho : o < h.objects.length) :
    observeBlock (h.withCell b o blk ob) b o =
      (blk.strong_ref_count_, blk.weak_ref_count_, ob.destroyed) := by
  simp [observeBlock, GetStrongRefCount, GetWeakRefCount, destroyedCount, Heap.withCell, hb, ho]

theorem cell_IncStrongRef (n : Nat) (h : Heap) (b o : Nat) (k : BlockKind) (s w : Nat)
    (pp : Option Nat) (dl : Nat) (ob : Object) (hb : b < h.blocks.length) :
    CounterOp.apply n (h.withCell b o ⟨k, s, w, pp, dl⟩ ob) b CounterOp.IncStrongRef =
      some (h.withCell b o ⟨k, (s + 1) % SIZE_MOD, w, pp, dl⟩ ob) := by
  simp [CounterOp.apply, IncStrongRef, Heap.modifyBlock, Heap.withCell, hb]

theorem cell_IncWeakRef (n : Nat) (h : Heap) (b o : Nat) (k : BlockKind) (s w : Nat)
    (pp : Option Nat) (dl : Nat) (ob : Object) (hb : b < h.blocks.length) :
    CounterOp.apply n (h.withCell b o ⟨k, s, w, pp, dl⟩ ob) b CounterOp.IncWeakRef =
      some (h.withCell b o ⟨k, s, (w + 1) % SIZE_MOD, pp, dl⟩ ob) := by
  simp [CounterOp.apply, IncWeakRef, Heap.modifyBlock, Heap.withCell, hb]

theorem cell_DecWeakRef (n : Nat) (h : Heap) (b o : Nat) (k : BlockKind) (s w : Nat)
    (pp : Option Nat) (dl : Nat) (ob : Object) (hb : b < h.blocks.length) :
    CounterOp.apply n (h.withCell b o ⟨k, s, w, pp, dl⟩ ob) b CounterOp.DecWeakRef =
      some (h.withCell b o ⟨k, s, (w + SIZE_MOD - 1) % SIZE_MOD, pp, dl⟩ ob) := by
  simp [CounterOp.apply, DecWeakRef, Heap.modifyBlock, Heap.withCell, hb]

theorem cell_DecStrongRef_keep (n : Nat) (h : Heap) (b o : Nat) (k : BlockKind) (s w : Nat)
    (pp : Option Nat) (dl : Nat) (ob : Object) (hb : b < h.blocks.length)
    (hz : (s + SIZE_MOD - 1) % SIZE_MOD ≠ 0) :
    CounterOp.apply n (h.withCell b o ⟨k, s, w, pp, dl⟩ ob) b CounterOp.DecStrongRef =
      some (h.withCell b o ⟨k, (s + SIZE_MOD - 1) % SIZE_MOD, w, pp, dl⟩ ob) := by
  simp [CounterOp.apply, DecStrongRef, Heap.modifyBlock, Heap.withCell, hb, hz]

theorem cell_DecStrongRef_null (n : Nat) (h : Heap) (b o : Nat) (s w : Nat)
    (dl : Nat) (ob : Object) (hb : b < h.blocks.length)
    (hz : (s + SIZE_MOD - 1) % SIZE_MOD = 0) :
    CounterOp.apply n (h.withCell b o ⟨BlockKind.pointer, s, w, none, dl⟩ ob) b
        CounterOp.DecStrongRef =
      some (h.withCell b o ⟨BlockKind.pointer, 0, w, none, dl⟩ ob) := by
  simp [CounterOp.apply, DecStrongRef, Heap.modifyBlock, Heap.withCell, hb, hz]

/-- The last `DecStrongRef` over a payload that holds no weak unit. -/
theorem cell_DecStrongRef_inert (n : Nat) (h : Heap) (b o : Nat) (k : BlockKind) (s w : Nat)
    (dl : Nat) (ob : Object) (hb : b < h.blocks.length) (ho : o < h.objects.length)
    (hz : (s + SIZE_MOD - 1) % SIZE_MOD = 0) (hu : ob.weakUnits = 0) :
    CounterOp.apply (n + 1) (h.withCell b o ⟨k, s, w, some o, dl⟩ ob) b
        CounterOp.DecStrongRef =
      some (h.withCell b o
        ⟨k, 0, w, if k = BlockKind.pointer then none else some o, dl⟩ ob.afterDtor) := by
  obtain ⟨wt, d⟩ := ob
  cases wt with
  | none =>
    cases k <;>
    simp [CounterOp.apply, DecStrongRef, Heap.modifyBlock, Heap.withCell, hb, ho, hz,
      deleteObject, Heap.modifyObject, Object.afterDtor]
  | some wv =>
    obtain ⟨q, wb⟩ := wv
    cases wb with
    | some b1 => simp [Object.weakUnits] at hu
    | none =>
      cases k <;>
      simp [CounterOp.apply, DecStrongRef, Heap.modifyBlock, Heap.withCell, hb, ho, hz,
        deleteObject, Heap.modifyObject, Object.afterDtor, WeakPtr.DisposeWith]

/-- The last `DecStrongRef` over a payload that holds its `weak_this_` on the block, the weak
count not being 1: the unit is given back and the block stays. -/
theorem cell_DecStrongRef_self (n : Nat) (h : Heap) (b o : Nat) (k : BlockKind) (s w : Nat)
    (dl : Nat) (q : Option Nat) (d : Nat) (hb : b < h.blocks.length)
    (ho : o < h.objects.length)
    (hz : (s + SIZE_MOD - 1) % SIZE_MOD = 0) (hw : (w + SIZE_MOD - 1) % SIZE_MOD ≠ 0) :
    CounterOp.apply (n + 1) (h.withCell b o ⟨k, s, w, some o, dl⟩ ⟨some ⟨q, some b⟩, d⟩) b
        CounterOp.DecStrongRef =
      some (h.withCell b o
        ⟨k, 0, (w + SIZE_MOD - 1) % SIZE_MOD, if k = BlockKind.pointer then none else some o, dl⟩
        ⟨some ⟨none, none⟩, d + 1⟩) := by
  cases k <;>
  simp [CounterOp.apply, DecStrongRef, Heap.modifyBlock, Heap.withCell, hb, ho, hz,
    deleteObject, Heap.modifyObject, WeakPtr.DisposeWith, DecWeakRef, GetStrongRefCount,
    GetWeakRefCount, hw]

/-- The last `DecStrongRef` on a `ControlBlockHolder` over a payload that holds its `weak_this_`
on the block, at weak count 1: the release frees the block, whose destructor is defaulted. -/
theorem cell_DecStrongRef_free_holder (n : Nat) (h : Heap) (b o : Nat) (s w : Nat)
    (dl : Nat) (q : Option Nat) (d : Nat) (hb : b < h.blocks.length)
    (ho : o < h.objects.length)
    (hz : (s + SIZE_MOD - 1) % SIZE_MOD = 0) (hw : (w + SIZE_MOD - 1) % SIZE_MOD = 0) :
    CounterOp.apply (n + 1)
        (h.withCell b o ⟨BlockKind.holder, s, w, some o, dl⟩ ⟨some ⟨q, some b⟩, d⟩) b
        CounterOp.DecStrongRef =
      some (h.withCell b o ⟨BlockKind.holder, 0, 0, some o, dl + 1⟩
        ⟨some ⟨none, none⟩, d + 1⟩) := by
  simp [CounterOp.apply, DecStrongRef, Heap.modifyBlock, Heap.withCell, hb, ho, hz,
    deleteObject, Heap.modifyObject, WeakPtr.DisposeWith, DecWeakRef, GetStrongRefCount,
    GetWeakRefCount, hw, deleteBlockWith]

/-- The last `DecStrongRef` on a `ControlBlockPointer` over a payload that holds its
`weak_this_` on the block, at weak count 1: the release frees the block while `ptr_` is still
set, `~ControlBlockPointer` deletes the object a second time, and the second run of the
destructor releases `weak_this_` again. -/
theorem cell_DecStrongRef_free_pointer (n : Nat) (h : Heap) (b o : Nat) (s w : Nat)
    (dl : Nat) (q : Option Nat) (d : Nat) (hb : b < h.blocks.length)
    (ho : o < h.objects.length)
    (hz : (s + SIZE_MOD - 1) % SIZE_MOD = 0) (hw : (w + SIZE_MOD - 1) % SIZE_MOD = 0) :
    CounterOp.apply (n + 2)
        (h.withCell b o ⟨BlockKind.pointer, s, w, some o, dl⟩ ⟨some ⟨q, some b⟩, d⟩) b
        CounterOp.DecStrongRef =
      some (h.withCell b o ⟨BlockKind.pointer, 0, SIZE_MOD - 1, none, dl + 1⟩
        ⟨some ⟨none, none⟩, d + 2⟩) := by
  have h1 : (0 + SIZE_MOD - 1) % SIZE_MOD = SIZE_MOD - 1 := by decide
  have h2 : SIZE_MOD - 1 ≠ 0 := by decide
  simp [CounterOp.apply, DecStrongRef, Heap.modifyBlock, Heap.withCell, hb, ho, hz,
    deleteObject, Heap.modifyObject, WeakPtr.DisposeWith, DecWeakRef, GetStrongRefCount,
    GetWeakRefCount, hw, deleteBlockWith, h1, h2]

/-! ## The ghost scan `freedInside` -/

theorem freedInside_cons (op : CounterOp) (ops : List CounterOp) (s w : Nat) :
    freedInside (op :: ops) s w =
      if op = CounterOp.DecStrongRef ∧ (s + SIZE_MOD - 1) % SIZE_MOD = 0 then
        decide ((w + SIZE_MOD - 1) % SIZE_MOD = 0)
      else freedInside ops (op.counts s w).1 (op.counts s w).2 := rfl

theorem freedInside_incStrong (ops : List CounterOp) (s w : Nat) :
    freedInside (CounterOp.IncStrongRef :: ops) s w = freedInside ops ((s + 1) % SIZE_MOD) w := by
  rw [freedInside_cons, if_neg (by simp)]
  rfl

theorem freedInside_incWeak (ops : List CounterOp) (s w : Nat) :
    freedInside (CounterOp.IncWeakRef :: ops) s w = freedInside ops s ((w + 1) % SIZE_MOD) := by
  rw [freedInside_cons, if_neg (by simp)]
  rfl

theorem freedInside_decWeak (ops : List CounterOp) (s w : Nat) :
    freedInside (CounterOp.DecWeakRef :: ops) s w =
      freedInside ops s ((w + SIZE_MOD - 1) % SIZE_MOD) := by
  rw [freedInside_cons, if_neg (by simp)]
  rfl

theorem freedInside_decStrong (ops : List CounterOp) (s w : Nat) :
    freedInside (CounterOp.DecStrongRef :: ops) s w =
      if (s + SIZE_MOD - 1) % SIZE_MOD = 0 then decide ((w + SIZE_MOD - 1) % SIZE_MOD = 0)
      else freedInside ops ((s + SIZE_MOD - 1) % SIZE_MOD) w := by
  rw [freedInside_cons]
  by_cases hz : (s + SIZE_MOD - 1) % SIZE_MOD = 0
  · rw [if_pos ⟨rfl, hz⟩, if_pos hz]
  · rw [if_neg (fun hc => hz hc.2), if_neg hz]
    rfl

/-! ## Sequences of raw counter calls on one block -/

theorem weakUnits_afterDtor (ob : Object) : ob.afterDtor.weakUnits = 0 := by
  obtain ⟨wt, d⟩ := ob
  cases wt <;> simp [Object.afterDtor, Object.weakUnits]

theorem selfOrInert_cases (b : Nat) (ob : Object) (hok : selfOrInert b ob) :
    ob.weakUnits = 0 ∨ ∃ q, ob = ⟨some ⟨q, some b⟩, ob.destroyed⟩ := by
  obtain ⟨wt, d⟩ := ob
  cases wt with
  | none => left; simp [Object.weakUnits]
  | some wv =>
    obtain ⟨q, wb⟩ := wv
    cases wb with
    | none => left; simp [Object.weakUnits]
    | some b1 =>
      right
      rcases hok ⟨q, some b1⟩ rfl with h1 | h1
      · simp at h1
      · simp at h1; subst h1; exact ⟨q, rfl⟩

/-- Every counter call returns, on either class, over a payload whose `weak_this_` is absent,
empty or on the block; the payload is then again of that form. -/
theorem cell_step (n : Nat) (h : Heap) (b o : Nat) (hb : b < h.blocks.length)
    (ho : o < h.objects.length) (k : BlockKind) (s w : Nat) (pp : Option Nat) (dl : Nat)
    (ob : Object) (hpp : pp = none ∨ pp = some o) (hok : selfOrInert b ob) (op : CounterOp) :
    ∃ s1 w1 pp1 dl1 ob1,
      CounterOp.apply (n + 2) (h.withCell b o ⟨k, s, w, pp, dl⟩ ob) b op =
        some (h.withCell b o ⟨k, s1, w1, pp1, dl1⟩ ob1) ∧
      (pp1 = none ∨ pp1 = some o) ∧ selfOrInert b ob1 := by
  have hinert : ∀ x : Object, x.weakUnits = 0 → selfOrInert b x := by
    intro x hx wt hwt
    obtain ⟨xw, xd⟩ := x
    simp only at hwt
    subst hwt
    obtain ⟨q, wb⟩ := wt
    cases wb with
    | none => exact Or.inl rfl
    | some b1 => simp [Object.weakUnits] at hx
  have hnn : selfOrInert b ⟨some ⟨none, none⟩, ob.destroyed + 1⟩ := hinert _ rfl
  cases op with
  | IncStrongRef => exact ⟨_, _, _, _, _, cell_IncStrongRef _ h b o k s w pp dl ob hb, hpp, hok⟩
  | IncWeakRef => exact ⟨_, _, _, _, _, cell_IncWeakRef _ h b o k s w pp dl ob hb, hpp, hok⟩
  | DecWeakRef => exact ⟨_, _, _, _, _, cell_DecWeakRef _ h b o k s w pp dl ob hb, hpp, hok⟩
  | DecStrongRef =>
    by_cases hz : (s + SIZE_MOD - 1) % SIZE_MOD = 0
    · rcases hpp with hp | hp
      · subst hp
        refine ⟨0, w, none, dl, ob, ?_, Or.inl rfl, hok⟩
        cases k <;>
        simp [CounterOp.apply, DecStrongRef, Heap.modifyBlock, Heap.withCell, hb, hz]
      · subst hp
        rcases selfOrInert_cases b ob hok with hu | ⟨q, hq⟩
        · refine ⟨_, _, _, _, _, cell_DecStrongRef_inert (n + 1) h b o k s w dl ob hb ho hz hu,
            ?_, hinert _ (weakUnits_afterDtor ob)⟩
          cases k <;> simp
        · rw [hq]
          by_cases hw : (w + SIZE_MOD - 1) % SIZE_MOD = 0
          · cases k with
            | pointer =>
              exact ⟨_, _, _, _, _,
                cell_DecStrongRef_free_pointer n h b o s w dl q ob.destroyed hb ho hz hw,
                Or.inl rfl, hinert _ rfl⟩
            | holder =>
              exact ⟨_, _, _, _, _,
                cell_DecStrongRef_free_holder (n + 1) h b o s w dl q ob.destroyed hb ho hz hw,
                Or.inr rfl, hinert _ rfl⟩
          · refine ⟨_, _, _, _, _,
              cell_DecStrongRef_self (n + 1) h b o k s w dl q ob.destroyed hb ho hz hw,
              ?_, hinert _ rfl⟩
            cases k <;> simp
    · exact ⟨_, _, _, _, _, cell_DecStrongRef_keep _ h b o k s w pp dl ob hb hz, hpp, hok⟩

/-- Every sequence of counter calls returns, with one observation per call. -/
theorem trace_exists (n : Nat) (h : Heap) (b o : Nat) (hb : b < h.blocks.length)
    (ho : o < h.objects.length) (ops : List CounterOp) :
    ∀ (k : BlockKind) (s w : Nat) (pp : Option Nat) (dl : Nat) (ob : Object),
      (pp = none ∨ pp = some o) → selfOrInert b ob →
      ∃ t, CounterOp.trace (n + 2) b o (h.withCell b o ⟨k, s, w, pp, dl⟩ ob) ops = some t ∧
        t.length = ops.length := by
  induction ops with
  | nil => intro k s w pp dl ob _ _; exact ⟨[], rfl, rfl⟩
  | cons op ops ih =>
    intro k s w pp dl ob hpp hok
    obtain ⟨s1, w1, pp1, dl1, ob1, hstep, hpp1, hok1⟩ :=
      cell_step n h b o hb ho k s w pp dl ob hpp hok op
    obtain ⟨t, ht, hl⟩ := ih k s1 w1 pp1 dl1 ob1 hpp1 hok1
    refine ⟨observeBlock (h.withCell b o ⟨k, s1, w1, pp1, dl1⟩ ob1) b o :: t, ?_,
      by simp [hl]⟩
    rw [trace_cons, hstep, Option.some_bind, ht]
    rfl
theorem trace_cell_step (fuel : Nat) (h h0 : Heap) (b o : Nat) (blk : ControlBlock)
    (ob : Object) (hb : b < h.blocks.length) (ho : o < h.objects.length) (op : CounterOp)
    (ops : List CounterOp) (t : List (Nat × Nat × Nat))
    (ha : op.apply fuel h0 b = some (h.withCell b o blk ob))
    (ht : CounterOp.trace fuel b o (h.withCell b o blk ob) ops = some t) :
    CounterOp.trace fuel b o h0 (op :: ops) =
      some ((blk.strong_ref_count_, blk.weak_ref_count_, ob.destroyed) :: t) := by
  rw [trace_cons, ha, Option.some_bind, ht, Option.map_some', observe_cell h b o blk ob hb ho]

/-- Over a payload that holds no weak unit, both block classes answer every call sequence with
equal counters after every call; started with equal destructor counts, they give the same
observations exactly when `DecStrongRef` reaches 0 at most once while the pointer block still
stores its pointer, and never once the pointer block has nulled it. -/
theorem inert_traces (n : Nat) (h : Heap) (b o : Nat) (hb : b < h.blocks.length)
    (ho : o < h.objects.length) (ops : List CounterOp) :
    ∀ (s w : Nat) (live : Bool) (dlP dlH : Nat) (obP obH : Object),
      obP.weakUnits = 0 → obH.weakUnits = 0 →
      ∃ tP tH,
        CounterOp.trace (n + 2) b o
          (h.withCell b o ⟨BlockKind.pointer, s, w, if live then some o else none, dlP⟩ obP)
          ops = some tP ∧
        CounterOp.trace (n + 2) b o
          (h.withCell b o ⟨BlockKind.holder, s, w, some o, dlH⟩ obH) ops = some tH ∧
        tP.length = ops.length ∧ tH.length = ops.length ∧
        tP.map (fun t => (t.1, t.2.1)) = tH.map (fun t => (t.1, t.2.1)) ∧
        (obP.destroyed = obH.destroyed →
          (tP = tH ↔ zeroHits s ops ≤ (if live then 1 else 0))) := by
  induction ops with
  | nil =>
    intro s w live dlP dlH obP obH _ _
    exact ⟨[], [], rfl, rfl, rfl, rfl, rfl, fun _ => by simp [zeroHits]⟩
  | cons op ops ih =>
    intro s w live dlP dlH obP obH huP huH
    cases op with
    | IncStrongRef =>
      obtain ⟨tP, tH, hP, hH, lP, lH, hc, hiff⟩ :=
        ih ((s + 1) % SIZE_MOD) w live dlP dlH obP obH huP huH
      refine ⟨((s + 1) % SIZE_MOD, w, obP.destroyed) :: tP,
        ((s + 1) % SIZE_MOD, w, obH.destroyed) :: tH,
        trace_cell_step _ h _ b o _ _ hb ho _ _ _ (cell_IncStrongRef _ h b o _ s w _ _ _ hb) hP,
        trace_cell_step _ h _ b o _ _ hb ho _ _ _ (cell_IncStrongRef _ h b o _ s w _ _ _ hb) hH,
        by simp [lP], by simp [lH], by simp only [List.map_cons, hc], ?_⟩
      intro hd
      have hzh : zeroHits s (CounterOp.IncStrongRef :: ops) =
        zeroHits ((s + 1) % SIZE_MOD) ops := rfl
      rw [hzh, ← hiff hd, hd]
      simp
    | IncWeakRef =>
      obtain ⟨tP, tH, hP, hH, lP, lH, hc, hiff⟩ :=
        ih s ((w + 1) % SIZE_MOD) live dlP dlH obP obH huP huH
      refine ⟨(s, (w + 1) % SIZE_MOD, obP.destroyed) :: tP,
        (s, (w + 1) % SIZE_MOD, obH.destroyed) :: tH,
        trace_cell_step _ h _ b o _ _ hb ho _ _ _ (cell_IncWeakRef _ h b o _ s w _ _ _ hb) hP,
        trace_cell_step _ h _ b o _ _ hb ho _ _ _ (cell_IncWeakRef _ h b o _ s w _ _ _ hb) hH,
        by simp [lP], by simp [lH], by simp only [List.map_cons, hc], ?_⟩
      intro hd
      have hzh : zeroHits s (CounterOp.IncWeakRef :: ops) = zeroHits s ops := rfl
      rw [hzh, ← hiff hd, hd]
      simp
    | DecWeakRef =>
      obtain ⟨tP, tH, hP, hH, lP, lH, hc, hiff⟩ :=
        ih s ((w + SIZE_MOD - 1) % SIZE_MOD) live dlP dlH obP obH huP huH
      refine ⟨(s, (w + SIZE_MOD - 1) % SIZE_MOD, obP.destroyed) :: tP,
        (s, (w + SIZE_MOD - 1) % SIZE_MOD, obH.destroyed) :: tH,
        trace_cell_step _ h _ b o _ _ hb ho _ _ _ (cell_DecWeakRef _ h b o _ s w _ _ _ hb) hP,
        trace_cell_step _ h _ b o _ _ hb ho _ _ _ (cell_DecWeakRef _ h b o _ s w _ _ _ hb) hH,
        by simp [lP], by simp [lH], by simp only [List.map_cons, hc], ?_⟩
      intro hd
      have hzh : zeroHits s (CounterOp.DecWeakRef :: ops) = zeroHits s ops := rfl
      rw [hzh, ← hiff hd, hd]
      simp
    | DecStrongRef =>
      have hzh : zeroHits s (CounterOp.DecStrongRef :: ops) =
          (if (s + SIZE_MOD - 1) % SIZE_MOD = 0 then 1 else 0) +
            zeroHits ((s + SIZE_MOD - 1) % SIZE_MOD) ops := rfl
      by_cases hz : (s + SIZE_MOD - 1) % SIZE_MOD = 0
      · cases live with
        | true =>
          obtain ⟨tP, tH, hP, hH, lP, lH, hc, hiff⟩ :=
            ih 0 w false dlP dlH obP.afterDtor obH.afterDtor (weakUnits_afterDtor _)
              (weakUnits_afterDtor _)
          refine ⟨(0, w, obP.afterDtor.destroyed) :: tP, (0, w, obH.afterDtor.destroyed) :: tH,
            trace_cell_step _ h _ b o _ _ hb ho _ _ _
              (cell_DecStrongRef_inert (n + 1) h b o _ s w dlP obP hb ho hz huP) hP,
            trace_cell_step _ h _ b o _ _ hb ho _ _ _
              (cell_DecStrongRef_inert (n + 1) h b o _ s w dlH obH hb ho hz huH) hH,
            by simp [lP], by simp [lH], by simp only [List.map_cons, hc], ?_⟩
          intro hd
          have hd1 : obP.afterDtor.destroyed = obH.afterDtor.destroyed := by
            simp [Object.afterDtor, hd]
          have h1 := hiff hd1
          simp only [Bool.false_eq_true, if_false] at h1
          rw [hzh, hz, hd1]
          simp only [if_true, List.cons.injEq, true_and]
          rw [h1]
          omega
        | false =>
          obtain ⟨tP, tH, hP, hH, lP, lH, hc, _⟩ :=
            ih 0 w false dlP dlH obP obH.afterDtor huP (weakUnits_afterDtor _)
          refine ⟨(0, w, obP.destroyed) :: tP, (0, w, obH.afterDtor.destroyed) :: tH,
            trace_cell_step _ h _ b o _ _ hb ho _ _ _
              (cell_DecStrongRef_null _ h b o s w dlP obP hb hz) hP,
            trace_cell_step _ h _ b o _ _ hb ho _ _ _
              (cell_DecStrongRef_inert (n + 1) h b o _ s w dlH obH hb ho hz huH) hH,
            by simp [lP], by simp [lH], by simp only [List.map_cons, hc], ?_⟩
          intro hd
          rw [hzh, hz]
          simp [Object.afterDtor, hd]
      · obtain ⟨tP, tH, hP, hH, lP, lH, hc, hiff⟩ :=
          ih ((s + SIZE_MOD - 1) % SIZE_MOD) w live dlP dlH obP obH huP huH
        refine ⟨((s + SIZE_MOD - 1) % SIZE_MOD, w, obP.destroyed) :: tP,
          ((s + SIZE_MOD - 1) % SIZE_MOD, w, obH.destroyed) :: tH,
          trace_cell_step _ h _ b o
            ⟨BlockKind.pointer, (s + SIZE_MOD - 1) % SIZE_MOD, w, if live then some o else none,
              dlP⟩ obP hb ho _ _ _
            (cell_DecStrongRef_keep _ h b o _ s w _ _ _ hb hz) hP,
          trace_cell_step _ h _ b o
            ⟨BlockKind.holder, (s + SIZE_MOD - 1) % SIZE_MOD, w, some o, dlH⟩ obH hb ho _ _ _
            (cell_DecStrongRef_keep _ h b o _ s w _ _ _ hb hz) hH,
          by simp [lP], by simp [lH], by simp only [List.map_cons, hc], ?_⟩
        intro hd
        rw [hzh]
        simp only [hz, if_false, Nat.zero_add]
        rw [← hiff hd, hd]
        simp
/-- Over a payload that holds its `weak_this_` on the block, both block classes answer every
call sequence; their counters agree after every call exactly when the block is not freed from
inside a `DecStrongRef`, and their observations agree exactly when moreover `DecStrongRef`
reaches 0 at most once. -/
theorem self_traces (n : Nat) (h : Heap) (b o : Nat) (hb : b < h.blocks.length)
    (ho : o < h.objects.length) (q : Option Nat) (d : Nat) (ops : List CounterOp) :
    ∀ (s w : Nat) (dlP dlH : Nat),
      ∃ tP tH,
        CounterOp.trace (n + 2) b o
          (h.withCell b o ⟨BlockKind.pointer, s, w, some o, dlP⟩ ⟨some ⟨q, some b⟩, d⟩)
          ops = some tP ∧
        CounterOp.trace (n + 2) b o
          (h.withCell b o ⟨BlockKind.holder, s, w, some o, dlH⟩ ⟨some ⟨q, some b⟩, d⟩)
          ops = some tH ∧
        tP.length = ops.length ∧ tH.length = ops.length ∧
        (tP.map (fun t => (t.1, t.2.1)) = tH.map (fun t => (t.1, t.2.1)) ↔
          freedInside ops s w = false) ∧
        (tP = tH ↔ freedInside ops s w = false ∧ zeroHits s ops ≤ 1) := by
  induction ops with
  | nil =>
    intro s w dlP dlH
    exact ⟨[], [], rfl, rfl, rfl, rfl, ⟨fun _ => rfl, fun _ => rfl⟩,
      ⟨fun _ => ⟨rfl, Nat.zero_le 1⟩, fun _ => rfl⟩⟩
  | cons op ops ih =>
    intro s w dlP dlH
    cases op with
    | IncStrongRef =>
      obtain ⟨tP, tH, hP, hH, lP, lH, hc, hiff⟩ := ih ((s + 1) % SIZE_MOD) w dlP dlH
      refine ⟨((s + 1) % SIZE_MOD, w, d) :: tP, ((s + 1) % SIZE_MOD, w, d) :: tH,
        trace_cell_step _ h _ b o ⟨BlockKind.pointer, (s + 1) % SIZE_MOD, w, some o, dlP⟩
          ⟨some ⟨q, some b⟩, d⟩ hb ho _ _ _ (cell_IncStrongRef _ h b o _ s w _ _ _ hb) hP,
        trace_cell_step _ h _ b o ⟨BlockKind.holder, (s + 1) % SIZE_MOD, w, some o, dlH⟩
          ⟨some ⟨q, some b⟩, d⟩ hb ho _ _ _ (cell_IncStrongRef _ h b o _ s w _ _ _ hb) hH,
        by simp [lP], by simp [lH], ?_, ?_⟩
      · have hf := freedInside_incStrong ops s w
        rw [hf, ← hc]
        simp
      · have hf := freedInside_incStrong ops s w
        have hzh : zeroHits s (CounterOp.IncStrongRef :: ops) =
          zeroHits ((s + 1) % SIZE_MOD) ops := rfl
        rw [hf, hzh, ← hiff]
        simp
    | IncWeakRef =>
      obtain ⟨tP, tH, hP, hH, lP, lH, hc, hiff⟩ := ih s ((w + 1) % SIZE_MOD) dlP dlH
      refine ⟨(s, (w + 1) % SIZE_MOD, d) :: tP, (s, (w + 1) % SIZE_MOD, d) :: tH,
        trace_cell_step _ h _ b o ⟨BlockKind.pointer, s, (w + 1) % SIZE_MOD, some o, dlP⟩
          ⟨some ⟨q, some b⟩, d⟩ hb ho _ _ _ (cell_IncWeakRef _ h b o _ s w _ _ _ hb) hP,
        trace_cell_step _ h _ b o ⟨BlockKind.holder, s, (w + 1) % SIZE_MOD, some o, dlH⟩
          ⟨some ⟨q, some b⟩, d⟩ hb ho _ _ _ (cell_IncWeakRef _ h b o _ s w _ _ _ hb) hH,
        by simp [lP], by simp [lH], ?_, ?_⟩
      · have hf := freedInside_incWeak ops s w
        rw [hf, ← hc]
        simp
      · have hf := freedInside_incWeak ops s w
        have hzh : zeroHits s (CounterOp.IncWeakRef :: ops) = zeroHits s ops := rfl
        rw [hf, hzh, ← hiff]
        simp
    | DecWeakRef =>
      obtain ⟨tP, tH, hP, hH, lP, lH, hc, hiff⟩ := ih s ((w + SIZE_MOD - 1) % SIZE_MOD) dlP dlH
      refine ⟨(s, (w + SIZE_MOD - 1) % SIZE_MOD, d) :: tP,
        (s, (w + SIZE_MOD - 1) % SIZE_MOD, d) :: tH,
        trace_cell_step _ h _ b o
          ⟨BlockKind.pointer, s, (w + SIZE_MOD - 1) % SIZE_MOD, some o, dlP⟩
          ⟨some ⟨q, some b⟩, d⟩ hb ho _ _ _ (cell_DecWeakRef _ h b o _ s w _ _ _ hb) hP,
        trace_cell_step _ h _ b o
          ⟨BlockKind.holder, s, (w + SIZE_MOD - 1) % SIZE_MOD, some o, dlH⟩
          ⟨some ⟨q, some b⟩, d⟩ hb ho _ _ _ (cell_DecWeakRef _ h b o _ s w _ _ _ hb) hH,
        by simp [lP], by simp [lH], ?_, ?_⟩
      · have hf := freedInside_decWeak ops s w
        rw [hf, ← hc]
        simp
      · have hf := freedInside_decWeak ops s w
        have hzh : zeroHits s (CounterOp.DecWeakRef :: ops) = zeroHits s ops := rfl
        rw [hf, hzh, ← hiff]
        simp
    | DecStrongRef =>
      have hzh : zeroHits s (CounterOp.DecStrongRef :: ops) =
          (if (s + SIZE_MOD - 1) % SIZE_MOD = 0 then 1 else 0) +
            zeroHits ((s + SIZE_MOD - 1) % SIZE_MOD) ops := rfl
      have hf := freedInside_decStrong ops s w
      by_cases hz : (s + SIZE_MOD - 1) % SIZE_MOD = 0
      · by_cases hw : (w + SIZE_MOD - 1) % SIZE_MOD = 0
        · obtain ⟨tP, hP, lP⟩ := trace_exists n h b o hb ho ops BlockKind.pointer 0
            (SIZE_MOD - 1) none (dlP + 1) ⟨some ⟨none, none⟩, d + 2⟩ (Or.inl rfl)
            (by intro wt hwt; cases hwt; exact Or.inl rfl)
          obtain ⟨tH, hH, lH⟩ := trace_exists n h b o hb ho ops BlockKind.holder 0
            0 (some o) (dlH + 1) ⟨some ⟨none, none⟩, d + 1⟩ (Or.inr rfl)
            (by intro wt hwt; cases hwt; exact Or.inl rfl)
          have hne : SIZE_MOD - 1 ≠ 0 := by decide
          refine ⟨(0, SIZE_MOD - 1, d + 2) :: tP, (0, 0, d + 1) :: tH,
            trace_cell_step _ h _ b o ⟨BlockKind.pointer, 0, SIZE_MOD - 1, none, dlP + 1⟩
              ⟨some ⟨none, none⟩, d + 2⟩ hb ho _ _ _
              (cell_DecStrongRef_free_pointer n h b o s w dlP q d hb ho hz hw) hP,
            trace_cell_step _ h _ b o ⟨BlockKind.holder, 0, 0, some o, dlH + 1⟩
              ⟨some ⟨none, none⟩, d + 1⟩ hb ho _ _ _
              (cell_DecStrongRef_free_holder (n + 1) h b o s w dlH q d hb ho hz hw) hH,
            by simp [lP], by simp [lH], ?_, ?_⟩
          · rw [hf]
            simp [hz, hw, hne]
          · rw [hf]
            simp [hz, hw]
        · obtain ⟨tP, tH, hP, hH, lP, lH, hc, hiff⟩ :=
            inert_traces n h b o hb ho ops 0 ((w + SIZE_MOD - 1) % SIZE_MOD) false dlP dlH
              ⟨some ⟨none, none⟩, d + 1⟩ ⟨some ⟨none, none⟩, d + 1⟩ rfl rfl
          have h1 := hiff rfl
          simp only [Bool.false_eq_true, if_false] at h1 hP
          refine ⟨(0, (w + SIZE_MOD - 1) % SIZE_MOD, d + 1) :: tP,
            (0, (w + SIZE_MOD - 1) % SIZE_MOD, d + 1) :: tH,
            trace_cell_step _ h _ b o
              ⟨BlockKind.pointer, 0, (w + SIZE_MOD - 1) % SIZE_MOD, none, dlP⟩
              ⟨some ⟨none, none⟩, d + 1⟩ hb ho _ _ _
              (cell_DecStrongRef_self (n + 1) h b o _ s w dlP q d hb ho hz hw) hP,
            trace_cell_step _ h _ b o
              ⟨BlockKind.holder, 0, (w + SIZE_MOD - 1) % SIZE_MOD, some o, dlH⟩
              ⟨some ⟨none, none⟩, d + 1⟩ hb ho _ _ _
              (cell_DecStrongRef_self (n + 1) h b o _ s w dlH q d hb ho hz hw) hH,
            by simp [lP], by simp [lH], ?_, ?_⟩
          · rw [hf]
            simp [hz, hw, hc]
          · rw [hf, hzh, hz]
            simp only [if_true, hw, decide_False, true_and, List.cons.injEq]
            rw [h1]
            omega
      · obtain ⟨tP, tH, hP, hH, lP, lH, hc, hiff⟩ :=
          ih ((s + SIZE_MOD - 1) % SIZE_MOD) w dlP dlH
        refine ⟨((s + SIZE_MOD - 1) % SIZE_MOD, w, d) :: tP,
          ((s + SIZE_MOD - 1) % SIZE_MOD, w, d) :: tH,
          trace_cell_step _ h _ b o
            ⟨BlockKind.pointer, (s + SIZE_MOD - 1) % SIZE_MOD, w, some o, dlP⟩
            ⟨some ⟨q, some b⟩, d⟩ hb ho _ _ _
            (cell_DecStrongRef_keep _ h b o _ s w _ _ _ hb hz) hP,
          trace_cell_step _ h _ b o
            ⟨BlockKind.holder, (s + SIZE_MOD - 1) % SIZE_MOD, w, some o, dlH⟩
            ⟨some ⟨q, some b⟩, d⟩ hb ho _ _ _
            (cell_DecStrongRef_keep _ h b o _ s w _ _ _ hb hz) hH,
          by simp [lP], by simp [lH], ?_, ?_⟩
        · rw [hf]
          simp only [hz, if_false]
          rw [← hc]
          simp
        · rw [hf, hzh]
          simp only [hz, if_false, Nat.zero_add]
          rw [← hiff]
          simp

theorem setBlock_eq_cell (h : Heap) (b o : Nat) (blk : ControlBlock) (ob : Object)
    (ho : h.objects[o]? = some ob) : h.setBlock b blk = h.withCell b o blk ob := by
  simp [Heap.setBlock, Heap.withCell, set_eq_self_of_get _ _ _ ho]

/-- C19 (amended): take any heap, a block `b` that stores the pointer to its payload `o`, and a
payload whose `weak_this_` is absent, empty or on `b`; compare the block as a
`ControlBlockPointer` with the same block as a `ControlBlockHolder`.  Both answer every
sequence of `IncStrongRef` / `DecStrongRef` / `IncWeakRef` / `DecWeakRef` calls, one
observation per call.  They show the same (strong, weak) values after every call exactly when
the block is not freed from inside a `DecStrongRef`, that is unless the payload holds its
`weak_this_` on the block and the first `DecStrongRef` that brings the strong count to 0 finds
weak count 1.  They show the same values and run the payload destructor at the same calls
exactly when, in addition, at most one `DecStrongRef` of the sequence brings the strong count
to 0.  For a type without the self-referencing capability, `SharedPtr(new T)` and
`MakeShared<T>()` both return a handle with `UseCount() == 1` on a new block with weak
count 0. -/
theorem C19_block_classes_agree (n : Nat) (h : Heap) (b o : Nat) (blk : ControlBlock)
    (ob : Object) (ops : List CounterOp)
    (hb : h.blocks[b]? = some blk) (hp : blk.ptr_ = some o) (ho : h.objects[o]? = some ob)
    (hwt : ∀ wt, ob.weak_this_ = some wt → wt.block_ = none ∨ wt.block_ = some b) :
    (∃ tP tH,
      CounterOp.trace (n + 2) b o (h.setBlock b { blk with kind := BlockKind.pointer }) ops =
        some tP ∧
      CounterOp.trace (n + 2) b o (h.setBlock b { blk with kind := BlockKind.holder }) ops =
        some tH ∧
      tP.length = ops.length ∧ tH.length = ops.length ∧
      (tP.map (fun t => (t.1, t.2.1)) = tH.map (fun t => (t.1, t.2.1)) ↔
        ¬ (ob.weakUnits = 1 ∧
          freedInside ops blk.strong_ref_count_ blk.weak_ref_count_ = true)) ∧
      (tP = tH ↔
        zeroHits blk.strong_ref_count_ ops ≤ 1 ∧
        ¬ (ob.weakUnits = 1 ∧
          freedInside ops blk.strong_ref_count_ blk.weak_ref_count_ = true))) ∧
    (∀ (fuel : Nat) (g : Heap),
      (∃ h1 s1, SharedPtr.fromPtr fuel (newObject g false).1 (some (newObject g false).2)
          false = some (h1, s1) ∧
        s1.block_ = some g.blocks.length ∧ s1.UseCount h1 = 1 ∧
        GetWeakRefCount h1 g.blocks.length = 0) ∧
      (∃ h1 s1, MakeShared fuel g false = some (h1, s1) ∧
        s1.block_ = some g.blocks.length ∧ s1.UseCount h1 = 1 ∧
        GetWeakRefCount h1 g.blocks.length = 0)) := by
  have hbl := (List.getElem?_eq_some_iff.mp hb).1
  have hol := (List.getElem?_eq_some_iff.mp ho).1
  constructor
  · obtain ⟨k, s, w, pp, dl⟩ := blk
    simp only at hp
    subst hp
    rw [setBlock_eq_cell h b o _ ob ho, setBlock_eq_cell h b o _ ob ho]
    rcases selfOrInert_cases b ob hwt with hu | ⟨q, hq⟩
    · obtain ⟨tP, tH, hP, hH, lP, lH, hc, hiff⟩ :=
        inert_traces n h b o hbl hol ops s w true dl dl ob ob hu hu
      have hiff1 := hiff rfl
      simp only [if_true] at hP hiff1
      refine ⟨tP, tH, hP, hH, lP, lH, ?_, ?_⟩
      · simp [hu, hc]
      · rw [hiff1]
        simp [hu]
    · have hu : ob.weakUnits = 1 := by rw [hq]; rfl
      obtain ⟨tP, tH, hP, hH, lP, lH, hc, hiff⟩ :=
        self_traces n h b o hbl hol q ob.destroyed ops s w dl dl
      rw [← hq] at hP hH
      refine ⟨tP, tH, hP, hH, lP, lH, ?_, ?_⟩
      · rw [hc]
        simp [hu]
      · rw [hiff]
        simp [hu, and_comm]
  · intro fuel g
    constructor
    · refine ⟨_, _, fromPtr_new fuel g false false, rfl, ?_, ?_⟩
      · simp [SharedPtr.UseCount, GetStrongRefCount]
      · simp [GetWeakRefCount]
    · refine ⟨_, _, MakeShared_eq fuel g false, rfl, ?_, ?_⟩
      · simp [SharedPtr.UseCount, GetStrongRefCount]
      · simp [GetWeakRefCount]

/-- Witness for the amended C19: the block and payload that `SharedPtr<T>(new T)` builds for a
self-referencing `T` (counts (1, 1), `weak_this_` on the block), under the calls that
`SharedPtr::Dispose` makes: `IncWeakRef`, `DecStrongRef`, `DecWeakRef`.  Both classes give the
same observations. -/
theorem C19_block_classes_agree_witness :
    ∃ t,
      CounterOp.trace 2 0 0
        (Heap.setBlock ⟨[⟨BlockKind.pointer, 1, 1, some 0, 0⟩], [⟨some ⟨some 0, some 0⟩, 0⟩]⟩ 0
          ⟨BlockKind.pointer, 1, 1, some 0, 0⟩)
        [CounterOp.IncWeakRef, CounterOp.DecStrongRef, CounterOp.DecWeakRef] = some t ∧
      CounterOp.trace 2 0 0
        (Heap.setBlock ⟨[⟨BlockKind.pointer, 1, 1, some 0, 0⟩], [⟨some ⟨some 0, some 0⟩, 0⟩]⟩ 0
          ⟨BlockKind.holder, 1, 1, some 0, 0⟩)
        [CounterOp.IncWeakRef, CounterOp.DecStrongRef, CounterOp.DecWeakRef] = some t :=
  match (C19_block_classes_agree 0
    ⟨[⟨BlockKind.pointer, 1, 1, some 0, 0⟩], [⟨some ⟨some 0, some 0⟩, 0⟩]⟩ 0 0
    ⟨BlockKind.pointer, 1, 1, some 0, 0⟩ ⟨some ⟨some 0, some 0⟩, 0⟩
    [CounterOp.IncWeakRef, CounterOp.DecStrongRef, CounterOp.DecWeakRef] rfl rfl rfl
    (fun wt hwt => Or.inr (by cases hwt; rfl))).1 with
  | ⟨tP, tH, hP, hH, _, _, _, hiff⟩ =>
    ⟨tP, hP, by rw [hiff.mpr (by decide)]; exact hH⟩

/-! ## Life of a `ControlBlockPointer` inside any heap -/

theorem cell_deleteBlock_null (fuel : Nat) (h : Heap) (b o : Nat) (s w dl : Nat) (ob : Object)
    (hb : b < h.blocks.length) :
    deleteBlock fuel (h.withCell b o ⟨BlockKind.pointer, s, w, none, dl⟩ ob) b =
      some (h.withCell b o ⟨BlockKind.pointer, s, w, none, dl + 1⟩ ob) := by
  simp [deleteBlock, deleteBlockWith, Heap.withCell, hb, Heap.modifyBlock]

theorem cell_deleteBlock_inert (n : Nat) (h : Heap) (b o : Nat) (s w dl : Nat) (ob : Object)
    (hb : b < h.blocks.length) (ho : o < h.objects.length) (hu : ob.weakUnits = 0) :
    deleteBlock (n + 1) (h.withCell b o ⟨BlockKind.pointer, s, w, some o, dl⟩ ob) b =
      some (h.withCell b o ⟨BlockKind.pointer, s, w, some o, dl + 1⟩ ob.afterDtor) := by
  obtain ⟨wt, d⟩ := ob
  cases wt with
  | none =>
    simp [deleteBlock, deleteBlockWith, Heap.withCell, hb, ho, Heap.modifyBlock, deleteObject,
      Heap.modifyObject, Object.afterDtor]
  | some wv =>
    obtain ⟨q, wb⟩ := wv
    cases wb with
    | some b1 => simp [Object.weakUnits] at hu
    | none =>
      simp [deleteBlock, deleteBlockWith, Heap.withCell, hb, ho, Heap.modifyBlock,
        deleteObject, Heap.modifyObject, Object.afterDtor, WeakPtr.DisposeWith]

/-- `delete block_` on a `ControlBlockPointer` that still stores the pointer to a payload with
its `weak_this_` on the block, when the release of that unit does not bring both counters
to 0: the object is destroyed once. -/
theorem cell_deleteBlock_self (n : Nat) (h : Heap) (b o : Nat) (s w dl : Nat) (q : Option Nat)
    (d : Nat) (hb : b < h.blocks.length) (ho : o < h.objects.length)
    (hne : ¬ (s = 0 ∧ (w + SIZE_MOD - 1) % SIZE_MOD = 0)) :
    deleteBlock (n + 1)
        (h.withCell b o ⟨BlockKind.pointer, s, w, some o, dl⟩ ⟨some ⟨q, some b⟩, d⟩) b =
      some (h.withCell b o ⟨BlockKind.pointer, s, (w + SIZE_MOD - 1) % SIZE_MOD, some o, dl + 1⟩
        ⟨some ⟨none, none⟩, d + 1⟩) := by
  simp [deleteBlock, deleteBlockWith, Heap.withCell, hb, ho, Heap.modifyBlock, deleteObject,
    Heap.modifyObject, WeakPtr.DisposeWith, DecWeakRef, GetStrongRefCount, GetWeakRefCount, hne]

/-- The state of a `ControlBlockPointer` over a payload that holds no weak unit after any
sequence of counter calls. -/
theorem run_pointer_inert (n : Nat) (h : Heap) (b o : Nat) (hb : b < h.blocks.length)
    (ho : o < h.objects.length) (ops : List CounterOp) :
    ∀ (s w : Nat) (live : Bool) (dl : Nat) (ob : Object), ob.weakUnits = 0 →
      ∃ s1 w1, CounterOp.run (n + 2) b
          (h.withCell b o ⟨BlockKind.pointer, s, w, if live then some o else none, dl⟩ ob) ops =
        some (h.withCell b o
          ⟨BlockKind.pointer, s1, w1,
            if live = true ∧ zeroHits s ops = 0 then some o else none, dl⟩
          (if live = true ∧ zeroHits s ops ≠ 0 then ob.afterDtor else ob)) := by
  induction ops with
  | nil =>
    intro s w live dl ob _
    refine ⟨s, w, ?_⟩
    have hz0 : zeroHits s [] = 0 := rfl
    cases live <;> simp [CounterOp.run, hz0]
  | cons op ops ih =>
    intro s w live dl ob hu
    cases op with
    | IncStrongRef =>
      obtain ⟨s1, w1, h1⟩ := ih ((s + 1) % SIZE_MOD) w live dl ob hu
      exact ⟨s1, w1, by
        rw [counterRun_cons, cell_IncStrongRef _ h b o _ s w _ _ _ hb, Option.some_bind, h1]
        rfl⟩
    | IncWeakRef =>
      obtain ⟨s1, w1, h1⟩ := ih s ((w + 1) % SIZE_MOD) live dl ob hu
      exact ⟨s1, w1, by
        rw [counterRun_cons, cell_IncWeakRef _ h b o _ s w _ _ _ hb, Option.some_bind, h1]
        rfl⟩
    | DecWeakRef =>
      obtain ⟨s1, w1, h1⟩ := ih s ((w + SIZE_MOD - 1) % SIZE_MOD) live dl ob hu
      exact ⟨s1, w1, by
        rw [counterRun_cons, cell_DecWeakRef _ h b o _ s w _ _ _ hb, Option.some_bind, h1]
        rfl⟩
    | DecStrongRef =>
      have hzh : zeroHits s (CounterOp.DecStrongRef :: ops) =
          (if (s + SIZE_MOD - 1) % SIZE_MOD = 0 then 1 else 0) +
            zeroHits ((s + SIZE_MOD - 1) % SIZE_MOD) ops := rfl
      by_cases hz : (s + SIZE_MOD - 1) % SIZE_MOD = 0
      · cases live with
        | true =>
          obtain ⟨s1, w1, h1⟩ := ih 0 w false dl ob.afterDtor (weakUnits_afterDtor ob)
          refine ⟨s1, w1, ?_⟩
          have hstep :=
            cell_DecStrongRef_inert (n + 1) h b o BlockKind.pointer s w dl ob hb ho hz hu
          simp only [↓reduceIte, Bool.false_eq_true, false_and] at hstep h1 ⊢
          rw [counterRun_cons, hstep, Option.some_bind, h1, hzh, hz]
          simp
        | false =>
          obtain ⟨s1, w1, h1⟩ := ih 0 w false dl ob hu
          refine ⟨s1, w1, ?_⟩
          simp only [↓reduceIte, Bool.false_eq_true, false_and] at h1 ⊢
          rw [counterRun_cons, cell_DecStrongRef_null _ h b o s w dl ob hb hz, Option.some_bind,
            h1]
      · obtain ⟨s1, w1, h1⟩ := ih ((s + SIZE_MOD - 1) % SIZE_MOD) w live dl ob hu
        refine ⟨s1, w1, ?_⟩
        rw [counterRun_cons, cell_DecStrongRef_keep _ h b o _ s w _ _ _ hb hz, Option.some_bind,
          h1, hzh]
        simp only [hz, if_false, Nat.zero_add]

/-- The state of a `ControlBlockPointer` over a payload that holds its `weak_this_` on the
block after any sequence of counter calls that does not free the block from inside a
`DecStrongRef`. -/
theorem run_pointer_self (n : Nat) (h : Heap) (b o : Nat) (hb : b < h.blocks.length)
    (ho : o < h.objects.length) (q : Option Nat) (d : Nat) (ops : List CounterOp) :
    ∀ (s w : Nat) (dl : Nat), freedInside ops s w = false →
      ∃ s1 w1, CounterOp.run (n + 2) b
          (h.withCell b o ⟨BlockKind.pointer, s, w, some o, dl⟩ ⟨some ⟨q, some b⟩, d⟩) ops =
        some (h.withCell b o
          ⟨BlockKind.pointer, s1, w1, if zeroHits s ops = 0 then some o else none, dl⟩
          (if zeroHits s ops = 0 then ⟨some ⟨q, some b⟩, d⟩ else ⟨some ⟨none, none⟩, d + 1⟩)) := by
  induction ops with
  | nil =>
    intro s w dl _
    have hz0 : zeroHits s [] = 0 := rfl
    exact ⟨s, w, by simp [CounterOp.run, hz0]⟩
  | cons op ops ih =>
    intro s w dl hf
    cases op with
    | IncStrongRef =>
      rw [freedInside_incStrong] at hf
      obtain ⟨s1, w1, h1⟩ := ih ((s + 1) % SIZE_MOD) w dl hf
      exact ⟨s1, w1, by
        rw [counterRun_cons, cell_IncStrongRef _ h b o _ s w _ _ _ hb, Option.some_bind, h1]
        rfl⟩
    | IncWeakRef =>
      rw [freedInside_incWeak] at hf
      obtain ⟨s1, w1, h1⟩ := ih s ((w + 1) % SIZE_MOD) dl hf
      exact ⟨s1, w1, by
        rw [counterRun_cons, cell_IncWeakRef _ h b o _ s w _ _ _ hb, Option.some_bind, h1]
        rfl⟩
    | DecWeakRef =>
      rw [freedInside_decWeak] at hf
      obtain ⟨s1, w1, h1⟩ := ih s ((w + SIZE_MOD - 1) % SIZE_MOD) dl hf
      exact ⟨s1, w1, by
        rw [counterRun_cons, cell_DecWeakRef _ h b o _ s w _ _ _ hb, Option.some_bind, h1]
        rfl⟩
    | DecStrongRef =>
      have hzh : zeroHits s (CounterOp.DecStrongRef :: ops) =
          (if (s + SIZE_MOD - 1) % SIZE_MOD = 0 then 1 else 0) +
            zeroHits ((s + SIZE_MOD - 1) % SIZE_MOD) ops := rfl
      rw [freedInside_decStrong] at hf
      by_cases hz : (s + SIZE_MOD - 1) % SIZE_MOD = 0
      · simp only [hz, if_true, decide_eq_false_iff_not] at hf
        obtain ⟨s1, w1, h1⟩ := run_pointer_inert n h b o hb ho ops 0
          ((w + SIZE_MOD - 1) % SIZE_MOD) false dl ⟨some ⟨none, none⟩, d + 1⟩ rfl
        refine ⟨s1, w1, ?_⟩
        have hstep :=
          cell_DecStrongRef_self (n + 1) h b o BlockKind.pointer s w dl q d hb ho hz hf
        simp only [↓reduceIte, Bool.false_eq_true, false_and] at hstep h1
        rw [counterRun_cons, hstep, Option.some_bind, h1, hzh, hz]
        simp
      · simp only [hz, if_false] at hf
        obtain ⟨s1, w1, h1⟩ := ih ((s + SIZE_MOD - 1) % SIZE_MOD) w dl hf
        refine ⟨s1, w1, ?_⟩
        rw [counterRun_cons, cell_DecStrongRef_keep _ h b o _ s w _ _ _ hb hz, Option.some_bind,
          h1, hzh]
        simp only [hz, if_false, Nat.zero_add]

/-! ## `ControlBlockPointer` destroys its object at most once (C28, amended) -/

theorem weakAfterDec_cell (h : Heap) (b o : Nat) (k : BlockKind) (s w : Nat) (pp : Option Nat)
    (dl : Nat) (ob : Object) (hb : b < h.blocks.length) :
    GetWeakRefCount (DecWeakRef (h.withCell b o ⟨k, s, w, pp, dl⟩ ob) b) b =
      (w + SIZE_MOD - 1) % SIZE_MOD := by
  simp [GetWeakRefCount, DecWeakRef, Heap.modifyBlock, Heap.withCell, hb]

theorem strong_cell (h : Heap) (b o : Nat) (blk : ControlBlock) (ob : Object)
    (hb : b < h.blocks.length) :
    GetStrongRefCount (h.withCell b o blk ob) b = blk.strong_ref_count_ := by
  simp [GetStrongRefCount, Heap.withCell, hb]

theorem destroyed_cell (h : Heap) (b o : Nat) (blk : ControlBlock) (ob : Object)
    (ho : o < h.objects.length) :
    destroyedCount (h.withCell b o blk ob) o = ob.destroyed := by
  simp [destroyedCount, Heap.withCell, ho]

theorem deleted_cell (h : Heap) (b o : Nat) (blk : ControlBlock) (ob : Object)
    (hb : b < h.blocks.length) :
    deletedCount (h.withCell b o blk ob) b = blk.deleted := by
  simp [deletedCount, Heap.withCell, hb]

/-- C28 as stated fails: `SharedPtr<T>(new T)` for a self-referencing `T` builds a
`ControlBlockPointer` with counts (1, 1) over an object whose `weak_this_` is on the block.
One `DecStrongRef` on this block brings the strong count to 0 and deletes the object; the
destructor of the object releases `weak_this_`, which brings the weak count to 0 as well and
deletes the block while `ptr_` is still stored, so `~ControlBlockPointer` deletes the object
again.  When the call returns the destructor of the object has run twice (and its second run
has decremented the weak count once more, to 2^64 - 1). -/
theorem C28_freed_inside_counterexample :
    SharedPtr.fromPtr 1 (newObject ⟨[], []⟩ true).1 (some (newObject ⟨[], []⟩ true).2) true =
      some (⟨[⟨BlockKind.pointer, 1, 1, some 0, 0⟩], [⟨some ⟨some 0, some 0⟩, 0⟩]⟩,
        ⟨some 0, some 0⟩) ∧
    DecStrongRef 2 ⟨[⟨BlockKind.pointer, 1, 1, some 0, 0⟩], [⟨some ⟨some 0, some 0⟩, 0⟩]⟩ 0 =
      some ⟨[⟨BlockKind.pointer, 0, 18446744073709551615, none, 1⟩],
        [⟨some ⟨none, none⟩, 2⟩]⟩ ∧
    destroyedCount ⟨[⟨BlockKind.pointer, 0, 18446744073709551615, none, 1⟩],
      [⟨some ⟨none, none⟩, 2⟩]⟩ 0 = 2 ∧
    ¬ ((DecStrongRef 2
        ⟨[⟨BlockKind.pointer, 1, 1, some 0, 0⟩], [⟨some ⟨some 0, some 0⟩, 0⟩]⟩ 0).map
      (fun h1 => decide (destroyedCount h1 0 ≤ 1)) = some true) := by
  decide

/-- C28 (amended): take any heap, a `ControlBlockPointer` `b` that stores the pointer to an
allocated object `o`, the `weak_this_` of `o` being absent, empty or on `b`.
(1) `DecStrongRef` leaves all objects and the stored pointer untouched when the decremented
strong count is not 0.  (2) When it is 0 (count 1 before), and the release of a `weak_this_`
on the block does not bring the weak count to 0, it runs the destructor of the object once and
nulls the stored pointer.  (3) Over the life of the block, from its counters and through any
sequence of counter calls up to `delete block_`, provided no `DecStrongRef` frees the block
from inside (the payload holds its `weak_this_` on the block and the first `DecStrongRef` that
reaches 0 finds weak count 1): the calls return; before the deletion the pointer is still
stored exactly if no `DecStrongRef` reached 0, and the object has been destroyed once exactly
if one did; and provided the deletion itself does not bring both counters to 0 by releasing a
`weak_this_` that is still on the block, the block destructor destroys the object exactly if
no `DecStrongRef` reached 0, so that after the deletion the object has been destroyed exactly
once. -/
theorem C28_pointer_block_destroys_once (n : Nat) (h : Heap) (b o : Nat) (blk : ControlBlock)
    (ob : Object) (hb : h.blocks[b]? = some blk) (hk : blk.kind = BlockKind.pointer)
    (hp : blk.ptr_ = some o) (ho : h.objects[o]? = some ob)
    (hwt : ∀ wt, ob.weak_this_ = some wt → wt.block_ = none ∨ wt.block_ = some b) :
    ((blk.strong_ref_count_ + SIZE_MOD - 1) % SIZE_MOD ≠ 0 →
      ∃ h1 blk1, DecStrongRef n h b = some h1 ∧ h1.objects = h.objects ∧
        h1.blocks[b]? = some blk1 ∧ blk1.ptr_ = some o ∧
        destroyedCount h1 o = destroyedCount h o) ∧
    (blk.strong_ref_count_ = 1 →
      (ob.weakUnits = 1 → GetWeakRefCount (DecWeakRef h b) b ≠ 0) →
      ∃ h1 blk1, DecStrongRef (n + 1) h b = some h1 ∧
        h1.blocks[b]? = some blk1 ∧ blk1.ptr_ = none ∧
        destroyedCount h1 o = destroyedCount h o + 1) ∧
    (∀ ops : List CounterOp,
      (ob.weakUnits = 1 →
        freedInside ops blk.strong_ref_count_ blk.weak_ref_count_ = false) →
      ∃ h1 blk1, CounterOp.run (n + 2) b h ops = some h1 ∧
        h1.blocks[b]? = some blk1 ∧
        (blk1.ptr_ = some o ↔ zeroHits blk.strong_ref_count_ ops = 0) ∧
        (blk1.ptr_ = none ↔ zeroHits blk.strong_ref_count_ ops ≠ 0) ∧
        destroyedCount h1 o =
          ob.destroyed + (if zeroHits blk.strong_ref_count_ ops = 0 then 0 else 1) ∧
        ((ob.weakUnits = 1 → zeroHits blk.strong_ref_count_ ops = 0 →
            ¬ (GetStrongRefCount h1 b = 0 ∧ GetWeakRefCount (DecWeakRef h1 b) b = 0)) →
          ∃ h2, deleteBlock (n + 2) h1 b = some h2 ∧
            destroyedCount h2 o = destroyedCount h1 o +
              (if zeroHits blk.strong_ref_count_ ops = 0 then 1 else 0) ∧
            destroyedCount h2 o = ob.destroyed + 1 ∧
            deletedCount h2 b = blk.deleted + 1)) := by
  have hlen := (List.getElem?_eq_some_iff.mp hb).1
  have holen := (List.getElem?_eq_some_iff.mp ho).1
  refine ⟨?_, ?_, ?_⟩
  · intro hz
    refine ⟨_, { blk with
        strong_ref_count_ := (blk.strong_ref_count_ + SIZE_MOD - 1) % SIZE_MOD },
      DecStrongRef_keep n h b blk hb hz, rfl, ?_, hp, rfl⟩
    rw [setBlock_get h b b blk _ hb]; simp
  · intro hs hfree
    obtain ⟨k, s, w, pp, dl⟩ := blk
    simp only at hk hp hs
    subst hk hp hs
    have hz : (1 + SIZE_MOD - 1) % SIZE_MOD = 0 := by decide
    rw [← cell_self h b o _ ob hb ho] at hfree ⊢
    rw [weakAfterDec_cell h b o _ _ _ _ _ ob hlen] at hfree
    rw [destroyed_cell h b o _ ob holen]
    rcases selfOrInert_cases b ob hwt with hu | ⟨q, hq⟩
    · have hstep := cell_DecStrongRef_inert n h b o BlockKind.pointer 1 w dl ob hlen holen hz hu
      simp only [CounterOp.apply, ↓reduceIte] at hstep
      refine ⟨_, _, hstep, cell_block h b o _ _ hlen, rfl, ?_⟩
      rw [destroyed_cell h b o _ _ holen]
      rfl
    · have hu : ob.weakUnits = 1 := by rw [hq]; rfl
      have hw := hfree hu
      rw [hq]
      have hstep := cell_DecStrongRef_self n h b o BlockKind.pointer 1 w dl q ob.destroyed
        hlen holen hz hw
      simp only [CounterOp.apply, ↓reduceIte] at hstep
      refine ⟨_, _, hstep, cell_block h b o _ _ hlen, rfl, ?_⟩
      rw [destroyed_cell h b o _ _ holen]
  · intro ops hfree
    obtain ⟨k, s, w, pp, dl⟩ := blk
    simp only at hk hp hfree ⊢
    subst hk hp
    rw [← cell_self h b o _ ob hb ho]
    rcases selfOrInert_cases b ob hwt with hu | ⟨q, hq⟩
    · obtain ⟨s1, w1, hrun⟩ := run_pointer_inert n h b o hlen holen ops s w true dl ob hu
      simp only [↓reduceIte, true_and] at hrun
      by_cases hz : zeroHits s ops = 0
      · simp only [hz, ↓reduceIte, ne_eq, not_true_eq_false] at hrun
        refine ⟨_, _, hrun, cell_block h b o _ _ hlen, by simp [hz], by simp [hz], ?_, ?_⟩
        · rw [destroyed_cell h b o _ _ holen]; simp [hz]
        · intro _
          refine ⟨_, cell_deleteBlock_inert (n + 1) h b o s1 w1 dl ob hlen holen hu, ?_, ?_, ?_⟩
          · rw [destroyed_cell h b o _ _ holen, destroyed_cell h b o _ _ holen]
            simp [hz, Object.afterDtor]
          · rw [destroyed_cell h b o _ _ holen]; rfl
          · rw [deleted_cell h b o _ _ hlen]
      · simp only [hz, ↓reduceIte, ne_eq, not_false_eq_true] at hrun
        refine ⟨_, _, hrun, cell_block h b o _ _ hlen, by simp [hz], by simp [hz], ?_, ?_⟩
        · rw [destroyed_cell h b o _ _ holen]; simp [hz, Object.afterDtor]
        · intro _
          refine ⟨_, cell_deleteBlock_null (n + 2) h b o s1 w1 dl _ hlen, ?_, ?_, ?_⟩
          · rw [destroyed_cell h b o _ _ holen, destroyed_cell h b o _ _ holen]
            simp [hz]
          · rw [destroyed_cell h b o _ _ holen]; rfl
          · rw [deleted_cell h b o _ _ hlen]
    · have hu : ob.weakUnits = 1 := by rw [hq]; rfl
      have hf := hfree hu
      rw [hq]
      obtain ⟨s1, w1, hrun⟩ :=
        run_pointer_self n h b o hlen holen q ob.destroyed ops s w dl hf
      by_cases hz : zeroHits s ops = 0
      · simp only [hz, ↓reduceIte] at hrun
        refine ⟨_, _, hrun, cell_block h b o _ _ hlen, by simp [hz], by simp [hz], ?_, ?_⟩
        · rw [destroyed_cell h b o _ _ holen]; simp [hz]
        · intro hdel
          have hne := hdel rfl hz
          rw [strong_cell h b o _ _ hlen, weakAfterDec_cell h b o _ _ _ _ _ _ hlen] at hne
          refine ⟨_, cell_deleteBlock_self (n + 1) h b o s1 w1 dl q ob.destroyed hlen holen hne,
            ?_, ?_, ?_⟩
          · rw [destroyed_cell h b o _ _ holen, destroyed_cell h b o _ _ holen]
            simp [hz]
          · rw [destroyed_cell h b o _ _ holen]
          · rw [deleted_cell h b o _ _ hlen]
      · simp only [hz, ↓reduceIte] at hrun
        refine ⟨_, _, hrun, cell_block h b o _ _ hlen, by simp [hz], by simp [hz], ?_, ?_⟩
        · rw [destroyed_cell h b o _ _ holen]; simp [hz]
        · intro _
          refine ⟨_, cell_deleteBlock_null (n + 2) h b o s1 w1 dl _ hlen, ?_, ?_, ?_⟩
          · rw [destroyed_cell h b o _ _ holen, destroyed_cell h b o _ _ holen]
            simp [hz]
          · rw [destroyed_cell h b o _ _ holen]
          · rw [deleted_cell h b o _ _ hlen]

/-- Witness for the amended C28: the block and object that `SharedPtr<T>(new T)` builds for a
self-referencing `T`, after the `IncWeakRef` of `SharedPtr::Dispose` (counts (1, 2)): the last
`DecStrongRef` destroys the object once and nulls the stored pointer. -/
theorem C28_pointer_block_destroys_once_witness :
    ∃ h1 blk1, DecStrongRef 1
        ⟨[⟨BlockKind.pointer, 1, 2, some 0, 0⟩], [⟨some ⟨some 0, some 0⟩, 0⟩]⟩ 0 = some h1 ∧
      h1.blocks[0]? = some blk1 ∧ blk1.ptr_ = none ∧
      destroyedCount h1 0 =
        destroyedCount ⟨[⟨BlockKind.pointer, 1, 2, some 0, 0⟩],
          [⟨some ⟨some 0, some 0⟩, 0⟩]⟩ 0 + 1 :=
  (C28_pointer_block_destroys_once 0
    ⟨[⟨BlockKind.pointer, 1, 2, some 0, 0⟩], [⟨some ⟨some 0, some 0⟩, 0⟩]⟩ 0 0
    ⟨BlockKind.pointer, 1, 2, some 0, 0⟩ ⟨some ⟨some 0, some 0⟩, 0⟩ rfl rfl rfl rfl
    (fun wt hwt => Or.inr (by cases hwt; rfl))).2.1 rfl (fun _ => by decide)

/-! ## Effect of the four counter calls (C20, amended) -/

theorem heap_setMember (h : MemberHeap) (o k : Nat) (m : Member) :
    (h.setMember o k m).heap = h.heap := rfl

theorem mdeleteBlockWith_inert (del : MemberHeap → Nat → Option MemberHeap) (h : MemberHeap)
    (b : Nat)
    (hin : ∀ blk, h.heap.blocks[b]? = some blk → blk.kind = BlockKind.holder ∨ blk.ptr_ = none) :
    Members.deleteBlockWith del h b =
      some ⟨h.heap.modifyBlock b (fun k => { k with deleted := k.deleted + 1 }), h.members⟩ := by
  unfold Members.deleteBlockWith
  cases hb : h.heap.blocks[b]? with
  | none => simp [Heap.modifyBlock, hb]
  | some blk =>
    rcases hin blk hb with hk | hp
    · simp [hk]
    · cases hk : blk.kind <;> simp [hp]

/-- C30, the code at the failing input: `struct O { SharedPtr<O> self; };`,
`O* raw = new O; SharedPtr<O> p(raw); p->self = p; p.Reset(); raw->self.Reset();`.
After `p.Reset()` the member `self` is the only owner of the object it is a member of: block 0
has counts (1, 0) (first equation).  `raw->self.Reset()` starts with `Dispose()`, which calls
`block_->IncWeakRef()` (second equation) and `block_->DecStrongRef()` (third equation).  That
call brings the strong count to 0 and deletes the object, whose destructor runs `~SharedPtr()`
on the member `self`, still holding block 0, in a state where the strong count of block 0 is 0
(fourth and fifth equation): its `Dispose()` calls `DecStrongRef` on a strong count of 0, which
the ghost check of the decrements reports (sixth equation), and the count wraps around.  When
the outer `DecStrongRef` returns, the strong count of block 0 is 2^64 - 1. -/
theorem C30_self_owner_reset_underflows :
    Members.World.run 2 Members.World.init
        [Members.Op.construct [Member.shared ⟨none, none⟩],
          Members.Op.memberCopyAssign 0 0 0,
          Members.Op.reset 0] =
      some ⟨⟨⟨[⟨BlockKind.pointer, 1, 0, some 0, 0⟩], [⟨none, 0⟩]⟩,
          [[Member.shared ⟨some 0, some 0⟩]]⟩, [some ⟨none, none⟩]⟩ ∧
    IncWeakRef ⟨[⟨BlockKind.pointer, 1, 0, some 0, 0⟩], [⟨none, 0⟩]⟩ 0 =
      ⟨[⟨BlockKind.pointer, 1, 1, some 0, 0⟩], [⟨none, 0⟩]⟩ ∧
    Members.DecStrongRef 2
        ⟨⟨[⟨BlockKind.pointer, 1, 1, some 0, 0⟩], [⟨none, 0⟩]⟩,
          [[Member.shared ⟨some 0, some 0⟩]]⟩ 0 =
      some ⟨⟨[⟨BlockKind.pointer, 18446744073709551615, 1, none, 0⟩], [⟨none, 1⟩]⟩,
        [[Member.shared ⟨none, none⟩]]⟩ ∧
    GetStrongRefCount ⟨[⟨BlockKind.pointer, 0, 1, some 0, 0⟩], [⟨none, 1⟩]⟩ 0 = 0 ∧
    Members.destroyMember (Members.deleteObject 1)
        ⟨⟨[⟨BlockKind.pointer, 0, 1, some 0, 0⟩], [⟨none, 1⟩]⟩,
          [[Member.shared ⟨some 0, some 0⟩]]⟩ 0 0 =
      some ⟨⟨[⟨BlockKind.pointer, 18446744073709551615, 1, some 0, 0⟩], [⟨none, 1⟩]⟩,
        [[Member.shared ⟨none, none⟩]]⟩ ∧
    SharedPtr.DisposeGuarded 1 ⟨[⟨BlockKind.pointer, 0, 1, some 0, 0⟩], [⟨none, 1⟩]⟩
      ⟨some 0, some 0⟩ = false ∧
    18446744073709551615 = SIZE_MOD - 1 := by
  decide

end SmartPointers
